import Mathlib

/-!
IsomTerrain: a shallow embedding of `IsomApi.h`

The isometric terrain engine of `src/IsomTerrain/IsomApi.h` (and the `newMap`
helper of `IsomTests.cpp`) is embedded as pure Lean functions.

Conventions of the embedding
* `size_t` is the 64-bit unsigned type: additions and subtractions on coordinates are
  reduced modulo `SIZE_MAX1 = 2 ^ 64 = 18446744073709551616`.  `uint16_t` stores are reduced modulo `65536`,
  `int` is the 32-bit signed type.
* `std::vector` / `Span` are lists.  The C++ code indexes them without a bounds check;
  a read past the end yields the zero element and a write past the end is dropped.
  Index products `y * width + x` are not reduced: inside the grid of a map whose
  dimensions are 16-bit they cannot wrap.
* The mutable pair (map, cache) is threaded explicitly as a `World`, which also carries a
  ghost `trace` of events (newest first).  The trace is written but never read by the code.
* Loops that need not terminate (the `uint16_t` row counter of `searchForBestMatch` can wrap,
  the FIFO of `radiallyUpdateTerrain`) take a fuel argument and return `none` when it runs out.
-/

namespace IsomTerrain

/-! ## Machine integers -/

/-- The modulus of `size_t` arithmetic, `2 ^ 64`. -/
def SIZE_MAX1 : Nat := 18446744073709551616

/-- The modulus of `uint16_t` arithmetic. -/
def U16 : Nat := 65536

/-- Addition of one on `size_t`. -/
def sizeInc (x : Nat) : Nat := (x + 1) % SIZE_MAX1

/-- Subtraction of one on `size_t` (wraps at zero). -/
def sizeDec (x : Nat) : Nat := (x + (SIZE_MAX1 - 1)) % SIZE_MAX1

/-- Conversion `int(size_t)`: the low 32 bits read as a two's complement number
(`4294967296 = 2 ^ 32`, `2147483648 = 2 ^ 31`). -/
def toInt32 (k : Nat) : Int :=
  if k % 4294967296 < 2147483648 then ((k % 4294967296 : Nat) : Int)
  else ((k % 4294967296 : Nat) : Int) - 4294967296

/-- Conversion of an integer to `size_t` (reduction modulo `2 ^ 64`). -/
def toSize (i : Int) : Nat := (i % (SIZE_MAX1 : Int)).toNat

/-! ## `Sc::BoundingBox` -/

structure BoundingBox where
  left : Nat := 0
  top : Nat := 0
  right : Nat := 0
  bottom : Nat := 0
  deriving DecidableEq, Repr, Inhabited

def BoundingBox.expandToInclude (b : BoundingBox) (x y : Nat) : BoundingBox :=
  { left := min b.left x
    right := max b.right x
    top := min b.top y
    bottom := max b.bottom y }

/-! ## `Sc::Isom` : sides, quadrants, edge flags, link rows -/

inductive Side where
  | Left | Top | Right | Bottom
  deriving DecidableEq, Repr, Inhabited

/-- `Sc::Isom::sides` -/
def sides : List Side := [Side.Left, Side.Top, Side.Right, Side.Bottom]

inductive Quadrant where
  | TopLeft | TopRight | BottomRight | BottomLeft
  deriving DecidableEq, Repr, Inhabited

/-- `Sc::Isom::quadrants` -/
def quadrants : List Quadrant :=
  [Quadrant.TopLeft, Quadrant.TopRight, Quadrant.BottomRight, Quadrant.BottomLeft]

/-- `IsomDiamond::Neighbor` -/
inductive Neighbor where
  | UpperLeft | UpperRight | LowerRight | LowerLeft
  deriving DecidableEq, Repr, Inhabited

/-- `IsomDiamond::neighbors` -/
def neighbors : List Neighbor :=
  [Neighbor.UpperLeft, Neighbor.UpperRight, Neighbor.LowerRight, Neighbor.LowerLeft]

/-- The cast `Sc::Isom::Quadrant(i)` of a neighbor index, as used by
`IsomNeighbors::operator[](size_t)`. -/
def Neighbor.toQuadrant : Neighbor → Quadrant
  | Neighbor.UpperLeft => Quadrant.TopLeft
  | Neighbor.UpperRight => Quadrant.TopRight
  | Neighbor.LowerRight => Quadrant.BottomRight
  | Neighbor.LowerLeft => Quadrant.BottomLeft

/-- `Sc::Isom::OppositeQuadrant` -/
def OppositeQuadrant : Quadrant → Quadrant
  | Quadrant.TopLeft => Quadrant.BottomRight
  | Quadrant.TopRight => Quadrant.BottomLeft
  | Quadrant.BottomRight => Quadrant.TopLeft
  | Quadrant.BottomLeft => Quadrant.TopRight

namespace EdgeFlags
def TopLeft_Right : Nat := 0x0
def TopLeft_Bottom : Nat := 0x2
def TopRight_Left : Nat := 0x4
def TopRight_Bottom : Nat := 0x6
def BottomRight_Left : Nat := 0x8
def BottomRight_Top : Nat := 0xA
def BottomLeft_Top : Nat := 0xC
def BottomLeft_Right : Nat := 0xE
def Mask : Nat := 0xE
end EdgeFlags

structure ProjectedQuadrant where
  firstSide : Side
  secondSide : Side
  firstEdgeFlags : Nat
  secondEdgeFlags : Nat
  deriving DecidableEq, Repr

/-- `ProjectedQuadrant::at` -/
def ProjectedQuadrant.atQuadrant : Quadrant → ProjectedQuadrant
  | Quadrant.TopLeft =>
      ⟨Side.Right, Side.Bottom, EdgeFlags.TopLeft_Right, EdgeFlags.TopLeft_Bottom⟩
  | Quadrant.TopRight =>
      ⟨Side.Left, Side.Bottom, EdgeFlags.TopRight_Left, EdgeFlags.TopRight_Bottom⟩
  | Quadrant.BottomRight =>
      ⟨Side.Left, Side.Top, EdgeFlags.BottomRight_Left, EdgeFlags.BottomRight_Top⟩
  | Quadrant.BottomLeft =>
      ⟨Side.Top, Side.Right, EdgeFlags.BottomLeft_Top, EdgeFlags.BottomLeft_Right⟩

structure TopLeftQuadrant where
  right : Nat := 0
  bottom : Nat := 0
  linkId : Nat := 0
  deriving DecidableEq, Repr, Inhabited

structure TopRightQuadrant where
  left : Nat := 0
  bottom : Nat := 0
  linkId : Nat := 0
  deriving DecidableEq, Repr, Inhabited

structure BottomRightQuadrant where
  left : Nat := 0
  top : Nat := 0
  linkId : Nat := 0
  deriving DecidableEq, Repr, Inhabited

structure BottomLeftQuadrant where
  top : Nat := 0
  right : Nat := 0
  linkId : Nat := 0
  deriving DecidableEq, Repr, Inhabited

/-- `Sc::Isom::ShapeLinks`: a row of the link table. -/
structure ShapeLinks where
  terrainType : Nat := 0
  topLeft : TopLeftQuadrant := {}
  topRight : TopRightQuadrant := {}
  bottomRight : BottomRightQuadrant := {}
  bottomLeft : BottomLeftQuadrant := {}
  deriving DecidableEq, Repr, Inhabited

def ShapeLinks.getLinkId (s : ShapeLinks) : Quadrant → Nat
  | Quadrant.TopLeft => s.topLeft.linkId
  | Quadrant.TopRight => s.topRight.linkId
  | Quadrant.BottomRight => s.bottomRight.linkId
  | Quadrant.BottomLeft => s.bottomLeft.linkId

def ShapeLinks.getEdgeLink (s : ShapeLinks) (isomValue : Nat) : Nat :=
  let f := isomValue &&& EdgeFlags.Mask
  if f = EdgeFlags.TopLeft_Right then s.topLeft.right
  else if f = EdgeFlags.TopLeft_Bottom then s.topLeft.bottom
  else if f = EdgeFlags.TopRight_Left then s.topRight.left
  else if f = EdgeFlags.TopRight_Bottom then s.topRight.bottom
  else if f = EdgeFlags.BottomRight_Left then s.bottomRight.left
  else if f = EdgeFlags.BottomRight_Top then s.bottomRight.top
  else if f = EdgeFlags.BottomLeft_Top then s.bottomLeft.top
  else s.bottomLeft.right

/-- `Sc::Isom::Link::SoftLinks` -/
def Link.SoftLinks : Nat := 48

/-- `Sc::Isom::LinkId::OnlyMatchSameType` -/
def LinkId.OnlyMatchSameType : Nat := 255

/-- The `stackConnections` rectangle of a tile group. -/
structure StackConnections where
  left : Nat := 0
  top : Nat := 0
  right : Nat := 0
  bottom : Nat := 0
  deriving DecidableEq, Repr, Inhabited

/-- `Sc::Isom::DirectionalLinks` -/
structure DirectionalLinks where
  left : Nat := 0
  top : Nat := 0
  right : Nat := 0
  bottom : Nat := 0
  deriving DecidableEq, Repr, Inhabited

/-- `Sc::Isom::TileGroup`; `megaTileIndex` has sixteen entries. -/
structure TileGroup where
  terrainType : Nat := 0
  buildability : Nat := 0
  groundHeight : Nat := 0
  links : DirectionalLinks := {}
  stackConnections : StackConnections := {}
  megaTileIndex : List Nat := []
  deriving DecidableEq, Repr, Inhabited

/-- `Sc::Isom::TerrainTypeInfo` (the name is not needed). -/
structure TerrainTypeInfo where
  index : Nat := 0
  isomValue : Nat := 0
  brushSortOrder : Int := -1
  linkId : Nat := 0
  deriving DecidableEq, Repr, Inhabited

/-! ## `Chk::IsomRect` -/

namespace EditorFlag
def Modified : Nat := 0x0001
def Visited : Nat := 0x8000
def xModified : Nat := 0xFFFE
def xVisited : Nat := 0x7FFF
def ClearAll : Nat := 0x7FFE
end EditorFlag

/-- `IsomRect::Point`; an `IsomDiamond` has the same two fields and converts to it. -/
structure Point where
  x : Nat
  y : Nat
  deriving DecidableEq, Repr, Inhabited

abbrev IsomDiamond := Point

def IsomDiamond.getNeighbor (d : IsomDiamond) : Neighbor → IsomDiamond
  | Neighbor.UpperLeft => ⟨sizeDec d.x, sizeDec d.y⟩
  | Neighbor.UpperRight => ⟨sizeInc d.x, sizeDec d.y⟩
  | Neighbor.LowerRight => ⟨sizeInc d.x, sizeInc d.y⟩
  | Neighbor.LowerLeft => ⟨sizeDec d.x, sizeInc d.y⟩

def IsomDiamond.getRectangleCoords (d : IsomDiamond) : Quadrant → Point
  | Quadrant.TopLeft => ⟨sizeDec d.x, sizeDec d.y⟩
  | Quadrant.TopRight => ⟨d.x, sizeDec d.y⟩
  | Quadrant.BottomRight => ⟨d.x, d.y⟩
  | Quadrant.BottomLeft => ⟨sizeDec d.x, d.y⟩

def IsomDiamond.isValid (d : IsomDiamond) : Bool := ((d.x + d.y) % SIZE_MAX1) % 2 == 0

structure IsomRect where
  left : Nat := 0
  top : Nat := 0
  right : Nat := 0
  bottom : Nat := 0
  deriving DecidableEq, Repr, Inhabited

namespace IsomRect

/-- The field selected by `IsomRect::side`. -/
def side (r : IsomRect) : Side → Nat
  | Side.Left => r.left
  | Side.Top => r.top
  | Side.Right => r.right
  | Side.Bottom => r.bottom

def getIsomValue (r : IsomRect) (s : Side) : Nat := r.side s &&& EditorFlag.ClearAll

/-- `IsomRect::setIsomValue`: the argument is a `uint16_t`. -/
def setIsomValue (r : IsomRect) (s : Side) (value : Nat) : IsomRect :=
  match s with
  | Side.Left => { r with left := value % U16 }
  | Side.Top => { r with top := value % U16 }
  | Side.Right => { r with right := value % U16 }
  | Side.Bottom => { r with bottom := value % U16 }

def set (r : IsomRect) (quadrant : ProjectedQuadrant) (value : Nat) : IsomRect :=
  (r.setIsomValue quadrant.firstSide ((value <<< 4) ||| quadrant.firstEdgeFlags)).setIsomValue
    quadrant.secondSide ((value <<< 4) ||| quadrant.secondEdgeFlags)

def isLeftModified (r : IsomRect) : Bool := r.left &&& EditorFlag.Modified != 0

def isLeftOrRightModified (r : IsomRect) : Bool :=
  (r.left ||| r.right) &&& EditorFlag.Modified == EditorFlag.Modified

/-- The compound assignment `side(s) |= flag`. -/
def orSide (r : IsomRect) (s : Side) (flag : Nat) : IsomRect :=
  match s with
  | Side.Left => { r with left := r.left ||| flag }
  | Side.Top => { r with top := r.top ||| flag }
  | Side.Right => { r with right := r.right ||| flag }
  | Side.Bottom => { r with bottom := r.bottom ||| flag }

def setModified (r : IsomRect) (quadrant : ProjectedQuadrant) : IsomRect :=
  (r.orSide quadrant.firstSide EditorFlag.Modified).orSide quadrant.secondSide EditorFlag.Modified

def isVisited (r : IsomRect) : Bool := r.right &&& EditorFlag.Visited == EditorFlag.Visited

def setVisited (r : IsomRect) : IsomRect := { r with right := r.right ||| EditorFlag.Visited }

def clearEditorFlags (r : IsomRect) : IsomRect :=
  { left := r.left &&& EditorFlag.ClearAll
    top := r.top &&& EditorFlag.ClearAll
    right := r.right &&& EditorFlag.ClearAll
    bottom := r.bottom &&& EditorFlag.ClearAll }

def clear (_r : IsomRect) : IsomRect := { left := 0, top := 0, right := 0, bottom := 0 }

/-- One round of the loop of `IsomRect::getHash`; the state is `(hash, lastTerrainType)` and
`hash` is a `uint32_t` (reduced modulo `4294967296 = 2 ^ 32`). -/
def hashStep (r : IsomRect) (isomLinks : List ShapeLinks) (acc : Nat × Nat) (s : Side) :
    Nat × Nat :=
  let isomValue := r.getIsomValue s
  let shapeLinks := isomLinks.getD (isomValue >>> 4) default
  let edgeLink := shapeLinks.getEdgeLink isomValue
  let hash := ((acc.1 ||| edgeLink) <<< 6) % 4294967296
  if shapeLinks.terrainType ≠ 0 ∧ edgeLink > Link.SoftLinks then (hash, shapeLinks.terrainType)
  else (hash, acc.2)

def getHash (r : IsomRect) (isomLinks : List ShapeLinks) : Nat :=
  let acc := sides.foldl (hashStep r isomLinks) (0, 0)
  acc.1 ||| acc.2

end IsomRect

/-- `Chk::IsomRectUndo` -/
structure IsomRectUndo where
  diamond : IsomDiamond
  oldValue : IsomRect
  newValue : IsomRect
  deriving DecidableEq, Repr, Inhabited

def IsomRectUndo.setOldValue (u : IsomRectUndo) (oldValue : IsomRect) : IsomRectUndo :=
  { u with oldValue := oldValue.clearEditorFlags }

def IsomRectUndo.setNewValue (u : IsomRectUndo) (newValue : IsomRect) : IsomRectUndo :=
  { u with newValue := newValue.clearEditorFlags }

/-- The constructor `IsomRectUndo(diamond, oldValue, newValue)`. -/
def IsomRectUndo.new (diamond : IsomDiamond) (oldValue newValue : IsomRect) : IsomRectUndo :=
  { diamond := diamond
    oldValue := oldValue.clearEditorFlags
    newValue := newValue.clearEditorFlags }

/-! ## `Chk::IsomCache` and `ScMap` -/

/-- `Chk::IsomCache`; the tileset id plays no role in the algorithms. `hashToTileGroup` is the
hash index as a list of buckets. -/
structure IsomCache where
  isomWidth : Nat
  isomHeight : Nat
  changedArea : BoundingBox := {}
  undoMap : List (Option IsomRectUndo) := []
  tileGroups : List TileGroup := []
  isomLinks : List ShapeLinks := []
  terrainTypes : List TerrainTypeInfo := []
  terrainTypeMap : List Nat := []
  hashToTileGroup : List (Nat × List Nat) := []
  deriving Repr, Inhabited

namespace IsomCache

def resetChangedArea (c : IsomCache) : IsomCache :=
  { c with changedArea := { left := c.isomWidth, right := 0, top := c.isomHeight, bottom := 0 } }

def setAllChanged (c : IsomCache) : IsomCache :=
  { c with changedArea :=
      { left := 0, right := (c.isomWidth + (SIZE_MAX1 - 1)) % SIZE_MAX1
        top := 0, bottom := (c.isomHeight + (SIZE_MAX1 - 1)) % SIZE_MAX1 } }

def getTerrainTypeIsomValue (c : IsomCache) (terrainType : Nat) : Nat :=
  if terrainType < c.terrainTypes.length then (c.terrainTypes.getD terrainType default).isomValue
  else 0

def finalizeUndoableOperation (c : IsomCache) : IsomCache :=
  { c with undoMap := List.replicate (c.isomWidth * c.isomHeight) none }

/-- The constructor of `IsomCache` from the tile dimensions and the tileset tables. -/
def new (tileWidth tileHeight : Nat) (tileGroups : List TileGroup) (isomLinks : List ShapeLinks)
    (terrainTypes : List TerrainTypeInfo) (terrainTypeMap : List Nat)
    (hashToTileGroup : List (Nat × List Nat)) : IsomCache :=
  resetChangedArea
    { isomWidth := tileWidth / 2 + 1
      isomHeight := tileHeight + 1
      undoMap := List.replicate ((tileWidth / 2 + 1) * (tileHeight + 1)) none
      tileGroups := tileGroups
      isomLinks := isomLinks
      terrainTypes := terrainTypes
      terrainTypeMap := terrainTypeMap
      hashToTileGroup := hashToTileGroup }

end IsomCache

structure ScMap where
  tileWidth : Nat
  tileHeight : Nat
  tiles : List Nat := []
  editorTiles : List Nat := []
  isomRects : List IsomRect := []
  deriving DecidableEq, Repr, Inhabited

/-- An observable event of a run; the list of events is ghost state. -/
inductive Event where
  /-- `radiallyUpdateTerrain` marked the rectangle of the diamond `Visited` and ran the
  best-match step on it. -/
  | visited (d : IsomDiamond)
  /-- `setDiamondIsomValues(d, isomValue, ..)` was called. -/
  | setDiamond (d : IsomDiamond) (isomValue : Nat)
  /-- The undo sink `IsomCache::addIsomUndo` was called. -/
  | undoSink (u : IsomRectUndo)
  deriving DecidableEq, Repr

/-- The mutable state of a run: the map, the cache, the ghost trace (newest event first) and the
state of `std::rand` (an infinite sequence of draws and the number of draws made). -/
structure World where
  map : ScMap
  cache : IsomCache
  trace : List Event := []
  rand : Nat → Nat := fun _ => 0
  randPos : Nat := 0

namespace ScMap

def getIsomWidth (m : ScMap) : Nat := m.tileWidth / 2 + 1
def getIsomHeight (m : ScMap) : Nat := m.tileHeight + 1

/-- The index `point.y*getIsomWidth() + point.x` into `isomRects`. -/
def rectIndex (m : ScMap) (point : Point) : Nat := point.y * m.getIsomWidth + point.x

def getIsomRect (m : ScMap) (point : Point) : IsomRect :=
  m.isomRects.getD (m.rectIndex point) default

/-- Assignment through the reference returned by `isomRectAt`. -/
def setIsomRect (m : ScMap) (point : Point) (r : IsomRect) : ScMap :=
  { m with isomRects := m.isomRects.set (m.rectIndex point) r }

def getCentralIsomValue (m : ScMap) (point : Point) : Nat := (m.getIsomRect point).left >>> 4

def centralIsomValueModified (m : ScMap) (point : Point) : Bool :=
  (m.getIsomRect point).isLeftModified

def isInBounds (m : ScMap) (point : Point) : Bool :=
  point.x < m.getIsomWidth && point.y < m.getIsomHeight

def diamondNeedsUpdate (m : ScMap) (isomDiamond : IsomDiamond) : Bool :=
  m.isInBounds isomDiamond && !m.centralIsomValueModified isomDiamond &&
    m.getCentralIsomValue isomDiamond != 0

def getTileValue (m : ScMap) (tileX tileY : Nat) : Nat :=
  m.editorTiles.getD (tileY * m.tileWidth + tileX) 0

/-- `setTileValue`: the argument is a `uint16_t`. -/
def setTileValue (m : ScMap) (tileX tileY tileValue : Nat) : ScMap :=
  { m with
    editorTiles := m.editorTiles.set (tileY * m.tileWidth + tileX) (tileValue % U16)
    tiles := m.tiles.set (tileY * m.tileWidth + tileX) (tileValue % U16) }

end ScMap

namespace World

/-- `ScMap::addIsomUndo` -/
def addIsomUndo (point : Point) (w : World) : World :=
  let idx := point.y * w.cache.isomWidth + point.x
  match w.cache.undoMap.getD idx none with
  | some _ => w
  | none =>
    let isomRectUndo := IsomRectUndo.new point (w.map.getIsomRect point) {}
    { w with
      cache := { w.cache with undoMap := w.cache.undoMap.set idx (some isomRectUndo) }
      trace := Event.undoSink isomRectUndo :: w.trace }

/-- `ScMap::setIsomValue` -/
def setIsomValue (isomDiamond : Point) (shapeQuadrant : Quadrant) (isomValue : Nat)
    (undoable : Bool) (w : World) : World :=
  if w.map.isInBounds isomDiamond then
    let isomRectIndex := isomDiamond.y * w.cache.isomWidth + isomDiamond.x
    let useUndo := undoable && decide (isomRectIndex < w.cache.undoMap.length)
    let w1 := if useUndo then addIsomUndo isomDiamond w else w
    let rect := ((w1.map.getIsomRect isomDiamond).set
      (ProjectedQuadrant.atQuadrant shapeQuadrant) isomValue).setModified
      (ProjectedQuadrant.atQuadrant shapeQuadrant)
    let map2 := w1.map.setIsomRect isomDiamond rect
    let area := w1.cache.changedArea.expandToInclude isomDiamond.x isomDiamond.y
    let undoMap2 :=
      if useUndo then
        match w1.cache.undoMap.getD isomRectIndex none with
        | some isomUndo => w1.cache.undoMap.set isomRectIndex (some (isomUndo.setNewValue rect))
        | none => w1.cache.undoMap
      else w1.cache.undoMap
    { w1 with map := map2, cache := { w1.cache with changedArea := area, undoMap := undoMap2 } }
  else w

/-- `ScMap::setDiamondIsomValues` -/
def setDiamondIsomValues (isomDiamond : IsomDiamond) (isomValue : Nat) (undoable : Bool)
    (w : World) : World :=
  let w0 := { w with trace := Event.setDiamond isomDiamond isomValue :: w.trace }
  let w1 := setIsomValue (isomDiamond.getRectangleCoords Quadrant.TopLeft) Quadrant.TopLeft
    isomValue undoable w0
  let w2 := setIsomValue (isomDiamond.getRectangleCoords Quadrant.TopRight) Quadrant.TopRight
    isomValue undoable w1
  let w3 := setIsomValue (isomDiamond.getRectangleCoords Quadrant.BottomRight)
    Quadrant.BottomRight isomValue undoable w2
  setIsomValue (isomDiamond.getRectangleCoords Quadrant.BottomLeft) Quadrant.BottomLeft
    isomValue undoable w3

end World

/-! ## Best-match search -/

/-- `IsomNeighbors::BestMatch` -/
structure BestMatch where
  isomValue : Nat := 0
  matchCount : Nat := 0
  deriving DecidableEq, Repr, Inhabited

/-- `IsomNeighbors::NeighborQuadrant` -/
structure NeighborQuadrant where
  linkId : Nat := 0
  isomValue : Nat := 0
  modified : Bool := false
  deriving DecidableEq, Repr, Inhabited

structure IsomNeighbors where
  upperLeft : NeighborQuadrant := {}
  upperRight : NeighborQuadrant := {}
  lowerRight : NeighborQuadrant := {}
  lowerLeft : NeighborQuadrant := {}
  maxModifiedOfFour : Nat := 0
  bestMatch : BestMatch := {}
  deriving DecidableEq, Repr, Inhabited

namespace IsomNeighbors

/-- `IsomNeighbors::operator[]` (read). -/
def get (n : IsomNeighbors) : Quadrant → NeighborQuadrant
  | Quadrant.TopLeft => n.upperLeft
  | Quadrant.TopRight => n.upperRight
  | Quadrant.BottomRight => n.lowerRight
  | Quadrant.BottomLeft => n.lowerLeft

/-- `IsomNeighbors::operator[]` (assignment through the reference). -/
def put (n : IsomNeighbors) (q : Quadrant) (v : NeighborQuadrant) : IsomNeighbors :=
  match q with
  | Quadrant.TopLeft => { n with upperLeft := v }
  | Quadrant.TopRight => { n with upperRight := v }
  | Quadrant.BottomRight => { n with lowerRight := v }
  | Quadrant.BottomLeft => { n with lowerLeft := v }

end IsomNeighbors

namespace ScMap

/-- The body of the loop of `loadNeighborInfo` for the neighbor `i`. -/
def loadNeighborStep (m : ScMap) (isomDiamond : IsomDiamond) (isomLinks : List ShapeLinks)
    (nb : IsomNeighbors) (i : Neighbor) : IsomNeighbors :=
  let neighbor := isomDiamond.getNeighbor i
  if m.isInBounds neighbor then
    let isomValue := m.getCentralIsomValue neighbor
    let modified := m.centralIsomValueModified neighbor
    let nb1 := nb.put i.toQuadrant
      { nb.get i.toQuadrant with modified := modified, isomValue := isomValue }
    if isomValue < isomLinks.length then
      let row := isomLinks.getD isomValue default
      let nb2 := nb1.put i.toQuadrant
        { nb1.get i.toQuadrant with linkId := row.getLinkId (OppositeQuadrant i.toQuadrant) }
      if modified && decide (row.terrainType > nb2.maxModifiedOfFour) then
        { nb2 with maxModifiedOfFour := row.terrainType }
      else nb2
    else nb1
  else nb

def loadNeighborInfo (m : ScMap) (isomDiamond : IsomDiamond) (nb : IsomNeighbors)
    (isomLinks : List ShapeLinks) : IsomNeighbors :=
  neighbors.foldl (m.loadNeighborStep isomDiamond isomLinks) nb

/-- The loop of `countNeighborMatches` over the remaining quadrants, with the running total. -/
def countNeighborMatchesFrom (shapeLinks : ShapeLinks) (nb : IsomNeighbors)
    (isomLinks : List ShapeLinks) : List Quadrant → Nat → Nat
  | [], totalMatches => totalMatches
  | quadrant :: rest, totalMatches =>
    let neighborShape := isomLinks.getD (nb.get quadrant).isomValue default
    let neighborTerrainType := neighborShape.terrainType
    let neighborLinkId := (nb.get quadrant).linkId
    let quadrantLinkId := shapeLinks.getLinkId quadrant
    if neighborLinkId = quadrantLinkId ∧
        (quadrantLinkId < LinkId.OnlyMatchSameType ∨ shapeLinks.terrainType = neighborTerrainType)
    then countNeighborMatchesFrom shapeLinks nb isomLinks rest (totalMatches + 1)
    else if (nb.get quadrant).modified then 0
    else countNeighborMatchesFrom shapeLinks nb isomLinks rest totalMatches

def countNeighborMatches (shapeLinks : ShapeLinks) (nb : IsomNeighbors)
    (isomLinks : List ShapeLinks) : Nat :=
  countNeighborMatchesFrom shapeLinks nb isomLinks quadrants 0

/-- The loop of `searchForBestMatch` from the row `isomValue`, a `uint16_t` counter that wraps
at `65536`; `none` when the fuel runs out. -/
def searchLoop (startingTerrainType : Nat) (searchUntilHigherTerrainType searchUntilEnd : Bool)
    (c : IsomCache) : Nat → Nat → IsomNeighbors → Option IsomNeighbors
  | 0, _, _ => none
  | fuel + 1, isomValue, nb =>
    if isomValue < c.isomLinks.length then
      let terrainType := (c.isomLinks.getD isomValue default).terrainType
      if !searchUntilEnd && terrainType != startingTerrainType &&
          (!searchUntilHigherTerrainType || decide (terrainType > startingTerrainType)) then
        some nb
      else
        let matchCount := countNeighborMatches (c.isomLinks.getD isomValue default) nb c.isomLinks
        let nb1 :=
          if matchCount > nb.bestMatch.matchCount then
            { nb with bestMatch := { isomValue := isomValue, matchCount := matchCount } }
          else nb
        searchLoop startingTerrainType searchUntilHigherTerrainType searchUntilEnd c fuel
          ((isomValue + 1) % U16) nb1
    else some nb

/-- `searchForBestMatch`; `startingTerrainType` is a `uint16_t`. -/
def searchForBestMatch (fuel : Nat) (startingTerrainType : Nat) (nb : IsomNeighbors)
    (c : IsomCache) : Option IsomNeighbors :=
  let searchUntilHigherTerrainType := startingTerrainType == c.terrainTypes.length / 2 + 1
  let searchUntilEnd := startingTerrainType == 0
  searchLoop startingTerrainType searchUntilHigherTerrainType searchUntilEnd c fuel
    (c.getTerrainTypeIsomValue startingTerrainType) nb

/-- `findBestMatchIsomValue`: the outer `Option` is the fuel, the inner one the
`std::optional` result. -/
def findBestMatchIsomValue (fuel : Nat) (m : ScMap) (isomDiamond : IsomDiamond)
    (c : IsomCache) : Option (Option Nat) :=
  let nb0 := m.loadNeighborInfo isomDiamond {} c.isomLinks
  let prevIsomValue := m.getCentralIsomValue isomDiamond
  let pass1 :=
    if prevIsomValue < c.isomLinks.length then
      let prevTerrainType := (c.isomLinks.getD prevIsomValue default).terrainType
      let mappedTerrainType :=
        c.terrainTypeMap.getD (nb0.maxModifiedOfFour * c.terrainTypes.length + prevTerrainType) 0
      searchForBestMatch fuel mappedTerrainType nb0 c
    else some nb0
  match pass1 with
  | none => none
  | some nb1 =>
    match searchForBestMatch fuel nb1.maxModifiedOfFour nb1 c with
    | none => none
    | some nb2 =>
      match searchForBestMatch fuel ((c.terrainTypes.length / 2 + 1) % U16) nb2 c with
      | none => none
      | some nb3 =>
        if nb3.bestMatch.isomValue = prevIsomValue then some none
        else some (some nb3.bestMatch.isomValue)

end ScMap

namespace World

/-- The inner loop of `radiallyUpdateTerrain` and of `placeIsomTerrain` that pushes the
neighbors of a diamond that need an update to the back of the queue. -/
def pushNeighbors (m : ScMap) (isomDiamond : IsomDiamond) (queue : List IsomDiamond) :
    List IsomDiamond :=
  neighbors.foldl
    (fun q i =>
      if m.diamondNeedsUpdate (isomDiamond.getNeighbor i)
      then q ++ [isomDiamond.getNeighbor i] else q)
    queue

/-- The first two statements of the body of `radiallyUpdateTerrain` for a diamond that is
processed: `isomRectAt(isomDiamond).setVisited()` and the extension of `changedArea`. -/
def markVisited (isomDiamond : IsomDiamond) (w : World) : World :=
  { w with
    map := w.map.setIsomRect isomDiamond (w.map.getIsomRect isomDiamond).setVisited
    cache :=
      { w.cache with
        changedArea := w.cache.changedArea.expandToInclude isomDiamond.x isomDiamond.y }
    trace := Event.visited isomDiamond :: w.trace }

/-- `ScMap::radiallyUpdateTerrain`: the `while` loop over the FIFO `diamondsToUpdate`. -/
def radiallyUpdateTerrain (undoable : Bool) : Nat → List IsomDiamond → World → Option World
  | _, [], w => some w
  | 0, _ :: _, _ => none
  | fuel + 1, isomDiamond :: rest, w =>
    if w.map.diamondNeedsUpdate isomDiamond && !(w.map.getIsomRect isomDiamond).isVisited then
      match (markVisited isomDiamond w).map.findBestMatchIsomValue fuel isomDiamond
          (markVisited isomDiamond w).cache with
      | none => none
      | some none => radiallyUpdateTerrain undoable fuel rest (markVisited isomDiamond w)
      | some (some bestMatch) =>
        if bestMatch ≠ 0 then
          radiallyUpdateTerrain undoable fuel
            (pushNeighbors
              (setDiamondIsomValues isomDiamond bestMatch undoable (markVisited isomDiamond w)).map
              isomDiamond rest)
            (setDiamondIsomValues isomDiamond bestMatch undoable (markVisited isomDiamond w))
        else
          radiallyUpdateTerrain undoable fuel
            (pushNeighbors (markVisited isomDiamond w).map isomDiamond rest)
            (markVisited isomDiamond w)
    else radiallyUpdateTerrain undoable fuel rest w

/-- The integers `lo, lo+1, .., hi-1` visited by `for ( int i=lo; i<hi; ++i )`. -/
def intRange (lo hi : Int) : List Int :=
  (List.range (hi - lo).toNat).map (fun (i : Nat) => lo + (i : Int))

/-- `brushMin` of `placeIsomTerrain`, after the adjustment for an even extent. -/
def brushMin (brushExtent : Nat) : Int :=
  if brushExtent % 2 = 0 then Int.tdiv (toInt32 brushExtent) (-2) + 1
  else Int.tdiv (toInt32 brushExtent) (-2)

/-- `brushMax` of `placeIsomTerrain`, after the adjustment for an even extent. -/
def brushMax (brushExtent : Nat) : Int :=
  if brushExtent % 2 = 0 then Int.tdiv (toInt32 brushExtent) (-2) + toInt32 brushExtent + 1
  else Int.tdiv (toInt32 brushExtent) (-2) + toInt32 brushExtent

/-- The body of the two nested brush loops of `placeIsomTerrain`, on the pair
(world, `diamondsToUpdate`). -/
def placeBrushCell (isomDiamond : IsomDiamond) (isomValue : Nat) (bMin bMax : Int)
    (brushOffsetX brushOffsetY : Int) (st : World × List IsomDiamond) :
    World × List IsomDiamond :=
  let brushX := toSize ((isomDiamond.x : Int) + brushOffsetX - brushOffsetY)
  let brushY := toSize ((isomDiamond.y : Int) + brushOffsetX + brushOffsetY)
  if st.1.map.isInBounds ⟨brushX, brushY⟩ then
    let w1 := setDiamondIsomValues ⟨brushX, brushY⟩ isomValue true st.1
    if brushOffsetX = bMin ∨ brushOffsetX = bMax - 1 ∨ brushOffsetY = bMin ∨
        brushOffsetY = bMax - 1 then
      (w1, pushNeighbors w1.map ⟨brushX, brushY⟩ st.2)
    else (w1, st.2)
  else st

/-- The two nested brush loops of `placeIsomTerrain`. -/
def placeBrush (isomDiamond : IsomDiamond) (isomValue : Nat) (bMin bMax : Int)
    (st : World × List IsomDiamond) : World × List IsomDiamond :=
  (intRange bMin bMax).foldl
    (fun st1 brushOffsetX =>
      (intRange bMin bMax).foldl
        (fun st2 brushOffsetY =>
          placeBrushCell isomDiamond isomValue bMin bMax brushOffsetX brushOffsetY st2)
        st1)
    st

/-- `ScMap::placeIsomTerrain`; `none` when the fuel of the radial update runs out. -/
def placeIsomTerrain (fuel : Nat) (isomDiamond : IsomDiamond) (terrainType brushExtent : Nat)
    (w : World) : Option (Bool × World) :=
  let isomValue := w.cache.getTerrainTypeIsomValue terrainType
  if isomValue = 0 ∨ !isomDiamond.isValid ∨ isomValue ≥ w.cache.isomLinks.length ∨
      (w.cache.isomLinks.getD isomValue default).terrainType = 0 then
    some (false, w)
  else
    let w1 := { w with cache := w.cache.resetChangedArea }
    let st := placeBrush isomDiamond isomValue (brushMin brushExtent) (brushMax brushExtent)
      (w1, [])
    match radiallyUpdateTerrain true fuel st.2 st.1 with
    | none => none
    | some w2 => some (true, w2)

/-! ### Tile projection -/

/-- `RAND_MAX` of the C library the sources are built with (`0x7fff`). -/
def RAND_MAX : Nat := 32767

/-- One call of `std::rand()`: the next draw of the sequence. -/
def nextRand (w : World) : Nat × World := (w.rand w.randPos, { w with randPos := w.randPos + 1 })

/-- The first counting loop of `getRandomSubtile`: the length of the leading run of non-zero
entries of `megaTileIndex`, at most 16. -/
def countCommon (megaTileIndex : List Nat) : Nat → Nat → Nat
  | 0, totalCommon => totalCommon
  | fuel + 1, totalCommon =>
    if totalCommon < 16 ∧ megaTileIndex.getD totalCommon 0 ≠ 0 then
      countCommon megaTileIndex fuel (totalCommon + 1)
    else totalCommon

/-- The second counting loop of `getRandomSubtile`. -/
def countRare (megaTileIndex : List Nat) (totalCommon : Nat) : Nat → Nat → Nat
  | 0, totalRare => totalRare
  | fuel + 1, totalRare =>
    if totalCommon + totalRare + 1 < 16 ∧
        megaTileIndex.getD (totalCommon + totalRare + 1) 0 ≠ 0 then
      countRare megaTileIndex totalCommon fuel (totalRare + 1)
    else totalRare

/-- `IsomCache::getRandomSubtile`; the result is a `uint16_t`. -/
def getRandomSubtile (tileGroup : Nat) (w : World) : Nat × World :=
  if tileGroup < w.cache.tileGroups.length then
    let mega := (w.cache.tileGroups.getD tileGroup default).megaTileIndex
    let totalCommon := countCommon mega 16 0
    let totalRare := countRare mega totalCommon 16 0
    if totalRare ≠ 0 then
      let r1 := nextRand w
      if r1.1 ≤ RAND_MAX / 20 then
        let r2 := nextRand r1.2
        ((16 * tileGroup + (totalCommon + 1 + r2.1 % totalRare) % U16) % U16, r2.2)
      else if totalCommon ≠ 0 then
        let r2 := nextRand r1.2
        ((16 * tileGroup + (r2.1 % totalCommon) % U16) % U16, r2.2)
      else ((16 * tileGroup) % U16, r1.2)
    else if totalCommon ≠ 0 then
      let r2 := nextRand w
      ((16 * tileGroup + (r2.1 % totalCommon) % U16) % U16, r2.2)
    else ((16 * tileGroup) % U16, w)
  else ((16 * tileGroup) % U16, w)

/-- Modelled from the spec: `Sc::Terrain::getTileGroup` is declared outside the sources given
(in `Sc.h`); by the tile value format a tile value decomposes as `group_index = value / 16`,
which is also the body of `Sc::Terrain_::getTileGroup` in `IsomApi.h`. -/
def getTileGroup (tileValue : Nat) : Nat := tileValue / 16

/-- The upward loop of `updateTileFromIsom` that finds the top row of the tile-group stack;
returns `stackTopY`. -/
def findStackTop (m : ScMap) (c : IsomCache) (leftTileX : Nat) : Nat → Nat → Nat → Nat
  | 0, stackTopY, _ => stackTopY
  | fuel + 1, stackTopY, curr =>
    if stackTopY > 0 ∧ curr < c.tileGroups.length ∧
        (c.tileGroups.getD curr default).stackConnections.top ≠ 0 then
      let above := getTileGroup (m.getTileValue leftTileX (stackTopY - 1))
      if above ≥ c.tileGroups.length ∨
          (c.tileGroups.getD curr default).stackConnections.top ≠
            (c.tileGroups.getD above default).stackConnections.bottom then
        stackTopY
      else findStackTop m c leftTileX fuel (stackTopY - 1) above
    else stackTopY

/-- The first entry of `potentialGroups` whose group has the stack-top connection `connection`. -/
def findStackMatch (c : IsomCache) (potentialGroups : List Nat) (connection : Nat) : Option Nat :=
  potentialGroups.find? (fun g => (c.tileGroups.getD g default).stackConnections.top == connection)

/-- The downward loop of `updateTileFromIsom` over the rows `y, y+1, ..` below the stack top. -/
def fillStack (c : IsomCache) (isomDiamond : IsomDiamond) (leftTileX rightTileX destSubTile : Nat) :
    Nat → Nat → ScMap → ScMap
  | 0, _, m => m
  | fuel + 1, y, m =>
    if y < m.tileHeight then
      let tileGroup := getTileGroup (m.getTileValue leftTileX (y - 1))
      let nextTileGroup := getTileGroup (m.getTileValue leftTileX y)
      if tileGroup ≥ c.tileGroups.length ∨ nextTileGroup ≥ c.tileGroups.length ∨
          (c.tileGroups.getD tileGroup default).stackConnections.bottom = 0 ∨
          (c.tileGroups.getD nextTileGroup default).stackConnections.top = 0 then
        m
      else
        let bottomConnection := (c.tileGroups.getD tileGroup default).stackConnections.bottom
        let leftTileGroup := getTileGroup (m.getTileValue leftTileX y)
        let rightTileGroup := getTileGroup (m.getTileValue rightTileX y)
        let groups : Nat × Nat :=
          if bottomConnection ≠ (c.tileGroups.getD nextTileGroup default).stackConnections.top then
            let isomRectHash := (m.getIsomRect ⟨isomDiamond.x, y⟩).getHash c.isomLinks
            match c.hashToTileGroup.lookup isomRectHash with
            | some potentialGroups =>
              match findStackMatch c potentialGroups bottomConnection with
              | some g => (g, (g + 1) % U16)
              | none => (leftTileGroup, rightTileGroup)
            | none => (leftTileGroup, rightTileGroup)
          else (leftTileGroup, rightTileGroup)
        let m1 := m.setTileValue leftTileX y (16 * groups.1 + destSubTile)
        let m2 := m1.setTileValue rightTileX y (16 * groups.2 + destSubTile)
        fillStack c isomDiamond leftTileX rightTileX destSubTile fuel (y + 1) m2
    else m

/-- The choice of `destTileGroup` in `updateTileFromIsom`: the first candidate stacking below
the group of the row above, else `potentialGroups[0]`. -/
def chooseDestTileGroup (m : ScMap) (c : IsomCache) (isomDiamond : IsomDiamond) (leftTileX : Nat)
    (potentialGroups : List Nat) : Nat :=
  if isomDiamond.y > 0 then
    let aboveTileGroup := getTileGroup (m.getTileValue leftTileX (isomDiamond.y - 1))
    if aboveTileGroup < c.tileGroups.length then
      let tileGroupBottom := (c.tileGroups.getD aboveTileGroup default).stackConnections.bottom
      match findStackMatch c potentialGroups tileGroupBottom with
      | some g => g
      | none => potentialGroups.getD 0 0
    else potentialGroups.getD 0 0
  else potentialGroups.getD 0 0

/-- The tile writes of `updateTileFromIsom` once the group and the subtile are chosen: the two
tiles of the row, the top row of the stack, and the rows below the stack top. -/
def writeTileStack (c : IsomCache) (isomDiamond : IsomDiamond) (leftTileX rightTileX : Nat)
    (destTileGroup destSubTile : Nat) (m : ScMap) : ScMap :=
  let m1 := m.setTileValue leftTileX isomDiamond.y (16 * destTileGroup + destSubTile)
  let m2 := m1.setTileValue rightTileX isomDiamond.y (16 * (destTileGroup + 1) + destSubTile)
  let stackTopY := findStackTop m2 c leftTileX isomDiamond.y isomDiamond.y
    (getTileGroup (m2.getTileValue leftTileX isomDiamond.y))
  let m3 := m2.setTileValue leftTileX stackTopY
    (16 * getTileGroup (m2.getTileValue leftTileX stackTopY) + destSubTile)
  let m4 := m3.setTileValue rightTileX stackTopY
    (16 * getTileGroup (m3.getTileValue rightTileX stackTopY) + destSubTile)
  fillStack c isomDiamond leftTileX rightTileX destSubTile (m4.tileHeight - stackTopY)
    (stackTopY + 1) m4

/-- `ScMap::updateTileFromIsom` -/
def updateTileFromIsom (isomDiamond : IsomDiamond) (w : World) : World :=
  if sizeInc isomDiamond.x ≥ w.cache.isomWidth ∨ sizeInc isomDiamond.y ≥ w.cache.isomHeight then w
  else
    match w.cache.hashToTileGroup.lookup
        ((w.map.getIsomRect isomDiamond).getHash w.cache.isomLinks) with
    | some potentialGroups =>
      let destTileGroup :=
        chooseDestTileGroup w.map w.cache isomDiamond (2 * isomDiamond.x) potentialGroups
      let sub := getRandomSubtile destTileGroup w
      { sub.2 with
        map := writeTileStack sub.2.cache isomDiamond (2 * isomDiamond.x) (2 * isomDiamond.x + 1)
          destTileGroup (sub.1 % 16) sub.2.map }
    | none =>
      { w with
        map := (w.map.setTileValue (2 * isomDiamond.x) isomDiamond.y 0).setTileValue
          (2 * isomDiamond.x + 1) isomDiamond.y 0 }

/-- The values `lo, lo+1, .., hi` visited by `for ( size_t i=lo; i<=hi; ++i )`
(for `hi` below the largest `size_t`). -/
def rangeIncl (lo hi : Nat) : List Nat := List.range' lo (hi + 1 - lo)

/-- The body of the loops of `updateTilesFromIsom` at the rectangle `(x, y)`. -/
def updateTilesCell (x y : Nat) (w : World) : World :=
  let w1 := if (w.map.getIsomRect ⟨x, y⟩).isLeftOrRightModified then updateTileFromIsom ⟨x, y⟩ w
            else w
  { w1 with map := w1.map.setIsomRect ⟨x, y⟩ (w1.map.getIsomRect ⟨x, y⟩).clearEditorFlags }

/-- `ScMap::updateTilesFromIsom` -/
def updateTilesFromIsom (w : World) : World :=
  let area := w.cache.changedArea
  let w1 := (rangeIncl area.top area.bottom).foldl
    (fun wy y => (rangeIncl area.left area.right).foldl (fun wx x => updateTilesCell x y wx) wy) w
  { w1 with cache := w1.cache.resetChangedArea }

/-- `newMap` of `IsomTests.cpp`.  The `MapFile` constructor is not part of the sources: the
tile arrays it creates are the parameters `tiles` and `editorTiles`. -/
def newMap (width height terrainType : Nat) (tiles editorTiles : List Nat)
    (tileGroups : List TileGroup) (isomLinks : List ShapeLinks)
    (terrainTypes : List TerrainTypeInfo) (terrainTypeMap : List Nat)
    (hashToTileGroup : List (Nat × List Nat)) (rand : Nat → Nat) : World :=
  let isomCache := IsomCache.new width height tileGroups isomLinks terrainTypes terrainTypeMap
    hashToTileGroup
  let isomValue := ((isomCache.getTerrainTypeIsomValue terrainType <<< 4) |||
    EditorFlag.Modified) % U16
  let scMap : ScMap :=
    { tileWidth := width, tileHeight := height, tiles := tiles, editorTiles := editorTiles
      isomRects := List.replicate ((width / 2 + 1) * (height + 1))
        { left := isomValue, top := isomValue, right := isomValue, bottom := isomValue } }
  updateTilesFromIsom { map := scMap, cache := isomCache.setAllChanged, rand := rand }

end World

end IsomTerrain

namespace IsomTerrain

/-! ## Resizing: the six-argument `BoundingBox` constructor and `ScMap::copyIsomFrom` -/

/-- Subtraction on `size_t` (wraps below zero). -/
def sizeSub (a b : Nat) : Nat := (a + (SIZE_MAX1 - b % SIZE_MAX1)) % SIZE_MAX1

/-- The constructor `BoundingBox(oldWidth, oldHeight, newWidth, newHeight, xOffset, yOffset)`.
The offsets are `long` values (the callers pass `int32_t`, whose negation does not overflow);
the conditional expressions are converted to `size_t`, and `right`, `bottom` are computed in
`size_t` from the members `left`, `top` initialised before them. -/
def BoundingBox.new (oldWidth oldHeight newWidth newHeight : Nat) (xOffset yOffset : Int) :
    BoundingBox :=
  let left := toSize (if xOffset > 0 then 0 else -xOffset)
  let top := toSize (if yOffset > 0 then 0 else -yOffset)
  { left := left
    top := top
    right := if sizeSub oldWidth left > newWidth then (left + newWidth) % SIZE_MAX1 else oldWidth
    bottom := if sizeSub oldHeight top > newHeight then (top + newHeight) % SIZE_MAX1
      else oldHeight }

namespace World

/-- The number of whole rectangles moved by `std::memcpy(.., sizeof(Chk::IsomRect)*count)`:
a rectangle is four `uint16_t` (8 bytes) and the byte count is a `size_t`. -/
def memcpyCount (count : Nat) : Nat := (8 * count) % SIZE_MAX1 / 8

/-- The element indices `(destination, source)` touched by the `std::memcpy` of the row `y` in
`copyIsomFrom`: `destRow = &isomRects[(y+diamondY)*destCache.isomWidth + sourceRc.left + diamondX]`
and `sourceRow = &sourceMap.isomRects[y*sourceIsomWidth + sourceRc.left]`. -/
def copyRowPairs (sourceIsomWidth destIsomWidth : Nat) (sourceRc : BoundingBox)
    (diamondX diamondY : Int) (y : Nat) : List (Nat × Nat) :=
  (List.range (memcpyCount (sizeSub sourceRc.right sourceRc.left))).map fun i =>
    (toSize (((y : Int) + diamondY) * (destIsomWidth : Int) + (sourceRc.left : Int) + diamondX) + i,
      y * sourceIsomWidth + sourceRc.left + i)

/-- The rows `top, .., bottom-1` of `for ( size_t y=top; y<bottom; ++y )`. -/
def rowsOf (sourceRc : BoundingBox) : List Nat :=
  List.range' sourceRc.top (sourceRc.bottom - sourceRc.top)

/-- All element indices `(destination, source)` touched by the copy loop of `copyIsomFrom`, in
the order of the loop. -/
def copyPairs (sourceIsomWidth destIsomWidth : Nat) (sourceRc : BoundingBox)
    (diamondX diamondY : Int) : List (Nat × Nat) :=
  (rowsOf sourceRc).flatMap
    (copyRowPairs sourceIsomWidth destIsomWidth sourceRc diamondX diamondY)

/-- One element of a `std::memcpy`: the destination element `p.1` receives the source element
`p.2`. -/
def copyRect (source : List IsomRect) (dest : List IsomRect) (p : Nat × Nat) : List IsomRect :=
  dest.set p.1 (source.getD p.2 default)

/-- The loop `for y, for x` over the whole grid of the cache, applying `f x y`. -/
def forGrid (c : IsomCache) (f : Nat → Nat → World → World) (w : World) : World :=
  (List.range c.isomHeight).foldl
    (fun wy y => (List.range c.isomWidth).foldl (fun wx x => f x y wx) wy) w

/-- The body `isomRectAt({x, y}).clear()`. -/
def clearRect (x y : Nat) (w : World) : World :=
  { w with map := w.map.setIsomRect ⟨x, y⟩ (w.map.getIsomRect ⟨x, y⟩).clear }

/-- The body `destCache.undoMap[y*destCache.isomWidth + x]->setNewValue(getIsomRect({x, y}))`. -/
def updateUndo (x y : Nat) (w : World) : World :=
  let idx := y * w.cache.isomWidth + x
  match w.cache.undoMap.getD idx none with
  | some u =>
    { w with cache := { w.cache with
        undoMap := w.cache.undoMap.set idx (some (u.setNewValue (w.map.getIsomRect ⟨x, y⟩))) } }
  | none => w

/-- The block `// Clear out-of-bounds isom values` of `copyIsomFrom` with the undo update that
follows it. -/
def clearOutOfBounds (sourceIsomWidth sourceIsomHeight : Nat) (w : World) : World :=
  let w1 := (List.range' sourceIsomHeight (w.cache.isomHeight - sourceIsomHeight)).foldl
    (fun wy y => (List.range w.cache.isomWidth).foldl (fun wx x => clearRect x y wx) wy) w
  let w2 :=
    if sourceIsomWidth < w1.cache.isomWidth then
      (List.range w1.cache.isomHeight).foldl
        (fun wy y =>
          (List.range' sourceIsomWidth (w1.cache.isomWidth - sourceIsomWidth)).foldl
            (fun wx x => clearRect x y wx) wy) w1
    else w1
  forGrid w2.cache updateUndo w2

/-- The copy loop of `copyIsomFrom`: the rectangle `sourceRc` of the source is copied row by
row with `std::memcpy`. -/
def copyLoop (sourceMap : ScMap) (diamondX diamondY : Int) (w : World) : World :=
  let sourceIsomWidth := sourceMap.tileWidth / 2 + 1
  let sourceIsomHeight := sourceMap.tileHeight + 1
  let sourceRc := BoundingBox.new sourceIsomWidth sourceIsomHeight w.cache.isomWidth
    w.cache.isomHeight diamondX diamondY
  let rects := (copyPairs sourceIsomWidth w.cache.isomWidth sourceRc diamondX diamondY).foldl
    (copyRect sourceMap.isomRects) w.map.isomRects
  { w with map := { w.map with isomRects := rects } }

/-- `ScMap::copyIsomFrom`: the destination is the map of `w`, `w.cache` is `destCache`.  The
offsets are `int32_t` values; `xTileOffset / 2` truncates towards zero. -/
def copyIsomFrom (sourceMap : ScMap) (xTileOffset yTileOffset : Int) (undoable : Bool)
    (w : World) : World :=
  let w1 := if undoable then forGrid w.cache (fun x y => addIsomUndo ⟨x, y⟩) w else w
  let w2 := copyLoop sourceMap (Int.tdiv xTileOffset 2) yTileOffset w1
  if undoable then clearOutOfBounds (sourceMap.tileWidth / 2 + 1) (sourceMap.tileHeight + 1) w2
  else w2

end World

end IsomTerrain

namespace IsomTerrain

/-! ## The built-in terrain type tables (`Sc::Isom::Brush`) -/

namespace Brush

namespace Badlands

def Dirt : Nat := 2
def Mud : Nat := 4
def HighDirt : Nat := 3
def Water : Nat := 5
def Grass : Nat := 6
def HighGrass : Nat := 7
def Structure : Nat := 18
def Asphalt : Nat := 14
def RockyGround : Nat := 15
def Default : Nat := Dirt

/-- `Brush::Badlands::terrainTypeInfo` (the names are left out). -/
def terrainTypeInfo : List TerrainTypeInfo :=
  [ { index := 0, isomValue := 10 },
    { index := 1 },
    { index := Dirt, isomValue := 1, brushSortOrder := 0, linkId := 1 },
    { index := HighDirt, isomValue := 2, brushSortOrder := 2, linkId := 2 },
    { index := Mud, isomValue := 9, brushSortOrder := 1, linkId := 4 },
    { index := Water, isomValue := 3, brushSortOrder := 3, linkId := 3 },
    { index := Grass, isomValue := 4, brushSortOrder := 4, linkId := 5 },
    { index := HighGrass, isomValue := 7, brushSortOrder := 5, linkId := 6 },
    { index := 8 },
    { index := 9 },
    { index := 10 },
    { index := 11 },
    { index := 12 },
    { index := 13 },
    { index := Asphalt, isomValue := 5, brushSortOrder := 7, linkId := 9 },
    { index := RockyGround, isomValue := 6, brushSortOrder := 8, linkId := 10 },
    { index := 16 },
    { index := 17 },
    { index := Structure, isomValue := 8, brushSortOrder := 6, linkId := 7 },
    { index := 19, isomValue := 0 },
    { index := 20, isomValue := 41 },
    { index := 21, isomValue := 69 },
    { index := 22, isomValue := 111 },
    { index := 23 },
    { index := 24 },
    { index := 25 },
    { index := 26 },
    { index := 27, isomValue := 83 },
    { index := 28, isomValue := 55 },
    { index := 29 },
    { index := 30 },
    { index := 31, isomValue := 97 },
    { index := 32 },
    { index := 33 },
    { index := 34, isomValue := 13 },
    { index := 35, isomValue := 27 } ]

/-- `Brush::Badlands::terrainTypeMap`, the compressed terrain type map. -/
def terrainTypeMap : List Nat :=
  [ 5, 35, 0,
    35, 5, 2, 20, 27, 28, 34, 22, 0,
    2, 34, 35, 20, 27, 28, 22, 0,
    34, 2, 3, 20, 21, 27, 28, 35, 22, 0,
    3, 34, 21, 0,
    6, 20, 0,
    20, 6, 2, 35, 34, 27, 28, 22, 0,
    14, 27, 31, 0,
    27, 14, 20, 2, 35, 34, 28, 22, 0,
    15, 28, 0,
    28, 15, 2, 34, 35, 20, 27, 22, 0,
    7, 21, 0,
    21, 7, 3, 34, 0,
    18, 31, 0,
    31, 18, 14, 0,
    4, 22, 0,
    22, 4, 2, 34, 35, 20, 27, 28, 0,
    0 ]

end Badlands

namespace Space

def Space_ : Nat := 2
def LowPlatform : Nat := 8
def RustyPit : Nat := 9
def Platform : Nat := 3
def DarkPlatform : Nat := 11
def Plating : Nat := 4
def SolarArray : Nat := 7
def HighPlatform : Nat := 5
def HighPlating : Nat := 6
def ElevatedCatwalk : Nat := 10
def Default : Nat := Platform

/-- `Brush::Space::terrainTypeInfo` (the names are left out). -/
def terrainTypeInfo : List TerrainTypeInfo :=
  [ { index := 0, isomValue := 3 },
    { index := 1 },
    { index := Space_, isomValue := 1, brushSortOrder := 0, linkId := 1 },
    { index := Platform, isomValue := 2, brushSortOrder := 3, linkId := 3 },
    { index := Plating, isomValue := 11, brushSortOrder := 5, linkId := 4 },
    { index := HighPlatform, isomValue := 4, brushSortOrder := 7, linkId := 5 },
    { index := HighPlating, isomValue := 12, brushSortOrder := 8, linkId := 6 },
    { index := SolarArray, isomValue := 8, brushSortOrder := 6, linkId := 7 },
    { index := LowPlatform, isomValue := 9, brushSortOrder := 1, linkId := 8 },
    { index := RustyPit, isomValue := 10, brushSortOrder := 2, linkId := 9 },
    { index := ElevatedCatwalk, isomValue := 13, brushSortOrder := 9, linkId := 10 },
    { index := DarkPlatform, isomValue := 14, brushSortOrder := 4, linkId := 2 },
    { index := 12, isomValue := 0 },
    { index := 13, isomValue := 136 },
    { index := 14, isomValue := 94 },
    { index := 15, isomValue := 108 },
    { index := 16, isomValue := 52 },
    { index := 17, isomValue := 66 },
    { index := 18, isomValue := 80 },
    { index := 19, isomValue := 122 },
    { index := 20, isomValue := 24 },
    { index := 21, isomValue := 38 } ]

/-- `Brush::Space::terrainTypeMap`, the compressed terrain type map. -/
def terrainTypeMap : List Nat :=
  [ 2, 20, 0,
    20, 2, 3, 16, 14, 21, 13, 0,
    3, 20, 21, 16, 17, 18, 14, 19, 13, 0,
    21, 3, 5, 14, 16, 15, 19, 20, 17, 13, 0,
    5, 21, 15, 0,
    7, 16, 0,
    16, 7, 3, 20, 21, 17, 18, 14, 19, 13, 0,
    8, 17, 0,
    17, 8, 3, 16, 14, 21, 13, 0,
    9, 18, 0,
    18, 9, 3, 16, 14, 13, 0,
    4, 14, 0,
    14, 4, 3, 20, 21, 16, 17, 18, 19, 13, 0,
    6, 15, 0,
    15, 6, 5, 21, 0,
    10, 19, 0,
    19, 10, 3, 16, 14, 21, 13, 0,
    11, 13, 0,
    13, 11, 3, 20, 21, 16, 17, 18, 14, 19, 0,
    0 ]

end Space

namespace Installation

def Substructure : Nat := 2
def Floor : Nat := 3
def Roof : Nat := 6
def SubstructurePlating : Nat := 4
def Plating : Nat := 5
def SubstructurePanels : Nat := 8
def BottomlessPit : Nat := 7
def Default : Nat := Floor

/-- `Brush::Installation::terrainTypeInfo` (the names are left out). -/
def terrainTypeInfo : List TerrainTypeInfo :=
  [ { index := 0, isomValue := 8 },
    { index := 1 },
    { index := Substructure, isomValue := 1, brushSortOrder := 0, linkId := 1 },
    { index := Floor, isomValue := 2, brushSortOrder := 1, linkId := 2 },
    { index := SubstructurePlating, isomValue := 4, brushSortOrder := 3, linkId := 4 },
    { index := Plating, isomValue := 5, brushSortOrder := 4, linkId := 5 },
    { index := Roof, isomValue := 3, brushSortOrder := 2, linkId := 3 },
    { index := BottomlessPit, isomValue := 7, brushSortOrder := 6, linkId := 7 },
    { index := SubstructurePanels, isomValue := 6, brushSortOrder := 5, linkId := 6 },
    { index := 9, isomValue := 0 },
    { index := 10, isomValue := 50 },
    { index := 11, isomValue := 64 },
    { index := 12, isomValue := 22 },
    { index := 13, isomValue := 36 },
    { index := 14, isomValue := 78 },
    { index := 15, isomValue := 92 } ]

/-- `Brush::Installation::terrainTypeMap`, the compressed terrain type map. -/
def terrainTypeMap : List Nat :=
  [ 2, 12, 10, 14, 15, 0,
    12, 2, 3, 10, 11, 13, 14, 15, 0,
    3, 12, 13, 11, 0,
    13, 6, 3, 11, 12, 0,
    6, 13, 0,
    4, 10, 0,
    10, 4, 2, 12, 14, 15, 0,
    5, 11, 0,
    11, 5, 3, 12, 13, 0,
    8, 14, 0,
    14, 8, 2, 12, 10, 15, 0,
    7, 15, 0,
    15, 7, 2, 12, 10, 14, 0,
    0 ]

end Installation

namespace Ashworld

def Magma : Nat := 8
def Dirt : Nat := 2
def Lava : Nat := 3
def Shale : Nat := 6
def BrokenRock : Nat := 9
def HighDirt : Nat := 4
def HighLava : Nat := 5
def HighShale : Nat := 7
def Default : Nat := Dirt

/-- `Brush::Ashworld::terrainTypeInfo` (the names are left out). -/
def terrainTypeInfo : List TerrainTypeInfo :=
  [ { index := 0, isomValue := 9 },
    { index := 1 },
    { index := Dirt, isomValue := 2, brushSortOrder := 1, linkId := 2 },
    { index := Lava, isomValue := 3, brushSortOrder := 2, linkId := 3 },
    { index := HighDirt, isomValue := 5, brushSortOrder := 5, linkId := 5 },
    { index := HighLava, isomValue := 6, brushSortOrder := 6, linkId := 6 },
    { index := Shale, isomValue := 4, brushSortOrder := 3, linkId := 4 },
    { index := HighShale, isomValue := 7, brushSortOrder := 7, linkId := 7 },
    { index := Magma, isomValue := 1, brushSortOrder := 0, linkId := 1 },
    { index := BrokenRock, isomValue := 8, brushSortOrder := 4, linkId := 8 },
    { index := 10, isomValue := 0 },
    { index := 11, isomValue := 55 },
    { index := 12, isomValue := 69 },
    { index := 13, isomValue := 83 },
    { index := 14, isomValue := 97 },
    { index := 15, isomValue := 111 },
    { index := 16, isomValue := 41 },
    { index := 17, isomValue := 27 } ]

/-- `Brush::Ashworld::terrainTypeMap`, the compressed terrain type map. -/
def terrainTypeMap : List Nat :=
  [ 8, 17, 0,
    17, 8, 2, 11, 13, 16, 15, 0,
    2, 17, 16, 11, 13, 15, 0,
    3, 11, 0,
    11, 3, 2, 17, 16, 13, 15, 0,
    6, 13, 0,
    13, 6, 2, 17, 16, 11, 15, 0,
    9, 15, 0,
    15, 9, 13, 2, 17, 16, 11, 0,
    16, 2, 4, 11, 13, 12, 14, 17, 15, 0,
    4, 16, 12, 14, 0,
    5, 12, 0,
    12, 5, 4, 16, 14, 0,
    7, 14, 0,
    14, 7, 4, 16, 12, 0,
    0 ]

end Ashworld

namespace Jungle

def Water : Nat := 5
def Dirt : Nat := 2
def Mud : Nat := 4
def Jungle_ : Nat := 8
def RockyGround : Nat := 15
def Ruins : Nat := 11
def RaisedJungle : Nat := 9
def Temple : Nat := 16
def HighDirt : Nat := 3
def HighJungle : Nat := 10
def HighRuins : Nat := 12
def HighRaisedJungle : Nat := 13
def HighTemple : Nat := 17
def Default : Nat := Jungle_

/-- `Brush::Jungle::terrainTypeInfo` (the names are left out). -/
def terrainTypeInfo : List TerrainTypeInfo :=
  [ { index := 0, isomValue := 14 },
    { index := 1 },
    { index := Dirt, isomValue := 1, brushSortOrder := 1, linkId := 1 },
    { index := HighDirt, isomValue := 2, brushSortOrder := 8, linkId := 2 },
    { index := Mud, isomValue := 13, brushSortOrder := 2, linkId := 4 },
    { index := Water, isomValue := 3, brushSortOrder := 0, linkId := 3 },
    { index := 6 },
    { index := 7 },
    { index := Jungle_, isomValue := 4, brushSortOrder := 3, linkId := 8 },
    { index := RaisedJungle, isomValue := 5, brushSortOrder := 6, linkId := 11 },
    { index := HighJungle, isomValue := 9, brushSortOrder := 9, linkId := 14 },
    { index := Ruins, isomValue := 7, brushSortOrder := 5, linkId := 12 },
    { index := HighRuins, isomValue := 10, brushSortOrder := 10, linkId := 15 },
    { index := HighRaisedJungle, isomValue := 11, brushSortOrder := 11, linkId := 16 },
    { index := 14 },
    { index := RockyGround, isomValue := 6, brushSortOrder := 4, linkId := 10 },
    { index := Temple, isomValue := 8, brushSortOrder := 7, linkId := 13 },
    { index := HighTemple, isomValue := 12, brushSortOrder := 12, linkId := 17 },
    { index := 18 },
    { index := 19, isomValue := 0 },
    { index := 20 },
    { index := 21 },
    { index := 22, isomValue := 171 },
    { index := 23, isomValue := 45 },
    { index := 24, isomValue := 115 },
    { index := 25, isomValue := 87 },
    { index := 26, isomValue := 129 },
    { index := 27 },
    { index := 28, isomValue := 59 },
    { index := 29, isomValue := 73 },
    { index := 30, isomValue := 143 },
    { index := 31 },
    { index := 32, isomValue := 101 },
    { index := 33, isomValue := 157 },
    { index := 34, isomValue := 17 },
    { index := 35, isomValue := 31 } ]

/-- `Brush::Jungle::terrainTypeMap`, the compressed terrain type map. -/
def terrainTypeMap : List Nat :=
  [ 5, 35, 0,
    35, 5, 2, 23, 28, 34, 22, 0,
    2, 34, 35, 23, 28, 22, 0,
    34, 2, 3, 24, 23, 28, 35, 22, 0,
    3, 34, 24, 0,
    8, 23, 29, 25, 32, 0,
    4, 22, 0,
    22, 4, 2, 34, 35, 23, 28, 0,
    23, 8, 2, 35, 34, 28, 25, 29, 22, 0,
    15, 28, 0,
    28, 15, 2, 34, 35, 23, 22, 0,
    9, 29, 0,
    29, 9, 8, 25, 32, 23, 0,
    11, 25, 0,
    25, 11, 8, 23, 29, 32, 0,
    16, 32, 0,
    32, 16, 8, 25, 29, 0,
    10, 24, 26, 30, 33, 0,
    24, 10, 3, 34, 26, 30, 0,
    12, 26, 0,
    26, 12, 10, 24, 30, 33, 0,
    13, 30, 0,
    30, 13, 10, 26, 24, 33, 0,
    17, 33, 0,
    33, 17, 10, 26, 30, 0,
    0 ]

end Jungle

namespace Desert

def Tar : Nat := 5
def Dirt : Nat := 2
def DriedMud : Nat := 4
def SandDunes : Nat := 8
def RockyGround : Nat := 15
def Crags : Nat := 11
def SandySunkenPit : Nat := 9
def Compound : Nat := 16
def HighDirt : Nat := 3
def HighSandDunes : Nat := 10
def HighCrags : Nat := 12
def HighSandySunkenPit : Nat := 13
def HighCompound : Nat := 17
def Default : Nat := SandDunes

/-- `Brush::Desert::terrainTypeInfo` (the names are left out). -/
def terrainTypeInfo : List TerrainTypeInfo :=
  [ { index := 0, isomValue := 14 },
    { index := 1 },
    { index := Dirt, isomValue := 1, brushSortOrder := 1, linkId := 1 },
    { index := HighDirt, isomValue := 2, brushSortOrder := 8, linkId := 2 },
    { index := DriedMud, isomValue := 13, brushSortOrder := 2, linkId := 4 },
    { index := Tar, isomValue := 3, brushSortOrder := 0, linkId := 3 },
    { index := 6 },
    { index := 7 },
    { index := SandDunes, isomValue := 4, brushSortOrder := 3, linkId := 8 },
    { index := SandySunkenPit, isomValue := 5, brushSortOrder := 6, linkId := 11 },
    { index := HighSandDunes, isomValue := 9, brushSortOrder := 9, linkId := 14 },
    { index := Crags, isomValue := 7, brushSortOrder := 5, linkId := 12 },
    { index := HighCrags, isomValue := 10, brushSortOrder := 10, linkId := 15 },
    { index := HighSandySunkenPit, isomValue := 11, brushSortOrder := 11, linkId := 16 },
    { index := 14 },
    { index := RockyGround, isomValue := 6, brushSortOrder := 4, linkId := 10 },
    { index := Compound, isomValue := 8, brushSortOrder := 7, linkId := 13 },
    { index := HighCompound, isomValue := 12, brushSortOrder := 12, linkId := 17 },
    { index := 18 },
    { index := 19, isomValue := 0 },
    { index := 20 },
    { index := 21 },
    { index := 22, isomValue := 171 },
    { index := 23, isomValue := 45 },
    { index := 24, isomValue := 115 },
    { index := 25, isomValue := 87 },
    { index := 26, isomValue := 129 },
    { index := 27 },
    { index := 28, isomValue := 59 },
    { index := 29, isomValue := 73 },
    { index := 30, isomValue := 143 },
    { index := 31 },
    { index := 32, isomValue := 101 },
    { index := 33, isomValue := 157 },
    { index := 34, isomValue := 17 },
    { index := 35, isomValue := 31 } ]

/-- `Brush::Desert::terrainTypeMap` is the map of the jungle tileset. -/
def terrainTypeMap : List Nat := Jungle.terrainTypeMap

end Desert

namespace Arctic

def Ice : Nat := 5
def Snow : Nat := 2
def Moguls : Nat := 4
def Dirt : Nat := 8
def RockySnow : Nat := 15
def Grass : Nat := 11
def Water : Nat := 9
def Outpost : Nat := 16
def HighSnow : Nat := 3
def HighDirt : Nat := 10
def HighGrass : Nat := 12
def HighWater : Nat := 13
def HighOutpost : Nat := 17
def Default : Nat := Snow

/-- `Brush::Arctic::terrainTypeInfo` (the names are left out). -/
def terrainTypeInfo : List TerrainTypeInfo :=
  [ { index := 0, isomValue := 14 },
    { index := 1 },
    { index := Snow, isomValue := 1, brushSortOrder := 1, linkId := 1 },
    { index := HighSnow, isomValue := 2, brushSortOrder := 8, linkId := 2 },
    { index := Moguls, isomValue := 13, brushSortOrder := 2, linkId := 4 },
    { index := Ice, isomValue := 3, brushSortOrder := 0, linkId := 3 },
    { index := 6 },
    { index := 7 },
    { index := Dirt, isomValue := 4, brushSortOrder := 3, linkId := 8 },
    { index := Water, isomValue := 5, brushSortOrder := 6, linkId := 11 },
    { index := HighDirt, isomValue := 9, brushSortOrder := 9, linkId := 14 },
    { index := Grass, isomValue := 7, brushSortOrder := 5, linkId := 12 },
    { index := HighGrass, isomValue := 10, brushSortOrder := 10, linkId := 15 },
    { index := HighWater, isomValue := 11, brushSortOrder := 11, linkId := 16 },
    { index := 14 },
    { index := RockySnow, isomValue := 6, brushSortOrder := 4, linkId := 10 },
    { index := Outpost, isomValue := 8, brushSortOrder := 7, linkId := 13 },
    { index := HighOutpost, isomValue := 12, brushSortOrder := 12, linkId := 17 },
    { index := 18 },
    { index := 19, isomValue := 0 },
    { index := 20 },
    { index := 21 },
    { index := 22, isomValue := 171 },
    { index := 23, isomValue := 45 },
    { index := 24, isomValue := 115 },
    { index := 25, isomValue := 87 },
    { index := 26, isomValue := 129 },
    { index := 27 },
    { index := 28, isomValue := 59 },
    { index := 29, isomValue := 73 },
    { index := 30, isomValue := 143 },
    { index := 31 },
    { index := 32, isomValue := 101 },
    { index := 33, isomValue := 157 },
    { index := 34, isomValue := 17 },
    { index := 35, isomValue := 31 } ]

/-- `Brush::Arctic::terrainTypeMap` is the map of the jungle tileset. -/
def terrainTypeMap : List Nat := Jungle.terrainTypeMap

end Arctic

namespace Twilight

def Water : Nat := 5
def Dirt : Nat := 2
def Mud : Nat := 4
def CrushedRock : Nat := 8
def Crevices : Nat := 15
def Flagstones : Nat := 11
def SunkenGround : Nat := 9
def Basilica : Nat := 16
def HighDirt : Nat := 3
def HighCrushedRock : Nat := 10
def HighFlagstones : Nat := 12
def HighSunkenGround : Nat := 13
def HighBasilica : Nat := 17
def Default : Nat := Dirt

/-- `Brush::Twilight::terrainTypeInfo` (the names are left out). -/
def terrainTypeInfo : List TerrainTypeInfo :=
  [ { index := 0, isomValue := 14 },
    { index := 1 },
    { index := Dirt, isomValue := 1, brushSortOrder := 1, linkId := 1 },
    { index := HighDirt, isomValue := 2, brushSortOrder := 8, linkId := 2 },
    { index := Mud, isomValue := 13, brushSortOrder := 2, linkId := 4 },
    { index := Water, isomValue := 3, brushSortOrder := 0, linkId := 3 },
    { index := 6 },
    { index := 7 },
    { index := CrushedRock, isomValue := 4, brushSortOrder := 3, linkId := 8 },
    { index := SunkenGround, isomValue := 5, brushSortOrder := 6, linkId := 11 },
    { index := HighCrushedRock, isomValue := 9, brushSortOrder := 9, linkId := 14 },
    { index := Flagstones, isomValue := 7, brushSortOrder := 5, linkId := 12 },
    { index := HighFlagstones, isomValue := 10, brushSortOrder := 10, linkId := 15 },
    { index := HighSunkenGround, isomValue := 11, brushSortOrder := 11, linkId := 16 },
    { index := 14 },
    { index := Crevices, isomValue := 6, brushSortOrder := 4, linkId := 10 },
    { index := Basilica, isomValue := 8, brushSortOrder := 7, linkId := 13 },
    { index := HighBasilica, isomValue := 12, brushSortOrder := 12, linkId := 17 },
    { index := 18 },
    { index := 19, isomValue := 0 },
    { index := 20 },
    { index := 21 },
    { index := 22, isomValue := 171 },
    { index := 23, isomValue := 45 },
    { index := 24, isomValue := 115 },
    { index := 25, isomValue := 87 },
    { index := 26, isomValue := 129 },
    { index := 27 },
    { index := 28, isomValue := 59 },
    { index := 29, isomValue := 73 },
    { index := 30, isomValue := 143 },
    { index := 31 },
    { index := 32, isomValue := 101 },
    { index := 33, isomValue := 157 },
    { index := 34, isomValue := 17 },
    { index := 35, isomValue := 31 } ]

/-- `Brush::Twilight::terrainTypeMap` is the map of the jungle tileset. -/
def terrainTypeMap : List Nat := Jungle.terrainTypeMap

end Twilight

end Brush

/-- `Sc::Isom::tilesetTerrainTypes`, indexed by the tileset. -/
def tilesetTerrainTypes : List (List TerrainTypeInfo) :=
  [ Brush.Badlands.terrainTypeInfo, Brush.Space.terrainTypeInfo, Brush.Installation.terrainTypeInfo, Brush.Ashworld.terrainTypeInfo,
    Brush.Jungle.terrainTypeInfo, Brush.Desert.terrainTypeInfo, Brush.Arctic.terrainTypeInfo, Brush.Twilight.terrainTypeInfo ]

/-- `Sc::Isom::compressedTerrainTypeMaps`, indexed by the tileset. -/
def compressedTerrainTypeMaps : List (List Nat) :=
  [ Brush.Badlands.terrainTypeMap, Brush.Space.terrainTypeMap, Brush.Installation.terrainTypeMap, Brush.Ashworld.terrainTypeMap,
    Brush.Jungle.terrainTypeMap, Brush.Desert.terrainTypeMap, Brush.Arctic.terrainTypeMap, Brush.Twilight.terrainTypeMap ]

end IsomTerrain

namespace IsomTerrain

/-! ## `Tiles::populateTerrainTypeMap` -/

/-- The state of the breadth-first expansion in `populateTerrainTypeMap`: the map under
construction, `rowData` and the queue `terrainTypeStack`. -/
structure ExpandState where
  terrainTypeMap : List Nat
  rowData : List Nat
  terrainTypeStack : List Nat
  deriving DecidableEq, Repr

namespace Tiles

/-- The inner loop `for ( j=...; compressedTerrainTypeMap[i] != 0; ++i,++j )` of the
decompression: returns the final `i` and `tempTypeMap`; `none` when the fuel runs out. -/
def decompressRow (compressed : List Nat) : Nat → Nat → Nat → List Nat → Option (Nat × List Nat)
  | 0, _, _, _ => none
  | fuel + 1, i, j, tempTypeMap =>
    if compressed.getD i 0 ≠ 0 then
      decompressRow compressed fuel (i + 1) (j + 1) (tempTypeMap.set j (compressed.getD i 0))
    else some (i, tempTypeMap)

/-- The outer loop `for ( size_t i=0; compressedTerrainTypeMap[i] != 0; ++i )` of the
decompression; `none` when the fuel runs out. -/
def decompress (compressed : List Nat) (totalTerrainTypes : Nat) :
    Nat → Nat → List Nat → Option (List Nat)
  | 0, _, _ => none
  | fuel + 1, i, tempTypeMap =>
    if compressed.getD i 0 ≠ 0 then
      match decompressRow compressed (compressed.length + 1) (i + 1)
          (totalTerrainTypes * compressed.getD i 0) tempTypeMap with
      | some r => decompress compressed totalTerrainTypes fuel (r.1 + 1) r.2
      | none => none
    else some tempTypeMap

/-- The loop `for ( size_t j=destRow*totalTerrainTypes; tempTypeMap[j] != 0; ++j )` for one
row taken from the queue; `none` when the fuel runs out. -/
def expandRow (tempTypeMap : List Nat) (start destRow : Nat) :
    Nat → Nat → ExpandState → Option ExpandState
  | 0, _, _ => none
  | fuel + 1, j, st =>
    let tempPath := tempTypeMap.getD j 0
    if tempPath ≠ 0 then
      if st.terrainTypeMap.getD (start + tempPath) 0 = 0 then
        let nextValue :=
          if st.rowData.getD destRow 0 = 0 then tempPath else st.rowData.getD destRow 0
        expandRow tempTypeMap start destRow fuel (j + 1)
          { terrainTypeMap := st.terrainTypeMap.set (start + tempPath) nextValue
            rowData := st.rowData.set tempPath nextValue
            terrainTypeStack := st.terrainTypeStack ++ [tempPath] }
      else expandRow tempTypeMap start destRow fuel (j + 1) st
    else some st

/-- The loop `while ( !terrainTypeStack.empty() )`; returns the map; `none` when the fuel runs
out. -/
def expandStack (tempTypeMap : List Nat) (totalTerrainTypes start : Nat) :
    Nat → ExpandState → Option (List Nat)
  | 0, _ => none
  | fuel + 1, st =>
    match st.terrainTypeStack with
    | [] => some st.terrainTypeMap
    | destRow :: rest =>
      match expandRow tempTypeMap start destRow (tempTypeMap.length + 1)
          (destRow * totalTerrainTypes) { st with terrainTypeStack := rest } with
      | some st1 => expandStack tempTypeMap totalTerrainTypes start fuel st1
      | none => none

/-- The body of the loop `for ( int i=int(totalTerrainTypes)-1; i>=0; --i )`. -/
def expandType (tempTypeMap : List Nat) (totalTerrainTypes : Nat) (terrainTypeMap : List Nat)
    (i : Nat) : Option (List Nat) :=
  expandStack tempTypeMap totalTerrainTypes (i * totalTerrainTypes)
    (totalTerrainTypes * totalTerrainTypes + 2)
    { terrainTypeMap := terrainTypeMap.set (totalTerrainTypes * i + i % U16) (i % U16)
      rowData := List.replicate totalTerrainTypes 0
      terrainTypeStack := [i % U16] }

/-- The loop over `i = totalTerrainTypes-1, .., 0`, given as the list of the values of `i`. -/
def expandTypes (tempTypeMap : List Nat) (totalTerrainTypes : Nat) :
    List Nat → List Nat → Option (List Nat)
  | [], terrainTypeMap => some terrainTypeMap
  | i :: rest, terrainTypeMap =>
    match expandType tempTypeMap totalTerrainTypes terrainTypeMap i with
    | some m => expandTypes tempTypeMap totalTerrainTypes rest m
    | none => none

/-- `Tiles::populateTerrainTypeMap` for the compressed map `compressedTerrainTypeMap` and
`totalTerrainTypes = terrainTypes.size()`: the resulting `terrainTypeMap`, or `none` when one
of the loops does not end within its fuel. -/
def populateTerrainTypeMap (compressedTerrainTypeMap : List Nat) (totalTerrainTypes : Nat) :
    Option (List Nat) :=
  match decompress compressedTerrainTypeMap totalTerrainTypes
      (compressedTerrainTypeMap.length + 1) 0
      (List.replicate (totalTerrainTypes * totalTerrainTypes) 0) with
  | some tempTypeMap =>
    expandTypes tempTypeMap totalTerrainTypes (List.range totalTerrainTypes).reverse
      (List.replicate (totalTerrainTypes * totalTerrainTypes) 0)
  | none => none

/-- The `terrainTypeMap` that `Tiles::loadIsom(tilesetIndex)` builds: `terrainTypes` is
`tilesetTerrainTypes[tilesetIndex]` and the compressed map is
`compressedTerrainTypeMaps[tilesetIndex]`. -/
def loadedTerrainTypeMap (tilesetIndex : Nat) : Option (List Nat) :=
  populateTerrainTypeMap (compressedTerrainTypeMaps.getD tilesetIndex [])
    (tilesetTerrainTypes.getD tilesetIndex []).length

end Tiles

end IsomTerrain

namespace IsomTerrain

/-! ## `Tiles::loadIsom`: the hash index of the tile groups -/

/-- The modulus of `uint32_t` arithmetic. -/
def U32 : Nat := 4294967296

namespace Tiles

/-- The hash `tileGroupHash` that `loadIsom` computes for a tile group, in `uint32_t`:
`(((left << 6 | top) << 6 | right) << 6 | bottom) << 6`, with the terrain type OR-ed in when
one of the links is at least 48. -/
def tileGroupHash (g : TileGroup) : Nat :=
  let left := g.links.left % U32
  let top := g.links.top % U32
  let right := g.links.right % U32
  let bottom := g.links.bottom % U32
  let h1 := ((left <<< 6) % U32) ||| top
  let h2 := ((h1 <<< 6) % U32) ||| right
  let h3 := ((h2 <<< 6) % U32) ||| bottom
  let tileGroupHash := (h3 <<< 6) % U32
  if left ≥ 48 ∨ top ≥ 48 ∨ right ≥ 48 ∨ bottom ≥ 48 then tileGroupHash ||| g.terrainType
  else tileGroupHash

/-- The update of `hashToTileGroup` for the group index `i` with the hash `key`:
`existing->second.push_back(uint16_t(i))` when `find` succeeds, else the insertion of the new
bucket `{uint16_t(i)}`. -/
def hashInsert : List (Nat × List Nat) → Nat → Nat → List (Nat × List Nat)
  | [], key, i => [(key, [i % U16])]
  | b :: rest, key, i =>
    if b.1 = key then (b.1, b.2 ++ [i % U16]) :: rest else b :: hashInsert rest key i

/-- The values `0, 2, 4, ..` of `for ( size_t i=0; i<size; i+=2 )`. -/
def evenIndices (size : Nat) : List Nat := (List.range ((size + 1) / 2)).map fun k => 2 * k

/-- The loop of `Tiles::loadIsom` that fills `hashToTileGroup` from `tileGroups`. -/
def loadIsomHashes (tileGroups : List TileGroup) (hashToTileGroup : List (Nat × List Nat)) :
    List (Nat × List Nat) :=
  (evenIndices tileGroups.length).foldl
    (fun h i => hashInsert h (tileGroupHash (tileGroups.getD i default)) i) hashToTileGroup

end Tiles

end IsomTerrain

namespace IsomTerrain

/-! ## `Tiles::generateIsomLinks`: the link table built from the tile groups -/

namespace Link
/-- `Sc::Isom::Link::None` -/
def None : Nat := 0
/-- `Sc::Isom::Link::HardLinks` -/
def HardLinks : Nat := 48
def BL : Nat := 49
def TR : Nat := 50
def BR : Nat := 51
def TL : Nat := 52
def FR : Nat := 53
def FL : Nat := 54
def LH : Nat := 55
def RH : Nat := 56
end Link

namespace LinkId
/-- `Sc::Isom::LinkId::None` -/
def None : Nat := 0
def TRBL_NW : Nat := 255
def TRBL_SE : Nat := 256
def TLBR_NE : Nat := 257
def TLBR_SW : Nat := 258
end LinkId

namespace DirectionalLinks

/-- `DirectionalLinks::hasNoHardLinks` -/
def hasNoHardLinks (l : DirectionalLinks) : Bool :=
  decide (l.left ≤ Link.SoftLinks) && decide (l.top ≤ Link.SoftLinks) &&
    decide (l.right ≤ Link.SoftLinks) && decide (l.bottom ≤ Link.SoftLinks)

/-- `DirectionalLinks::isAllHardLinks` -/
def isAllHardLinks (l : DirectionalLinks) : Bool :=
  decide (l.left > Link.SoftLinks) && decide (l.top > Link.SoftLinks) &&
    decide (l.right > Link.SoftLinks) && decide (l.bottom > Link.SoftLinks)

/-- `DirectionalLinks::isShapeQuadrant` -/
def isShapeQuadrant (l : DirectionalLinks) : Bool :=
  !l.isAllHardLinks && !l.hasNoHardLinks

end DirectionalLinks

/-- `Sc::Isom::ShapeQuadrant`; the setters of the source are the fields of a structure value
here. -/
structure ShapeQuadrant where
  left : Nat := Link.None
  top : Nat := Link.None
  right : Nat := Link.None
  bottom : Nat := Link.None
  linkId : Nat := LinkId.None
  isStackTop : Bool := false
  deriving DecidableEq, Repr, Inhabited

/-- `ShapeQuadrant::matches` -/
def ShapeQuadrant.matches_ (q : ShapeQuadrant) (links : DirectionalLinks) (noStackAbove : Bool) :
    Bool :=
  (links.left == q.left || (decide (links.left ≤ Link.SoftLinks) && decide (q.left ≤ Link.SoftLinks))) &&
  (links.top == q.top || (decide (links.top ≤ Link.SoftLinks) && decide (q.top ≤ Link.SoftLinks))) &&
  (links.right == q.right || (decide (links.right ≤ Link.SoftLinks) && decide (q.right ≤ Link.SoftLinks))) &&
  (links.bottom == q.bottom || (decide (links.bottom ≤ Link.SoftLinks) && decide (q.bottom ≤ Link.SoftLinks))) &&
  (noStackAbove || !q.isStackTop)

/-- `Sc::Isom::Shape` -/
structure Shape where
  topLeft : ShapeQuadrant := {}
  topRight : ShapeQuadrant := {}
  bottomRight : ShapeQuadrant := {}
  bottomLeft : ShapeQuadrant := {}
  deriving DecidableEq, Repr, Inhabited

namespace Shape

/-! `Shape::Id` -/
def EdgeNorthWest : Nat := 0
def EdgeNorthEast : Nat := 1
def EdgeSouthEast : Nat := 2
def EdgeSouthWest : Nat := 3
def JutOutNorth : Nat := 4
def JutOutEast : Nat := 5
def JutOutSouth : Nat := 6
def JutOutWest : Nat := 7
def JutInEast : Nat := 8
def JutInWest : Nat := 9
def JutInNorth : Nat := 10
def JutInSouth : Nat := 11
def Horizontal : Nat := 12
def Vertical : Nat := 13

/-- `Shape::matches` -/
def matches_ (s : Shape) (quadrant : Quadrant) (links : DirectionalLinks) (noStackAbove : Bool) :
    Bool :=
  match quadrant with
  | Quadrant.TopLeft => s.topLeft.matches_ links noStackAbove
  | Quadrant.TopRight => s.topRight.matches_ links noStackAbove
  | Quadrant.BottomRight => s.bottomRight.matches_ links noStackAbove
  | Quadrant.BottomLeft => s.bottomLeft.matches_ links noStackAbove

end Shape

namespace ShapeDefinitions

/-- `ShapeDefinitions::edgeNorthWest` (shape 0). -/
def edgeNorthWest : Shape :=
  { topRight := { right := Link.BR, bottom := Link.BR, linkId := LinkId.TRBL_NW, isStackTop := true },
    bottomRight := { left := Link.BR, top := Link.BR },
    bottomLeft := { right := Link.BR, bottom := Link.FR, linkId := LinkId.TRBL_NW, isStackTop := true } }

/-- `ShapeDefinitions::edgeNorthEast` (shape 1). -/
def edgeNorthEast : Shape :=
  { topLeft := { left := Link.BL, bottom := Link.BL, linkId := LinkId.TLBR_NE, isStackTop := true },
    bottomRight := { left := Link.BL, bottom := Link.FL, linkId := LinkId.TLBR_NE, isStackTop := true },
    bottomLeft := { top := Link.BL, right := Link.BL } }

/-- `ShapeDefinitions::edgeSouthEast` (shape 2). -/
def edgeSouthEast : Shape :=
  { topLeft := { right := Link.TL, bottom := Link.TL },
    topRight := { left := Link.TL, top := Link.FL, linkId := LinkId.TRBL_SE },
    bottomLeft := { left := Link.TL, top := Link.TL, linkId := LinkId.TRBL_SE } }

/-- `ShapeDefinitions::edgeSouthWest` (shape 3). -/
def edgeSouthWest : Shape :=
  { topLeft := { top := Link.FR, right := Link.TR, linkId := LinkId.TLBR_SW },
    topRight := { left := Link.TR, bottom := Link.TR },
    bottomRight := { top := Link.TR, right := Link.TR, linkId := LinkId.TLBR_SW } }

/-- `ShapeDefinitions::jutOutNorth` (shape 4). -/
def jutOutNorth : Shape :=
  { bottomRight := { left := Link.BL, bottom := Link.BL, linkId := LinkId.TLBR_NE, isStackTop := true },
    bottomLeft := { right := Link.BR, bottom := Link.BR, linkId := LinkId.TRBL_NW, isStackTop := true } }

/-- `ShapeDefinitions::jutOutEast` (shape 5). -/
def jutOutEast : Shape :=
  { topLeft := { left := Link.BL, bottom := Link.FL, linkId := LinkId.TLBR_NE, isStackTop := true },
    bottomLeft := { left := Link.TL, top := Link.FL, linkId := LinkId.TRBL_SE } }

/-- `ShapeDefinitions::jutOutSouth` (shape 6). -/
def jutOutSouth : Shape :=
  { topLeft := { top := Link.TR, right := Link.TR, linkId := LinkId.TLBR_SW },
    topRight := { left := Link.TL, top := Link.TL, linkId := LinkId.TRBL_SE } }

/-- `ShapeDefinitions::jutOutWest` (shape 7). -/
def jutOutWest : Shape :=
  { topRight := { right := Link.BR, bottom := Link.FR, linkId := LinkId.TRBL_NW, isStackTop := true },
    bottomRight := { top := Link.FR, right := Link.TR, linkId := LinkId.TLBR_SW } }

/-- `ShapeDefinitions::jutInEast` (shape 8). -/
def jutInEast : Shape :=
  { topLeft := { top := Link.FR, right := Link.TR, linkId := LinkId.TLBR_SW },
    topRight := { left := Link.RH, bottom := Link.RH },
    bottomRight := { left := Link.RH, top := Link.RH },
    bottomLeft := { right := Link.BR, bottom := Link.FR, linkId := LinkId.TRBL_NW } }

/-- `ShapeDefinitions::jutInWest` (shape 9). -/
def jutInWest : Shape :=
  { topLeft := { right := Link.LH, bottom := Link.LH },
    topRight := { left := Link.TL, top := Link.FL, linkId := LinkId.TRBL_SE },
    bottomRight := { left := Link.BL, bottom := Link.FL, linkId := LinkId.TLBR_NE },
    bottomLeft := { top := Link.LH, right := Link.LH } }

/-- `ShapeDefinitions::jutInNorth` (shape 10). -/
def jutInNorth : Shape :=
  { topLeft := { left := Link.BL, bottom := Link.BL, linkId := LinkId.TLBR_NE, isStackTop := true },
    topRight := { right := Link.BR, bottom := Link.BR, linkId := LinkId.TRBL_NW, isStackTop := true },
    bottomRight := { left := Link.BR, top := Link.BR },
    bottomLeft := { top := Link.BL, right := Link.BL } }

/-- `ShapeDefinitions::jutInSouth` (shape 11). -/
def jutInSouth : Shape :=
  { topLeft := { right := Link.TL, bottom := Link.TL },
    topRight := { left := Link.TR, bottom := Link.TR },
    bottomRight := { top := Link.TR, right := Link.TR, linkId := LinkId.TLBR_SW },
    bottomLeft := { left := Link.TL, top := Link.TL, linkId := LinkId.TRBL_SE } }

/-- `ShapeDefinitions::horizontal` (shape 12). -/
def horizontal : Shape :=
  { topLeft := { top := Link.TR, right := Link.TR, linkId := LinkId.TLBR_SW },
    topRight := { left := Link.TL, top := Link.TL, linkId := LinkId.TRBL_SE },
    bottomRight := { left := Link.BL, bottom := Link.BL, linkId := LinkId.TLBR_NE },
    bottomLeft := { right := Link.BR, bottom := Link.BR, linkId := LinkId.TRBL_NW } }

/-- `ShapeDefinitions::vertical` (shape 13). -/
def vertical : Shape :=
  { topLeft := { left := Link.BL, bottom := Link.FL, linkId := LinkId.TLBR_NE },
    topRight := { right := Link.BR, bottom := Link.FR, linkId := LinkId.TRBL_NW },
    bottomRight := { top := Link.FR, right := Link.TR, linkId := LinkId.TLBR_SW },
    bottomLeft := { left := Link.TL, top := Link.FL, linkId := LinkId.TRBL_SE } }

/-- `ShapeDefinitions::shapes`, which `Sc::Isom::shapes` spans. -/
def shapes : List Shape :=
  [ edgeNorthWest, edgeNorthEast, edgeSouthEast, edgeSouthWest,
    jutOutNorth, jutOutEast, jutOutSouth, jutOutWest,
    jutInEast, jutInWest, jutInNorth, jutInSouth,
    horizontal, vertical ]

end ShapeDefinitions

/-- `Sc::Isom::ShapeTileGroup`: the tile group indexes used for the quadrants of a shape, each
`std::numeric_limits<uint16_t>::max()` until it is recorded. -/
structure ShapeTileGroup where
  topLeft : Nat := 65535
  topRight : Nat := 65535
  bottomRight : Nat := 65535
  bottomLeft : Nat := 65535
  deriving DecidableEq, Repr, Inhabited

namespace ShapeLinks

/-- The assignment `topLeft.right = v` on a row. -/
def setTopLeftRight (v : Nat) (s : ShapeLinks) : ShapeLinks :=
  { s with topLeft := { s.topLeft with right := v } }

/-- The assignment `topLeft.bottom = v` on a row. -/
def setTopLeftBottom (v : Nat) (s : ShapeLinks) : ShapeLinks :=
  { s with topLeft := { s.topLeft with bottom := v } }

/-- The assignment `topLeft.linkId = v` on a row. -/
def setTopLeftLinkId (v : Nat) (s : ShapeLinks) : ShapeLinks :=
  { s with topLeft := { s.topLeft with linkId := v } }

/-- The assignment `topRight.left = v` on a row. -/
def setTopRightLeft (v : Nat) (s : ShapeLinks) : ShapeLinks :=
  { s with topRight := { s.topRight with left := v } }

/-- The assignment `topRight.bottom = v` on a row. -/
def setTopRightBottom (v : Nat) (s : ShapeLinks) : ShapeLinks :=
  { s with topRight := { s.topRight with bottom := v } }

/-- The assignment `topRight.linkId = v` on a row. -/
def setTopRightLinkId (v : Nat) (s : ShapeLinks) : ShapeLinks :=
  { s with topRight := { s.topRight with linkId := v } }

/-- The assignment `bottomRight.left = v` on a row. -/
def setBottomRightLeft (v : Nat) (s : ShapeLinks) : ShapeLinks :=
  { s with bottomRight := { s.bottomRight with left := v } }

/-- The assignment `bottomRight.top = v` on a row. -/
def setBottomRightTop (v : Nat) (s : ShapeLinks) : ShapeLinks :=
  { s with bottomRight := { s.bottomRight with top := v } }

/-- The assignment `bottomRight.linkId = v` on a row. -/
def setBottomRightLinkId (v : Nat) (s : ShapeLinks) : ShapeLinks :=
  { s with bottomRight := { s.bottomRight with linkId := v } }

/-- The assignment `bottomLeft.top = v` on a row. -/
def setBottomLeftTop (v : Nat) (s : ShapeLinks) : ShapeLinks :=
  { s with bottomLeft := { s.bottomLeft with top := v } }

/-- The assignment `bottomLeft.right = v` on a row. -/
def setBottomLeftRight (v : Nat) (s : ShapeLinks) : ShapeLinks :=
  { s with bottomLeft := { s.bottomLeft with right := v } }

/-- The assignment `bottomLeft.linkId = v` on a row. -/
def setBottomLeftLinkId (v : Nat) (s : ShapeLinks) : ShapeLinks :=
  { s with bottomLeft := { s.bottomLeft with linkId := v } }

end ShapeLinks

/-- `Sc::Isom::TerrainTypeShapes`: the 14 rows of the link table of one terrain type, which
`generateIsomLinks` reaches through the cast of `isomLinks[terrainTypeIsomLinkStart]`; the member
`edgeNorthWest` is row `Shape.EdgeNorthWest` of the list, and so on in the order of `Shape::Id`. -/
abbrev TerrainTypeShapes : Type := List ShapeLinks

namespace TerrainTypeShapes

/-- A read of a member row (`operator[]`, or the member by its name). -/
def row (shapes : TerrainTypeShapes) (i : Nat) : ShapeLinks := shapes.getD i default

/-- An assignment to a field of the member row `i`: the row is replaced by `f` of itself. -/
def assign (shapes : TerrainTypeShapes) (i : Nat) (f : ShapeLinks → ShapeLinks) :
    TerrainTypeShapes :=
  shapes.set i (f (shapes.row i))

/-- `TerrainTypeShapes::populateJutInEastWest`; a read of `tilesetCv5s` past its end (a shape
tile group that was never recorded is 65535) yields the default tile group here. -/
def populateJutInEastWest (shapes : TerrainTypeShapes) (tilesetCv5s : List TileGroup)
    (shapeTileGroups : List ShapeTileGroup) : TerrainTypeShapes :=
  let shapes :=
    if (shapes.row Shape.JutInEast).topRight.left = Link.None then
      let northEast := tilesetCv5s.getD (shapeTileGroups.getD Shape.EdgeNorthEast default).bottomLeft default
      let southEast := tilesetCv5s.getD (shapeTileGroups.getD Shape.EdgeSouthEast default).topLeft default
      let shapes := shapes.assign Shape.JutInEast (ShapeLinks.setTopRightLeft northEast.links.left)
      let shapes := shapes.assign Shape.JutInEast (ShapeLinks.setTopRightBottom northEast.links.bottom)
      let shapes := shapes.assign Shape.JutInEast (ShapeLinks.setBottomRightLeft southEast.links.left)
      shapes.assign Shape.JutInEast (ShapeLinks.setBottomRightTop southEast.links.top)
    else shapes
  if (shapes.row Shape.JutInWest).topLeft.right = Link.None then
    let northWest := tilesetCv5s.getD (shapeTileGroups.getD Shape.EdgeNorthWest default).bottomRight default
    let southWest := tilesetCv5s.getD (shapeTileGroups.getD Shape.EdgeSouthWest default).topRight default
    let shapes := shapes.assign Shape.JutInWest (ShapeLinks.setTopLeftRight northWest.links.right)
    let shapes := shapes.assign Shape.JutInWest (ShapeLinks.setTopLeftBottom northWest.links.bottom)
    let shapes := shapes.assign Shape.JutInWest (ShapeLinks.setBottomLeftTop southWest.links.top)
    shapes.assign Shape.JutInWest (ShapeLinks.setBottomLeftRight southWest.links.right)
  else shapes

/-- `TerrainTypeShapes::populateEmptyQuadrantLinks`, assignment by assignment. -/
def populateEmptyQuadrantLinks (shapes : TerrainTypeShapes) : TerrainTypeShapes :=
  let shapes := shapes.assign Shape.EdgeNorthWest (ShapeLinks.setTopLeftRight (shapes.row Shape.EdgeNorthWest).topRight.left)
  let shapes := shapes.assign Shape.EdgeNorthWest (ShapeLinks.setTopLeftBottom (shapes.row Shape.EdgeNorthWest).bottomLeft.top)
  let shapes := shapes.assign Shape.EdgeNorthEast (ShapeLinks.setTopRightLeft (shapes.row Shape.EdgeNorthEast).topLeft.right)
  let shapes := shapes.assign Shape.EdgeNorthEast (ShapeLinks.setTopRightBottom (shapes.row Shape.EdgeNorthEast).bottomRight.top)
  let shapes := shapes.assign Shape.EdgeSouthEast (ShapeLinks.setBottomRightLeft (shapes.row Shape.EdgeSouthEast).bottomLeft.right)
  let shapes := shapes.assign Shape.EdgeSouthEast (ShapeLinks.setBottomRightTop (shapes.row Shape.EdgeSouthEast).topRight.bottom)
  let shapes := shapes.assign Shape.EdgeSouthWest (ShapeLinks.setBottomLeftTop (shapes.row Shape.EdgeSouthWest).topLeft.bottom)
  let shapes := shapes.assign Shape.EdgeSouthWest (ShapeLinks.setBottomLeftRight (shapes.row Shape.EdgeSouthWest).bottomRight.left)
  let shapes := shapes.assign Shape.JutOutNorth (ShapeLinks.setTopLeftBottom (shapes.row Shape.JutOutNorth).bottomLeft.top)
  let shapes := shapes.assign Shape.JutOutNorth (ShapeLinks.setTopLeftRight (shapes.row Shape.JutOutNorth).topLeft.bottom)
  let shapes := shapes.assign Shape.JutOutNorth (ShapeLinks.setTopRightBottom (shapes.row Shape.JutOutNorth).bottomRight.top)
  let shapes := shapes.assign Shape.JutOutNorth (ShapeLinks.setTopRightLeft (shapes.row Shape.JutOutNorth).topRight.bottom)
  let fillLink := (shapes.row Shape.JutOutEast).topLeft.right
  let shapes := shapes.assign Shape.JutOutEast (ShapeLinks.setTopRightLeft fillLink)
  let shapes := shapes.assign Shape.JutOutEast (ShapeLinks.setTopRightBottom fillLink)
  let shapes := shapes.assign Shape.JutOutEast (ShapeLinks.setBottomRightLeft fillLink)
  let shapes := shapes.assign Shape.JutOutEast (ShapeLinks.setBottomRightTop fillLink)
  let shapes := shapes.assign Shape.JutOutSouth (ShapeLinks.setBottomRightTop (shapes.row Shape.JutOutSouth).topRight.bottom)
  let shapes := shapes.assign Shape.JutOutSouth (ShapeLinks.setBottomRightLeft (shapes.row Shape.JutOutSouth).bottomRight.top)
  let shapes := shapes.assign Shape.JutOutSouth (ShapeLinks.setBottomLeftTop (shapes.row Shape.JutOutSouth).topLeft.bottom)
  let shapes := shapes.assign Shape.JutOutSouth (ShapeLinks.setBottomLeftRight (shapes.row Shape.JutOutSouth).bottomLeft.top)
  let fillLink := (shapes.row Shape.JutOutWest).topRight.left
  let shapes := shapes.assign Shape.JutOutWest (ShapeLinks.setTopLeftRight fillLink)
  let shapes := shapes.assign Shape.JutOutWest (ShapeLinks.setTopLeftBottom fillLink)
  let shapes := shapes.assign Shape.JutOutWest (ShapeLinks.setBottomLeftRight fillLink)
  let shapes := shapes.assign Shape.JutOutWest (ShapeLinks.setBottomLeftTop fillLink)
  shapes

/-- The body of the loop of `populateHardcodedLinkIds` for one `shapeIndex`. -/
def populateHardcodedLinkId (shapes : TerrainTypeShapes) (shapeIndex : Nat) : TerrainTypeShapes :=
  let shape := ShapeDefinitions.shapes.getD shapeIndex default
  let shapes :=
    if shape.topLeft.linkId ≥ LinkId.OnlyMatchSameType then
      shapes.assign shapeIndex (ShapeLinks.setTopLeftLinkId shape.topLeft.linkId)
    else shapes
  let shapes :=
    if shape.topRight.linkId ≥ LinkId.OnlyMatchSameType then
      shapes.assign shapeIndex (ShapeLinks.setTopRightLinkId shape.topRight.linkId)
    else shapes
  let shapes :=
    if shape.bottomRight.linkId ≥ LinkId.OnlyMatchSameType then
      shapes.assign shapeIndex (ShapeLinks.setBottomRightLinkId shape.bottomRight.linkId)
    else shapes
  if shape.bottomLeft.linkId ≥ LinkId.OnlyMatchSameType then
    shapes.assign shapeIndex (ShapeLinks.setBottomLeftLinkId shape.bottomLeft.linkId)
  else shapes

/-- `TerrainTypeShapes::populateHardcodedLinkIds` -/
def populateHardcodedLinkIds (shapes : TerrainTypeShapes) : TerrainTypeShapes :=
  (List.range ShapeDefinitions.shapes.length).foldl populateHardcodedLinkId shapes

/-- `TerrainTypeShapes::fillOuterLinkIds` -/
def fillOuterLinkIds (shapes : TerrainTypeShapes) (linkId : Nat) : TerrainTypeShapes :=
  let shapes := shapes.assign Shape.EdgeNorthWest (ShapeLinks.setTopLeftLinkId linkId)
  let shapes := shapes.assign Shape.EdgeNorthEast (ShapeLinks.setTopRightLinkId linkId)
  let shapes := shapes.assign Shape.EdgeSouthEast (ShapeLinks.setBottomRightLinkId linkId)
  let shapes := shapes.assign Shape.EdgeSouthWest (ShapeLinks.setBottomLeftLinkId linkId)
  let shapes := shapes.assign Shape.JutOutNorth (ShapeLinks.setTopLeftLinkId linkId)
  let shapes := shapes.assign Shape.JutOutNorth (ShapeLinks.setTopRightLinkId linkId)
  let shapes := shapes.assign Shape.JutOutEast (ShapeLinks.setTopRightLinkId linkId)
  let shapes := shapes.assign Shape.JutOutEast (ShapeLinks.setBottomRightLinkId linkId)
  let shapes := shapes.assign Shape.JutOutWest (ShapeLinks.setTopLeftLinkId linkId)
  let shapes := shapes.assign Shape.JutOutWest (ShapeLinks.setBottomLeftLinkId linkId)
  let shapes := shapes.assign Shape.JutOutSouth (ShapeLinks.setBottomRightLinkId linkId)
  let shapes := shapes.assign Shape.JutOutSouth (ShapeLinks.setBottomLeftLinkId linkId)
  shapes

/-- `TerrainTypeShapes::fillInnerLinkIds` -/
def fillInnerLinkIds (shapes : TerrainTypeShapes) (linkId : Nat) : TerrainTypeShapes :=
  let shapes := shapes.assign Shape.EdgeNorthWest (ShapeLinks.setBottomRightLinkId linkId)
  let shapes := shapes.assign Shape.EdgeNorthEast (ShapeLinks.setBottomLeftLinkId linkId)
  let shapes := shapes.assign Shape.EdgeSouthEast (ShapeLinks.setTopLeftLinkId linkId)
  let shapes := shapes.assign Shape.EdgeSouthWest (ShapeLinks.setTopRightLinkId linkId)
  let shapes := shapes.assign Shape.JutInEast (ShapeLinks.setTopRightLinkId linkId)
  let shapes := shapes.assign Shape.JutInEast (ShapeLinks.setBottomRightLinkId linkId)
  let shapes := shapes.assign Shape.JutInWest (ShapeLinks.setTopLeftLinkId linkId)
  let shapes := shapes.assign Shape.JutInWest (ShapeLinks.setBottomLeftLinkId linkId)
  let shapes := shapes.assign Shape.JutInNorth (ShapeLinks.setBottomRightLinkId linkId)
  let shapes := shapes.assign Shape.JutInNorth (ShapeLinks.setBottomLeftLinkId linkId)
  let shapes := shapes.assign Shape.JutInSouth (ShapeLinks.setTopLeftLinkId linkId)
  let shapes := shapes.assign Shape.JutInSouth (ShapeLinks.setTopRightLinkId linkId)
  shapes

/-- The body of the loop of `populateLinkIdsToSolidBrushes` for the row `i` of the table. -/
def populateLinkIdsToSolidBrush (tilesetCv5s : List TileGroup)
    (shapeTileGroups : List ShapeTileGroup) (isomLinks : List ShapeLinks)
    (shapes : TerrainTypeShapes) (i : Nat) : TerrainTypeShapes :=
  let brushLink := (isomLinks.getD i default).topLeft.right
  let brushLinkId := (isomLinks.getD i default).topLeft.linkId
  let northWest := shapeTileGroups.getD Shape.EdgeNorthWest default
  let shapes :=
    if brushLink = (tilesetCv5s.getD northWest.topRight default).links.left then
      shapes.fillOuterLinkIds brushLinkId
    else shapes
  if brushLink = (tilesetCv5s.getD northWest.bottomRight default).links.right then
    shapes.fillInnerLinkIds brushLinkId
  else shapes

/-- `TerrainTypeShapes::populateLinkIdsToSolidBrushes`; it reads only the rows below
`totalSolidBrushEntries` of the table, which lie before the rows of the block. -/
def populateLinkIdsToSolidBrushes (shapes : TerrainTypeShapes) (tilesetCv5s : List TileGroup)
    (shapeTileGroups : List ShapeTileGroup) (totalSolidBrushEntries : Nat)
    (isomLinks : List ShapeLinks) : TerrainTypeShapes :=
  (List.range totalSolidBrushEntries).foldl
    (populateLinkIdsToSolidBrush tilesetCv5s shapeTileGroups isomLinks) shapes

end TerrainTypeShapes

namespace Tiles

/-- The loop of `generateIsomLinks` that fills `terrainTypeTileGroups`: the even tile group
indexes of each terrain type, in increasing order. A terrain type past the end of the vector
(undefined in the source) leaves the vector as it is. -/
def collectTileGroups (tilesetCv5s : List TileGroup) (totalTerrainTypes : Nat) : List (List Nat) :=
  (evenIndices tilesetCv5s.length).foldl
    (fun terrainTypeTileGroups i =>
      let terrainType := (tilesetCv5s.getD i default).terrainType
      if terrainType > 0 then
        terrainTypeTileGroups.set terrainType (terrainTypeTileGroups.getD terrainType [] ++ [i % U16])
      else terrainTypeTileGroups)
    (List.replicate totalTerrainTypes [])

/-- The `std::sort` by `isomValue` of `generateIsomLinks`. Descriptors of equal `isomValue`,
whose order the source leaves open, keep their order here; in the built-in tables the non-zero
values are pairwise different. -/
def sortByIsomValue (l : List TerrainTypeInfo) : List TerrainTypeInfo :=
  l.insertionSort fun l r => l.isomValue ≤ r.isomValue

/-- The vector `solidBrushes` of `generateIsomLinks` after the sort: the descriptors
`terrainTypes[i]`, `1 <= i <= size/2`, with a non-zero `isomValue`. -/
def solidBrushes (terrainTypes : List TerrainTypeInfo) : List TerrainTypeInfo :=
  sortByIsomValue
    (((List.range' 1 (terrainTypes.length / 2)).map fun i => terrainTypes.getD i default).filter
      fun t => t.isomValue != 0)

/-- The vector `otherTerrainTypes` of `generateIsomLinks` after the sort: `{uint16_t(i),
terrainTypes[i].isomValue}` for `size/2 < i < size` with a non-zero `isomValue`. -/
def otherTerrainTypes (terrainTypes : List TerrainTypeInfo) : List TerrainTypeInfo :=
  sortByIsomValue
    (((List.range' (terrainTypes.length / 2 + 1)
        (terrainTypes.length - (terrainTypes.length / 2 + 1))).filter
      fun i => (terrainTypes.getD i default).isomValue != 0).map
      fun i => { index := i % U16, isomValue := (terrainTypes.getD i default).isomValue })

/-- The loop `while ( isomLinks.size() < size ) isomLinks.push_back(ShapeLinks{})`. -/
def padIsomLinks (isomLinks : List ShapeLinks) (size : Nat) : List ShapeLinks :=
  isomLinks ++ List.replicate (size - isomLinks.length) ({} : ShapeLinks)

/-- The body of the loop over `solidBrushes`: padding up to the `isomValue`, then the row made
of the links of the first tile group of the terrain type (the model reads tile group 0 when the
terrain type has no tile group, which the source leaves undefined). -/
def addSolidBrush (tilesetCv5s : List TileGroup) (terrainTypeTileGroups : List (List Nat))
    (isomLinks : List ShapeLinks) (solidBrush : TerrainTypeInfo) : List ShapeLinks :=
  let isomLinks := padIsomLinks isomLinks solidBrush.isomValue
  let tileGroup := (terrainTypeTileGroups.getD solidBrush.index []).getD 0 0
  let links := (tilesetCv5s.getD tileGroup default).links
  isomLinks ++
    [{ terrainType := solidBrush.index % 256,
       topLeft := { right := links.right, bottom := links.bottom, linkId := solidBrush.linkId },
       topRight := { left := links.left, bottom := links.bottom, linkId := solidBrush.linkId },
       bottomRight := { left := links.left, top := links.top, linkId := solidBrush.linkId },
       bottomLeft := { top := links.top, right := links.right, linkId := solidBrush.linkId } }]

/-- The body of the loop over `shapeIndex` for one tile group of a terrain type: the shape rows
and `shapeTileGroups` after the four quadrant checks. -/
def matchShape (tileGroup : TileGroup) (tileGroupIndex : Nat) (noStackAbove : Bool)
    (state : TerrainTypeShapes × List ShapeTileGroup) (shapeIndex : Nat) :
    TerrainTypeShapes × List ShapeTileGroup :=
  if !tileGroup.links.isShapeQuadrant then state
  else
    let checkShape := ShapeDefinitions.shapes.getD shapeIndex default
    let state :=
      if checkShape.matches_ Quadrant.TopLeft tileGroup.links noStackAbove then
        ((state.1.assign shapeIndex (ShapeLinks.setTopLeftRight tileGroup.links.right)).assign
            shapeIndex (ShapeLinks.setTopLeftBottom tileGroup.links.bottom),
          state.2.set shapeIndex
            { state.2.getD shapeIndex default with topLeft := tileGroupIndex })
      else state
    let state :=
      if checkShape.matches_ Quadrant.TopRight tileGroup.links noStackAbove then
        ((state.1.assign shapeIndex (ShapeLinks.setTopRightLeft tileGroup.links.left)).assign
            shapeIndex (ShapeLinks.setTopRightBottom tileGroup.links.bottom),
          state.2.set shapeIndex
            { state.2.getD shapeIndex default with topRight := tileGroupIndex })
      else state
    let state :=
      if checkShape.matches_ Quadrant.BottomRight tileGroup.links noStackAbove then
        ((state.1.assign shapeIndex (ShapeLinks.setBottomRightLeft tileGroup.links.left)).assign
            shapeIndex (ShapeLinks.setBottomRightTop tileGroup.links.top),
          state.2.set shapeIndex
            { state.2.getD shapeIndex default with bottomRight := tileGroupIndex })
      else state
    if checkShape.matches_ Quadrant.BottomLeft tileGroup.links noStackAbove then
      ((state.1.assign shapeIndex (ShapeLinks.setBottomLeftTop tileGroup.links.top)).assign
          shapeIndex (ShapeLinks.setBottomLeftRight tileGroup.links.right),
        state.2.set shapeIndex
          { state.2.getD shapeIndex default with bottomLeft := tileGroupIndex })
    else state

/-- The body of the loop over `tileGroupIndexes`. -/
def matchTileGroup (tilesetCv5s : List TileGroup)
    (state : TerrainTypeShapes × List ShapeTileGroup) (tileGroupIndex : Nat) :
    TerrainTypeShapes × List ShapeTileGroup :=
  let tileGroup := tilesetCv5s.getD tileGroupIndex default
  let noStackAbove := tileGroup.stackConnections.top == 0
  (List.range ShapeDefinitions.shapes.length).foldl
    (matchShape tileGroup tileGroupIndex noStackAbove) state

/-- The body of the loop over `otherTerrainTypes`: the 14 rows of the terrain type, pushed with
its index, then populated from its tile groups and from the solid brush rows. -/
def addTerrainTypeShapes (tilesetCv5s : List TileGroup) (terrainTypeTileGroups : List (List Nat))
    (totalSolidBrushEntries : Nat) (isomLinks : List ShapeLinks)
    (otherTerrainType : TerrainTypeInfo) : List ShapeLinks :=
  let pushed : TerrainTypeShapes :=
    List.replicate 14 ({ terrainType := otherTerrainType.index % 256 } : ShapeLinks)
  let tileGroupIndexes := terrainTypeTileGroups.getD otherTerrainType.index []
  let state := tileGroupIndexes.foldl (matchTileGroup tilesetCv5s) (pushed, List.replicate 14 ({} : ShapeTileGroup))
  let shapes := state.1.populateJutInEastWest tilesetCv5s state.2
  let shapes := shapes.populateEmptyQuadrantLinks
  let shapes := shapes.populateHardcodedLinkIds
  let shapes :=
    shapes.populateLinkIdsToSolidBrushes tilesetCv5s state.2 totalSolidBrushEntries isomLinks
  isomLinks ++ shapes

/-- `Tiles::generateIsomLinks`, from the tile groups and the terrain type descriptors of the
tileset to the table `isomLinks`, which is empty before the call. -/
def generateIsomLinks (tileGroups : List TileGroup) (terrainTypes : List TerrainTypeInfo) :
    List ShapeLinks :=
  let totalTileGroups := min 1024 tileGroups.length
  let tilesetCv5s := tileGroups.take totalTileGroups
  let terrainTypeTileGroups := collectTileGroups tilesetCv5s terrainTypes.length
  let isomLinks :=
    (solidBrushes terrainTypes).foldl (addSolidBrush tilesetCv5s terrainTypeTileGroups) []
  let totalSolidBrushEntries := isomLinks.length
  let isomLinks :=
    padIsomLinks isomLinks ((otherTerrainTypes terrainTypes).getD 0 default).isomValue
  (otherTerrainTypes terrainTypes).foldl
    (addTerrainTypeShapes tilesetCv5s terrainTypeTileGroups totalSolidBrushEntries) isomLinks

end Tiles

end IsomTerrain

namespace IsomTerrain

namespace World

/-! ## `ScMap::resizeIsom` -/

/-- The values `lo, lo+2, ..` below `hi` visited by `for ( size_t x=lo; x<hi; x+=2 )` (for `hi`
at least two below the largest `size_t`). -/
def rangeStep2 (lo hi : Nat) : List Nat := List.range' lo ((hi + 1 - lo) / 2) 2

/-- The test `x >= left && x < right && y >= top && y < bottom` of `resizeIsom`. -/
def insideInnerArea (innerArea : BoundingBox) (rectCoords : Point) : Bool :=
  decide (rectCoords.x ≥ innerArea.left) && decide (rectCoords.x < innerArea.right) &&
    decide (rectCoords.y ≥ innerArea.top) && decide (rectCoords.y < innerArea.bottom)

/-- The test `x < left || x >= right || y < top || y >= bottom` of the first loop of
`resizeIsom`. -/
def outsideInnerArea (innerArea : BoundingBox) (rectCoords : Point) : Bool :=
  decide (rectCoords.x < innerArea.left) || decide (rectCoords.x ≥ innerArea.right) ||
    decide (rectCoords.y < innerArea.top) || decide (rectCoords.y ≥ innerArea.bottom)

/-- The test `x < left || x >= right || y < top || y < bottom` of the last loop of
`resizeIsom`. -/
def outsideInnerAreaFinal (innerArea : BoundingBox) (rectCoords : Point) : Bool :=
  decide (rectCoords.x < innerArea.left) || decide (rectCoords.x ≥ innerArea.right) ||
    decide (rectCoords.y < innerArea.top) || decide (rectCoords.y < innerArea.bottom)

/-- The loop `for ( auto i : quadrants ) if ( isInBounds(rectCoords) )
isomRectAt(rectCoords).setModified(i);` for the diamond `(x, y)`. -/
def markDiamondModified (x y : Nat) (w : World) : World :=
  quadrants.foldl
    (fun w1 i =>
      let rectCoords := IsomDiamond.getRectangleCoords ⟨x, y⟩ i
      if w1.map.isInBounds rectCoords then
        { w1 with
          map := w1.map.setIsomRect rectCoords
            ((w1.map.getIsomRect rectCoords).setModified (ProjectedQuadrant.atQuadrant i)) }
      else w1)
    w

/-- The variables `fullyInside`, `fullyOutside` and `isomValue` after the first quadrant loop
of the first loop of `resizeIsom` for the diamond `(x, y)`. -/
def resizeScan (innerArea : BoundingBox) (x y : Nat) (m : ScMap) : Bool × Bool × Nat :=
  quadrants.foldl
    (fun (s : Bool × Bool × Nat) i =>
      let rectCoords := IsomDiamond.getRectangleCoords ⟨x, y⟩ i
      if m.isInBounds rectCoords then
        if insideInnerArea innerArea rectCoords then
          (s.1, false,
            (m.getIsomRect rectCoords).getIsomValue (ProjectedQuadrant.atQuadrant i).firstSide
              >>> 4)
        else (false, s.2.1, s.2.2)
      else s)
    (true, true, 0)

/-- The neighbours pushed onto `edges` for the diamond `(x, y)` when `fixBorders` is set. -/
def resizeEdgesOf (innerArea : BoundingBox) (x y : Nat) (m : ScMap) : List IsomDiamond :=
  (neighbors.map fun i => IsomDiamond.getNeighbor ⟨x, y⟩ i).filter fun neighbor =>
    m.isInBounds neighbor &&
      (decide (neighbor.x < innerArea.left) || decide (neighbor.x > innerArea.right) ||
        decide (neighbor.y < innerArea.top) || decide (neighbor.y > innerArea.bottom))

/-- The body of the first loop of `resizeIsom` for `(x, y)`; the state is the world and the
vector `edges`. -/
def resizeFirstCell (innerArea : BoundingBox) (fixBorders : Bool) (x y : Nat)
    (s : World × List IsomDiamond) : World × List IsomDiamond :=
  if (x + y) % SIZE_MAX1 % 2 != 0 then s
  else
    let scan := resizeScan innerArea x y s.1.map
    let fullyInside := scan.1
    let fullyOutside := scan.2.1
    let isomValue := scan.2.2
    if fullyOutside then s
    else
      let s1 : World × List IsomDiamond :=
        if !fullyInside then
          let w1 := quadrants.foldl
            (fun w0 i =>
              let rectCoords := IsomDiamond.getRectangleCoords ⟨x, y⟩ i
              if outsideInnerArea innerArea rectCoords then
                setIsomValue rectCoords i isomValue false w0
              else w0)
            s.1
          (w1, if fixBorders then s.2 ++ resizeEdgesOf innerArea x y w1.map else s.2)
        else s
      (markDiamondModified x y s1.1, s1.2)

/-- The first loop of `resizeIsom`. -/
def resizeFirstLoop (innerArea : BoundingBox) (fixBorders : Bool) (w : World) :
    World × List IsomDiamond :=
  (rangeIncl innerArea.top innerArea.bottom).foldl
    (fun sy y =>
      (rangeStep2 ((innerArea.left + (innerArea.left + y) % SIZE_MAX1 % 2) % SIZE_MAX1)
          (sizeInc innerArea.right)).foldl
        (fun sx x => resizeFirstCell innerArea fixBorders x y sx) sy)
    (w, [])

/-- The comparator of the `std::sort` of `edges`, as the non-strict order `!(r < l)`. -/
def edgeLe (l r : IsomDiamond) : Bool :=
  !(if (r.x + r.y) % SIZE_MAX1 != (l.x + l.y) % SIZE_MAX1 then
      decide ((r.x + r.y) % SIZE_MAX1 < (l.x + l.y) % SIZE_MAX1)
    else if max r.x r.y - min r.x r.y != max l.x l.y - min l.x l.y then
      decide (max r.x r.y - min r.x r.y < max l.x l.y - min l.x l.y)
    else decide (r.x < l.x))

/-- The `std::sort` of `edges`. -/
def sortEdges (edges : List IsomDiamond) : List IsomDiamond :=
  edges.insertionSort fun l r => edgeLe l r = true

/-- The loop of `resizeIsom` that clears the editor flags of the changed area. -/
def resizeClearChanged (w : World) : World :=
  (rangeIncl w.cache.changedArea.top w.cache.changedArea.bottom).foldl
    (fun wy y =>
      (rangeIncl w.cache.changedArea.left w.cache.changedArea.right).foldl
        (fun wx x =>
          { wx with map := wx.map.setIsomRect ⟨x, y⟩ (wx.map.getIsomRect ⟨x, y⟩).clearEditorFlags })
        wy)
    w

/-- The second marking loop of `resizeIsom`: the diamonds of the inner area with an in-bounds
quadrant inside it are marked as modified. -/
def resizeMarkInner (innerArea : BoundingBox) (w : World) : World :=
  (rangeIncl innerArea.top innerArea.bottom).foldl
    (fun wy y =>
      (rangeStep2 ((innerArea.left + (innerArea.left + y) % SIZE_MAX1 % 2) % SIZE_MAX1)
          (innerArea.right + 1)).foldl
        (fun wx x =>
          if (x + y) % SIZE_MAX1 % 2 != 0 then wx
          else
            let fullyOutside := !(quadrants.any fun i =>
              wx.map.isInBounds (IsomDiamond.getRectangleCoords ⟨x, y⟩ i) &&
                insideInnerArea innerArea (IsomDiamond.getRectangleCoords ⟨x, y⟩ i))
            if !fullyOutside then markDiamondModified x y wx else wx)
        wy)
    w

/-- The loop of `resizeIsom` that clears the editor flags of the inner area. -/
def resizeClearInner (innerArea : BoundingBox) (w : World) : World :=
  (List.range' innerArea.top (innerArea.bottom - innerArea.top)).foldl
    (fun wy y =>
      (List.range' innerArea.left (innerArea.right - innerArea.left)).foldl
        (fun wx x =>
          { wx with map := wx.map.setIsomRect ⟨x, y⟩ (wx.map.getIsomRect ⟨x, y⟩).clearEditorFlags })
        wy)
    w

/-- The last loop of `resizeIsom`: every diamond of the grid with an in-bounds quadrant that
passes the test `outsideInnerAreaFinal` is marked as modified. -/
def resizeMarkOuter (innerArea : BoundingBox) (w : World) : World :=
  (List.range w.cache.isomHeight).foldl
    (fun wy y =>
      (rangeStep2 (y % 2) w.cache.isomWidth).foldl
        (fun wx x =>
          if (x + y) % SIZE_MAX1 % 2 != 0 then wx
          else
            let fullyInside := !(quadrants.any fun i =>
              wx.map.isInBounds (IsomDiamond.getRectangleCoords ⟨x, y⟩ i) &&
                outsideInnerAreaFinal innerArea (IsomDiamond.getRectangleCoords ⟨x, y⟩ i))
            if !fullyInside then markDiamondModified x y wx else wx)
        wy)
    w

/-- The box `innerArea` of `resizeIsom`; the sums are `size_t` sums with the offsets converted
to `size_t`. -/
def resizeInnerArea (xTileOffset yTileOffset : Int) (oldMapWidth oldMapHeight : Nat)
    (c : IsomCache) : BoundingBox :=
  let xDiamondOffset := Int.tdiv xTileOffset 2
  let yDiamondOffset := yTileOffset
  let oldIsomWidth := (oldMapWidth / 2 + 1) % SIZE_MAX1
  let oldIsomHeight := (oldMapHeight + 1) % SIZE_MAX1
  let sourceRc := BoundingBox.new oldIsomWidth oldIsomHeight c.isomWidth c.isomHeight
    xDiamondOffset yDiamondOffset
  { left := (sourceRc.left + toSize xDiamondOffset) % SIZE_MAX1
    top := (sourceRc.top + toSize yDiamondOffset) % SIZE_MAX1
    right := sizeDec ((sourceRc.right + toSize xDiamondOffset) % SIZE_MAX1)
    bottom := sizeDec ((sourceRc.bottom + toSize yDiamondOffset) % SIZE_MAX1) }

/-- `ScMap::resizeIsom`: the map is the map of `w`, whose cache is the parameter `cache`; the
offsets are `int32_t` values.  The result is the state at `return true`; `none`: the fuel of
`radiallyUpdateTerrain` did not suffice. -/
def resizeIsom (fuel : Nat) (xTileOffset yTileOffset : Int) (oldMapWidth oldMapHeight : Nat)
    (fixBorders : Bool) (w : World) : Option World :=
  let innerArea := resizeInnerArea xTileOffset yTileOffset oldMapWidth oldMapHeight w.cache
  let s1 := resizeFirstLoop innerArea fixBorders w
  let edges := sortEdges s1.2
  let diamondsToUpdate := edges.filter fun edge => s1.1.map.diamondNeedsUpdate edge
  match radiallyUpdateTerrain false fuel diamondsToUpdate s1.1 with
  | none => none
  | some w2 =>
    let w3 := resizeClearChanged w2
    let w4 := resizeMarkInner innerArea w3
    let w5 := { w4 with cache := w4.cache.setAllChanged }
    let w6 := resizeClearInner innerArea w5
    some (resizeMarkOuter innerArea w6)

end World

end IsomTerrain

namespace IsomTerrain

/-! ## Concrete inputs used by the witnesses and counterexamples -/

/-- A link row whose four link ids are all `id`. -/
def uniformRow (tt id : Nat) : ShapeLinks :=
  { terrainType := tt, topLeft := { linkId := id }, topRight := { linkId := id },
    bottomRight := { linkId := id }, bottomLeft := { linkId := id } }

/-- A link row whose eight edge links are pairwise different. -/
def probeRow : ShapeLinks :=
  { terrainType := 1
    topLeft := { right := 1, bottom := 2 }
    topRight := { left := 3, bottom := 4 }
    bottomRight := { left := 5, top := 6 }
    bottomLeft := { top := 7, right := 8 } }

/-- A 2x1-tile map (2x2 isom rectangles): the diamond (0,0) holds row 1, the diamond (1,1)
holds row 2, nothing is modified or visited. -/
def demoMap : ScMap :=
  { tileWidth := 2, tileHeight := 1, tiles := [0, 0], editorTiles := [0, 0]
    isomRects :=
      [ { left := 16, top := 16, right := 16, bottom := 16 }, {}, {},
        { left := 32, top := 32, right := 32, bottom := 32 } ] }

/-- A cache for `demoMap` with a three-row link table and two terrain types. -/
def demoCache : IsomCache :=
  { isomWidth := 2, isomHeight := 2
    changedArea := { left := 2, top := 2, right := 0, bottom := 0 }
    undoMap := [none, none, none, none]
    isomLinks := [uniformRow 0 9, uniformRow 1 0, uniformRow 1 7]
    terrainTypes := [{}, { index := 1, isomValue := 1 }]
    terrainTypeMap := [0, 0, 0, 1] }

def demoWorld : World := { map := demoMap, cache := demoCache }

/-- The state after placing terrain type 1 with a brush of extent 1 on the diamond (0,0) of
`demoWorld`. -/
def demoPlaced : World :=
  ((World.placeIsomTerrain 100 ⟨0, 0⟩ 1 1 demoWorld).getD (false, demoWorld)).2


/-- A link table of 65536 identical rows of terrain type 1. -/
def bigLinks : List ShapeLinks := List.replicate 65536 (uniformRow 1 0)

/-- A 2x1-tile map whose diamond (1,1) holds row 1 (unmodified, unvisited), with a cache whose
link table is `bigLinks`. -/
def bigWorld : World :=
  { map :=
      { tileWidth := 2, tileHeight := 1, tiles := [0, 0], editorTiles := [0, 0]
        isomRects := [{}, {}, {}, { left := 16, top := 16, right := 16, bottom := 16 }] }
    cache :=
      { isomWidth := 2, isomHeight := 2
        changedArea := { left := 2, top := 2, right := 0, bottom := 0 }
        undoMap := [none, none, none, none]
        isomLinks := bigLinks
        terrainTypes := [{}, { index := 1, isomValue := 1 }]
        terrainTypeMap := [0, 0, 0, 1] } }

/-- The state and the queue after the brush loops of `placeIsomTerrain` on `bigWorld` for the
diamond (0,0), terrain type 1 (row 1) and extent 1. -/
def bigBrushed : World × List IsomDiamond :=
  World.placeBrush ⟨0, 0⟩ 1 (World.brushMin 1) (World.brushMax 1)
    ({ bigWorld with cache := bigWorld.cache.resetChangedArea }, [])

/-- An empty 2x1-tile map (2x2 isom rectangles, all zero) with a cache whose link table has
2049 rows and whose terrain type 1 has the isomValue 2048. -/
def highRowWorld : World :=
  { map :=
      { tileWidth := 2, tileHeight := 1, tiles := [0, 0], editorTiles := [0, 0]
        isomRects := [{}, {}, {}, {}] }
    cache :=
      { isomWidth := 2, isomHeight := 2
        changedArea := { left := 2, top := 2, right := 0, bottom := 0 }
        undoMap := [none, none, none, none]
        isomLinks := List.replicate 2049 (uniformRow 1 0)
        terrainTypes := [{}, { index := 1, isomValue := 2048 }]
        terrainTypeMap := [0, 0, 0, 1] } }

/-- The state and the queue after the brush loops of `placeIsomTerrain` on `highRowWorld` for
the diamond (0,0), terrain type 1 (row 2048) and extent 1; the queue is empty, so this is also
the state in which the call returns. -/
def highRowBrushed : World × List IsomDiamond :=
  World.placeBrush ⟨0, 0⟩ 2048 (World.brushMin 1) (World.brushMax 1)
    ({ highRowWorld with cache := highRowWorld.cache.resetChangedArea }, [])

end IsomTerrain

namespace IsomTerrain

/-! ## Concrete inputs for the resizing operations -/

/-- A 2x2-tile source map (2x3 isom rectangles) with six different rectangles. -/
def copySource : ScMap :=
  { tileWidth := 2, tileHeight := 2, tiles := [0, 0, 0, 0], editorTiles := [0, 0, 0, 0]
    isomRects :=
      [ { left := 16, top := 16, right := 16, bottom := 16 },
        { left := 32, top := 32, right := 32, bottom := 32 },
        { left := 48, top := 48, right := 48, bottom := 48 },
        { left := 64, top := 64, right := 64, bottom := 64 },
        { left := 80, top := 80, right := 80, bottom := 80 },
        { left := 96, top := 96, right := 96, bottom := 96 } ] }

/-- A 2x2-tile destination whose six rectangles hold the value 112, with a fresh cache. -/
def copyDest : World :=
  { map :=
      { tileWidth := 2, tileHeight := 2, tiles := [0, 0, 0, 0], editorTiles := [0, 0, 0, 0]
        isomRects := List.replicate 6 { left := 112, top := 112, right := 112, bottom := 112 } }
    cache := IsomCache.new 2 2 [] [] [] [] [] }

/-- A 0x0-tile source map: one isom rectangle. -/
def tinySource : ScMap :=
  { tileWidth := 0, tileHeight := 0
    isomRects := [ { left := 16, top := 16, right := 16, bottom := 16 } ] }

/-- A 4x1-tile destination (3x2 isom rectangles) whose rectangles hold the value 112, with a
fresh cache. -/
def wideDest : World :=
  { map :=
      { tileWidth := 4, tileHeight := 1, tiles := [0, 0, 0, 0], editorTiles := [0, 0, 0, 0]
        isomRects := List.replicate 6 { left := 112, top := 112, right := 112, bottom := 112 } }
    cache := IsomCache.new 4 1 [] [] [] [] [] }

end IsomTerrain

namespace IsomTerrain

/-! ## Concrete inputs for the tile projection -/

/-- A tile group with the given stack connections and megatile indices. -/
def stackGroup (top bottom : Nat) (mega : List Nat) : TileGroup :=
  { stackConnections := { top := top, bottom := bottom }, megaTileIndex := mega }

/-- A 2x3-tile map whose rows hold the groups (2, 3), (4, 5), (6, 7); the groups 2, 4, 6 stack
on each other; all rectangles are zero (hash 0) and the bucket of hash 0 lists 2, 4, 6. -/
def stackWorld : World :=
  { map :=
      { tileWidth := 2, tileHeight := 3
        tiles := [37, 53, 65, 81, 96, 112], editorTiles := [37, 53, 65, 81, 96, 112]
        isomRects := List.replicate 8 {} }
    cache := IsomCache.new 2 3
      [ stackGroup 0 0 [], stackGroup 0 0 [], stackGroup 0 7 [1, 1, 1], stackGroup 0 0 [],
        stackGroup 7 9 [1, 1, 0, 1, 1], stackGroup 0 0 [], stackGroup 9 0 [1],
        stackGroup 0 0 [] ]
      [] [] [] [(0, [2, 4, 6])]
    rand := fun n => 7 * n + 3 }

/-- The world `stackWorld` with an empty hash index. -/
def noHashWorld : World :=
  { stackWorld with cache := { stackWorld.cache with hashToTileGroup := [] } }

/-- A 2x1-tile map of zero rectangles whose hash index lists the group 4095 for the hash 0. -/
def lastGroupWorld : World :=
  { map :=
      { tileWidth := 2, tileHeight := 1, tiles := [0, 0], editorTiles := [0, 0]
        isomRects := List.replicate 4 {} }
    cache := IsomCache.new 2 1 [] [] [] [] [(0, [4095])] }

end IsomTerrain

namespace IsomTerrain

/-! ## Concrete inputs for the hash index -/

/-- A tile group with the given terrain type and links. -/
def linkGroup (terrainType left top right bottom : Nat) : TileGroup :=
  { terrainType := terrainType
    links := { left := left, top := top, right := right, bottom := bottom } }

/-- Five tile groups: the groups 0 and 4 have the same soft links, the group 2 has a hard
link. -/
def hashGroups : List TileGroup :=
  [ linkGroup 5 1 2 3 4, linkGroup 5 1 2 3 4, linkGroup 6 49 2 3 4, linkGroup 6 49 2 3 4,
    linkGroup 7 1 2 3 4 ]

end IsomTerrain

namespace IsomTerrain

/-! ## Concrete inputs of the hash and search lemmas -/

/-- A link row of terrain type 5 whose eight edge links are the hard links 49..56. -/
def hardRow : ShapeLinks :=
  { terrainType := 5
    topLeft := { right := 49, bottom := 50 }
    topRight := { left := 51, bottom := 52 }
    bottomRight := { left := 53, top := 54 }
    bottomLeft := { top := 55, right := 56 } }

/-- A three-row link table: the empty row, `probeRow` and `hardRow`. -/
def hashLinks : List ShapeLinks := [{}, probeRow, hardRow]

/-- A rectangle whose left and bottom fields refer to `hardRow` (row 2) and whose top and right
fields refer to `probeRow` (row 1); the left field carries the `Modified` bit and the right
field the `Visited` bit. -/
def hashRect : IsomRect := { left := 0x25, top := 0x1A, right := 0x8010, bottom := 0x22 }

/-- The grid of `demoMap` with the row 2 in every field of every rectangle. -/
def flatMap : ScMap :=
  { tileWidth := 2, tileHeight := 1, tiles := [0, 0], editorTiles := [0, 0]
    isomRects := List.replicate 4 { left := 32, top := 32, right := 32, bottom := 32 } }

/-- The map `flatMap` with the cache of `demoWorld`. -/
def flatWorld : World := { map := flatMap, cache := demoCache }

/-- The state after placing terrain type 1 with a brush of extent 1 on the diamond (0,0) of
`flatWorld`. -/
def flatPlaced : World :=
  ((World.placeIsomTerrain 100 ⟨0, 0⟩ 1 1 flatWorld).getD (false, flatWorld)).2

/-- A six-row link table with the terrain types 0, 1, 2, 3, 1, 3: the rows 3 and 5 have the
type 3 and the row 4 between them has the lower type 1. -/
def sweepLinks : List ShapeLinks :=
  [{}, uniformRow 1 9, uniformRow 2 9, uniformRow 3 7, uniformRow 1 9,
    { terrainType := 3, topLeft := { linkId := 7 } }]

/-- A cache with four terrain types (so `terrainTypes.size()/2 + 1` is the type 3) over
`sweepLinks`; the terrain type map sends every pair to the type 1. -/
def sweepCache : IsomCache :=
  { isomWidth := 2, isomHeight := 2
    undoMap := [none, none, none, none]
    isomLinks := sweepLinks
    terrainTypes := [{}, { index := 1, isomValue := 1 }, { index := 2, isomValue := 2 },
      { index := 3, isomValue := 3 }]
    terrainTypeMap := List.replicate 16 1 }

/-- A 2x1-tile map whose diamond (0,0) holds the row 3 and is modified, and whose diamond
(1,1) holds the row 1. -/
def sweepMap : ScMap :=
  { tileWidth := 2, tileHeight := 1, tiles := [0, 0], editorTiles := [0, 0]
    isomRects :=
      [ { left := 0x31, top := 0x31, right := 0x30, bottom := 0x30 }, {}, {},
        { left := 0x10, top := 0x10, right := 0x10, bottom := 0x10 } ] }

/-- A link row whose bottom-right link id differs from its three other link ids. -/
def skewRow : ShapeLinks :=
  { terrainType := 1, topLeft := { linkId := 5 }, topRight := { linkId := 5 },
    bottomRight := { linkId := 6 }, bottomLeft := { linkId := 5 } }

/-- The map of `demoWorld` with a link table of three rows `skewRow`: no row matches the
neighbours of any diamond. -/
def lonelyWorld : World :=
  { map := demoMap, cache := { demoCache with isomLinks := [skewRow, skewRow, skewRow] } }

end IsomTerrain

namespace IsomTerrain

/-! ## A tile group table for the Badlands tileset -/

/-- The tile groups of `badlandsGroups` that matter, each as `terrainType, links.left, links.top,
links.right, links.bottom, stackConnections.top`: one group of four equal soft links for each of
the nine solid brushes, then for each of the eight other terrain types the groups with two hard
links that the quadrants of the 14 shapes match. -/
def badlandsGroupData : List (List Nat) :=
  [ [2, 1, 1, 1, 1, 0], [3, 4, 4, 4, 4, 0], [4, 15, 15, 15, 15, 0], [5, 5, 5, 5, 5, 0],
    [6, 2, 2, 2, 2, 0], [7, 3, 3, 3, 3, 0], [14, 10, 10, 10, 10, 0], [15, 11, 11, 11, 11, 0],
    [18, 14, 14, 14, 14, 0], [20, 1, 1, 51, 51, 0], [20, 51, 51, 2, 0, 0], [20, 1, 1, 51, 53, 0],
    [20, 49, 1, 1, 49, 0], [20, 49, 1, 1, 54, 0], [20, 0, 49, 49, 0, 0], [20, 0, 0, 52, 52, 0],
    [20, 52, 54, 1, 1, 0], [20, 52, 52, 1, 1, 0], [20, 1, 53, 50, 1, 0], [20, 50, 0, 0, 50, 0],
    [20, 1, 50, 50, 1, 0], [20, 56, 0, 0, 56, 0], [20, 56, 56, 0, 0, 0], [20, 0, 0, 55, 55, 0],
    [20, 0, 55, 55, 0, 0], [21, 4, 4, 51, 51, 0], [21, 51, 51, 3, 0, 0], [21, 4, 4, 51, 53, 0],
    [21, 49, 4, 4, 49, 0], [21, 49, 4, 4, 54, 0], [21, 0, 49, 49, 0, 0], [21, 0, 0, 52, 52, 0],
    [21, 52, 54, 4, 4, 0], [21, 52, 52, 4, 4, 0], [21, 4, 53, 50, 4, 0], [21, 50, 0, 0, 50, 0],
    [21, 4, 50, 50, 4, 0], [21, 56, 0, 0, 56, 0], [21, 56, 56, 0, 0, 0], [21, 0, 0, 55, 55, 0],
    [21, 0, 55, 55, 0, 0], [22, 1, 1, 51, 51, 0], [22, 51, 51, 15, 0, 0], [22, 1, 1, 51, 53, 0],
    [22, 49, 1, 1, 49, 0], [22, 49, 1, 1, 54, 0], [22, 0, 49, 49, 0, 0], [22, 0, 0, 52, 52, 0],
    [22, 52, 54, 1, 1, 0], [22, 52, 52, 1, 1, 0], [22, 1, 53, 50, 1, 0], [22, 50, 0, 0, 50, 0],
    [22, 1, 50, 50, 1, 0], [22, 56, 0, 0, 56, 0], [22, 56, 56, 0, 0, 0], [22, 0, 0, 55, 55, 0],
    [22, 0, 55, 55, 0, 0], [27, 1, 1, 51, 51, 0], [27, 51, 51, 10, 0, 0], [27, 1, 1, 51, 53, 0],
    [27, 49, 1, 1, 49, 0], [27, 49, 1, 1, 54, 0], [27, 0, 49, 49, 0, 0], [27, 0, 0, 52, 52, 0],
    [27, 52, 54, 1, 1, 0], [27, 52, 52, 1, 1, 0], [27, 1, 53, 50, 1, 0], [27, 50, 0, 0, 50, 0],
    [27, 1, 50, 50, 1, 0], [27, 56, 0, 0, 56, 0], [27, 56, 56, 0, 0, 0], [27, 0, 0, 55, 55, 0],
    [27, 0, 55, 55, 0, 0], [28, 1, 1, 51, 51, 0], [28, 51, 51, 11, 11, 0], [28, 1, 1, 51, 53, 0],
    [28, 49, 1, 1, 49, 0], [28, 49, 1, 1, 54, 0], [28, 11, 49, 49, 11, 0], [28, 11, 11, 52, 52, 0],
    [28, 52, 54, 1, 1, 0], [28, 52, 52, 1, 1, 0], [28, 1, 53, 50, 1, 0], [28, 50, 11, 11, 50, 0],
    [28, 1, 50, 50, 1, 0], [31, 10, 10, 51, 51, 0], [31, 10, 27, 51, 51, 1],
    [31, 51, 51, 14, 0, 0], [31, 10, 10, 51, 53, 0], [31, 10, 27, 51, 53, 1],
    [31, 49, 10, 10, 49, 0], [31, 49, 26, 10, 49, 1], [31, 49, 10, 10, 54, 0],
    [31, 49, 26, 10, 54, 1], [31, 0, 49, 49, 0, 0], [31, 0, 0, 52, 52, 0], [31, 52, 54, 29, 26, 0],
    [31, 52, 52, 26, 26, 0], [31, 28, 53, 50, 27, 0], [31, 50, 0, 0, 50, 0],
    [31, 27, 50, 50, 27, 0], [31, 56, 0, 0, 56, 0], [31, 56, 56, 0, 0, 0], [31, 0, 0, 55, 55, 0],
    [31, 0, 55, 55, 0, 0], [34, 1, 1, 51, 51, 0], [34, 1, 31, 51, 51, 1], [34, 51, 51, 4, 0, 0],
    [34, 1, 1, 51, 53, 0], [34, 1, 31, 51, 53, 1], [34, 49, 1, 1, 49, 0], [34, 49, 30, 1, 49, 1],
    [34, 49, 1, 1, 54, 0], [34, 49, 30, 1, 54, 1], [34, 0, 49, 49, 0, 0], [34, 0, 0, 52, 52, 0],
    [34, 52, 54, 33, 30, 0], [34, 52, 52, 30, 30, 0], [34, 32, 53, 50, 31, 0],
    [34, 50, 0, 0, 50, 0], [34, 31, 50, 50, 31, 0], [34, 56, 0, 0, 56, 0], [34, 56, 56, 0, 0, 0],
    [34, 0, 0, 55, 55, 0], [34, 0, 55, 55, 0, 0], [35, 5, 5, 51, 51, 0], [35, 5, 35, 51, 51, 1],
    [35, 51, 51, 1, 0, 0], [35, 5, 5, 51, 53, 0], [35, 5, 35, 51, 53, 1], [35, 49, 5, 5, 49, 0],
    [35, 49, 34, 5, 49, 1], [35, 49, 5, 5, 54, 0], [35, 49, 34, 5, 54, 1], [35, 0, 49, 49, 0, 0],
    [35, 0, 0, 52, 52, 0], [35, 52, 54, 37, 34, 0], [35, 52, 52, 34, 34, 0],
    [35, 36, 53, 50, 35, 0], [35, 50, 0, 0, 50, 0], [35, 35, 50, 50, 35, 0], [35, 56, 0, 0, 56, 0],
    [35, 56, 56, 0, 0, 0], [35, 0, 0, 55, 55, 0], [35, 0, 55, 55, 0, 0] ]

/-- A tile group table for Badlands: the groups of `badlandsGroupData` at the even indexes, which
are the ones `generateIsomLinks` reads, and a blank group at every odd index. -/
def badlandsGroups : List TileGroup :=
  badlandsGroupData.flatMap fun g =>
    [ { terrainType := g.getD 0 0,
        links := { left := g.getD 1 0, top := g.getD 2 0, right := g.getD 3 0, bottom := g.getD 4 0 },
        stackConnections := { top := g.getD 5 0 } },
      {} ]

end IsomTerrain

namespace IsomTerrain

/-! ## The expected link table of the Badlands tileset -/

/-- `TestData::badlandsIsomLinks` of `IsomTests.cpp`, 13 values per row of the link table. -/
def TestData.badlandsIsomLinks : List (List Nat) :=
  [ [0, 0, 0, 0, 0, 0, 0, 0, 0, 0, 0, 0, 0],
    [2, 1, 1, 1, 1, 1, 1, 1, 1, 1, 1, 1, 1],
    [3, 4, 4, 2, 4, 4, 2, 4, 4, 2, 4, 4, 2],
    [5, 5, 5, 3, 5, 5, 3, 5, 5, 3, 5, 5, 3],
    [6, 2, 2, 5, 2, 2, 5, 2, 2, 5, 2, 2, 5],
    [14, 10, 10, 9, 10, 10, 9, 10, 10, 9, 10, 10, 9],
    [15, 11, 11, 10, 11, 11, 10, 11, 11, 10, 11, 11, 10],
    [7, 3, 3, 6, 3, 3, 6, 3, 3, 6, 3, 3, 6],
    [18, 14, 14, 7, 14, 14, 7, 14, 14, 7, 14, 14, 7],
    [4, 15, 15, 4, 15, 15, 4, 15, 15, 4, 15, 15, 4],
    [0, 0, 0, 0, 0, 0, 0, 0, 0, 0, 0, 0, 0],
    [0, 0, 0, 0, 0, 0, 0, 0, 0, 0, 0, 0, 0],
    [0, 0, 0, 0, 0, 0, 0, 0, 0, 0, 0, 0, 0],
    [34, 1, 1, 1, 1, 51, 255, 51, 51, 2, 1, 51, 255],
    [34, 1, 49, 257, 1, 1, 1, 49, 1, 257, 49, 49, 2],
    [34, 52, 52, 2, 52, 30, 256, 30, 30, 1, 52, 30, 256],
    [34, 50, 31, 258, 50, 50, 2, 31, 50, 258, 31, 31, 1],
    [34, 1, 1, 1, 1, 1, 1, 49, 1, 257, 1, 51, 255],
    [34, 1, 54, 257, 1, 1, 1, 1, 1, 1, 54, 33, 256],
    [34, 50, 31, 258, 52, 30, 256, 30, 30, 1, 31, 31, 1],
    [34, 1, 1, 1, 1, 53, 255, 32, 53, 258, 1, 1, 1],
    [34, 50, 31, 258, 56, 56, 2, 56, 56, 2, 31, 51, 255],
    [34, 55, 55, 2, 52, 30, 256, 49, 30, 257, 55, 55, 2],
    [34, 1, 49, 257, 1, 51, 255, 51, 51, 2, 49, 49, 2],
    [34, 52, 52, 2, 50, 50, 2, 31, 50, 258, 52, 30, 256],
    [34, 50, 31, 258, 52, 30, 256, 49, 30, 257, 31, 51, 255],
    [34, 1, 54, 257, 1, 53, 255, 32, 53, 258, 54, 33, 256],
    [35, 5, 5, 3, 5, 51, 255, 51, 51, 1, 5, 51, 255],
    [35, 5, 49, 257, 5, 5, 3, 49, 5, 257, 49, 49, 1],
    [35, 52, 52, 1, 52, 34, 256, 34, 34, 3, 52, 34, 256],
    [35, 50, 35, 258, 50, 50, 1, 35, 50, 258, 35, 35, 3],
    [35, 5, 5, 3, 5, 5, 3, 49, 5, 257, 5, 51, 255],
    [35, 5, 54, 257, 5, 5, 3, 5, 5, 3, 54, 37, 256],
    [35, 50, 35, 258, 52, 34, 256, 34, 34, 3, 35, 35, 3],
    [35, 5, 5, 3, 5, 53, 255, 36, 53, 258, 5, 5, 3],
    [35, 50, 35, 258, 56, 56, 1, 56, 56, 1, 35, 51, 255],
    [35, 55, 55, 1, 52, 34, 256, 49, 34, 257, 55, 55, 1],
    [35, 5, 49, 257, 5, 51, 255, 51, 51, 1, 49, 49, 1],
    [35, 52, 52, 1, 50, 50, 1, 35, 50, 258, 52, 34, 256],
    [35, 50, 35, 258, 52, 34, 256, 49, 34, 257, 35, 51, 255],
    [35, 5, 54, 257, 5, 53, 255, 36, 53, 258, 54, 37, 256],
    [20, 1, 1, 1, 1, 51, 255, 51, 51, 5, 1, 51, 255],
    [20, 1, 49, 257, 1, 1, 1, 49, 1, 257, 49, 49, 5],
    [20, 52, 52, 5, 52, 1, 256, 1, 1, 1, 52, 1, 256],
    [20, 50, 1, 258, 50, 50, 5, 1, 50, 258, 1, 1, 1],
    [20, 1, 1, 1, 1, 1, 1, 49, 1, 257, 1, 51, 255],
    [20, 1, 54, 257, 1, 1, 1, 1, 1, 1, 54, 1, 256],
    [20, 50, 1, 258, 52, 1, 256, 1, 1, 1, 1, 1, 1],
    [20, 1, 1, 1, 1, 53, 255, 1, 53, 258, 1, 1, 1],
    [20, 50, 1, 258, 56, 56, 5, 56, 56, 5, 1, 51, 255],
    [20, 55, 55, 5, 52, 1, 256, 49, 1, 257, 55, 55, 5],
    [20, 1, 49, 257, 1, 51, 255, 51, 51, 5, 49, 49, 5],
    [20, 52, 52, 5, 50, 50, 5, 1, 50, 258, 52, 1, 256],
    [20, 50, 1, 258, 52, 1, 256, 49, 1, 257, 1, 51, 255],
    [20, 1, 54, 257, 1, 53, 255, 1, 53, 258, 54, 1, 256],
    [28, 1, 1, 1, 1, 51, 255, 51, 51, 10, 1, 51, 255],
    [28, 1, 49, 257, 1, 1, 1, 49, 1, 257, 49, 49, 10],
    [28, 52, 52, 10, 52, 1, 256, 1, 1, 1, 52, 1, 256],
    [28, 50, 1, 258, 50, 50, 10, 1, 50, 258, 1, 1, 1],
    [28, 1, 1, 1, 1, 1, 1, 49, 1, 257, 1, 51, 255],
    [28, 1, 54, 257, 1, 1, 1, 1, 1, 1, 54, 1, 256],
    [28, 50, 1, 258, 52, 1, 256, 1, 1, 1, 1, 1, 1],
    [28, 1, 1, 1, 1, 53, 255, 1, 53, 258, 1, 1, 1],
    [28, 50, 1, 258, 11, 11, 10, 11, 11, 10, 1, 51, 255],
    [28, 11, 11, 10, 52, 1, 256, 49, 1, 257, 11, 11, 10],
    [28, 1, 49, 257, 1, 51, 255, 51, 51, 10, 49, 49, 10],
    [28, 52, 52, 10, 50, 50, 10, 1, 50, 258, 52, 1, 256],
    [28, 50, 1, 258, 52, 1, 256, 49, 1, 257, 1, 51, 255],
    [28, 1, 54, 257, 1, 53, 255, 1, 53, 258, 54, 1, 256],
    [21, 4, 4, 2, 4, 51, 255, 51, 51, 6, 4, 51, 255],
    [21, 4, 49, 257, 4, 4, 2, 49, 4, 257, 49, 49, 6],
    [21, 52, 52, 6, 52, 4, 256, 4, 4, 2, 52, 4, 256],
    [21, 50, 4, 258, 50, 50, 6, 4, 50, 258, 4, 4, 2],
    [21, 4, 4, 2, 4, 4, 2, 49, 4, 257, 4, 51, 255],
    [21, 4, 54, 257, 4, 4, 2, 4, 4, 2, 54, 4, 256],
    [21, 50, 4, 258, 52, 4, 256, 4, 4, 2, 4, 4, 2],
    [21, 4, 4, 2, 4, 53, 255, 4, 53, 258, 4, 4, 2],
    [21, 50, 4, 258, 56, 56, 6, 56, 56, 6, 4, 51, 255],
    [21, 55, 55, 6, 52, 4, 256, 49, 4, 257, 55, 55, 6],
    [21, 4, 49, 257, 4, 51, 255, 51, 51, 6, 49, 49, 6],
    [21, 52, 52, 6, 50, 50, 6, 4, 50, 258, 52, 4, 256],
    [21, 50, 4, 258, 52, 4, 256, 49, 4, 257, 4, 51, 255],
    [21, 4, 54, 257, 4, 53, 255, 4, 53, 258, 54, 4, 256],
    [27, 1, 1, 1, 1, 51, 255, 51, 51, 9, 1, 51, 255],
    [27, 1, 49, 257, 1, 1, 1, 49, 1, 257, 49, 49, 9],
    [27, 52, 52, 9, 52, 1, 256, 1, 1, 1, 52, 1, 256],
    [27, 50, 1, 258, 50, 50, 9, 1, 50, 258, 1, 1, 1],
    [27, 1, 1, 1, 1, 1, 1, 49, 1, 257, 1, 51, 255],
    [27, 1, 54, 257, 1, 1, 1, 1, 1, 1, 54, 1, 256],
    [27, 50, 1, 258, 52, 1, 256, 1, 1, 1, 1, 1, 1],
    [27, 1, 1, 1, 1, 53, 255, 1, 53, 258, 1, 1, 1],
    [27, 50, 1, 258, 56, 56, 9, 56, 56, 9, 1, 51, 255],
    [27, 55, 55, 9, 52, 1, 256, 49, 1, 257, 55, 55, 9],
    [27, 1, 49, 257, 1, 51, 255, 51, 51, 9, 49, 49, 9],
    [27, 52, 52, 9, 50, 50, 9, 1, 50, 258, 52, 1, 256],
    [27, 50, 1, 258, 52, 1, 256, 49, 1, 257, 1, 51, 255],
    [27, 1, 54, 257, 1, 53, 255, 1, 53, 258, 54, 1, 256],
    [31, 10, 10, 9, 10, 51, 255, 51, 51, 7, 10, 51, 255],
    [31, 10, 49, 257, 10, 10, 9, 49, 10, 257, 49, 49, 7],
    [31, 52, 52, 7, 52, 26, 256, 26, 26, 9, 52, 26, 256],
    [31, 50, 27, 258, 50, 50, 7, 27, 50, 258, 27, 27, 9],
    [31, 10, 10, 9, 10, 10, 9, 49, 10, 257, 10, 51, 255],
    [31, 10, 54, 257, 10, 10, 9, 10, 10, 9, 54, 29, 256],
    [31, 50, 27, 258, 52, 26, 256, 26, 26, 9, 27, 27, 9],
    [31, 10, 10, 9, 10, 53, 255, 28, 53, 258, 10, 10, 9],
    [31, 50, 27, 258, 56, 56, 7, 56, 56, 7, 27, 51, 255],
    [31, 55, 55, 7, 52, 26, 256, 49, 26, 257, 55, 55, 7],
    [31, 10, 49, 257, 10, 51, 255, 51, 51, 7, 49, 49, 7],
    [31, 52, 52, 7, 50, 50, 7, 27, 50, 258, 52, 26, 256],
    [31, 50, 27, 258, 52, 26, 256, 49, 26, 257, 27, 51, 255],
    [31, 10, 54, 257, 10, 53, 255, 28, 53, 258, 54, 29, 256],
    [22, 1, 1, 1, 1, 51, 255, 51, 51, 4, 1, 51, 255],
    [22, 1, 49, 257, 1, 1, 1, 49, 1, 257, 49, 49, 4],
    [22, 52, 52, 4, 52, 1, 256, 1, 1, 1, 52, 1, 256],
    [22, 50, 1, 258, 50, 50, 4, 1, 50, 258, 1, 1, 1],
    [22, 1, 1, 1, 1, 1, 1, 49, 1, 257, 1, 51, 255],
    [22, 1, 54, 257, 1, 1, 1, 1, 1, 1, 54, 1, 256],
    [22, 50, 1, 258, 52, 1, 256, 1, 1, 1, 1, 1, 1],
    [22, 1, 1, 1, 1, 53, 255, 1, 53, 258, 1, 1, 1],
    [22, 50, 1, 258, 56, 56, 4, 56, 56, 4, 1, 51, 255],
    [22, 55, 55, 4, 52, 1, 256, 49, 1, 257, 55, 55, 4],
    [22, 1, 49, 257, 1, 51, 255, 51, 51, 4, 49, 49, 4],
    [22, 52, 52, 4, 50, 50, 4, 1, 50, 258, 52, 1, 256],
    [22, 50, 1, 258, 52, 1, 256, 49, 1, 257, 1, 51, 255],
    [22, 1, 54, 257, 1, 53, 255, 1, 53, 258, 54, 1, 256] ]

end IsomTerrain

namespace IsomTerrain

/-! ## A small tileset with a solid brush whose tile group has the link 48 -/

/-- Four terrain types: type 1 is a solid brush (row 1, link id 1), type 3 has the 14 shape
rows from row 2 on. -/
def softEdgeTypes : List TerrainTypeInfo :=
  [ { index := 0 }, { index := 1, isomValue := 1, brushSortOrder := 0, linkId := 1 },
    { index := 2 }, { index := 3, isomValue := 2 } ]

/-- The tile groups of the small tileset: group 0 is the tile group of the solid brush, with
the links 48, 1, 1, 1; the groups 2, 4, 6 and 8 belong to type 3 and carry the hard links
that `generateIsomLinks` reads for its shapes. -/
def softEdgeGroups : List TileGroup :=
  [ linkGroup 1 48 1 1 1, {}, linkGroup 3 1 1 51 51, {}, linkGroup 3 51 51 1 1, {},
    linkGroup 3 56 1 1 56, {}, linkGroup 3 1 1 55 55, {} ]

/-- A map of 2x1 tiles (2x2 isom rectangles, all zero) over the small tileset, with the link
table and the hash index that `Tiles::loadIsom` builds. -/
def softEdgeWorld : World :=
  { map := { tileWidth := 2, tileHeight := 1, tiles := [0, 0], editorTiles := [0, 0],
             isomRects := List.replicate 4 {} }
    cache := IsomCache.new 2 1 softEdgeGroups
      (Tiles.generateIsomLinks softEdgeGroups softEdgeTypes) softEdgeTypes []
      (Tiles.loadIsomHashes softEdgeGroups []) }

/-- The small map after the diamonds `(0, 0)` and `(1, 1)` have been given the row 1: all four
sides of the rectangle `(0, 0)` are written. -/
def softEdgeWritten : World :=
  World.setDiamondIsomValues ⟨1, 1⟩ 1 false (World.setDiamondIsomValues ⟨0, 0⟩ 1 false softEdgeWorld)

end IsomTerrain

namespace IsomTerrain

/-! ## A tile group with a rare tile and no common tile -/

/-- Two tile groups; the second has the megatile indices 0, 5, 0, ..: no common tile (the first
entry is 0) and one rare tile (entry 1). Every draw of `std::rand` is 2000, above
`RAND_MAX / 20 = 1638`. -/
def rareOnlyWorld : World :=
  { map := { tileWidth := 2, tileHeight := 1, tiles := [0, 0], editorTiles := [0, 0],
             isomRects := List.replicate 4 {} }
    cache := IsomCache.new 2 1
      [ stackGroup 0 0 [], stackGroup 0 0 [0, 5, 0, 0, 0, 0, 0, 0, 0, 0, 0, 0, 0, 0, 0, 0] ]
      [] [] [] []
    rand := fun _ => 2000 }

end IsomTerrain

namespace IsomTerrain

/-! ## A resized map -/

/-- A 4x4-tile map (a grid of 3x5 rectangles) all of whose rectangles hold the value 1 on every
side, without editor flags, together with a fresh cache of the same size: the state in which
`resizeIsom` runs when a 4x1-tile map is resized to 4x4 tiles. -/
def resizeWorld : World :=
  { map :=
      { tileWidth := 4, tileHeight := 4
        tiles := List.replicate 16 0, editorTiles := List.replicate 16 0
        isomRects := List.replicate 15 { left := 16, top := 16, right := 16, bottom := 16 } }
    cache :=
      { isomWidth := 3, isomHeight := 5
        changedArea := { left := 3, top := 5, right := 0, bottom := 0 }
        undoMap := List.replicate 15 none } }

end IsomTerrain

namespace IsomTerrain

/-! ## Tile groups around the link 48 -/

/-- Eight tile groups: the group 0 has soft links only, the groups 2 and 6 have the same links
with a left link equal to 48, the group 4 has the left link 47. -/
def hardEdgeGroups : List TileGroup :=
  [ linkGroup 5 1 2 3 4, linkGroup 5 1 2 3 4, linkGroup 6 48 2 3 4, linkGroup 6 48 2 3 4,
    linkGroup 7 47 2 3 4, linkGroup 7 47 2 3 4, linkGroup 6 48 2 3 4, linkGroup 6 48 2 3 4 ]

end IsomTerrain

namespace IsomTerrain

/-! ## Predicates used in the statements of the lemmas -/

namespace World

/-- The state `w` is `w0` with the editor flags of the rectangles in `D` cleared. -/
def ClearedOn (w0 w : World) (D : Point → Prop) : Prop :=
  w.map.tileWidth = w0.map.tileWidth ∧ w.map.tileHeight = w0.map.tileHeight ∧
  w.cache = w0.cache ∧ w.trace = w0.trace ∧
  w.map.isomRects.length = w0.map.isomRects.length ∧
  ∀ p : Point, p.x < w0.map.getIsomWidth →
    (D p → w.map.getIsomRect p = (w0.map.getIsomRect p).clearEditorFlags) ∧
    (¬ D p → w.map.getIsomRect p = w0.map.getIsomRect p)

/-- The point lies inside the bounding box (all four bounds inclusive). -/
def InBox (b : BoundingBox) (p : Point) : Prop :=
  b.left ≤ p.x ∧ p.x ≤ b.right ∧ b.top ≤ p.y ∧ p.y ≤ b.bottom

/-- Every rectangle of `w` (in a column of the grid) that differs from the one of `w0` lies in
the changed area of `w`; the grid has the width of `w0`. -/
def ChangesInArea (w0 w : World) : Prop :=
  w.map.tileWidth = w0.map.tileWidth ∧ w.map.tileHeight = w0.map.tileHeight ∧
  ∀ p : Point, p.x < w0.map.getIsomWidth → w.map.getIsomRect p ≠ w0.map.getIsomRect p →
    InBox w.cache.changedArea p

/-- The trace of `w` extends the trace `old` by events among which every call of
`setDiamondIsomValues` has a valid diamond. -/
def ValidSets (old : List Event) (w : World) : Prop :=
  ∃ new : List Event, w.trace = new ++ old ∧
    ∀ d v, Event.setDiamond d v ∈ new → IsomDiamond.isValid d = true

/-- The number of rectangles whose `left` field does not carry the `Modified` bit. -/
def unmodifiedCount (m : ScMap) : Nat := m.isomRects.countP (fun r => !r.isLeftModified)

/-- The number of rectangles whose `right` field does not carry the `Visited` bit. -/
def unvisitedCount (m : ScMap) : Nat := m.isomRects.countP (fun r => !r.isVisited)

/-- The measure that decreases with every processed diamond of `radiallyUpdateTerrain`:
lexicographically, the unmodified rectangles, then the unvisited ones. -/
def potential (m : ScMap) : Nat :=
  unmodifiedCount m * (m.isomRects.length + 1) + unvisitedCount m

/-- An amount of fuel that suffices for `radiallyUpdateTerrain` on a link table of fewer than
65536 rows: one unit per queue entry ever popped and the length of one table scan. -/
def radialFuel (w : World) (queue : List IsomDiamond) : Nat :=
  queue.length + 4 * potential w.map + w.cache.isomLinks.length + 1

/-- The rectangles of `m2` are those of `m1` up to `left` fields that gained the `Modified`
bit: same number of rectangles, and a `left` field unmodified in `m2` is unmodified in `m1`. -/
def LeftMono (m1 m2 : ScMap) : Prop :=
  m2.tileWidth = m1.tileWidth ∧ m2.tileHeight = m1.tileHeight ∧
  m2.isomRects.length = m1.isomRects.length ∧
  ∀ i : Nat, ((m2.isomRects.getD i default).isLeftModified = false →
    (m1.isomRects.getD i default).isLeftModified = false)

/-- The diamonds processed since the last call of `setDiamondIsomValues` (the trace is
newest first). -/
def recentVisits : List Event → List IsomDiamond
  | [] => []
  | Event.visited d :: t => d :: recentVisits t
  | Event.setDiamond _ _ :: _ => []
  | Event.undoSink _ :: t => recentVisits t

/-- The diamonds handed to `setDiamondIsomValues` in the trace. -/
def rewrites : List Event → List IsomDiamond
  | [] => []
  | Event.setDiamond d _ :: t => d :: rewrites t
  | Event.visited _ :: t => rewrites t
  | Event.undoSink _ :: t => rewrites t

/-- Every processing of a diamond in the trace happens when the diamond was neither processed
since the last rewrite nor ever rewritten. -/
def Spaced : List Event → Prop
  | [] => True
  | Event.visited d :: t => Spaced t ∧ d ∉ recentVisits t ∧ d ∉ rewrites t
  | Event.setDiamond _ _ :: t => Spaced t
  | Event.undoSink _ :: t => Spaced t

/-- The invariant of `radiallyUpdateTerrain` behind the spacing of the processings: the
recently processed diamonds carry the `Visited` bit and the rewritten ones the `Modified`
bit. -/
def RadialInv (old : List Event) (w : World) : Prop :=
  ∃ new : List Event, w.trace = new ++ old ∧ Spaced new ∧
    (∀ d ∈ recentVisits new, (w.map.getIsomRect d).isVisited = true) ∧
    (∀ d ∈ rewrites new, (w.map.getIsomRect d).isLeftModified = true)

/-- The field holds the row `isomValue` with the edge flag `flag` (as `getIsomValue` reads it,
that is under the mask `ClearAll`) and carries the `Modified` bit. -/
def SideHolds (field isomValue flag : Nat) : Prop :=
  field &&& EditorFlag.ClearAll = (((isomValue <<< 4) ||| flag) % U16) &&& EditorFlag.ClearAll ∧
  field &&& EditorFlag.Modified = EditorFlag.Modified

/-- Both sides of the quadrant `q` of the diamond `t` hold the row `isomValue`. -/
def HoldsQuadrant (m : ScMap) (t : IsomDiamond) (q : Quadrant) (isomValue : Nat) : Prop :=
  SideHolds ((m.getIsomRect (t.getRectangleCoords q)).side (ProjectedQuadrant.atQuadrant q).firstSide)
    isomValue (ProjectedQuadrant.atQuadrant q).firstEdgeFlags ∧
  SideHolds ((m.getIsomRect (t.getRectangleCoords q)).side (ProjectedQuadrant.atQuadrant q).secondSide)
    isomValue (ProjectedQuadrant.atQuadrant q).secondEdgeFlags

/-- Every quadrant of the diamond `t` whose rectangle is inside the grid holds `isomValue`. -/
def DiamondHolds (m : ScMap) (t : IsomDiamond) (isomValue : Nat) : Prop :=
  ∀ q : Quadrant, m.isInBounds (t.getRectangleCoords q) = true → HoldsQuadrant m t q isomValue

/-- The two quadrants have no rectangle side in common. -/
def DisjointSides (q q' : Quadrant) : Prop :=
  (ProjectedQuadrant.atQuadrant q).firstSide ≠ (ProjectedQuadrant.atQuadrant q').firstSide ∧
  (ProjectedQuadrant.atQuadrant q).firstSide ≠ (ProjectedQuadrant.atQuadrant q').secondSide ∧
  (ProjectedQuadrant.atQuadrant q).secondSide ≠ (ProjectedQuadrant.atQuadrant q').firstSide ∧
  (ProjectedQuadrant.atQuadrant q).secondSide ≠ (ProjectedQuadrant.atQuadrant q').secondSide

/-- Every rectangle position inside the grid has its rectangle in `isomRects`. -/
def GridComplete (m : ScMap) : Prop :=
  ∀ p : Point, m.isInBounds p = true → m.rectIndex p < m.isomRects.length

/-- A valid diamond whose coordinates are `size_t` values. -/
def GoodDiamond (d : IsomDiamond) : Prop :=
  d.isValid = true ∧ d.x < SIZE_MAX1 ∧ d.y < SIZE_MAX1

end World

end IsomTerrain

namespace IsomTerrain

/-! ## Predicates on the tile arrays -/

/-- The tile arrays of `m` have the width `tw`, the same length, and contain the index `i2`. -/
def TileFrame (tw i2 : Nat) (m : ScMap) : Prop :=
  m.tileWidth = tw ∧ i2 < m.tiles.length ∧ m.tiles.length = m.editorTiles.length

/-- The tiles at the indices `i1` and `i2` hold `16*a + s` and `16*(a+1) + s` (as `uint16_t`)
for a group `a` that is not the last one a tile value can name, in `tiles` and in
`editorTiles`. -/
def GoodPair (tw i1 i2 s : Nat) (m : ScMap) : Prop :=
  TileFrame tw i2 m ∧
  (∃ a, a % 4096 ≠ 4095 ∧ m.editorTiles.getD i1 0 = (16 * a + s) % U16 ∧
    m.editorTiles.getD i2 0 = (16 * (a + 1) + s) % U16) ∧
  m.tiles.getD i1 0 = m.editorTiles.getD i1 0 ∧ m.tiles.getD i2 0 = m.editorTiles.getD i2 0

/-- Two maps agree up to the subtile indices of their tiles: same dimensions, same rectangles,
and the same group index at every tile position of `tiles` and of `editorTiles`. -/
def GroupEq (m1 m2 : ScMap) : Prop :=
  m1.tileWidth = m2.tileWidth ∧ m1.tileHeight = m2.tileHeight ∧ m1.isomRects = m2.isomRects ∧
  m1.tiles.map World.getTileGroup = m2.tiles.map World.getTileGroup ∧
  m1.editorTiles.map World.getTileGroup = m2.editorTiles.map World.getTileGroup

namespace World

/-- The pair of groups written by one iteration of the downward loop of `updateTileFromIsom`
(the body of `fillStack` at the row `y`). -/
def fillStackGroups (c : IsomCache) (isomDiamond : IsomDiamond) (leftTileX rightTileX y : Nat)
    (m : ScMap) : Nat × Nat :=
  let tileGroup := getTileGroup (m.getTileValue leftTileX (y - 1))
  let nextTileGroup := getTileGroup (m.getTileValue leftTileX y)
  let bottomConnection := (c.tileGroups.getD tileGroup default).stackConnections.bottom
  let leftTileGroup := getTileGroup (m.getTileValue leftTileX y)
  let rightTileGroup := getTileGroup (m.getTileValue rightTileX y)
  if bottomConnection ≠ (c.tileGroups.getD nextTileGroup default).stackConnections.top then
    let isomRectHash := (m.getIsomRect ⟨isomDiamond.x, y⟩).getHash c.isomLinks
    match c.hashToTileGroup.lookup isomRectHash with
    | some potentialGroups =>
      match findStackMatch c potentialGroups bottomConnection with
      | some g => (g, (g + 1) % U16)
      | none => (leftTileGroup, rightTileGroup)
    | none => (leftTileGroup, rightTileGroup)
  else (leftTileGroup, rightTileGroup)

/-- The loop condition `break` of the downward loop of `updateTileFromIsom` at the row `y`. -/
def fillStackBreak (c : IsomCache) (leftTileX y : Nat) (m : ScMap) : Prop :=
  getTileGroup (m.getTileValue leftTileX (y - 1)) ≥ c.tileGroups.length ∨
  getTileGroup (m.getTileValue leftTileX y) ≥ c.tileGroups.length ∨
  (c.tileGroups.getD (getTileGroup (m.getTileValue leftTileX (y - 1))) default).stackConnections.bottom
    = 0 ∨
  (c.tileGroups.getD (getTileGroup (m.getTileValue leftTileX y)) default).stackConnections.top = 0

/-- The part of `writeTileStack` after the two tiles of the row are written: the search for the
top of the stack, the two writes at the top row and the downward loop. -/
def writeStackRest (c : IsomCache) (isomDiamond : IsomDiamond) (leftTileX rightTileX : Nat)
    (destSubTile : Nat) (m2 : ScMap) : ScMap :=
  let stackTopY := findStackTop m2 c leftTileX isomDiamond.y isomDiamond.y
    (getTileGroup (m2.getTileValue leftTileX isomDiamond.y))
  let m3 := m2.setTileValue leftTileX stackTopY
    (16 * getTileGroup (m2.getTileValue leftTileX stackTopY) + destSubTile)
  let m4 := m3.setTileValue rightTileX stackTopY
    (16 * getTileGroup (m3.getTileValue rightTileX stackTopY) + destSubTile)
  fillStack c isomDiamond leftTileX rightTileX destSubTile (m4.tileHeight - stackTopY)
    (stackTopY + 1) m4

instance (c : IsomCache) (leftTileX y : Nat) (m : ScMap) :
    Decidable (fillStackBreak c leftTileX y m) := by
  unfold fillStackBreak; infer_instance

end World

end IsomTerrain

namespace IsomTerrain

namespace Tiles

/-- The number of occurrences of the index `i` over all buckets of a hash index. -/
def occurrences (h : List (Nat × List Nat)) (i : Nat) : Nat :=
  (h.map fun b => b.2.count i).sum

/-- The state of the hash index after the group indices `done` (in this order) were entered:
the keys are distinct, every stored index was entered and sits in the bucket of its hash, the
buckets are strictly ascending, and every index occurs as often as it was entered. -/
def HashInv (tileGroups : List TileGroup) (done : List Nat) (h : List (Nat × List Nat)) : Prop :=
  (h.map Prod.fst).Nodup ∧
  (∀ b ∈ h, ∀ j ∈ b.2, j ∈ done ∧ b.1 = tileGroupHash (tileGroups.getD j default)) ∧
  (∀ b ∈ h, b.2.Pairwise (· < ·)) ∧
  (∀ i, occurrences h i = done.count i)

end Tiles

end IsomTerrain


namespace IsomTerrain

namespace Tiles

/-! ### The adjacency graph of a compressed terrain type map -/

/-- The records of a compressed terrain type map, a sequence `t, a1, .., ak, 0` per record:
the maximal runs of entries between the zeroes. -/
def records (compressed : List Nat) : List (List Nat) := compressed.splitOn 0

/-- The adjacency list of the terrain type `t`: the entries `a1, .., ak` of the record that
starts with `t`. -/
def adjacencyList (compressed : List Nat) (t : Nat) : List Nat :=
  match (records compressed).find? (fun r => r.head? == some t) with
  | some r => r.tail
  | none => []

/-- The type `b` is in the adjacency list of the type `a`. -/
def Adjacent (compressed : List Nat) (a b : Nat) : Prop := b ∈ adjacencyList compressed a

/-- The type `j` is reachable from the type `i` by following the adjacency lists (in zero or
more steps). -/
def Reachable (compressed : List Nat) (i j : Nat) : Prop :=
  Relation.ReflTransGen (Adjacent compressed) i j

/-- The square `tempTypeMap` that holds, in the row `d`, the adjacency list of `d` followed by
zeroes. -/
def adjacencySquare (adj : Nat → List Nat) (total : Nat) : List Nat :=
  (List.range (total * total)).map fun idx => (adj (idx / total)).getD (idx % total) 0

/-- The adjacency lists fit the rows of the square: each is shorter than a row and names
non-zero types below `total`. -/
def AdjacencyFits (adj : Nat → List Nat) (total : Nat) : Prop :=
  ∀ d, d < total → (adj d).length < total ∧ ∀ t ∈ adj d, t ≠ 0 ∧ t < total

/-- One step of the expansion: the type `tempPath` read in the row `destRow` is entered into
the map (at `start + tempPath`) and the queue if its entry is still zero. -/
def visit (start destRow : Nat) (st : ExpandState) (tempPath : Nat) : ExpandState :=
  if st.terrainTypeMap.getD (start + tempPath) 0 = 0 then
    { terrainTypeMap := st.terrainTypeMap.set (start + tempPath)
        (if st.rowData.getD destRow 0 = 0 then tempPath else st.rowData.getD destRow 0)
      rowData := st.rowData.set tempPath
        (if st.rowData.getD destRow 0 = 0 then tempPath else st.rowData.getD destRow 0)
      terrainTypeStack := st.terrainTypeStack ++ [tempPath] }
  else st

/-- The number of types below `total` whose entry in the row at `start` is still zero. -/
def unmarked (total start : Nat) (terrainTypeMap : List Nat) : Nat :=
  (List.range total).countP fun t => terrainTypeMap.getD (start + t) 0 = 0

end Tiles

end IsomTerrain

namespace IsomTerrain

namespace Tiles

/-- The invariant of the expansion of the row `i` (at `i * total`) of the map: the length, the
marked (non-zero) entries are reachable from `i`, the queue holds reachable types, a marked type
(or `i`) is the one being expanded (`pending`), waits in the queue, or has all its neighbours
marked, the diagonal entry is `i`, and the other rows are those of `map0`. -/
def RowInv (adj : Nat → List Nat) (total i : Nat) (map0 : List Nat) (pending : Option Nat)
    (st : ExpandState) : Prop :=
  st.terrainTypeMap.length = total * total ∧
  (∀ t, t < total → st.terrainTypeMap.getD (i * total + t) 0 ≠ 0 →
    Relation.ReflTransGen (fun a b => b ∈ adj a) i t) ∧
  (∀ q ∈ st.terrainTypeStack, q < total ∧ Relation.ReflTransGen (fun a b => b ∈ adj a) i q) ∧
  (∀ t, t < total → (st.terrainTypeMap.getD (i * total + t) 0 ≠ 0 ∨ t = i) →
    pending = some t ∨ t ∈ st.terrainTypeStack ∨
      ∀ s ∈ adj t, st.terrainTypeMap.getD (i * total + s) 0 ≠ 0) ∧
  st.terrainTypeMap.getD (i * total + i) 0 = i ∧
  (∀ k, (k < i * total ∨ (i + 1) * total ≤ k) →
    st.terrainTypeMap.getD k 0 = map0.getD k 0)

end Tiles

end IsomTerrain

namespace IsomTerrain

namespace Tiles

instance (adj : Nat → List Nat) (total : Nat) : Decidable (AdjacencyFits adj total) := by
  unfold AdjacencyFits; infer_instance

end Tiles

end IsomTerrain

namespace IsomTerrain

/-! ## Predicates of the best-match search -/

namespace ScMap

/-- The quadrant `q` of the row `shapeLinks` matches the neighbour: the link ids are equal and
either the link id is below `OnlyMatchSameType` (255) or the row has the terrain type of the
neighbour's row. -/
def quadrantMatches (shapeLinks : ShapeLinks) (nb : IsomNeighbors) (isomLinks : List ShapeLinks)
    (q : Quadrant) : Bool :=
  decide (shapeLinks.getLinkId q = (nb.get q).linkId) &&
    (decide ((nb.get q).linkId < 255) ||
      decide (shapeLinks.terrainType = (isomLinks.getD (nb.get q).isomValue default).terrainType))

/-- Some quadrant whose neighbour is modified does not match. -/
def modifiedMismatch (shapeLinks : ShapeLinks) (nb : IsomNeighbors) (isomLinks : List ShapeLinks) :
    Bool :=
  quadrants.any fun q => (nb.get q).modified && !quadrantMatches shapeLinks nb isomLinks q

end ScMap

/-! ## Row indices stored in the rectangles -/

/-- The link-table row index stored in a field: the field with the editor flags cleared (mask
`0x7FFE`) and the low nibble dropped. -/
def fieldRow (field : Nat) : Nat := (field &&& EditorFlag.ClearAll) >>> 4

namespace World

/-- Every field of every isom rectangle holds a row index inside the link table. -/
def RowsInTable (w : World) : Prop :=
  ∀ r ∈ w.map.isomRects, ∀ s : Side, fieldRow (r.side s) < w.cache.isomLinks.length

end World

namespace World

/-- The two fields of the quadrant `q` of the diamond `t`: the sides named by
`ProjectedQuadrant` of the rectangle `t.getRectangleCoords q`. -/
def quadrantSides (m : ScMap) (t : IsomDiamond) (q : Quadrant) : Nat × Nat :=
  ((m.getIsomRect (t.getRectangleCoords q)).side (ProjectedQuadrant.atQuadrant q).firstSide,
    (m.getIsomRect (t.getRectangleCoords q)).side (ProjectedQuadrant.atQuadrant q).secondSide)

/-- Both sides of every quadrant of the diamond `t` whose rectangle is inside the grid store
the link-table row index `v`. -/
def CoherentAt (m : ScMap) (t : IsomDiamond) (v : Nat) : Prop :=
  ∀ q : Quadrant, m.isInBounds (t.getRectangleCoords q) = true →
    fieldRow (quadrantSides m t q).1 = v ∧ fieldRow (quadrantSides m t q).2 = v

/-- The diamond is coherent: the sides of all its in-bounds quadrants store one and the same
link-table row index. -/
def Coherent (m : ScMap) (t : IsomDiamond) : Prop := ∃ v, CoherentAt m t v

/-- What a terrain edit reads of a state: the map and the tables of the cache (neither the
undo map nor the changed area). -/
def editView (w : World) : ScMap × List ShapeLinks × List TerrainTypeInfo × List Nat :=
  (w.map, w.cache.isomLinks, w.cache.terrainTypes, w.cache.terrainTypeMap)

/-- What a call of `placeIsomTerrain` leaves behind for the user of the map: the result and
the isom rectangles. -/
def placeOutcome (r : Bool × World) : Bool × List IsomRect := (r.1, r.2.map.isomRects)

end World

/-! ## The components of the rectangle hash -/

namespace IsomRect

/-- The link-table row referenced by the side `s`: `isomLinks[getIsomValue(s) >> 4]`. -/
def sideRow (r : IsomRect) (isomLinks : List ShapeLinks) (s : Side) : ShapeLinks :=
  isomLinks.getD (r.getIsomValue s >>> 4) default

/-- The edge link of the side `s`: `getEdgeLink` of the field in its row. -/
def sideLink (r : IsomRect) (isomLinks : List ShapeLinks) (s : Side) : Nat :=
  (r.sideRow isomLinks s).getEdgeLink (r.getIsomValue s)

/-- The row of the side has a non-zero terrain type and its edge link is a hard link (> 48). -/
def sideHard (r : IsomRect) (isomLinks : List ShapeLinks) (s : Side) : Bool :=
  decide ((r.sideRow isomLinks s).terrainType ≠ 0) && decide (r.sideLink isomLinks s > 48)

/-- The terrain type of the last side, in the order left, top, right, bottom, that is hard, or
0 when there is none. -/
def lastHardTerrainType (r : IsomRect) (isomLinks : List ShapeLinks) : Nat :=
  match [Side.Bottom, Side.Right, Side.Top, Side.Left].find? (r.sideHard isomLinks) with
  | some s => (r.sideRow isomLinks s).terrainType
  | none => 0

end IsomRect

end IsomTerrain

namespace IsomTerrain

/-! ## The scan of the best-match search -/

namespace ScMap

/-- The match count of the link-table row `row` against the neighbours. -/
def rowCount (c : IsomCache) (nb : IsomNeighbors) (row : Nat) : Nat :=
  countNeighborMatches (c.isomLinks.getD row default) nb c.isomLinks

/-- The test of `searchForBestMatch(start)` that ends the scan at the row `row`:
`!searchUntilEnd && terrainType != start && (!searchUntilHigherTerrainType ||
terrainType > start)`. -/
def scanStops (c : IsomCache) (start row : Nat) : Bool :=
  !(start == 0) && (c.isomLinks.getD row default).terrainType != start &&
    (!(start == c.terrainTypes.length / 2 + 1) ||
      decide ((c.isomLinks.getD row default).terrainType > start))

/-- The rows scanned by `searchForBestMatch(start)`: the rows from the isomValue of the start
type upward, up to the end of the table or the first row at which the scan stops. -/
def scanRows (c : IsomCache) (start : Nat) : List Nat :=
  (List.range' (c.getTerrainTypeIsomValue start)
    (c.isomLinks.length - c.getTerrainTypeIsomValue start)).takeWhile
    fun row => !scanStops c start row

/-- The rows from the isomValue of the start type upward, up to the end of the table or the
first row whose terrain type differs from `start`. -/
def sameTypeRows (c : IsomCache) (start : Nat) : List Nat :=
  (List.range' (c.getTerrainTypeIsomValue start)
    (c.isomLinks.length - c.getTerrainTypeIsomValue start)).takeWhile
    fun row => (c.isomLinks.getD row default).terrainType == start

/-- The rows from the isomValue of the start type upward, up to the end of the table or the
first row whose terrain type is above `start`. -/
def lowTypeRows (c : IsomCache) (start : Nat) : List Nat :=
  (List.range' (c.getTerrainTypeIsomValue start)
    (c.isomLinks.length - c.getTerrainTypeIsomValue start)).takeWhile
    fun row => decide ((c.isomLinks.getD row default).terrainType ≤ start)

/-- One scanned row: `bestMatch` is replaced only by a row whose match count is strictly
greater than the current best count. -/
def scanStep (c : IsomCache) (nb : IsomNeighbors) (row : Nat) : IsomNeighbors :=
  if rowCount c nb row > nb.bestMatch.matchCount then
    { nb with bestMatch := { isomValue := row, matchCount := rowCount c nb row } }
  else nb

/-- The record `bm` is the earliest row of `rows` with the maximal count, or the row 0 with
count 0 when no row of `rows` scores above 0. -/
def EarliestBest (count : Nat → Nat) (rows : List Nat) (bm : BestMatch) : Prop :=
  ((∀ r ∈ rows, count r = 0) ∧ bm = { isomValue := 0, matchCount := 0 }) ∨
  ∃ (pre : List Nat) (r : Nat) (post : List Nat), rows = pre ++ r :: post ∧
    bm = { isomValue := r, matchCount := count r } ∧ 0 < count r ∧
    (∀ x ∈ pre, count x < count r) ∧ (∀ x ∈ post, count x ≤ count r)

/-- The rows scanned by the three passes of `findBestMatchIsomValue`, in the order of the
scan: from the mapped type (when the central row is a row of the table), from
`maxModifiedOfFour`, and from `terrainTypes.size()/2 + 1`. -/
def passRows (m : ScMap) (isomDiamond : IsomDiamond) (c : IsomCache) : List Nat :=
  (if m.getCentralIsomValue isomDiamond < c.isomLinks.length then
      scanRows c (c.terrainTypeMap.getD
        ((m.loadNeighborInfo isomDiamond {} c.isomLinks).maxModifiedOfFour *
            c.terrainTypes.length +
          (c.isomLinks.getD (m.getCentralIsomValue isomDiamond) default).terrainType) 0)
    else []) ++
  scanRows c (m.loadNeighborInfo isomDiamond {} c.isomLinks).maxModifiedOfFour ++
  scanRows c ((c.terrainTypes.length / 2 + 1) % U16)

end ScMap

end IsomTerrain

namespace IsomTerrain

namespace Tiles

/-! ### Shortest paths in the adjacency graph -/

/-- There is a path of exactly `n` edges from `a` to `b` along the adjacency lists. -/
def ReachIn (adj : Nat → List Nat) : Nat → Nat → Nat → Prop
  | 0, a, b => a = b
  | n + 1, a, b => ∃ c, ReachIn adj n a c ∧ b ∈ adj c

/-- The distance from `i` to `t` is `n`: there is a path of `n` edges and none shorter. -/
def Dist (adj : Nat → List Nat) (i t n : Nat) : Prop :=
  ReachIn adj n i t ∧ ∀ m, ReachIn adj m i t → n ≤ m

/-- The type `h` is the first hop of a shortest path from `i` to `j`: a direct neighbour of `i`
from which `j` is reached in `n` edges, `n + 1` being the distance from `i` to `j`. -/
def FirstHop (adj : Nat → List Nat) (i j h : Nat) : Prop :=
  h ∈ adj i ∧ ∃ n, ReachIn adj n h j ∧ Dist adj i j (n + 1)

/-- The invariant of the expansion of the row `i` that tracks the first hops: `rowData` has one
entry per type and none for `i`; a marked type other than `i` has its map entry in `rowData`,
and the entry is the first hop of a shortest path to it; the queued types and the type being
expanded are marked; and the queue holds types of two successive distances `k`, `k + 1` in
this order, the type being expanded is at the distance `k`, and every type at a distance of
at most `k` is marked. -/
def HopInv (adj : Nat → List Nat) (total i : Nat) (pending : Option Nat) (st : ExpandState) :
    Prop :=
  st.rowData.length = total ∧
  st.rowData.getD i 0 = 0 ∧
  (∀ t, t < total → t ≠ i → st.terrainTypeMap.getD (i * total + t) 0 ≠ 0 →
    st.rowData.getD t 0 = st.terrainTypeMap.getD (i * total + t) 0 ∧
    FirstHop adj i t (st.terrainTypeMap.getD (i * total + t) 0)) ∧
  (∀ q ∈ st.terrainTypeStack, q = i ∨ st.terrainTypeMap.getD (i * total + q) 0 ≠ 0) ∧
  (∀ p, pending = some p → p = i ∨ st.terrainTypeMap.getD (i * total + p) 0 ≠ 0) ∧
  ∃ (k : Nat) (q1 q2 : List Nat), st.terrainTypeStack = q1 ++ q2 ∧
    (∀ q ∈ q1, Dist adj i q k) ∧ (∀ q ∈ q2, Dist adj i q (k + 1)) ∧
    (∀ p, pending = some p → Dist adj i p k) ∧
    (∀ t n, n ≤ k → ReachIn adj n i t →
      st.terrainTypeMap.getD (i * total + t) 0 ≠ 0 ∨ t = i)

end Tiles

end IsomTerrain

namespace IsomTerrain

namespace Tiles

/-! ## The terrain type column of the generated link table -/

/-- The padding loop of `generateIsomLinks` on the column of terrain types: zeros up to `size`. -/
def padColumn (column : List Nat) (size : Nat) : List Nat :=
  column ++ List.replicate (size - column.length) 0

/-- The `terrainType` fields of the rows `generateIsomLinks` pushes, in order: for each solid
brush the padding zeros and `uint8_t(index)`, the padding zeros up to the first other terrain
type, then 14 times `uint8_t(index)` for each other terrain type. -/
def terrainTypeColumn (terrainTypes : List TerrainTypeInfo) : List Nat :=
  let column :=
    (solidBrushes terrainTypes).foldl
      (fun column solidBrush => padColumn column solidBrush.isomValue ++ [solidBrush.index % 256]) []
  let column := padColumn column ((otherTerrainTypes terrainTypes).getD 0 default).isomValue
  (otherTerrainTypes terrainTypes).foldl
    (fun column otherTerrainType => column ++ List.replicate 14 (otherTerrainType.index % 256))
    column

/-- Row `r` is described by the terrain type table: it is the `isomValue` of a solid brush (a
descriptor at a position `1 <= i <= size/2` with a non-zero `isomValue`), or one of the 14 rows
that start at the `isomValue` of another terrain type (a position `i > size/2`, non-zero
`isomValue`). -/
def describedRow (terrainTypes : List TerrainTypeInfo) (r : Nat) : Bool :=
  (List.range terrainTypes.length).any fun i =>
    let isomValue := (terrainTypes.getD i default).isomValue
    decide (1 ≤ i) && decide (isomValue ≠ 0) &&
      (if i ≤ terrainTypes.length / 2 then decide (r = isomValue)
       else decide (isomValue ≤ r ∧ r < isomValue + 14))

end Tiles

end IsomTerrain

namespace IsomTerrain

/-! ## The link-id slots of a block of shape rows -/

/-- The link id of the quadrant `q` of the shape template `shapeIndex`. -/
def ShapeDefinitions.linkId (shapeIndex : Nat) (q : Quadrant) : Nat :=
  match q with
  | Quadrant.TopLeft => (ShapeDefinitions.shapes.getD shapeIndex default).topLeft.linkId
  | Quadrant.TopRight => (ShapeDefinitions.shapes.getD shapeIndex default).topRight.linkId
  | Quadrant.BottomRight => (ShapeDefinitions.shapes.getD shapeIndex default).bottomRight.linkId
  | Quadrant.BottomLeft => (ShapeDefinitions.shapes.getD shapeIndex default).bottomLeft.linkId

namespace TerrainTypeShapes

/-- The link-id slot of the quadrant `q` of the shape row `shapeIndex` of a block. -/
def linkIdSlot (shapes : TerrainTypeShapes) (shapeIndex : Nat) (q : Quadrant) : Nat :=
  (shapes.row shapeIndex).getLinkId q

/-- A block of 14 blank rows. -/
def blankShapes : TerrainTypeShapes := List.replicate 14 default

/-- The slot is one of those whose template link id is hardcoded (255 or more). -/
def hardSlot (shapeIndex : Nat) (q : Quadrant) : Bool :=
  decide (ShapeDefinitions.linkId shapeIndex q ≥ LinkId.OnlyMatchSameType)

/-- The slot changes when `fillOuterLinkIds` runs on the blank block with the link id 1. -/
def outerSlot (shapeIndex : Nat) (q : Quadrant) : Bool :=
  linkIdSlot (blankShapes.fillOuterLinkIds 1) shapeIndex q != linkIdSlot blankShapes shapeIndex q

/-- The slot changes when `fillInnerLinkIds` runs on the blank block with the link id 1. -/
def innerSlot (shapeIndex : Nat) (q : Quadrant) : Bool :=
  linkIdSlot (blankShapes.fillInnerLinkIds 1) shapeIndex q != linkIdSlot blankShapes shapeIndex q

/-- The 56 slots of a block: 14 shapes with four quadrants each. -/
def allSlots : List (Nat × Quadrant) :=
  (List.range 14).flatMap fun shapeIndex => quadrants.map fun q => (shapeIndex, q)

end TerrainTypeShapes

end IsomTerrain

namespace IsomTerrain

namespace Tiles

/-! ## The solid brush rows of the generated link table -/

/-- The terrain type and the four link ids of a row of the link table. -/
def linkIdRow (s : ShapeLinks) : List Nat :=
  [s.terrainType, s.topLeft.linkId, s.topRight.linkId, s.bottomRight.linkId, s.bottomLeft.linkId]

/-- The terrain types and link ids of the rows that the loop over `solidBrushes` pushes: for
each solid brush the padding rows, then `uint8_t(index)` and four times its `linkId`. -/
def solidBrushColumn (terrainTypes : List TerrainTypeInfo) : List (List Nat) :=
  (solidBrushes terrainTypes).foldl
    (fun column solidBrush =>
      column ++ List.replicate (solidBrush.isomValue - column.length) [0, 0, 0, 0, 0] ++
        [[solidBrush.index % 256, solidBrush.linkId, solidBrush.linkId, solidBrush.linkId,
          solidBrush.linkId]])
    []

/-- The 13 fields of a row that `linkTableGenTest` compares, in its order. -/
def linkTableRow (s : ShapeLinks) : List Nat :=
  [s.terrainType, s.topLeft.right, s.topLeft.bottom, s.topLeft.linkId,
    s.topRight.left, s.topRight.bottom, s.topRight.linkId,
    s.bottomRight.left, s.bottomRight.top, s.bottomRight.linkId,
    s.bottomLeft.top, s.bottomLeft.right, s.bottomLeft.linkId]

end Tiles

end IsomTerrain

namespace IsomTerrain

/-! ## The solid brush row of a tile group and the rectangles that carry it -/

/-- The row that the loop over `solidBrushes` of `generateIsomLinks` pushes for the brush with
the index `index` and the link id `linkId` whose first tile group has the links `links`. -/
def Tiles.solidBrushRow (links : DirectionalLinks) (index linkId : Nat) : ShapeLinks :=
  { terrainType := index % 256,
    topLeft := { right := links.right, bottom := links.bottom, linkId := linkId },
    topRight := { left := links.left, bottom := links.bottom, linkId := linkId },
    bottomRight := { left := links.left, top := links.top, linkId := linkId },
    bottomLeft := { top := links.top, right := links.right, linkId := linkId } }

/-- The rectangle after `ScMap::setIsomValue` has written the row `v` through the quadrant `q`
and then through the opposite quadrant (each write is `set` followed by `setModified`): the
two valid diamonds that share the rectangle both carry the row `v`. -/
def IsomRect.writtenTwice (r : IsomRect) (q : Quadrant) (v : Nat) : IsomRect :=
  (((r.set (ProjectedQuadrant.atQuadrant q) v).setModified
    (ProjectedQuadrant.atQuadrant q)).set (ProjectedQuadrant.atQuadrant (OppositeQuadrant q))
      v).setModified (ProjectedQuadrant.atQuadrant (OppositeQuadrant q))

end IsomTerrain

namespace IsomTerrain

/-! ## The counts of `getRandomSubtile` -/

namespace IsomCache

/-- The value of `totalCommon` in `getRandomSubtile` for the tile group `tileGroup`. -/
def totalCommon (c : IsomCache) (tileGroup : Nat) : Nat :=
  World.countCommon (c.tileGroups.getD tileGroup default).megaTileIndex 16 0

/-- The value of `totalRare` in `getRandomSubtile` for the tile group `tileGroup`. -/
def totalRare (c : IsomCache) (tileGroup : Nat) : Nat :=
  World.countRare (c.tileGroups.getD tileGroup default).megaTileIndex (c.totalCommon tileGroup)
    16 0

end IsomCache

end IsomTerrain

namespace IsomTerrain

namespace World

/-! ## Sequences of undoable writes -/

/-- A sequence of undoable `setIsomValue` writes, each given by the rectangle position, the
quadrant and the row. -/
def undoableWrites (writes : List (Point × Quadrant × Nat)) (w : World) : World :=
  writes.foldl (fun w1 write => setIsomValue write.1 write.2.1 write.2.2 true w1) w

/-- The undo records handed to the sink `IsomCache::addIsomUndo` in a trace. -/
def sinkCalls : List Event → List IsomRectUndo
  | [] => []
  | Event.undoSink u :: t => u :: sinkCalls t
  | Event.visited _ :: t => sinkCalls t
  | Event.setDiamond _ _ :: t => sinkCalls t

/-- The invariant of a sequence of undoable writes that started in `w0` with an empty undo map
and has written the positions `written`: the dimensions are kept; a written position inside the
grid has an undo record with the old value of `w0` and the current value as the new value, both
with the editor flags cleared; an unwritten position has no record and its rectangle of `w0`;
the sink was called at most once per position, only for written positions inside the grid. -/
def UndoInv (w0 : World) (written : List Point) (w : World) : Prop :=
  w.map.tileWidth = w0.map.tileWidth ∧ w.map.tileHeight = w0.map.tileHeight ∧
  w.map.isomRects.length = w0.map.isomRects.length ∧
  w.cache.isomWidth = w0.cache.isomWidth ∧
  w.cache.undoMap.length = w0.cache.undoMap.length ∧
  (∀ p : Point, w0.map.isInBounds p = true →
    (p ∈ written →
      w.cache.undoMap.getD (p.y * w0.cache.isomWidth + p.x) none =
        some { diamond := p, oldValue := (w0.map.getIsomRect p).clearEditorFlags,
               newValue := (w.map.getIsomRect p).clearEditorFlags }) ∧
    (p ∉ written →
      w.cache.undoMap.getD (p.y * w0.cache.isomWidth + p.x) none = none ∧
      w.map.getIsomRect p = w0.map.getIsomRect p)) ∧
  ∃ new : List Event, w.trace = new ++ w0.trace ∧
    ((sinkCalls new).map fun u => u.diamond).Nodup ∧
    ∀ u ∈ sinkCalls new, u.diamond ∈ written ∧ w0.map.isInBounds u.diamond = true ∧
      u.oldValue = (w0.map.getIsomRect u.diamond).clearEditorFlags

end World

end IsomTerrain

namespace IsomTerrain

namespace World

/-! ## Modified quadrants -/

/-- The rectangles of the map carry no editor flag. -/
def noEditorFlags (m : ScMap) : Bool :=
  m.isomRects.all fun r => r == r.clearEditorFlags

/-- The `Modified` bit is set on both sides of the quadrant `q` of the diamond `d`. -/
def quadrantModified (m : ScMap) (d : IsomDiamond) (q : Quadrant) : Bool :=
  (m.getIsomRect (d.getRectangleCoords q)).side (ProjectedQuadrant.atQuadrant q).firstSide
      &&& EditorFlag.Modified != 0 &&
    (m.getIsomRect (d.getRectangleCoords q)).side (ProjectedQuadrant.atQuadrant q).secondSide
      &&& EditorFlag.Modified != 0

end World

end IsomTerrain

namespace IsomTerrain

/-! ## Bit-level lemmas -/

theorem and_low_mask (x m k : Nat) (hm : m < 2 ^ k) : x &&& m = (x % 2 ^ k) &&& m := by
  have h1 : m &&& (2 ^ k - 1) = m := by
    rw [Nat.and_pow_two_sub_one_eq_mod]; exact Nat.mod_eq_of_lt hm
  have h2 : (2 ^ k - 1) &&& m = m := by rw [Nat.and_comm]; exact h1
  calc x &&& m = x &&& ((2 ^ k - 1) &&& m) := by rw [h2]
    _ = (x &&& (2 ^ k - 1)) &&& m := by rw [Nat.and_assoc]
    _ = (x % 2 ^ k) &&& m := by rw [Nat.and_pow_two_sub_one_eq_mod]

theorem shl4_or (v f : Nat) (hf : f < 16) : (v <<< 4) ||| f = 16 * v + f := by
  have h := Nat.mul_add_lt_is_or (show f < 2 ^ 4 from hf) v
  rw [Nat.shiftLeft_eq, Nat.mul_comm]
  exact h.symm

theorem and_one_or_one (x : Nat) : (x ||| 1) &&& 1 = 1 := by
  rw [Nat.and_one_is_mod]
  exact Nat.or_mod_two_eq_one.mpr (Or.inr rfl)

theorem u16_and (x m : Nat) (hm : m < 65536) : (x % 65536) &&& m = x &&& m := by
  have h := and_low_mask x m 16 (by simpa using hm)
  simpa using h.symm

theorem flag_and_mask (v f : Nat) (hf : f < 16) : ((v <<< 4) ||| f) &&& 0xE = f &&& 0xE := by
  rw [shl4_or v f hf, and_low_mask (16 * v + f) 0xE 4 (by decide)]
  have : (16 * v + f) % 2 ^ 4 = f := by omega
  rw [this]

end IsomTerrain

namespace IsomTerrain
open World

/-- C4: for every quadrant `q`, value and rectangle, `IsomRect::set(ProjectedQuadrant(q), value)`
stores `(value << 4) | first_edge_flag` (as a `uint16_t`) in the first side of the quadrant and
`(value << 4) | second_edge_flag` in its second side, leaves the two other sides unchanged, and
the sides and flags are those of the table TopLeft = (right 0x0, bottom 0x2),
TopRight = (left 0x4, bottom 0x6), BottomRight = (left 0x8, top 0xA),
BottomLeft = (top 0xC, right 0xE); below 4096 the 16-bit store does not truncate. -/
theorem C4_set_stores_quadrant (q : Quadrant) (value : Nat) (r : IsomRect) :
    ((r.set (ProjectedQuadrant.atQuadrant q) value).side (ProjectedQuadrant.atQuadrant q).firstSide
        = ((value <<< 4) ||| (ProjectedQuadrant.atQuadrant q).firstEdgeFlags) % 65536) ∧
    ((r.set (ProjectedQuadrant.atQuadrant q) value).side (ProjectedQuadrant.atQuadrant q).secondSide
        = ((value <<< 4) ||| (ProjectedQuadrant.atQuadrant q).secondEdgeFlags) % 65536) ∧
    (∀ s : Side, s ≠ (ProjectedQuadrant.atQuadrant q).firstSide →
        s ≠ (ProjectedQuadrant.atQuadrant q).secondSide →
        (r.set (ProjectedQuadrant.atQuadrant q) value).side s = r.side s) ∧
    (value < 4096 →
      ((value <<< 4) ||| (ProjectedQuadrant.atQuadrant q).firstEdgeFlags) % 65536
          = (value <<< 4) ||| (ProjectedQuadrant.atQuadrant q).firstEdgeFlags ∧
      ((value <<< 4) ||| (ProjectedQuadrant.atQuadrant q).secondEdgeFlags) % 65536
          = (value <<< 4) ||| (ProjectedQuadrant.atQuadrant q).secondEdgeFlags) ∧
    ProjectedQuadrant.atQuadrant Quadrant.TopLeft = ⟨Side.Right, Side.Bottom, 0x0, 0x2⟩ ∧
    ProjectedQuadrant.atQuadrant Quadrant.TopRight = ⟨Side.Left, Side.Bottom, 0x4, 0x6⟩ ∧
    ProjectedQuadrant.atQuadrant Quadrant.BottomRight = ⟨Side.Left, Side.Top, 0x8, 0xA⟩ ∧
    ProjectedQuadrant.atQuadrant Quadrant.BottomLeft = ⟨Side.Top, Side.Right, 0xC, 0xE⟩ := by
  refine ⟨?_, ?_, ?_, ?_, rfl, rfl, rfl, rfl⟩
  · cases q <;> rfl
  · cases q <;> rfl
  · intro s h1 h2
    cases q <;> cases s <;> first | rfl | exact absurd rfl h1 | exact absurd rfl h2
  · intro hv
    have key : ∀ f : Nat, f < 16 → ((value <<< 4) ||| f) % 65536 = (value <<< 4) ||| f := by
      intro f hf
      rw [shl4_or value f hf]
      exact Nat.mod_eq_of_lt (by omega)
    cases q <;> exact ⟨key _ (by decide), key _ (by decide)⟩

end IsomTerrain

namespace IsomTerrain
open World

/-- The edge-flag nibble of a field written by `set`, also after `setModified`. -/
theorem stored_and_mask (v f : Nat) (hf : f < 16) :
    (((v <<< 4) ||| f) % 65536) &&& 0xE = f &&& 0xE ∧
    ((((v <<< 4) ||| f) % 65536) ||| 1) &&& 0xE = f &&& 0xE := by
  have h1 : (((v <<< 4) ||| f) % 65536) &&& 0xE = f &&& 0xE := by
    rw [u16_and _ _ (by decide)]; exact flag_and_mask v f hf
  refine ⟨h1, ?_⟩
  rw [Nat.and_distrib_right, h1]
  have : (1 : Nat) &&& 0xE = 0 := by decide
  rw [this, Nat.or_zero]

/-- C5: for every quadrant `q`, link row and row index `v`, after
`IsomRect::set(ProjectedQuadrant(q), v)`, and also after `setModified(q)`,
`ShapeLinks::getEdgeLink` of the field stored in the first side is the link of quadrant `q`
named by the first side and `getEdgeLink` of the field stored in the second side is the link
named by the second side; the eight edge flags select eight different link fields (on a row
whose eight links are 1..8 they read 1..8 in order). -/
theorem C5_edge_flag_roundtrip (q : Quadrant) (row : ShapeLinks) (v : Nat) (r : IsomRect) :
    (match q with
      | Quadrant.TopLeft =>
        row.getEdgeLink (r.set (ProjectedQuadrant.atQuadrant q) v).right = row.topLeft.right ∧
        row.getEdgeLink (r.set (ProjectedQuadrant.atQuadrant q) v).bottom = row.topLeft.bottom ∧
        row.getEdgeLink ((r.set (ProjectedQuadrant.atQuadrant q) v).setModified
          (ProjectedQuadrant.atQuadrant q)).right = row.topLeft.right ∧
        row.getEdgeLink ((r.set (ProjectedQuadrant.atQuadrant q) v).setModified
          (ProjectedQuadrant.atQuadrant q)).bottom = row.topLeft.bottom
      | Quadrant.TopRight =>
        row.getEdgeLink (r.set (ProjectedQuadrant.atQuadrant q) v).left = row.topRight.left ∧
        row.getEdgeLink (r.set (ProjectedQuadrant.atQuadrant q) v).bottom = row.topRight.bottom ∧
        row.getEdgeLink ((r.set (ProjectedQuadrant.atQuadrant q) v).setModified
          (ProjectedQuadrant.atQuadrant q)).left = row.topRight.left ∧
        row.getEdgeLink ((r.set (ProjectedQuadrant.atQuadrant q) v).setModified
          (ProjectedQuadrant.atQuadrant q)).bottom = row.topRight.bottom
      | Quadrant.BottomRight =>
        row.getEdgeLink (r.set (ProjectedQuadrant.atQuadrant q) v).left = row.bottomRight.left ∧
        row.getEdgeLink (r.set (ProjectedQuadrant.atQuadrant q) v).top = row.bottomRight.top ∧
        row.getEdgeLink ((r.set (ProjectedQuadrant.atQuadrant q) v).setModified
          (ProjectedQuadrant.atQuadrant q)).left = row.bottomRight.left ∧
        row.getEdgeLink ((r.set (ProjectedQuadrant.atQuadrant q) v).setModified
          (ProjectedQuadrant.atQuadrant q)).top = row.bottomRight.top
      | Quadrant.BottomLeft =>
        row.getEdgeLink (r.set (ProjectedQuadrant.atQuadrant q) v).top = row.bottomLeft.top ∧
        row.getEdgeLink (r.set (ProjectedQuadrant.atQuadrant q) v).right = row.bottomLeft.right ∧
        row.getEdgeLink ((r.set (ProjectedQuadrant.atQuadrant q) v).setModified
          (ProjectedQuadrant.atQuadrant q)).top = row.bottomLeft.top ∧
        row.getEdgeLink ((r.set (ProjectedQuadrant.atQuadrant q) v).setModified
          (ProjectedQuadrant.atQuadrant q)).right = row.bottomLeft.right) ∧
    [EdgeFlags.TopLeft_Right, EdgeFlags.TopLeft_Bottom, EdgeFlags.TopRight_Left,
      EdgeFlags.TopRight_Bottom, EdgeFlags.BottomRight_Left, EdgeFlags.BottomRight_Top,
      EdgeFlags.BottomLeft_Top, EdgeFlags.BottomLeft_Right].map probeRow.getEdgeLink
      = [1, 2, 3, 4, 5, 6, 7, 8] := by
  have key : ∀ f : Nat, f < 16 →
      row.getEdgeLink (((v <<< 4) ||| f) % 65536) = row.getEdgeLink f ∧
      row.getEdgeLink ((((v <<< 4) ||| f) % 65536) ||| 1) = row.getEdgeLink f := by
    intro f hf
    have h := stored_and_mask v f hf
    have e : ∀ x y : Nat, x &&& 0xE = y &&& 0xE → row.getEdgeLink x = row.getEdgeLink y := by
      intro x y hxy
      simp only [ShapeLinks.getEdgeLink, EdgeFlags.Mask, hxy]
    exact ⟨e _ _ h.1, e _ _ h.2⟩
  refine ⟨?_, by decide⟩
  cases q
  · exact ⟨(key 0x0 (by decide)).1, (key 0x2 (by decide)).1, (key 0x0 (by decide)).2,
      (key 0x2 (by decide)).2⟩
  · exact ⟨(key 0x4 (by decide)).1, (key 0x6 (by decide)).1, (key 0x4 (by decide)).2,
      (key 0x6 (by decide)).2⟩
  · exact ⟨(key 0x8 (by decide)).1, (key 0xA (by decide)).1, (key 0x8 (by decide)).2,
      (key 0xA (by decide)).2⟩
  · exact ⟨(key 0xC (by decide)).1, (key 0xE (by decide)).1, (key 0xC (by decide)).2,
      (key 0xE (by decide)).2⟩

/-- C2: whenever `placeIsomTerrain` returns `false`, the map's `isomRects`, `tiles` and
`editorTiles` and the cache's `changedArea` and `undoMap` are what they were before the call. -/
theorem C2_false_leaves_state (fuel : Nat) (d : IsomDiamond) (terrainType brushExtent : Nat)
    (w w' : World) (h : placeIsomTerrain fuel d terrainType brushExtent w = some (false, w')) :
    w'.map.isomRects = w.map.isomRects ∧ w'.map.tiles = w.map.tiles ∧
    w'.map.editorTiles = w.map.editorTiles ∧ w'.cache.changedArea = w.cache.changedArea ∧
    w'.cache.undoMap = w.cache.undoMap := by
  unfold placeIsomTerrain at h
  simp only [] at h
  split at h
  · simp only [Option.some.injEq, Prod.mk.injEq, true_and] at h
    subst h
    exact ⟨rfl, rfl, rfl, rfl, rfl⟩
  · split at h
    · exact absurd h (by simp)
    · simp at h

/-- C2 is not vacuous: on `demoWorld` the invalid diamond (1,0) is rejected. -/
theorem C2_false_leaves_state_witness :
    placeIsomTerrain 0 ⟨1, 0⟩ 1 1 demoWorld = some (false, demoWorld) ∧
    (demoWorld.map.isomRects = demoWorld.map.isomRects ∧
      demoWorld.map.tiles = demoWorld.map.tiles ∧
      demoWorld.map.editorTiles = demoWorld.map.editorTiles ∧
      demoWorld.cache.changedArea = demoWorld.cache.changedArea ∧
      demoWorld.cache.undoMap = demoWorld.cache.undoMap) :=
  ⟨rfl, C2_false_leaves_state 0 ⟨1, 0⟩ 1 1 demoWorld demoWorld rfl⟩

end IsomTerrain

namespace IsomTerrain
open World

/-! ## Lists and grid indices -/

theorem getD_set_eq {α : Type} (l : List α) (i j : Nat) (a d : α) :
    (l.set i a).getD j d = if i = j ∧ i < l.length then a else l.getD j d := by
  simp only [List.getD_eq_getElem?_getD, List.getElem?_set]
  by_cases hij : i = j
  · subst hij
    by_cases hi : i < l.length
    · simp [hi]
    · have hn : l[i]? = none := List.getElem?_eq_none (Nat.le_of_not_lt hi)
      simp [hi, hn]
  · simp [hij]

theorem rectIndex_inj (W x y x' y' : Nat) (hx : x < W) (hx' : x' < W)
    (h : y * W + x = y' * W + x') : x = x' ∧ y = y' := by
  have h1 : (y * W + x) % W = x := by
    rw [Nat.add_comm, Nat.add_mul_mod_self_right]; exact Nat.mod_eq_of_lt hx
  have h2 : (y' * W + x') % W = x' := by
    rw [Nat.add_comm, Nat.add_mul_mod_self_right]; exact Nat.mod_eq_of_lt hx'
  have hxx : x = x' := by rw [← h1, ← h2, h]
  subst hxx
  have hW : 0 < W := by omega
  have : y * W = y' * W := by omega
  exact ⟨rfl, Nat.eq_of_mul_eq_mul_right hW this⟩

namespace ScMap

theorem getIsomRect_setIsomRect_ne (m : ScMap) (p p' : Point) (r : IsomRect)
    (hp : p.x < m.getIsomWidth) (hp' : p'.x < m.getIsomWidth) (hne : p' ≠ p) :
    (m.setIsomRect p r).getIsomRect p' = m.getIsomRect p' := by
  unfold getIsomRect setIsomRect rectIndex getIsomWidth
  simp only []
  rw [getD_set_eq]
  have : ¬ (p.y * (m.tileWidth / 2 + 1) + p.x = p'.y * (m.tileWidth / 2 + 1) + p'.x) := by
    intro h
    have := rectIndex_inj _ _ _ _ _ hp hp' h
    apply hne
    cases p; cases p'; simp_all
  simp [this]

theorem getIsomRect_setIsomRect_self (m : ScMap) (p : Point) (r : IsomRect)
    (h : m.rectIndex p < m.isomRects.length) :
    (m.setIsomRect p r).getIsomRect p = r := by
  unfold getIsomRect setIsomRect
  have : (({ m with isomRects := m.isomRects.set (m.rectIndex p) r } : ScMap)).rectIndex p
      = m.rectIndex p := rfl
  simp only [this]
  rw [getD_set_eq]
  simp [h]

theorem setTileValue_isomRects (m : ScMap) (x y v : Nat) :
    (m.setTileValue x y v).isomRects = m.isomRects ∧
    (m.setTileValue x y v).tileWidth = m.tileWidth ∧
    (m.setTileValue x y v).tileHeight = m.tileHeight := ⟨rfl, rfl, rfl⟩

end ScMap

namespace World

theorem fillStack_frame (c : IsomCache) (d : IsomDiamond) (lx rx sub : Nat) :
    ∀ (fuel y : Nat) (m : ScMap),
      ((fillStack c d lx rx sub fuel y m).isomRects, (fillStack c d lx rx sub fuel y m).tileWidth,
        (fillStack c d lx rx sub fuel y m).tileHeight)
        = (m.isomRects, m.tileWidth, m.tileHeight) := by
  intro fuel
  induction fuel with
  | zero => intro y m; rfl
  | succ n ih =>
    intro y m
    rw [fillStack]
    simp only []
    split_ifs
    all_goals first | rfl | exact (ih _ _).trans rfl

theorem getRandomSubtile_frame (g : Nat) (w : World) :
    (getRandomSubtile g w).2.map = w.map ∧ (getRandomSubtile g w).2.cache = w.cache ∧
    (getRandomSubtile g w).2.trace = w.trace := by
  unfold getRandomSubtile nextRand
  simp only []
  repeat' split
  all_goals exact ⟨rfl, rfl, rfl⟩

theorem writeTileStack_frame (c : IsomCache) (d : IsomDiamond) (lx rx g sub : Nat) (m : ScMap) :
    ((writeTileStack c d lx rx g sub m).isomRects, (writeTileStack c d lx rx g sub m).tileWidth,
      (writeTileStack c d lx rx g sub m).tileHeight) = (m.isomRects, m.tileWidth, m.tileHeight) := by
  unfold writeTileStack
  exact (fillStack_frame _ _ _ _ _ _ _ _).trans rfl

theorem updateTileFromIsom_frame (d : IsomDiamond) (w : World) :
    ((updateTileFromIsom d w).map.isomRects, (updateTileFromIsom d w).map.tileWidth,
      (updateTileFromIsom d w).map.tileHeight, (updateTileFromIsom d w).cache,
      (updateTileFromIsom d w).trace)
      = (w.map.isomRects, w.map.tileWidth, w.map.tileHeight, w.cache, w.trace) := by
  unfold updateTileFromIsom
  split_ifs
  · rfl
  · split
    · have hr := getRandomSubtile_frame
      have hf := writeTileStack_frame
      simp only [Prod.mk.injEq] at hf ⊢
      refine ⟨?_, ?_, ?_, ?_, ?_⟩
      · rw [(hf _ _ _ _ _ _ _).1, (hr _ w).1]
      · rw [(hf _ _ _ _ _ _ _).2.1, (hr _ w).1]
      · rw [(hf _ _ _ _ _ _ _).2.2, (hr _ w).1]
      · exact (hr _ w).2.1
      · exact (hr _ w).2.2
    · rfl

end World
end IsomTerrain

namespace IsomTerrain

theorem foldl_prefix_inv {σ α : Type} (f : σ → α → σ) :
    ∀ (l : List α) (P : List α → σ → Prop) (s : σ), P [] s →
      (∀ pre a s, a ∈ l → P pre s → P (pre ++ [a]) (f s a)) → P l (l.foldl f s) := by
  intro l
  induction l with
  | nil => intro P s h0 _; exact h0
  | cons a l ih =>
    intro P s h0 hstep
    rw [List.foldl_cons]
    apply ih (fun pre s => P (a :: pre) s)
    · exact hstep [] a s (List.mem_cons_self _ _) h0
    · intro pre b s hb hP
      exact hstep (a :: pre) b s (List.mem_cons_of_mem _ hb) hP

theorem mem_rangeIncl (lo hi n : Nat) : n ∈ World.rangeIncl lo hi ↔ lo ≤ n ∧ n ≤ hi := by
  unfold World.rangeIncl
  rw [List.mem_range'_1]
  omega

theorem clearEditorFlags_idem (r : IsomRect) :
    r.clearEditorFlags.clearEditorFlags = r.clearEditorFlags := by
  simp only [IsomRect.clearEditorFlags, Nat.and_assoc, Nat.and_self]

theorem clearEditorFlags_default :
    (default : IsomRect).clearEditorFlags = default := by decide

namespace World

theorem updateTilesCell_frame (x y : Nat) (w : World) :
    (updateTilesCell x y w).map.isomRects
        = w.map.isomRects.set (w.map.rectIndex ⟨x, y⟩) (w.map.getIsomRect ⟨x, y⟩).clearEditorFlags ∧
    (updateTilesCell x y w).map.tileWidth = w.map.tileWidth ∧
    (updateTilesCell x y w).map.tileHeight = w.map.tileHeight ∧
    (updateTilesCell x y w).cache = w.cache ∧
    (updateTilesCell x y w).trace = w.trace := by
  unfold updateTilesCell
  simp only []
  split_ifs
  · have h := updateTileFromIsom_frame ⟨x, y⟩ w
    simp only [Prod.mk.injEq] at h
    obtain ⟨h1, h2, h3, h4, h5⟩ := h
    refine ⟨?_, h2, h3, h4, h5⟩
    simp only [ScMap.setIsomRect, ScMap.getIsomRect, ScMap.rectIndex, ScMap.getIsomWidth, h1, h2]
  · exact ⟨rfl, rfl, rfl, rfl, rfl⟩

theorem clearedOn_cell (w0 w : World) (D : Point → Prop) (x y : Nat)
    (hx : x < w0.map.getIsomWidth) (h : ClearedOn w0 w D) :
    ClearedOn w0 (updateTilesCell x y w) (fun p => D p ∨ p = ⟨x, y⟩) := by
  obtain ⟨hw, hh, hc, ht, hl, hr⟩ := h
  obtain ⟨f1, f2, f3, f4, f5⟩ := updateTilesCell_frame x y w
  have hW : w.map.getIsomWidth = w0.map.getIsomWidth := by
    simp only [ScMap.getIsomWidth, hw]
  refine ⟨f2.trans hw, f3.trans hh, f4.trans hc, f5.trans ht, ?_, ?_⟩
  · rw [f1, List.length_set]; exact hl
  · intro p hp
    have hget : (updateTilesCell x y w).map.getIsomRect p
        = (w.map.setIsomRect ⟨x, y⟩ (w.map.getIsomRect ⟨x, y⟩).clearEditorFlags).getIsomRect p := by
      simp only [ScMap.getIsomRect, ScMap.rectIndex, ScMap.getIsomWidth, f1, f2, ScMap.setIsomRect]
    rw [hget]
    by_cases hpe : p = ⟨x, y⟩
    · subst hpe
      have hval : (w.map.setIsomRect ⟨x, y⟩ (w.map.getIsomRect ⟨x, y⟩).clearEditorFlags).getIsomRect
          ⟨x, y⟩ = (w.map.getIsomRect ⟨x, y⟩).clearEditorFlags := by
        by_cases hi : w.map.rectIndex ⟨x, y⟩ < w.map.isomRects.length
        · exact ScMap.getIsomRect_setIsomRect_self _ _ _ hi
        · have hd : w.map.getIsomRect ⟨x, y⟩ = default := by
            unfold ScMap.getIsomRect
            rw [List.getD_eq_getElem?_getD, List.getElem?_eq_none (Nat.le_of_not_lt hi)]
            rfl
          rw [hd, clearEditorFlags_default]
          unfold ScMap.getIsomRect ScMap.setIsomRect
          show (List.set _ _ _).getD (w.map.rectIndex ⟨x, y⟩) default = default
          rw [getD_set_eq]
          simp only [hi, and_false, if_false]
          exact hd
      rw [hval]
      constructor
      · intro _
        by_cases hD : D ⟨x, y⟩
        · rw [(hr _ hp).1 hD, clearEditorFlags_idem]
        · rw [(hr _ hp).2 hD]
      · intro hn
        exact absurd (Or.inr rfl) hn
    · rw [ScMap.getIsomRect_setIsomRect_ne w.map ⟨x, y⟩ p _ (by rw [hW]; exact hx)
        (by rw [hW]; exact hp) hpe]
      constructor
      · intro hD
        rcases hD with hD | hD
        · exact (hr _ hp).1 hD
        · exact absurd hD hpe
      · intro hn
        exact (hr _ hp).2 (fun hD => hn (Or.inl hD))

theorem clearedOn_congr (w0 w : World) (D D' : Point → Prop) (h : ∀ p, D p ↔ D' p)
    (hc : ClearedOn w0 w D) : ClearedOn w0 w D' := by
  have : D = D' := funext (fun p => propext (h p))
  rw [← this]; exact hc

theorem clearedOn_row (w0 w : World) (D : Point → Prop) (y left right : Nat)
    (hr : right < w0.map.getIsomWidth) (h : ClearedOn w0 w D) :
    ClearedOn w0 ((rangeIncl left right).foldl (fun wx x => updateTilesCell x y wx) w)
      (fun p => D p ∨ (p.y = y ∧ left ≤ p.x ∧ p.x ≤ right)) := by
  have key := foldl_prefix_inv (fun wx x => updateTilesCell x y wx) (rangeIncl left right)
    (fun pre s => ClearedOn w0 s (fun p => D p ∨ (p.y = y ∧ p.x ∈ pre))) w
    (clearedOn_congr _ _ _ _ (by intro p; simp) h)
    (by
      intro pre a s ha hP
      have hax : a < w0.map.getIsomWidth := by
        have := (mem_rangeIncl _ _ _).mp ha
        omega
      refine clearedOn_congr _ _ _ _ ?_ (clearedOn_cell w0 s _ a y hax hP)
      intro p
      cases p with
      | mk px py =>
        simp only [List.mem_append, List.mem_singleton, Point.mk.injEq]
        tauto)
  refine clearedOn_congr _ _ _ _ ?_ key
  intro p
  simp only [mem_rangeIncl]

theorem clearedOn_grid (w : World) (hr : w.cache.changedArea.right < w.map.getIsomWidth) :
    ClearedOn w
      ((rangeIncl w.cache.changedArea.top w.cache.changedArea.bottom).foldl
        (fun wy y => (rangeIncl w.cache.changedArea.left w.cache.changedArea.right).foldl
          (fun wx x => updateTilesCell x y wx) wy) w)
      (fun p => (w.cache.changedArea.top ≤ p.y ∧ p.y ≤ w.cache.changedArea.bottom) ∧
        (w.cache.changedArea.left ≤ p.x ∧ p.x ≤ w.cache.changedArea.right)) := by
  have h0 : ClearedOn w w (fun _ => False) :=
    ⟨rfl, rfl, rfl, rfl, rfl, fun p _ => ⟨fun h => h.elim, fun _ => rfl⟩⟩
  have key := foldl_prefix_inv
    (fun wy y => (rangeIncl w.cache.changedArea.left w.cache.changedArea.right).foldl
          (fun wx x => updateTilesCell x y wx) wy)
    (rangeIncl w.cache.changedArea.top w.cache.changedArea.bottom)
    (fun pre s => ClearedOn w s (fun p => p.y ∈ pre ∧
        (w.cache.changedArea.left ≤ p.x ∧ p.x ≤ w.cache.changedArea.right))) w
    (clearedOn_congr _ _ _ _ (by intro p; simp) h0)
    (by
      intro pre a s _ hP
      refine clearedOn_congr _ _ _ _ ?_ (clearedOn_row w s _ a _ _ hr hP)
      intro p
      simp only [List.mem_append, List.mem_singleton]
      tauto)
  refine clearedOn_congr _ _ _ _ ?_ key
  intro p
  simp only [mem_rangeIncl]

end World
end IsomTerrain

namespace IsomTerrain
namespace World

theorem updateTilesFromIsom_rects (w : World) (hr : w.cache.changedArea.right < w.map.getIsomWidth)
    (p : Point) (hp : p.x < w.map.getIsomWidth) :
    (updateTilesFromIsom w).map.isomRects.length = w.map.isomRects.length ∧
    (updateTilesFromIsom w).map.tileWidth = w.map.tileWidth ∧
    (((w.cache.changedArea.top ≤ p.y ∧ p.y ≤ w.cache.changedArea.bottom) ∧
        (w.cache.changedArea.left ≤ p.x ∧ p.x ≤ w.cache.changedArea.right)) →
      (updateTilesFromIsom w).map.getIsomRect p = (w.map.getIsomRect p).clearEditorFlags) ∧
    (¬ ((w.cache.changedArea.top ≤ p.y ∧ p.y ≤ w.cache.changedArea.bottom) ∧
        (w.cache.changedArea.left ≤ p.x ∧ p.x ≤ w.cache.changedArea.right)) →
      (updateTilesFromIsom w).map.getIsomRect p = w.map.getIsomRect p) := by
  obtain ⟨h1, _, _, _, h5, h6⟩ := clearedOn_grid w hr
  unfold updateTilesFromIsom
  exact ⟨h5, h1, (h6 p hp).1, (h6 p hp).2⟩

/-- The value stored in every field by `newMap` before the projection. -/
theorem newMap_fields_aux (width height : Nat)
    (r0 : IsomRect) (w0 : World)
    (hmapw : w0.map.tileWidth = width)
    (hrects : w0.map.isomRects = List.replicate ((width / 2 + 1) * (height + 1)) r0)
    (harea : w0.cache.changedArea = { left := 0, top := 0, right := width / 2, bottom := height }) :
    (updateTilesFromIsom w0).map.isomRects
      = List.replicate ((width / 2 + 1) * (height + 1)) r0.clearEditorFlags := by
  have hW : w0.map.getIsomWidth = width / 2 + 1 := by simp [ScMap.getIsomWidth, hmapw]
  have hr : w0.cache.changedArea.right < w0.map.getIsomWidth := by rw [harea, hW]; simp
  apply List.ext_getElem
  · rw [(updateTilesFromIsom_rects w0 hr ⟨0, 0⟩ (by rw [hW]; exact Nat.succ_pos _)).1, hrects]
    simp
  · intro i h1 h2
    rw [List.getElem_replicate]
    have hlen : i < (width / 2 + 1) * (height + 1) := by simpa using h2
    have hx : i % (width / 2 + 1) < width / 2 + 1 := Nat.mod_lt _ (by omega)
    have hy : i / (width / 2 + 1) < height + 1 := by
      rw [Nat.div_lt_iff_lt_mul (by omega)]
      rw [Nat.mul_comm]; exact hlen
    have hidx : i / (width / 2 + 1) * (width / 2 + 1) + i % (width / 2 + 1) = i := by
      rw [Nat.mul_comm]; exact Nat.div_add_mod i _
    obtain ⟨_, htw, hin, _⟩ := updateTilesFromIsom_rects w0 hr
      ⟨i % (width / 2 + 1), i / (width / 2 + 1)⟩ (by rw [hW]; exact hx)
    have hD : ((w0.cache.changedArea.top ≤ i / (width / 2 + 1) ∧
        i / (width / 2 + 1) ≤ w0.cache.changedArea.bottom) ∧
        (w0.cache.changedArea.left ≤ i % (width / 2 + 1) ∧
          i % (width / 2 + 1) ≤ w0.cache.changedArea.right)) := by
      rw [harea]
      exact ⟨⟨Nat.zero_le _, Nat.lt_succ_iff.mp hy⟩, ⟨Nat.zero_le _, Nat.lt_succ_iff.mp hx⟩⟩
    have h3 := hin hD
    have e1 : (updateTilesFromIsom w0).map.getIsomRect ⟨i % (width / 2 + 1), i / (width / 2 + 1)⟩
        = (updateTilesFromIsom w0).map.isomRects[i] := by
      unfold ScMap.getIsomRect ScMap.rectIndex ScMap.getIsomWidth
      rw [htw, hmapw]
      simp only []
      rw [hidx, List.getD_eq_getElem?_getD, List.getElem?_eq_getElem h1]
      rfl
    have e2 : w0.map.getIsomRect ⟨i % (width / 2 + 1), i / (width / 2 + 1)⟩ = r0 := by
      unfold ScMap.getIsomRect ScMap.rectIndex ScMap.getIsomWidth
      rw [hmapw]
      simp only []
      rw [hidx, hrects, List.getD_eq_getElem?_getD,
        List.getElem?_eq_getElem (by simpa using hlen), List.getElem_replicate]
      rfl
    rw [← e1, h3, e2]

/-- C10 (as the code behaves): after `newMap(tileset, w, h, terrainType)` the map has
`(w/2+1)*(h+1)` isom rectangles and every one of the four fields of every rectangle equals
`((isomValue << 4) | Modified) & ClearAll` (`ClearAll = 0x7FFE`), where
`isomValue = getTerrainTypeIsomValue(terrainType)`: `updateTilesFromIsom` has cleared the
`Modified` bit again, so the low bit of every field is 0. -/
theorem C10_newMap_uniform (width height terrainType : Nat) (tiles editorTiles : List Nat)
    (tileGroups : List TileGroup) (isomLinks : List ShapeLinks)
    (terrainTypes : List TerrainTypeInfo) (terrainTypeMap : List Nat)
    (hashToTileGroup : List (Nat × List Nat)) (rand : Nat → Nat)
    (hw : width < 65536) (hh : height < 65536) :
    (newMap width height terrainType tiles editorTiles tileGroups isomLinks terrainTypes
        terrainTypeMap hashToTileGroup rand).map.isomRects.length
      = (width / 2 + 1) * (height + 1) ∧
    ∀ r ∈ (newMap width height terrainType tiles editorTiles tileGroups isomLinks terrainTypes
        terrainTypeMap hashToTileGroup rand).map.isomRects,
      (r.left = ((((IsomCache.new width height tileGroups isomLinks terrainTypes terrainTypeMap
          hashToTileGroup).getTerrainTypeIsomValue terrainType <<< 4) ||| EditorFlag.Modified)
          % U16) &&& EditorFlag.ClearAll ∧
        r.top = r.left ∧ r.right = r.left ∧ r.bottom = r.left ∧
        r.left &&& EditorFlag.Modified = 0) := by
  have harea : ((IsomCache.new width height tileGroups isomLinks terrainTypes terrainTypeMap
      hashToTileGroup).setAllChanged).changedArea
      = { left := 0, top := 0, right := width / 2, bottom := height } := by
    simp only [IsomCache.setAllChanged, IsomCache.new, IsomCache.resetChangedArea, SIZE_MAX1]
    have e1 : (width / 2 + 1 + (18446744073709551616 - 1)) % 18446744073709551616
        = width / 2 := by omega
    have e2 : (height + 1 + (18446744073709551616 - 1)) % 18446744073709551616
        = height := by omega
    rw [e1, e2]
  have hnm := newMap_fields_aux width height _
    { map :=
        { tileWidth := width, tileHeight := height, tiles := tiles, editorTiles := editorTiles
          isomRects := List.replicate ((width / 2 + 1) * (height + 1))
            { left := ((((IsomCache.new width height tileGroups isomLinks terrainTypes
                terrainTypeMap hashToTileGroup).getTerrainTypeIsomValue terrainType <<< 4)
                ||| EditorFlag.Modified) % U16)
              top := ((((IsomCache.new width height tileGroups isomLinks terrainTypes
                terrainTypeMap hashToTileGroup).getTerrainTypeIsomValue terrainType <<< 4)
                ||| EditorFlag.Modified) % U16)
              right := ((((IsomCache.new width height tileGroups isomLinks terrainTypes
                terrainTypeMap hashToTileGroup).getTerrainTypeIsomValue terrainType <<< 4)
                ||| EditorFlag.Modified) % U16)
              bottom := ((((IsomCache.new width height tileGroups isomLinks terrainTypes
                terrainTypeMap hashToTileGroup).getTerrainTypeIsomValue terrainType <<< 4)
                ||| EditorFlag.Modified) % U16) } }
      cache := (IsomCache.new width height tileGroups isomLinks terrainTypes terrainTypeMap
          hashToTileGroup).setAllChanged
      rand := rand }
    rfl rfl harea
  unfold newMap
  simp only []
  rw [hnm]
  refine ⟨by simp, ?_⟩
  intro r hr
  have hr' := (List.mem_replicate.mp hr).2
  subst hr'
  refine ⟨rfl, rfl, rfl, rfl, ?_⟩
  show (_ &&& EditorFlag.ClearAll) &&& EditorFlag.Modified = 0
  rw [Nat.and_assoc]
  have : EditorFlag.ClearAll &&& EditorFlag.Modified = 0 := by decide
  rw [this, Nat.and_zero]

/-- C10 is not vacuous: the 2x1-tile map filled with terrain type 1 of `demoCache`. -/
theorem C10_newMap_uniform_witness :
    (2 < 65536 ∧ 1 < 65536) ∧
    ((newMap 2 1 1 [0, 0] [0, 0] [] demoCache.isomLinks demoCache.terrainTypes
        demoCache.terrainTypeMap [] (fun _ => 0)).map.isomRects.length = (2 / 2 + 1) * (1 + 1) ∧
    ∀ r ∈ (newMap 2 1 1 [0, 0] [0, 0] [] demoCache.isomLinks demoCache.terrainTypes
        demoCache.terrainTypeMap [] (fun _ => 0)).map.isomRects,
      (r.left = ((((IsomCache.new 2 1 [] demoCache.isomLinks demoCache.terrainTypes
          demoCache.terrainTypeMap []).getTerrainTypeIsomValue 1 <<< 4) ||| EditorFlag.Modified)
          % U16) &&& EditorFlag.ClearAll ∧
        r.top = r.left ∧ r.right = r.left ∧ r.bottom = r.left ∧
        r.left &&& EditorFlag.Modified = 0)) :=
  ⟨⟨by decide, by decide⟩,
    C10_newMap_uniform 2 1 1 [0, 0] [0, 0] [] demoCache.isomLinks demoCache.terrainTypes
      demoCache.terrainTypeMap [] (fun _ => 0) (by decide) (by decide)⟩

set_option maxRecDepth 100000 in
/-- C10 as stated fails: on the 2x1-tile map filled with terrain type 1 (isomValue 1) of
`demoCache`, the fields are 0x10 and not `(1 << 4) | Modified = 0x11`. -/
theorem C10_counterexample :
    (newMap 2 1 1 [0, 0] [0, 0] [] demoCache.isomLinks demoCache.terrainTypes
        demoCache.terrainTypeMap [] (fun _ => 0)).map.isomRects
      = [⟨16, 16, 16, 16⟩, ⟨16, 16, 16, 16⟩, ⟨16, 16, 16, 16⟩, ⟨16, 16, 16, 16⟩] ∧
    demoCache.getTerrainTypeIsomValue 1 = 1 ∧
    ¬ (∀ r ∈ (newMap 2 1 1 [0, 0] [0, 0] [] demoCache.isomLinks demoCache.terrainTypes
        demoCache.terrainTypeMap [] (fun _ => 0)).map.isomRects,
        r.left = ((demoCache.getTerrainTypeIsomValue 1) <<< 4) ||| 0x0001 ∧
        r.top = ((demoCache.getTerrainTypeIsomValue 1) <<< 4) ||| 0x0001 ∧
        r.right = ((demoCache.getTerrainTypeIsomValue 1) <<< 4) ||| 0x0001 ∧
        r.bottom = ((demoCache.getTerrainTypeIsomValue 1) <<< 4) ||| 0x0001) := by
  decide

end World
end IsomTerrain

namespace IsomTerrain
namespace World


/-! ## The primitive state changes -/

theorem addIsomUndo_frame (p : Point) (w : World) :
    (addIsomUndo p w).map = w.map ∧
    (addIsomUndo p w).cache.changedArea = w.cache.changedArea ∧
    (addIsomUndo p w).cache.isomWidth = w.cache.isomWidth ∧
    (addIsomUndo p w).cache.isomHeight = w.cache.isomHeight ∧
    (addIsomUndo p w).cache.isomLinks = w.cache.isomLinks ∧
    (addIsomUndo p w).cache.terrainTypes = w.cache.terrainTypes ∧
    (addIsomUndo p w).cache.terrainTypeMap = w.cache.terrainTypeMap ∧
    (addIsomUndo p w).cache.undoMap.length = w.cache.undoMap.length ∧
    ((addIsomUndo p w).trace = w.trace ∨
      ∃ u, (addIsomUndo p w).trace = Event.undoSink u :: w.trace) := by
  unfold addIsomUndo
  simp only []
  split
  · exact ⟨rfl, rfl, rfl, rfl, rfl, rfl, rfl, rfl, Or.inl rfl⟩
  · exact ⟨rfl, rfl, rfl, rfl, rfl, rfl, rfl, by simp, Or.inr ⟨_, rfl⟩⟩

/-- The rectangle written by `setIsomValue`. -/
theorem setIsomValue_out (p : Point) (q : Quadrant) (v : Nat) (u : Bool) (w : World)
    (h : w.map.isInBounds p = false) : setIsomValue p q v u w = w := by
  unfold setIsomValue
  simp [h]

theorem setIsomValue_in (p : Point) (q : Quadrant) (v : Nat) (u : Bool) (w : World)
    (h : w.map.isInBounds p = true) :
    (setIsomValue p q v u w).map
      = w.map.setIsomRect p (((w.map.getIsomRect p).set (ProjectedQuadrant.atQuadrant q) v).setModified
          (ProjectedQuadrant.atQuadrant q)) ∧
    (setIsomValue p q v u w).cache.changedArea = w.cache.changedArea.expandToInclude p.x p.y ∧
    (setIsomValue p q v u w).cache.isomWidth = w.cache.isomWidth ∧
    (setIsomValue p q v u w).cache.isomHeight = w.cache.isomHeight ∧
    (setIsomValue p q v u w).cache.isomLinks = w.cache.isomLinks ∧
    (setIsomValue p q v u w).cache.terrainTypes = w.cache.terrainTypes ∧
    (setIsomValue p q v u w).cache.terrainTypeMap = w.cache.terrainTypeMap ∧
    ((setIsomValue p q v u w).trace = w.trace ∨
      ∃ e, (setIsomValue p q v u w).trace = Event.undoSink e :: w.trace) := by
  unfold setIsomValue
  simp only [h, if_true]
  by_cases hu : (u && decide (p.y * w.cache.isomWidth + p.x < w.cache.undoMap.length)) = true
  · simp only [hu, if_true]
    obtain ⟨a1, a2, a3, a4, a5, a6, a7, _, a9⟩ := addIsomUndo_frame p w
    refine ⟨by rw [a1], by rw [a2], a3, a4, a5, a6, a7, a9⟩
  · simp only [hu]
    exact ⟨rfl, rfl, rfl, rfl, rfl, rfl, rfl, Or.inl rfl⟩

end World
end IsomTerrain

namespace IsomTerrain

theorem foldl_inv {σ α : Type} (f : σ → α → σ) (P : σ → Prop) :
    ∀ (l : List α) (s : σ), P s → (∀ s a, a ∈ l → P s → P (f s a)) → P (l.foldl f s) := by
  intro l
  induction l with
  | nil => intro s h0 _; exact h0
  | cons a l ih =>
    intro s h0 hstep
    rw [List.foldl_cons]
    exact ih _ (hstep s a (List.mem_cons_self _ _) h0)
      (fun s b hb hP => hstep s b (List.mem_cons_of_mem _ hb) hP)

namespace World

theorem pushNeighbors_mem (m : ScMap) (d : IsomDiamond) (q : List IsomDiamond) (x : IsomDiamond)
    (hx : x ∈ pushNeighbors m d q) : x ∈ q ∨ ∃ n, x = d.getNeighbor n := by
  unfold pushNeighbors at hx
  revert hx
  apply foldl_inv (fun q i => if m.diamondNeedsUpdate (d.getNeighbor i)
      then q ++ [d.getNeighbor i] else q)
    (fun l => x ∈ l → x ∈ q ∨ ∃ n, x = d.getNeighbor n) neighbors q
  · intro h; exact Or.inl h
  · intro s a _ hP hx
    split_ifs at hx
    · rw [List.mem_append, List.mem_singleton] at hx
      rcases hx with hx | hx
      · exact hP hx
      · exact Or.inr ⟨a, hx⟩
    · exact hP hx

theorem pushNeighbors_length_aux (m : ScMap) (d : IsomDiamond) :
    ∀ (ns : List Neighbor) (q : List IsomDiamond),
      (ns.foldl (fun q i => if m.diamondNeedsUpdate (d.getNeighbor i)
        then q ++ [d.getNeighbor i] else q) q).length ≤ q.length + ns.length := by
  intro ns
  induction ns with
  | nil => intro q; exact Nat.le_refl _
  | cons i ns ih =>
    intro q
    rw [List.foldl_cons]
    refine (ih _).trans ?_
    by_cases h : m.diamondNeedsUpdate (d.getNeighbor i) = true
    · rw [if_pos h, List.length_append, List.length_singleton, List.length_cons]; omega
    · rw [if_neg h, List.length_cons]; omega

theorem pushNeighbors_length (m : ScMap) (d : IsomDiamond) (q : List IsomDiamond) :
    (pushNeighbors m d q).length ≤ q.length + 4 :=
  pushNeighbors_length_aux m d neighbors q

theorem radially_nil (u : Bool) (fuel : Nat) (w : World) :
    radiallyUpdateTerrain u fuel [] w = some w := by
  cases fuel <;> rfl
theorem radially_zero (u : Bool) (d : IsomDiamond) (rest : List IsomDiamond) (w : World) :
    radiallyUpdateTerrain u 0 (d :: rest) w = none := rfl

theorem radially_succ (u : Bool) (n : Nat) (d : IsomDiamond) (rest : List IsomDiamond)
    (w : World) :
    radiallyUpdateTerrain u (n + 1) (d :: rest) w =
      if w.map.diamondNeedsUpdate d && !(w.map.getIsomRect d).isVisited then
        match (markVisited d w).map.findBestMatchIsomValue n d (markVisited d w).cache with
        | none => none
        | some none => radiallyUpdateTerrain u n rest (markVisited d w)
        | some (some bestMatch) =>
          if bestMatch ≠ 0 then
            radiallyUpdateTerrain u n
              (pushNeighbors (setDiamondIsomValues d bestMatch u (markVisited d w)).map d rest)
              (setDiamondIsomValues d bestMatch u (markVisited d w))
          else
            radiallyUpdateTerrain u n (pushNeighbors (markVisited d w).map d rest)
              (markVisited d w)
      else radiallyUpdateTerrain u n rest w := rfl

/-- An invariant of the states of `radiallyUpdateTerrain`: `P` is kept by the two state changes
of a processed diamond, `G` holds of the queued diamonds and is closed under neighbors. -/
theorem radiallyUpdateTerrain_inv (P : World → Prop) (G : IsomDiamond → Prop) (undoable : Bool)
    (hG : ∀ d n, G d → G (IsomDiamond.getNeighbor d n))
    (hvisit : ∀ d w, G d → w.map.diamondNeedsUpdate d = true →
      (w.map.getIsomRect d).isVisited = false → P w → P (markVisited d w))
    (hset : ∀ d v w, G d → w.map.diamondNeedsUpdate d = true →
      (w.map.getIsomRect d).isVisited = false → P w → v ≠ 0 →
      P (setDiamondIsomValues d v undoable (markVisited d w))) :
    ∀ (fuel : Nat) (q : List IsomDiamond) (w w' : World), (∀ d ∈ q, G d) → P w →
      radiallyUpdateTerrain undoable fuel q w = some w' → P w' := by
  intro fuel
  induction fuel with
  | zero =>
    intro q w w' _ hP h
    cases q with
    | nil => rw [radially_nil, Option.some.injEq] at h; rw [← h]; exact hP
    | cons d rest => rw [radially_zero] at h; exact absurd h (by simp)
  | succ n ih =>
    intro q w w' hq hP h
    cases q with
    | nil => rw [radially_nil, Option.some.injEq] at h; rw [← h]; exact hP
    | cons d rest =>
      have hGd : G d := hq d (List.mem_cons_self _ _)
      have hrest : ∀ x ∈ rest, G x := fun x hx => hq x (List.mem_cons_of_mem _ hx)
      have hpush : ∀ m, ∀ x ∈ pushNeighbors m d rest, G x := by
        intro m x hx
        rcases pushNeighbors_mem m d rest x hx with h1 | ⟨i, h1⟩
        · exact hrest x h1
        · rw [h1]; exact hG d i hGd
      rw [radially_succ] at h
      by_cases hc : (w.map.diamondNeedsUpdate d && !(w.map.getIsomRect d).isVisited) = true
      · rw [if_pos hc] at h
        simp only [Bool.and_eq_true, Bool.not_eq_true'] at hc
        generalize hfb : (markVisited d w).map.findBestMatchIsomValue n d (markVisited d w).cache
          = r at h
        rcases r with _ | _ | bm
        · exact absurd h (by simp)
        · exact ih _ _ _ hrest (hvisit d w hGd hc.1 hc.2 hP) h
        · simp only [] at h
          by_cases hb : bm ≠ 0
          · rw [if_pos hb] at h
            exact ih _ _ _ (hpush _) (hset d bm w hGd hc.1 hc.2 hP hb) h
          · rw [if_neg hb] at h
            exact ih _ _ _ (hpush _) (hvisit d w hGd hc.1 hc.2 hP) h
      · rw [if_neg hc] at h
        exact ih _ _ _ hrest hP h

end World
end IsomTerrain

namespace IsomTerrain

theorem size_eq : SIZE_MAX1 = 18446744073709551616 := rfl

theorem isValid_iff (d : IsomDiamond) : d.isValid = true ↔ (d.x + d.y) % SIZE_MAX1 % 2 = 0 := by
  unfold IsomDiamond.isValid
  exact beq_iff_eq

theorem isValid_congr (d e : IsomDiamond)
    (h : (d.x + d.y) % SIZE_MAX1 % 2 = (e.x + e.y) % SIZE_MAX1 % 2) : d.isValid = e.isValid := by
  unfold IsomDiamond.isValid
  rw [h]

theorem isValid_getNeighbor (d : IsomDiamond) (n : Neighbor) :
    (d.getNeighbor n).isValid = d.isValid := by
  apply isValid_congr
  cases n <;> simp only [IsomDiamond.getNeighbor, sizeInc, sizeDec, size_eq] <;> omega

theorem toSize_lt (i : Int) : toSize i < SIZE_MAX1 := by
  unfold toSize
  rw [size_eq]
  omega

theorem isValid_brush (d : IsomDiamond) (bx bY : Int) :
    IsomDiamond.isValid ⟨toSize ((d.x : Int) + bx - bY), toSize ((d.y : Int) + bx + bY)⟩
      = d.isValid := by
  apply isValid_congr
  simp only [toSize, size_eq]
  omega

end IsomTerrain

namespace IsomTerrain
namespace World

theorem setIsomValue_trace (p : Point) (q : Quadrant) (v : Nat) (u : Bool) (w : World) :
    (setIsomValue p q v u w).trace = w.trace ∨
      ∃ e, (setIsomValue p q v u w).trace = Event.undoSink e :: w.trace := by
  by_cases h : w.map.isInBounds p = true
  · exact (setIsomValue_in p q v u w h).2.2.2.2.2.2.2
  · rw [setIsomValue_out p q v u w (by simpa using h)]
    exact Or.inl rfl

theorem setIsomValue_dims (p : Point) (q : Quadrant) (v : Nat) (u : Bool) (w : World) :
    (setIsomValue p q v u w).map.tileWidth = w.map.tileWidth ∧
    (setIsomValue p q v u w).map.tileHeight = w.map.tileHeight ∧
    (setIsomValue p q v u w).map.isomRects.length = w.map.isomRects.length := by
  by_cases h : w.map.isInBounds p = true
  · rw [(setIsomValue_in p q v u w h).1]
    exact ⟨rfl, rfl, by simp [ScMap.setIsomRect]⟩
  · rw [setIsomValue_out p q v u w (by simpa using h)]
    exact ⟨rfl, rfl, rfl⟩

/-- The four calls of `setIsomValue` made by `setDiamondIsomValues`. -/
theorem setDiamondIsomValues_eq (d : IsomDiamond) (v : Nat) (u : Bool) (w : World) :
    setDiamondIsomValues d v u w =
      setIsomValue (d.getRectangleCoords Quadrant.BottomLeft) Quadrant.BottomLeft v u
        (setIsomValue (d.getRectangleCoords Quadrant.BottomRight) Quadrant.BottomRight v u
          (setIsomValue (d.getRectangleCoords Quadrant.TopRight) Quadrant.TopRight v u
            (setIsomValue (d.getRectangleCoords Quadrant.TopLeft) Quadrant.TopLeft v u
              { w with trace := Event.setDiamond d v :: w.trace }))) := rfl

/-- A property kept by every `setIsomValue` and indifferent to the trace is kept by
`setDiamondIsomValues`. -/
theorem setDiamondIsomValues_keeps (P : World → Prop) (d : IsomDiamond) (v : Nat) (u : Bool)
    (w : World) (htrace : P w → P { w with trace := Event.setDiamond d v :: w.trace })
    (hset : ∀ p q w1, P w1 → P (setIsomValue p q v u w1)) (h : P w) :
    P (setDiamondIsomValues d v u w) := by
  rw [setDiamondIsomValues_eq]
  exact hset _ _ _ (hset _ _ _ (hset _ _ _ (hset _ _ _ (htrace h))))

theorem inBox_expand (b : BoundingBox) (p : Point) (x y : Nat) (h : InBox b p) :
    InBox (b.expandToInclude x y) p := by
  unfold InBox BoundingBox.expandToInclude at *
  simp only []
  omega

theorem inBox_expand_self (b : BoundingBox) (x y : Nat) :
    InBox (b.expandToInclude x y) ⟨x, y⟩ := by
  unfold InBox BoundingBox.expandToInclude
  simp only []
  omega

theorem isInBounds_x (m : ScMap) (p : Point) (h : m.isInBounds p = true) :
    p.x < m.getIsomWidth := by
  unfold ScMap.isInBounds at h
  simp only [Bool.and_eq_true, decide_eq_true_eq] at h
  exact h.1

/-- A write of one rectangle together with the extension of the changed area by its position
keeps `ChangesInArea`. -/
theorem changesInArea_write (w0 w w' : World) (p : Point) (r : IsomRect)
    (hp : p.x < w.map.getIsomWidth) (hmap : w'.map = w.map.setIsomRect p r)
    (harea : w'.cache.changedArea = w.cache.changedArea.expandToInclude p.x p.y)
    (h : ChangesInArea w0 w) : ChangesInArea w0 w' := by
  obtain ⟨h1, h2, h3⟩ := h
  have hW : w.map.getIsomWidth = w0.map.getIsomWidth := by simp only [ScMap.getIsomWidth, h1]
  refine ⟨by rw [hmap]; exact h1, by rw [hmap]; exact h2, ?_⟩
  intro p' hp' hne
  rw [harea]
  by_cases hpe : p' = p
  · subst hpe
    exact inBox_expand_self _ _ _
  · apply inBox_expand
    apply h3 p' hp'
    rw [hmap, ScMap.getIsomRect_setIsomRect_ne w.map p p' r hp (by rw [hW]; exact hp') hpe] at hne
    exact hne

theorem changesInArea_setIsomValue (w0 : World) (p : Point) (q : Quadrant) (v : Nat) (u : Bool)
    (w : World) (h : ChangesInArea w0 w) : ChangesInArea w0 (setIsomValue p q v u w) := by
  by_cases hb : w.map.isInBounds p = true
  · obtain ⟨a1, a2, _⟩ := setIsomValue_in p q v u w hb
    exact changesInArea_write w0 w _ p _ (isInBounds_x _ _ hb) a1 a2 h
  · rw [setIsomValue_out p q v u w (by simpa using hb)]
    exact h

theorem changesInArea_setDiamond (w0 : World) (d : IsomDiamond) (v : Nat) (u : Bool)
    (w : World) (h : ChangesInArea w0 w) : ChangesInArea w0 (setDiamondIsomValues d v u w) :=
  setDiamondIsomValues_keeps (ChangesInArea w0) d v u w (fun h => h)
    (fun p q w1 h1 => changesInArea_setIsomValue w0 p q v u w1 h1) h

theorem diamondNeedsUpdate_inBounds (m : ScMap) (d : IsomDiamond)
    (h : m.diamondNeedsUpdate d = true) : m.isInBounds d = true := by
  unfold ScMap.diamondNeedsUpdate at h
  simp only [Bool.and_eq_true] at h
  exact h.1.1

theorem changesInArea_markVisited (w0 : World) (d : IsomDiamond) (w : World)
    (hd : w.map.diamondNeedsUpdate d = true) (h : ChangesInArea w0 w) :
    ChangesInArea w0 (markVisited d w) :=
  changesInArea_write w0 w _ d _ (isInBounds_x _ _ (diamondNeedsUpdate_inBounds _ _ hd)) rfl rfl h

end World
end IsomTerrain

namespace IsomTerrain
namespace World

/-- An invariant of the brush loops of `placeIsomTerrain`. -/
theorem placeBrush_inv (P : World → Prop) (G : IsomDiamond → Prop) (d : IsomDiamond) (v : Nat)
    (bMin bMax : Int)
    (hG : ∀ d n, G d → G (IsomDiamond.getNeighbor d n))
    (hGb : ∀ bx bY : Int, G ⟨toSize ((d.x : Int) + bx - bY), toSize ((d.y : Int) + bx + bY)⟩)
    (hset : ∀ (bx bY : Int) (w : World), P w →
      w.map.isInBounds ⟨toSize ((d.x : Int) + bx - bY), toSize ((d.y : Int) + bx + bY)⟩ = true →
      P (setDiamondIsomValues ⟨toSize ((d.x : Int) + bx - bY), toSize ((d.y : Int) + bx + bY)⟩
        v true w))
    (st : World × List IsomDiamond) (hP : P st.1) (hq : ∀ x ∈ st.2, G x) :
    P (placeBrush d v bMin bMax st).1 ∧ ∀ x ∈ (placeBrush d v bMin bMax st).2, G x := by
  have hcell : ∀ (bx bY : Int) (s : World × List IsomDiamond),
      (P s.1 ∧ ∀ x ∈ s.2, G x) →
      (P (placeBrushCell d v bMin bMax bx bY s).1 ∧
        ∀ x ∈ (placeBrushCell d v bMin bMax bx bY s).2, G x) := by
    intro bx bY s hs
    unfold placeBrushCell
    simp only []
    by_cases hin : s.1.map.isInBounds
        ⟨toSize ((d.x : Int) + bx - bY), toSize ((d.y : Int) + bx + bY)⟩ = true
    · rw [if_pos hin]
      have hP' := hset bx bY s.1 hs.1 hin
      split_ifs
      · dsimp only
        refine ⟨hP', ?_⟩
        intro x hx
        rcases pushNeighbors_mem _ _ _ _ hx with h1 | ⟨n, h1⟩
        · exact hs.2 x h1
        · rw [h1]; exact hG _ n (hGb bx bY)
      · dsimp only
        exact ⟨hP', hs.2⟩
    · rw [if_neg hin]
      exact hs
  unfold placeBrush
  apply foldl_inv _ (fun s : World × List IsomDiamond => P s.1 ∧ ∀ x ∈ s.2, G x)
  · exact ⟨hP, hq⟩
  · intro s bx _ hs
    apply foldl_inv _ (fun s : World × List IsomDiamond => P s.1 ∧ ∀ x ∈ s.2, G x)
    · exact hs
    · intro s2 bY _ hs2
      exact hcell bx bY s2 hs2

/-- An invariant of a call of `placeIsomTerrain` that returns `true`. -/
theorem placeIsomTerrain_inv (P : World → Prop) (G : IsomDiamond → Prop)
    (fuel : Nat) (d : IsomDiamond) (terrainType brushExtent : Nat) (w w' : World)
    (hG : ∀ d n, G d → G (IsomDiamond.getNeighbor d n))
    (hGb : ∀ bx bY : Int, G ⟨toSize ((d.x : Int) + bx - bY), toSize ((d.y : Int) + bx + bY)⟩)
    (hreset : P { w with cache := w.cache.resetChangedArea })
    (hbrush : ∀ (bx bY : Int) (w1 : World), P w1 →
      w1.map.isInBounds ⟨toSize ((d.x : Int) + bx - bY), toSize ((d.y : Int) + bx + bY)⟩ = true →
      P (setDiamondIsomValues ⟨toSize ((d.x : Int) + bx - bY), toSize ((d.y : Int) + bx + bY)⟩
        (w.cache.getTerrainTypeIsomValue terrainType) true w1))
    (hvisit : ∀ e w1, G e → w1.map.diamondNeedsUpdate e = true →
      (w1.map.getIsomRect e).isVisited = false → P w1 → P (markVisited e w1))
    (hset : ∀ e v w1, G e → w1.map.diamondNeedsUpdate e = true →
      (w1.map.getIsomRect e).isVisited = false → P w1 → v ≠ 0 →
      P (setDiamondIsomValues e v true (markVisited e w1)))
    (h : placeIsomTerrain fuel d terrainType brushExtent w = some (true, w')) : P w' := by
  unfold placeIsomTerrain at h
  simp only [] at h
  split_ifs at h with hg
  · simp at h
  · have hb := placeBrush_inv P G d (w.cache.getTerrainTypeIsomValue terrainType)
      (brushMin brushExtent) (brushMax brushExtent) hG hGb hbrush
      ({ w with cache := w.cache.resetChangedArea }, []) hreset (by simp)
    generalize hr : radiallyUpdateTerrain true fuel
      (placeBrush d (w.cache.getTerrainTypeIsomValue terrainType) (brushMin brushExtent)
        (brushMax brushExtent) ({ w with cache := w.cache.resetChangedArea }, [])).2
      (placeBrush d (w.cache.getTerrainTypeIsomValue terrainType) (brushMin brushExtent)
        (brushMax brushExtent) ({ w with cache := w.cache.resetChangedArea }, [])).1 = r at h
    cases r with
    | none => simp at h
    | some w2 =>
      simp only [Option.some.injEq, Prod.mk.injEq, true_and] at h
      subst h
      exact radiallyUpdateTerrain_inv P G true hG hvisit hset fuel _ _ _ hb.2 hb.1 hr

/-- C9: after `placeIsomTerrain` returns `true`, every isom rectangle position `(x, y)` of the
grid at which the rectangle (any of its four fields) differs from its value before the call
satisfies `changedArea.left <= x <= changedArea.right` and
`changedArea.top <= y <= changedArea.bottom`. -/
theorem C9_changes_in_changedArea (fuel : Nat) (d : IsomDiamond) (terrainType brushExtent : Nat)
    (w w' : World)
    (h : placeIsomTerrain fuel d terrainType brushExtent w = some (true, w'))
    (x y : Nat) (hx : x < w.map.getIsomWidth)
    (hne : w'.map.getIsomRect ⟨x, y⟩ ≠ w.map.getIsomRect ⟨x, y⟩) :
    (w'.cache.changedArea.left ≤ x ∧ x ≤ w'.cache.changedArea.right) ∧
    (w'.cache.changedArea.top ≤ y ∧ y ≤ w'.cache.changedArea.bottom) := by
  have key : ChangesInArea w w' :=
    placeIsomTerrain_inv (ChangesInArea w) (fun _ => True) fuel d terrainType brushExtent w w'
      (fun _ _ _ => trivial) (fun _ _ => trivial)
      ⟨rfl, rfl, fun p _ hp => absurd rfl hp⟩
      (fun _ _ w1 h1 _ => changesInArea_setDiamond w _ _ _ w1 h1)
      (fun e w1 _ he _ h1 => changesInArea_markVisited w e w1 he h1)
      (fun e v w1 _ he _ h1 _ =>
        changesInArea_setDiamond w e v true _ (changesInArea_markVisited w e w1 he h1))
      h
  obtain ⟨a, b, c, e⟩ := key.2.2 ⟨x, y⟩ hx hne
  exact ⟨⟨a, b⟩, ⟨c, e⟩⟩

end World
end IsomTerrain

namespace IsomTerrain
namespace World

set_option maxRecDepth 100000 in
theorem demoPlaced_eq : placeIsomTerrain 100 ⟨0, 0⟩ 1 1 demoWorld = some (true, demoPlaced) := by
  rfl

set_option maxRecDepth 100000 in
/-- C9 is not vacuous: on `demoWorld` the rectangle (0,0) changes and lies in the changed area. -/
theorem C9_changes_in_changedArea_witness :
    placeIsomTerrain 100 ⟨0, 0⟩ 1 1 demoWorld = some (true, demoPlaced) ∧
    0 < demoWorld.map.getIsomWidth ∧
    demoPlaced.map.getIsomRect ⟨0, 0⟩ ≠ demoWorld.map.getIsomRect ⟨0, 0⟩ ∧
    ((demoPlaced.cache.changedArea.left ≤ 0 ∧ 0 ≤ demoPlaced.cache.changedArea.right) ∧
    (demoPlaced.cache.changedArea.top ≤ 0 ∧ 0 ≤ demoPlaced.cache.changedArea.bottom)) :=
  ⟨demoPlaced_eq, by decide, by decide,
    C9_changes_in_changedArea 100 ⟨0, 0⟩ 1 1 demoWorld demoPlaced demoPlaced_eq 0 0
      (by decide) (by decide)⟩

theorem validSets_cons (old : List Event) (w w' : World) (e : Event)
    (ht : w'.trace = e :: w.trace)
    (he : ∀ d v, e = Event.setDiamond d v → IsomDiamond.isValid d = true)
    (h : ValidSets old w) : ValidSets old w' := by
  obtain ⟨new, h1, h2⟩ := h
  refine ⟨e :: new, by rw [ht, h1]; rfl, ?_⟩
  intro d v hm
  rcases List.mem_cons.mp hm with hm | hm
  · exact he d v hm.symm
  · exact h2 d v hm

theorem validSets_setIsomValue (old : List Event) (p : Point) (q : Quadrant) (v : Nat) (u : Bool)
    (w : World) (h : ValidSets old w) : ValidSets old (setIsomValue p q v u w) := by
  rcases setIsomValue_trace p q v u w with ht | ⟨e, ht⟩
  · obtain ⟨new, h1, h2⟩ := h
    exact ⟨new, by rw [ht, h1], h2⟩
  · exact validSets_cons old w _ _ ht (fun d v he => by cases he) h

theorem validSets_setDiamond (old : List Event) (d : IsomDiamond) (v : Nat) (u : Bool)
    (w : World) (hd : d.isValid = true) (h : ValidSets old w) :
    ValidSets old (setDiamondIsomValues d v u w) := by
  rw [setDiamondIsomValues_eq]
  have h0 : ValidSets old { w with trace := Event.setDiamond d v :: w.trace } :=
    validSets_cons old w _ _ rfl (fun d' v' he => by cases he; exact hd) h
  exact validSets_setIsomValue _ _ _ _ _ _ (validSets_setIsomValue _ _ _ _ _ _
    (validSets_setIsomValue _ _ _ _ _ _ (validSets_setIsomValue _ _ _ _ _ _ h0)))

theorem validSets_markVisited (old : List Event) (d : IsomDiamond) (w : World)
    (h : ValidSets old w) : ValidSets old (markVisited d w) :=
  validSets_cons old w _ _ rfl (fun d' v' he => by cases he) h

/-- C6: during `placeIsomTerrain` called with a valid centre diamond, every diamond handed to
`setDiamondIsomValues` (the brush diamonds and the diamonds rewritten by
`radiallyUpdateTerrain`; these are the `setDiamond` events the call adds to the trace) satisfies
`(x+y) mod 2 == 0` under the wrap-around `size_t` arithmetic. -/
theorem C6_valid_diamonds_only (fuel : Nat) (d : IsomDiamond) (terrainType brushExtent : Nat)
    (w w' : World) (b : Bool) (hd : d.isValid = true)
    (h : placeIsomTerrain fuel d terrainType brushExtent w = some (b, w')) :
    ∃ new : List Event, w'.trace = new ++ w.trace ∧
      ∀ e v, Event.setDiamond e v ∈ new → ((e.x + e.y) % SIZE_MAX1) % 2 = 0 := by
  have key : ValidSets w.trace w' := by
    cases b with
    | false =>
      have hw : w'.trace = w.trace := by
        unfold placeIsomTerrain at h
        simp only [] at h
        split_ifs at h
        · simp only [Option.some.injEq, Prod.mk.injEq, true_and] at h
          rw [← h]
        · generalize radiallyUpdateTerrain true fuel _ _ = r at h
          cases r <;> simp at h
      exact ⟨[], by rw [hw]; rfl, fun _ _ hm => by cases hm⟩
    | true =>
      exact placeIsomTerrain_inv (ValidSets w.trace) (fun e => e.isValid = true) fuel d
        terrainType brushExtent w w'
        (fun e n he => (isValid_getNeighbor e n).trans he)
        (fun bx bY => (isValid_brush d bx bY).trans hd)
        ⟨[], rfl, fun _ _ hm => by cases hm⟩
        (fun bx bY w1 h1 _ =>
          validSets_setDiamond _ _ _ _ w1 ((isValid_brush d bx bY).trans hd) h1)
        (fun e w1 _ _ _ h1 => validSets_markVisited _ e w1 h1)
        (fun e v w1 he _ _ h1 _ =>
          validSets_setDiamond _ e v true _ he (validSets_markVisited _ e w1 h1))
        h
  obtain ⟨new, h1, h2⟩ := key
  exact ⟨new, h1, fun e v hm => (isValid_iff e).mp (h2 e v hm)⟩

/-- C6 is not vacuous: the call on `demoWorld` hands the diamonds (0,0) and (1,1) to
`setDiamondIsomValues`. -/
theorem C6_valid_diamonds_only_witness :
    IsomDiamond.isValid ⟨0, 0⟩ = true ∧
    placeIsomTerrain 100 ⟨0, 0⟩ 1 1 demoWorld = some (true, demoPlaced) ∧
    ∃ new : List Event, demoPlaced.trace = new ++ demoWorld.trace ∧
      ∀ e v, Event.setDiamond e v ∈ new → ((e.x + e.y) % SIZE_MAX1) % 2 = 0 :=
  ⟨by decide, demoPlaced_eq,
    C6_valid_diamonds_only 100 ⟨0, 0⟩ 1 1 demoWorld demoPlaced true (by decide) demoPlaced_eq⟩

end World
end IsomTerrain

namespace IsomTerrain

theorem countP_le_pointwise {α : Type} (p : α → Bool) (d : α) :
    ∀ (l1 l2 : List α), l1.length = l2.length →
      (∀ i, p (l2.getD i d) = true → i < l2.length → p (l1.getD i d) = true) →
      l2.countP p ≤ l1.countP p := by
  intro l1
  induction l1 with
  | nil =>
    intro l2 hl _
    cases l2 with
    | nil => exact Nat.le_refl _
    | cons b l2 => simp at hl
  | cons a l1 ih =>
    intro l2 hl h
    cases l2 with
    | nil => simp at hl
    | cons b l2 =>
      have hl' : l1.length = l2.length := by simpa using hl
      have ih' := ih l2 hl' (fun i hi hlt => by
        have := h (i + 1) (by simpa using hi) (by simpa using hlt)
        simpa using this)
      have h0 := h 0
      simp only [List.getD_cons_zero, List.length_cons, Nat.zero_lt_succ, forall_true_left] at h0
      rw [List.countP_cons, List.countP_cons]
      by_cases hb : p b = true
      · rw [if_pos hb, if_pos (h0 hb)]; omega
      · rw [if_neg hb]
        split_ifs <;> omega

theorem countP_lt_pointwise {α : Type} (p : α → Bool) (d : α) :
    ∀ (l1 l2 : List α), l1.length = l2.length →
      (∀ i, p (l2.getD i d) = true → i < l2.length → p (l1.getD i d) = true) →
      (∃ i, i < l1.length ∧ p (l1.getD i d) = true ∧ p (l2.getD i d) = false) →
      l2.countP p < l1.countP p := by
  intro l1
  induction l1 with
  | nil =>
    intro l2 _ _ hex
    obtain ⟨i, hi, _⟩ := hex
    simp at hi
  | cons a l1 ih =>
    intro l2 hl h hex
    cases l2 with
    | nil => simp at hl
    | cons b l2 =>
      have hl' : l1.length = l2.length := by simpa using hl
      have hstep : ∀ i, p (l2.getD i d) = true → i < l2.length → p (l1.getD i d) = true :=
        fun i hi hlt => by
          have := h (i + 1) (by simpa using hi) (by simpa using hlt)
          simpa using this
      have h0 := h 0
      simp only [List.getD_cons_zero, List.length_cons, Nat.zero_lt_succ, forall_true_left] at h0
      rw [List.countP_cons, List.countP_cons]
      obtain ⟨i, hi, h1, h2⟩ := hex
      cases i with
      | zero =>
        simp only [List.getD_cons_zero] at h1 h2
        have hle := countP_le_pointwise p d l1 l2 hl' hstep
        rw [if_pos h1, if_neg (by simp [h2])]
        omega
      | succ j =>
        have hlt := ih l2 hl' hstep ⟨j, by simpa using hi, by simpa using h1, by simpa using h2⟩
        by_cases hb : p b = true
        · rw [if_pos hb, if_pos (h0 hb)]; omega
        · rw [if_neg hb]
          split_ifs <;> omega

end IsomTerrain

namespace IsomTerrain

theorem or_and_self_right (a b : Nat) : (a ||| b) &&& b = b := by
  apply Nat.eq_of_testBit_eq
  intro i
  rw [Nat.testBit_and, Nat.testBit_or]
  cases Nat.testBit a i <;> cases Nat.testBit b i <;> rfl

theorem isVisited_setVisited (r : IsomRect) : r.setVisited.isVisited = true := by
  unfold IsomRect.isVisited IsomRect.setVisited
  simp only [or_and_self_right, beq_self_eq_true]

theorem isLeftModified_setVisited (r : IsomRect) :
    r.setVisited.isLeftModified = r.isLeftModified := rfl

theorem isLeftModified_or_one (x : Nat) : (x ||| EditorFlag.Modified) &&& EditorFlag.Modified ≠ 0 := by
  rw [or_and_self_right]
  decide

/-- The rectangle after `set` and `setModified` on a quadrant: a `left` field that is written
is modified, one that is not written is unchanged. -/
theorem isLeftModified_write (r : IsomRect) (q : Quadrant) (v : Nat) :
    ((r.set (ProjectedQuadrant.atQuadrant q) v).setModified
        (ProjectedQuadrant.atQuadrant q)).isLeftModified = true ∨
    ((r.set (ProjectedQuadrant.atQuadrant q) v).setModified
        (ProjectedQuadrant.atQuadrant q)).isLeftModified = r.isLeftModified := by
  cases q
  · exact Or.inr rfl
  · left
    unfold IsomRect.isLeftModified
    simp only [bne_iff_ne]
    exact isLeftModified_or_one _
  · left
    unfold IsomRect.isLeftModified
    simp only [bne_iff_ne]
    exact isLeftModified_or_one _
  · exact Or.inr rfl

theorem isLeftModified_write_bottomRight (r : IsomRect) (v : Nat) :
    ((r.set (ProjectedQuadrant.atQuadrant Quadrant.BottomRight) v).setModified
        (ProjectedQuadrant.atQuadrant Quadrant.BottomRight)).isLeftModified = true := by
  unfold IsomRect.isLeftModified
  simp only [bne_iff_ne]
  exact isLeftModified_or_one _

namespace World

theorem leftMono_refl (m : ScMap) : LeftMono m m := ⟨rfl, rfl, rfl, fun _ h => h⟩

theorem leftMono_trans (m1 m2 m3 : ScMap) (h12 : LeftMono m1 m2) (h23 : LeftMono m2 m3) :
    LeftMono m1 m3 :=
  ⟨h23.1.trans h12.1, h23.2.1.trans h12.2.1, h23.2.2.1.trans h12.2.2.1,
    fun i h => h12.2.2.2 i (h23.2.2.2 i h)⟩

theorem leftMono_setIsomRect (m : ScMap) (p : Point) (r : IsomRect)
    (h : r.isLeftModified = true ∨ r.isLeftModified = (m.getIsomRect p).isLeftModified) :
    LeftMono m (m.setIsomRect p r) := by
  refine ⟨rfl, rfl, by simp [ScMap.setIsomRect], ?_⟩
  intro i hi
  unfold ScMap.setIsomRect at hi
  simp only [] at hi
  rw [getD_set_eq] at hi
  split_ifs at hi with hc
  · rcases h with h | h
    · rw [h] at hi; exact absurd hi (by simp)
    · rw [h] at hi
      unfold ScMap.getIsomRect at hi
      rw [hc.1] at hi
      exact hi
  · exact hi

theorem leftMono_setIsomValue (p : Point) (q : Quadrant) (v : Nat) (u : Bool) (w : World) :
    LeftMono w.map (setIsomValue p q v u w).map := by
  by_cases hb : w.map.isInBounds p = true
  · rw [(setIsomValue_in p q v u w hb).1]
    exact leftMono_setIsomRect _ _ _ (isLeftModified_write _ q v)
  · rw [setIsomValue_out p q v u w (by simpa using hb)]
    exact leftMono_refl _

theorem leftMono_setDiamond (d : IsomDiamond) (v : Nat) (u : Bool) (w : World) :
    LeftMono w.map (setDiamondIsomValues d v u w).map := by
  rw [setDiamondIsomValues_eq]
  refine leftMono_trans _ _ _ ?_ (leftMono_setIsomValue _ _ _ _ _)
  refine leftMono_trans _ _ _ ?_ (leftMono_setIsomValue _ _ _ _ _)
  refine leftMono_trans _ _ _ ?_ (leftMono_setIsomValue _ _ _ _ _)
  exact leftMono_setIsomValue _ _ v u { w with trace := Event.setDiamond d v :: w.trace }

/-- After `setDiamondIsomValues` on a diamond inside the grid whose rectangle exists, the
`left` field of that rectangle is modified. -/
theorem setDiamond_left_modified (d : IsomDiamond) (v : Nat) (u : Bool) (w : World)
    (hb : w.map.isInBounds d = true) (hi : w.map.rectIndex d < w.map.isomRects.length) :
    ((setDiamondIsomValues d v u w).map.isomRects.getD (w.map.rectIndex d) default).isLeftModified
      = true := by
  rw [setDiamondIsomValues_eq]
  generalize hw2 : setIsomValue (d.getRectangleCoords Quadrant.TopRight) Quadrant.TopRight v u
      (setIsomValue (d.getRectangleCoords Quadrant.TopLeft) Quadrant.TopLeft v u
        { w with trace := Event.setDiamond d v :: w.trace }) = w2
  have hmono : LeftMono w.map w2.map := by
    rw [← hw2]
    refine leftMono_trans _ _ _ ?_ (leftMono_setIsomValue _ _ _ _ _)
    exact leftMono_setIsomValue _ _ v u { w with trace := Event.setDiamond d v :: w.trace }
  have hidx : w2.map.rectIndex d = w.map.rectIndex d := by
    simp only [ScMap.rectIndex, ScMap.getIsomWidth, hmono.1]
  have hb2 : w2.map.isInBounds d = true := by
    simpa only [ScMap.isInBounds, ScMap.getIsomWidth, ScMap.getIsomHeight, hmono.1, hmono.2.1]
      using hb
  have hi2 : w2.map.rectIndex d < w2.map.isomRects.length := by
    rw [hidx, hmono.2.2.1]; exact hi
  have h3 : ((setIsomValue (d.getRectangleCoords Quadrant.BottomRight) Quadrant.BottomRight v u
      w2).map.isomRects.getD (w.map.rectIndex d) default).isLeftModified = true := by
    have hcoords : d.getRectangleCoords Quadrant.BottomRight = d := rfl
    rw [hcoords, (setIsomValue_in d Quadrant.BottomRight v u w2 hb2).1, ← hidx]
    have := ScMap.getIsomRect_setIsomRect_self w2.map d
      (((w2.map.getIsomRect d).set (ProjectedQuadrant.atQuadrant Quadrant.BottomRight) v).setModified
        (ProjectedQuadrant.atQuadrant Quadrant.BottomRight)) hi2
    unfold ScMap.getIsomRect at this
    have hidx' : (w2.map.setIsomRect d
      (((w2.map.isomRects.getD (w2.map.rectIndex d) default).set
        (ProjectedQuadrant.atQuadrant Quadrant.BottomRight) v).setModified
        (ProjectedQuadrant.atQuadrant Quadrant.BottomRight))).rectIndex d = w2.map.rectIndex d := rfl
    rw [hidx'] at this
    unfold ScMap.getIsomRect
    rw [this]
    exact isLeftModified_write_bottomRight _ v
  have h4 := leftMono_setIsomValue (d.getRectangleCoords Quadrant.BottomLeft) Quadrant.BottomLeft
    v u (setIsomValue (d.getRectangleCoords Quadrant.BottomRight) Quadrant.BottomRight v u w2)
  by_contra hcon
  have hf := h4.2.2.2 (w.map.rectIndex d) (by simpa using hcon)
  rw [h3] at hf
  exact absurd hf (by simp)

end World
end IsomTerrain

namespace IsomTerrain
namespace World

theorem searchLoop_isSome (st : Nat) (uh ue : Bool) (c : IsomCache)
    (hlen : c.isomLinks.length < 65536) :
    ∀ (fuel iv : Nat) (nb : IsomNeighbors), c.isomLinks.length - iv < fuel →
      (ScMap.searchLoop st uh ue c fuel iv nb).isSome = true := by
  intro fuel
  induction fuel with
  | zero => intro iv nb h; exact absurd h (Nat.not_lt_zero _)
  | succ n ih =>
    intro iv nb h
    unfold ScMap.searchLoop
    by_cases hiv : iv < c.isomLinks.length
    · rw [if_pos hiv]
      simp only []
      split_ifs
      · rfl
      · apply ih
        have : (iv + 1) % U16 = iv + 1 := Nat.mod_eq_of_lt (by unfold U16; omega)
        rw [this]; omega
      · apply ih
        have : (iv + 1) % U16 = iv + 1 := Nat.mod_eq_of_lt (by unfold U16; omega)
        rw [this]; omega
    · rw [if_neg hiv]; rfl

theorem searchForBestMatch_isSome (fuel st : Nat) (nb : IsomNeighbors) (c : IsomCache)
    (hlen : c.isomLinks.length < 65536) (hf : c.isomLinks.length < fuel) :
    ∃ nb', ScMap.searchForBestMatch fuel st nb c = some nb' := by
  apply Option.isSome_iff_exists.mp
  unfold ScMap.searchForBestMatch
  exact searchLoop_isSome _ _ _ c hlen fuel _ nb (by omega)

theorem findBestMatchIsomValue_isSome (fuel : Nat) (m : ScMap) (d : IsomDiamond) (c : IsomCache)
    (hlen : c.isomLinks.length < 65536) (hf : c.isomLinks.length < fuel) :
    ∃ r, m.findBestMatchIsomValue fuel d c = some r := by
  unfold ScMap.findBestMatchIsomValue
  simp only []
  have h1 : ∃ nb1, (if m.getCentralIsomValue d < c.isomLinks.length then
      ScMap.searchForBestMatch fuel
        (c.terrainTypeMap.getD
          ((m.loadNeighborInfo d {} c.isomLinks).maxModifiedOfFour * c.terrainTypes.length +
            (c.isomLinks.getD (m.getCentralIsomValue d) default).terrainType) 0)
        (m.loadNeighborInfo d {} c.isomLinks) c
      else some (m.loadNeighborInfo d {} c.isomLinks)) = some nb1 := by
    split_ifs
    · exact searchForBestMatch_isSome _ _ _ c hlen hf
    · exact ⟨_, rfl⟩
  obtain ⟨nb1, e1⟩ := h1
  rw [e1]
  obtain ⟨nb2, e2⟩ := searchForBestMatch_isSome fuel nb1.maxModifiedOfFour nb1 c hlen hf
  simp only [e2]
  obtain ⟨nb3, e3⟩ := searchForBestMatch_isSome fuel ((c.terrainTypes.length / 2 + 1) % U16) nb2 c
    hlen hf
  simp only [e3]
  split_ifs
  · exact ⟨_, rfl⟩
  · exact ⟨_, rfl⟩

theorem needsUpdate_index (m : ScMap) (d : IsomDiamond) (h : m.diamondNeedsUpdate d = true) :
    m.rectIndex d < m.isomRects.length ∧ (m.getIsomRect d).isLeftModified = false := by
  unfold ScMap.diamondNeedsUpdate ScMap.centralIsomValueModified ScMap.getCentralIsomValue at h
  simp only [Bool.and_eq_true, Bool.not_eq_true', bne_iff_ne, ne_eq] at h
  refine ⟨?_, h.1.2⟩
  by_contra hcon
  apply h.2
  unfold ScMap.getIsomRect
  rw [List.getD_eq_getElem?_getD, List.getElem?_eq_none (Nat.le_of_not_lt hcon)]
  rfl

theorem potential_markVisited (d : IsomDiamond) (w : World)
    (hn : w.map.diamondNeedsUpdate d = true) (hv : (w.map.getIsomRect d).isVisited = false) :
    potential (markVisited d w).map + 1 ≤ potential w.map := by
  obtain ⟨hi, _⟩ := needsUpdate_index w.map d hn
  have hget : w.map.getIsomRect d = w.map.isomRects[w.map.rectIndex d] := by
    unfold ScMap.getIsomRect
    rw [List.getD_eq_getElem?_getD, List.getElem?_eq_getElem hi]; rfl
  have hrects : (markVisited d w).map.isomRects
      = w.map.isomRects.set (w.map.rectIndex d) (w.map.getIsomRect d).setVisited := rfl
  unfold potential unmodifiedCount unvisitedCount
  rw [hrects, List.length_set, List.countP_set _ _ _ _ hi, List.countP_set _ _ _ _ hi, ← hget]
  simp only [isLeftModified_setVisited, isVisited_setVisited, hv, Bool.not_false, Bool.not_true,
    if_true, Bool.false_eq_true, if_false, Nat.add_zero]
  have hpos : 0 < List.countP (fun r => !r.isVisited) w.map.isomRects := by
    rw [List.countP_pos_iff]
    exact ⟨_, List.getElem_mem hi, by rw [← hget, hv]; rfl⟩
  have hmod : List.countP (fun r => !r.isLeftModified) w.map.isomRects
      - (if (!(w.map.getIsomRect d).isLeftModified) = true then 1 else 0)
      + (if (!(w.map.getIsomRect d).isLeftModified) = true then 1 else 0)
      = List.countP (fun r => !r.isLeftModified) w.map.isomRects := by
    split_ifs with hc
    · have : 0 < List.countP (fun r => !r.isLeftModified) w.map.isomRects := by
        rw [List.countP_pos_iff]
        exact ⟨_, List.getElem_mem hi, by rw [← hget]; exact hc⟩
      omega
    · rfl
  rw [hmod]
  omega

theorem potential_setDiamond (d : IsomDiamond) (v : Nat) (u : Bool) (w : World)
    (hb : w.map.isInBounds d = true) (hi : w.map.rectIndex d < w.map.isomRects.length)
    (hm : (w.map.getIsomRect d).isLeftModified = false) :
    potential (setDiamondIsomValues d v u w).map + 1 ≤ potential w.map := by
  have hmono := leftMono_setDiamond d v u w
  have hmod := setDiamond_left_modified d v u w hb hi
  have hlen := hmono.2.2.1
  have hU : unmodifiedCount (setDiamondIsomValues d v u w).map + 1 ≤ unmodifiedCount w.map := by
    unfold unmodifiedCount
    apply countP_lt_pointwise (fun r : IsomRect => !r.isLeftModified) default
      w.map.isomRects _ hlen.symm
    · intro i h _
      simp only [Bool.not_eq_true'] at h ⊢
      exact hmono.2.2.2 i h
    · refine ⟨w.map.rectIndex d, hi, ?_, ?_⟩
      · simp only [Bool.not_eq_true']
        exact hm
      · simp only [hmod, Bool.not_true]
  have hV : unvisitedCount (setDiamondIsomValues d v u w).map
      ≤ (setDiamondIsomValues d v u w).map.isomRects.length := List.countP_le_length _
  unfold potential
  rw [hlen] at hV ⊢
  have hmul : (unmodifiedCount (setDiamondIsomValues d v u w).map + 1) * (w.map.isomRects.length + 1)
      ≤ unmodifiedCount w.map * (w.map.isomRects.length + 1) := Nat.mul_le_mul_right _ hU
  rw [Nat.add_mul, Nat.one_mul] at hmul
  omega

end World
end IsomTerrain

namespace IsomTerrain
namespace World

theorem setIsomValue_isomLinks (p : Point) (q : Quadrant) (v : Nat) (u : Bool) (w : World) :
    (setIsomValue p q v u w).cache.isomLinks = w.cache.isomLinks := by
  by_cases hb : w.map.isInBounds p = true
  · exact (setIsomValue_in p q v u w hb).2.2.2.2.1
  · rw [setIsomValue_out p q v u w (by simpa using hb)]

theorem setDiamond_isomLinks (d : IsomDiamond) (v : Nat) (u : Bool) (w : World) :
    (setDiamondIsomValues d v u w).cache.isomLinks = w.cache.isomLinks := by
  rw [setDiamondIsomValues_eq, setIsomValue_isomLinks, setIsomValue_isomLinks,
    setIsomValue_isomLinks, setIsomValue_isomLinks]

theorem markVisited_facts (d : IsomDiamond) (w : World) :
    (markVisited d w).map.tileWidth = w.map.tileWidth ∧
    (markVisited d w).map.tileHeight = w.map.tileHeight ∧
    (markVisited d w).map.isomRects.length = w.map.isomRects.length ∧
    (markVisited d w).cache.isomLinks = w.cache.isomLinks ∧
    (markVisited d w).map.rectIndex d = w.map.rectIndex d ∧
    (markVisited d w).map.isInBounds d = w.map.isInBounds d ∧
    ((markVisited d w).map.getIsomRect d).isLeftModified = (w.map.getIsomRect d).isLeftModified := by
  refine ⟨rfl, rfl, by simp [markVisited, ScMap.setIsomRect], rfl, rfl, rfl, ?_⟩
  by_cases hi : w.map.rectIndex d < w.map.isomRects.length
  · have : (markVisited d w).map.getIsomRect d = (w.map.getIsomRect d).setVisited :=
      ScMap.getIsomRect_setIsomRect_self w.map d _ hi
    rw [this, isLeftModified_setVisited]
  · have h1 : (markVisited d w).map.isomRects = w.map.isomRects := by
      show w.map.isomRects.set _ _ = _
      exact List.set_eq_of_length_le (Nat.le_of_not_lt hi)
    unfold ScMap.getIsomRect
    rw [h1]
    rfl

/-- After the two state changes of a processed diamond the potential has dropped. -/
theorem potential_processed (d : IsomDiamond) (v : Nat) (u : Bool) (w : World)
    (hn : w.map.diamondNeedsUpdate d = true) (hv : (w.map.getIsomRect d).isVisited = false) :
    potential (setDiamondIsomValues d v u (markVisited d w)).map + 1 ≤ potential w.map := by
  obtain ⟨hi, hm⟩ := needsUpdate_index w.map d hn
  obtain ⟨_, _, f3, _, f5, f6, f7⟩ := markVisited_facts d w
  have h1 := potential_markVisited d w hn hv
  have h2 := potential_setDiamond d v u (markVisited d w)
    (by rw [f6]; exact diamondNeedsUpdate_inBounds _ _ hn) (by rw [f5, f3]; exact hi)
    (by rw [f7]; exact hm)
  omega

/-- Termination of `radiallyUpdateTerrain` on link tables of fewer than 65536 rows, with an
explicit amount of fuel. -/
theorem radiallyUpdateTerrain_terminates (undoable : Bool) :
    ∀ (fuel : Nat) (q : List IsomDiamond) (w : World), w.cache.isomLinks.length < 65536 →
      radialFuel w q ≤ fuel → ∃ w', radiallyUpdateTerrain undoable fuel q w = some w' := by
  intro fuel
  induction fuel with
  | zero =>
    intro q w _ hf
    unfold radialFuel at hf
    exact absurd hf (by omega)
  | succ n ih =>
    intro q w hlen hf
    cases q with
    | nil => exact ⟨w, radially_nil _ _ _⟩
    | cons d rest =>
      unfold radialFuel at hf
      simp only [List.length_cons] at hf
      rw [radially_succ]
      by_cases hc : (w.map.diamondNeedsUpdate d && !(w.map.getIsomRect d).isVisited) = true
      · rw [if_pos hc]
        simp only [Bool.and_eq_true, Bool.not_eq_true'] at hc
        obtain ⟨r, hr⟩ := findBestMatchIsomValue_isSome n (markVisited d w).map d
          (markVisited d w).cache (by rw [(markVisited_facts d w).2.2.2.1]; exact hlen)
          (by rw [(markVisited_facts d w).2.2.2.1]; omega)
        rw [hr]
        have hp1 := potential_markVisited d w hc.1 hc.2
        cases r with
        | none =>
          apply ih _ _ (by rw [(markVisited_facts d w).2.2.2.1]; exact hlen)
          unfold radialFuel
          rw [(markVisited_facts d w).2.2.2.1]
          omega
        | some bm =>
          simp only []
          by_cases hb : bm ≠ 0
          · rw [if_pos hb]
            have hp2 := potential_processed d bm undoable w hc.1 hc.2
            have hl := setDiamond_isomLinks d bm undoable (markVisited d w)
            rw [(markVisited_facts d w).2.2.2.1] at hl
            apply ih _ _ (by rw [hl]; exact hlen)
            unfold radialFuel
            rw [hl]
            have := pushNeighbors_length
              (setDiamondIsomValues d bm undoable (markVisited d w)).map d rest
            omega
          · rw [if_neg hb]
            apply ih _ _ (by rw [(markVisited_facts d w).2.2.2.1]; exact hlen)
            unfold radialFuel
            rw [(markVisited_facts d w).2.2.2.1]
            have := pushNeighbors_length (markVisited d w).map d rest
            omega
      · rw [if_neg hc]
        apply ih _ _ hlen
        unfold radialFuel
        omega

end World
end IsomTerrain

namespace IsomTerrain
namespace World

/-- With 65536 or more rows the 16-bit row counter of `searchForBestMatch` never leaves the
table: the scan never ends when it searches until the end, or when every row it can reach has
the starting terrain type. -/
theorem searchLoop_diverges (st : Nat) (uh ue : Bool) (c : IsomCache)
    (hlen : 65536 ≤ c.isomLinks.length)
    (hrows : ue = true ∨ ∀ i, i < 65536 → (c.isomLinks.getD i default).terrainType = st) :
    ∀ (fuel iv : Nat) (nb : IsomNeighbors), iv < 65536 →
      ScMap.searchLoop st uh ue c fuel iv nb = none := by
  intro fuel
  induction fuel with
  | zero => intro iv nb _; rfl
  | succ n ih =>
    intro iv nb hiv
    unfold ScMap.searchLoop
    rw [if_pos (by omega)]
    simp only []
    have hcond : (!ue && (c.isomLinks.getD iv default).terrainType != st &&
        (!uh || decide ((c.isomLinks.getD iv default).terrainType > st))) = false := by
      rcases hrows with h | h
      · rw [h]; rfl
      · rw [h iv hiv]; simp
    rw [hcond]
    simp only [Bool.false_eq_true, if_false]
    exact ih _ _ (Nat.mod_lt _ (by decide))

/-- The first pass of `findBestMatchIsomValue` does not end on such a table. -/
theorem findBestMatchIsomValue_diverges (fuel : Nat) (m : ScMap) (d : IsomDiamond) (c : IsomCache)
    (hlen : 65536 ≤ c.isomLinks.length)
    (hprev : m.getCentralIsomValue d < c.isomLinks.length)
    (hmap : ∀ idx : Nat,
      ((c.terrainTypeMap.getD idx 0 == 0) = true ∨
        ∀ i, i < 65536 → (c.isomLinks.getD i default).terrainType = c.terrainTypeMap.getD idx 0) ∧
      c.getTerrainTypeIsomValue (c.terrainTypeMap.getD idx 0) < 65536) :
    m.findBestMatchIsomValue fuel d c = none := by
  unfold ScMap.findBestMatchIsomValue
  simp only []
  rw [if_pos hprev]
  unfold ScMap.searchForBestMatch
  simp only []
  rw [searchLoop_diverges _ _ _ c hlen (hmap _).1 fuel _ _ (hmap _).2]

theorem radiallyUpdateTerrain_diverges (u : Bool) (d : IsomDiamond) (rest : List IsomDiamond)
    (w : World) (hn : w.map.diamondNeedsUpdate d = true)
    (hv : (w.map.getIsomRect d).isVisited = false)
    (hfind : ∀ fuel, (markVisited d w).map.findBestMatchIsomValue fuel d (markVisited d w).cache
      = none) :
    ∀ fuel, radiallyUpdateTerrain u fuel (d :: rest) w = none := by
  intro fuel
  cases fuel with
  | zero => exact radially_zero _ _ _ _
  | succ n =>
    rw [radially_succ, if_pos (by rw [hn, hv]; rfl), hfind n]

theorem bigLinks_length : bigLinks.length = 65536 := by
  unfold bigLinks
  exact List.length_replicate _ _

theorem bigLinks_getD (i : Nat) (hi : i < 65536) : bigLinks.getD i default = uniformRow 1 0 := by
  unfold bigLinks
  rw [List.getD_eq_getElem?_getD, List.getElem?_replicate, if_pos hi]
  rfl

theorem bigWorld_hmap (c : IsomCache) (h1 : c.isomLinks = bigLinks)
    (h2 : c.terrainTypeMap = [0, 0, 0, 1])
    (h3 : c.terrainTypes = [{}, { index := 1, isomValue := 1 }]) :
    ∀ idx : Nat,
      ((c.terrainTypeMap.getD idx 0 == 0) = true ∨
        ∀ i, i < 65536 → (c.isomLinks.getD i default).terrainType = c.terrainTypeMap.getD idx 0) ∧
      c.getTerrainTypeIsomValue (c.terrainTypeMap.getD idx 0) < 65536 := by
  intro idx
  unfold IsomCache.getTerrainTypeIsomValue
  rw [h1, h2, h3]
  rcases idx with _ | _ | _ | _ | n
  · exact ⟨Or.inl rfl, by decide⟩
  · exact ⟨Or.inl rfl, by decide⟩
  · exact ⟨Or.inl rfl, by decide⟩
  · refine ⟨Or.inr ?_, by decide⟩
    intro i hi
    rw [bigLinks_getD i hi]
    rfl
  · have h0 : ([0, 0, 0, 1] : List Nat).getD (n + 1 + 1 + 1 + 1) 0 = 0 := rfl
    rw [h0]
    exact ⟨Or.inl rfl, by decide⟩

/-- C8 as stated fails: on `bigWorld`, whose link table has 65536 rows, the run of
`radiallyUpdateTerrain` on the queue holding the diamond (1,1) does not end with any amount of
fuel (the `uint16_t` row counter of `searchForBestMatch` wraps to 0 before it can reach the
table size). -/
theorem C8_counterexample :
    bigWorld.cache.isomLinks.length = 65536 ∧
    ¬ ∃ fuel : Nat, ∃ w' : World,
      radiallyUpdateTerrain true fuel [⟨1, 1⟩] bigWorld = some w' := by
  refine ⟨bigLinks_length, ?_⟩
  rintro ⟨fuel, w', h⟩
  have hdiv := radiallyUpdateTerrain_diverges true ⟨1, 1⟩ [] bigWorld (by decide) (by decide)
    (fun f => findBestMatchIsomValue_diverges f _ _ _
      (by show 65536 ≤ bigLinks.length; rw [bigLinks_length])
      (by show (16 >>> 4) < bigLinks.length; rw [bigLinks_length]; decide)
      (bigWorld_hmap _ rfl rfl rfl)) fuel
  rw [hdiv] at h
  exact absurd h (by simp)

end World
end IsomTerrain

namespace IsomTerrain
namespace World

/-- C8 (amended): for every map, every link table of fewer than 65536 rows and every initial
queue, `radiallyUpdateTerrain` terminates: with `radialFuel` steps or more the FIFO is empty
and the run returns. -/
theorem C8_radial_terminates (undoable : Bool) (w : World) (queue : List IsomDiamond)
    (hlen : w.cache.isomLinks.length < 65536) :
    ∀ fuel : Nat, radialFuel w queue ≤ fuel →
      ∃ w' : World, radiallyUpdateTerrain undoable fuel queue w = some w' :=
  fun fuel hf => radiallyUpdateTerrain_terminates undoable fuel queue w hlen hf

/-- C8 (amended) is not vacuous: `demoWorld` with the queue (0,0), (1,1). -/
theorem C8_radial_terminates_witness :
    demoWorld.cache.isomLinks.length < 65536 ∧
    ∀ fuel : Nat, radialFuel demoWorld [⟨0, 0⟩, ⟨1, 1⟩] ≤ fuel →
      ∃ w' : World, radiallyUpdateTerrain true fuel [⟨0, 0⟩, ⟨1, 1⟩] demoWorld = some w' :=
  ⟨by decide, C8_radial_terminates true demoWorld [⟨0, 0⟩, ⟨1, 1⟩] (by decide)⟩

theorem placeBrush_isomLinks (d : IsomDiamond) (v : Nat) (bMin bMax : Int)
    (st : World × List IsomDiamond) :
    (placeBrush d v bMin bMax st).1.cache.isomLinks = st.1.cache.isomLinks :=
  (placeBrush_inv (fun w1 => w1.cache.isomLinks = st.1.cache.isomLinks) (fun _ => True) d v
    bMin bMax (fun _ _ _ => trivial) (fun _ _ => trivial)
    (fun _ _ w1 h1 _ => (setDiamond_isomLinks _ _ _ w1).trans h1) st rfl
    (fun _ _ => trivial)).1

/-- The value returned by `placeIsomTerrain`, whenever it returns. -/
theorem placeIsomTerrain_result (fuel : Nat) (d : IsomDiamond) (terrainType brushExtent : Nat)
    (w w' : World) (b : Bool)
    (h : placeIsomTerrain fuel d terrainType brushExtent w = some (b, w')) :
    b = false ↔
      (((d.x + d.y) % SIZE_MAX1) % 2 ≠ 0 ∨ w.cache.getTerrainTypeIsomValue terrainType = 0 ∨
        w.cache.getTerrainTypeIsomValue terrainType ≥ w.cache.isomLinks.length ∨
        (w.cache.isomLinks.getD (w.cache.getTerrainTypeIsomValue terrainType) default).terrainType
          = 0) := by
  have hval : ((d.x + d.y) % SIZE_MAX1) % 2 ≠ 0 ↔ (!d.isValid) = true := by
    unfold IsomDiamond.isValid
    simp
  rw [hval]
  unfold placeIsomTerrain at h
  simp only [] at h
  split_ifs at h with hg
  · simp only [Option.some.injEq, Prod.mk.injEq] at h
    constructor
    · intro _; tauto
    · intro _; exact h.1.symm
  · generalize radiallyUpdateTerrain true fuel _ _ = r at h
    cases r with
    | none => simp at h
    | some w2 =>
      simp only [Option.some.injEq, Prod.mk.injEq] at h
      constructor
      · intro hb; rw [hb] at h; exact absurd h.1 (by simp)
      · intro hc; exact absurd (by tauto) hg

/-- C1: on a link table of fewer than 65536 rows (the tables that `generateIsomLinks` builds
from the built-in tilesets have fewer than 2048 rows, lemma `builtin_tables_in_range`),
`placeIsomTerrain` returns (for every large enough fuel), and it returns `false` if and only if
the diamond is invalid, or the terrain type's isomValue is 0 (which includes a terrain type
index past the descriptor table), or that isomValue is >= the link-table length, or the
link-table row at that isomValue has terrainType 0; in every other case it returns `true`. -/
theorem C1_return_value (d : IsomDiamond) (terrainType brushExtent : Nat) (w : World)
    (hlen : w.cache.isomLinks.length < 65536) :
    (terrainType ≥ w.cache.terrainTypes.length →
      w.cache.getTerrainTypeIsomValue terrainType = 0) ∧
    ∃ N : Nat, ∀ fuel : Nat, N ≤ fuel → ∃ (b : Bool) (w' : World),
      placeIsomTerrain fuel d terrainType brushExtent w = some (b, w') ∧
      (b = false ↔
        (((d.x + d.y) % SIZE_MAX1) % 2 ≠ 0 ∨ w.cache.getTerrainTypeIsomValue terrainType = 0 ∨
          w.cache.getTerrainTypeIsomValue terrainType ≥ w.cache.isomLinks.length ∨
          (w.cache.isomLinks.getD (w.cache.getTerrainTypeIsomValue terrainType)
            default).terrainType = 0)) := by
  constructor
  · intro h
    unfold IsomCache.getTerrainTypeIsomValue
    rw [if_neg (by omega)]
  · refine ⟨radialFuel
      (placeBrush d (w.cache.getTerrainTypeIsomValue terrainType) (brushMin brushExtent)
        (brushMax brushExtent) ({ w with cache := w.cache.resetChangedArea }, [])).1
      (placeBrush d (w.cache.getTerrainTypeIsomValue terrainType) (brushMin brushExtent)
        (brushMax brushExtent) ({ w with cache := w.cache.resetChangedArea }, [])).2, ?_⟩
    intro fuel hf
    have hsome : ∃ r, placeIsomTerrain fuel d terrainType brushExtent w = some r := by
      unfold placeIsomTerrain
      simp only []
      split_ifs
      · exact ⟨_, rfl⟩
      · obtain ⟨w2, h2⟩ := radiallyUpdateTerrain_terminates true fuel _ _
          (by rw [placeBrush_isomLinks]; exact hlen) hf
        rw [h2]
        exact ⟨_, rfl⟩
    obtain ⟨⟨b, w'⟩, hr⟩ := hsome
    exact ⟨b, w', hr, placeIsomTerrain_result fuel d terrainType brushExtent w w' b hr⟩

/-- C1 is not vacuous: `demoWorld`, whose link table has three rows. -/
theorem C1_return_value_witness :
    demoWorld.cache.isomLinks.length < 65536 ∧
    ((1 ≥ demoWorld.cache.terrainTypes.length →
      demoWorld.cache.getTerrainTypeIsomValue 1 = 0) ∧
    ∃ N : Nat, ∀ fuel : Nat, N ≤ fuel → ∃ (b : Bool) (w' : World),
      placeIsomTerrain fuel ⟨0, 0⟩ 1 1 demoWorld = some (b, w') ∧
      (b = false ↔
        (((0 + 0) % SIZE_MAX1) % 2 ≠ 0 ∨ demoWorld.cache.getTerrainTypeIsomValue 1 = 0 ∨
          demoWorld.cache.getTerrainTypeIsomValue 1 ≥ demoWorld.cache.isomLinks.length ∨
          (demoWorld.cache.isomLinks.getD (demoWorld.cache.getTerrainTypeIsomValue 1)
            default).terrainType = 0))) :=
  ⟨by decide, C1_return_value ⟨0, 0⟩ 1 1 demoWorld (by decide)⟩

theorem bigBrushed_queue : bigBrushed.2 = [⟨1, 1⟩] := by decide

theorem bigBrushed_needs : bigBrushed.1.map.diamondNeedsUpdate ⟨1, 1⟩ = true := by decide

theorem bigBrushed_unvisited : (bigBrushed.1.map.getIsomRect ⟨1, 1⟩).isVisited = false := by
  decide

/-- The bound on the rows of the link table cannot be dropped: on `bigWorld` (a hand-made
link table of 65536 rows, more than any table `generateIsomLinks` builds) the call for the
valid diamond (0,0), terrain type 1 (isomValue 1, a row inside the table with terrainType 1)
and brush extent 1 meets none of the four conditions for `false`, and it does not return at
all, with any amount of fuel. -/
theorem placeIsomTerrain_bigWorld_diverges :
    (((0 + 0) % SIZE_MAX1) % 2 = 0 ∧ bigWorld.cache.getTerrainTypeIsomValue 1 = 1 ∧
      1 < bigWorld.cache.isomLinks.length ∧
      (bigWorld.cache.isomLinks.getD 1 default).terrainType = 1) ∧
    ¬ ∃ fuel : Nat, ∃ r : Bool × World,
      placeIsomTerrain fuel ⟨0, 0⟩ 1 1 bigWorld = some r := by
  have hlen : bigWorld.cache.isomLinks.length = 65536 := bigLinks_length
  have hrow : bigWorld.cache.isomLinks.getD 1 default = uniformRow 1 0 :=
    bigLinks_getD 1 (by decide)
  refine ⟨⟨by decide, rfl, by rw [hlen]; decide, by rw [hrow]; rfl⟩, ?_⟩
  rintro ⟨fuel, r, h⟩
  have hiv : bigWorld.cache.getTerrainTypeIsomValue 1 = 1 := rfl
  unfold placeIsomTerrain at h
  simp only [hiv] at h
  rw [if_neg (by rw [hlen, hrow]; decide)] at h
  have hq : World.placeBrush ⟨0, 0⟩ 1 (World.brushMin 1) (World.brushMax 1)
    ({ bigWorld with cache := bigWorld.cache.resetChangedArea }, []) = bigBrushed := rfl
  rw [hq, bigBrushed_queue] at h
  have hdiv := radiallyUpdateTerrain_diverges true ⟨1, 1⟩ [] bigBrushed.1 bigBrushed_needs
    bigBrushed_unvisited
    (fun f => findBestMatchIsomValue_diverges f _ _ _
      (by
        show 65536 ≤ (markVisited ⟨1, 1⟩ bigBrushed.1).cache.isomLinks.length
        rw [(markVisited_facts _ _).2.2.2.1]
        unfold bigBrushed
        rw [placeBrush_isomLinks]
        exact Nat.le_of_eq bigLinks_length.symm)
      (by
        have h1 : (markVisited ⟨1, 1⟩ bigBrushed.1).map.getCentralIsomValue ⟨1, 1⟩ = 1 := by
          decide
        rw [h1, (markVisited_facts _ _).2.2.2.1]
        unfold bigBrushed
        rw [placeBrush_isomLinks]
        show 1 < bigLinks.length
        rw [bigLinks_length]; decide)
      (bigWorld_hmap _
        (by
          rw [(markVisited_facts _ _).2.2.2.1]
          unfold bigBrushed
          rw [placeBrush_isomLinks]
          rfl)
        rfl rfl)) fuel
  rw [hdiv] at h
  exact absurd h (by simp)

end World
end IsomTerrain

namespace IsomTerrain
namespace World

theorem setDiamond_trace (d : IsomDiamond) (v : Nat) (u : Bool) (w : World) :
    ∃ l : List Event, (setDiamondIsomValues d v u w).trace = l ++ Event.setDiamond d v :: w.trace ∧
      ∀ e ∈ l, ∃ r, e = Event.undoSink r := by
  rw [setDiamondIsomValues_eq]
  have step : ∀ (p : Point) (q : Quadrant) (w1 : World),
      (∃ l : List Event, w1.trace = l ++ Event.setDiamond d v :: w.trace ∧
        ∀ e ∈ l, ∃ r, e = Event.undoSink r) →
      ∃ l : List Event, (setIsomValue p q v u w1).trace = l ++ Event.setDiamond d v :: w.trace ∧
        ∀ e ∈ l, ∃ r, e = Event.undoSink r := by
    intro p q w1 ⟨l, h1, h2⟩
    rcases setIsomValue_trace p q v u w1 with ht | ⟨e, ht⟩
    · exact ⟨l, by rw [ht, h1], h2⟩
    · refine ⟨Event.undoSink e :: l, by rw [ht, h1]; rfl, ?_⟩
      intro x hx
      rcases List.mem_cons.mp hx with hx | hx
      · exact ⟨e, hx⟩
      · exact h2 x hx
  exact step _ _ _ (step _ _ _ (step _ _ _ (step _ _ _ ⟨[], rfl, fun _ h => by cases h⟩)))

theorem recentVisits_sinks (l t : List Event) (h : ∀ e ∈ l, ∃ r, e = Event.undoSink r) :
    recentVisits (l ++ t) = recentVisits t ∧ rewrites (l ++ t) = rewrites t ∧
    (Spaced (l ++ t) ↔ Spaced t) := by
  induction l with
  | nil => exact ⟨rfl, rfl, Iff.rfl⟩
  | cons e l ih =>
    obtain ⟨r, hr⟩ := h e (List.mem_cons_self _ _)
    subst hr
    have ih' := ih (fun x hx => h x (List.mem_cons_of_mem _ hx))
    exact ⟨ih'.1, ih'.2.1, ih'.2.2⟩

theorem getIsomRect_markVisited (d p : Point) (w : World) :
    (markVisited d w).map.getIsomRect p = (w.map.getIsomRect p) ∨
    (markVisited d w).map.getIsomRect p = (w.map.getIsomRect p).setVisited := by
  have h : (markVisited d w).map.getIsomRect p
      = (w.map.isomRects.set (w.map.rectIndex d) (w.map.getIsomRect d).setVisited).getD
          (w.map.rectIndex p) default := rfl
  rw [h, getD_set_eq]
  split_ifs with hc
  · right
    unfold ScMap.getIsomRect
    rw [hc.1]
  · left; rfl

theorem radialInv_markVisited (old : List Event) (d : IsomDiamond) (w : World)
    (hn : w.map.diamondNeedsUpdate d = true) (hv : (w.map.getIsomRect d).isVisited = false)
    (h : RadialInv old w) : RadialInv old (markVisited d w) := by
  obtain ⟨new, h1, h2, h3, h4⟩ := h
  obtain ⟨hi, hm⟩ := needsUpdate_index w.map d hn
  refine ⟨Event.visited d :: new, by show _ :: w.trace = _; rw [h1]; rfl, ⟨h2, ?_, ?_⟩, ?_, ?_⟩
  · intro hmem
    have := h3 d hmem
    rw [hv] at this
    exact absurd this (by simp)
  · intro hmem
    have := h4 d hmem
    rw [hm] at this
    exact absurd this (by simp)
  · intro e he
    rcases List.mem_cons.mp he with he | he
    · subst he
      have : (markVisited e w).map.getIsomRect e = (w.map.getIsomRect e).setVisited :=
        ScMap.getIsomRect_setIsomRect_self w.map e _ hi
      rw [this]; exact isVisited_setVisited _
    · rcases getIsomRect_markVisited d e w with hh | hh
      · rw [hh]; exact h3 e he
      · rw [hh]; exact isVisited_setVisited _
  · intro e he
    rcases getIsomRect_markVisited d e w with hh | hh
    · rw [hh]; exact h4 e he
    · rw [hh, isLeftModified_setVisited]; exact h4 e he

theorem leftMono_getIsomRect (m1 m2 : ScMap) (h : LeftMono m1 m2) (p : Point)
    (hp : (m1.getIsomRect p).isLeftModified = true) :
    (m2.getIsomRect p).isLeftModified = true := by
  have hidx : m2.rectIndex p = m1.rectIndex p := by
    simp only [ScMap.rectIndex, ScMap.getIsomWidth, h.1]
  by_contra hc
  have := h.2.2.2 (m1.rectIndex p) (by
    unfold ScMap.getIsomRect at hc
    rw [hidx] at hc
    simpa using hc)
  unfold ScMap.getIsomRect at hp
  rw [this] at hp
  exact absurd hp (by simp)

theorem radialInv_setDiamond (old : List Event) (d : IsomDiamond) (v : Nat) (u : Bool) (w : World)
    (hb : w.map.isInBounds d = true) (hi : w.map.rectIndex d < w.map.isomRects.length)
    (h : RadialInv old w) : RadialInv old (setDiamondIsomValues d v u w) := by
  obtain ⟨new, h1, h2, _, h4⟩ := h
  obtain ⟨l, hl1, hl2⟩ := setDiamond_trace d v u w
  obtain ⟨r1, r2, r3⟩ := recentVisits_sinks l (Event.setDiamond d v :: new) hl2
  have hmono := leftMono_setDiamond d v u w
  refine ⟨l ++ Event.setDiamond d v :: new, by rw [hl1, h1]; simp, r3.mpr h2, ?_, ?_⟩
  · rw [r1]
    intro e he
    cases he
  · rw [r2]
    intro e he
    rcases List.mem_cons.mp he with he | he
    · subst he
      have := setDiamond_left_modified e v u w hb hi
      have hidx : (setDiamondIsomValues e v u w).map.rectIndex e = w.map.rectIndex e := by
        simp only [ScMap.rectIndex, ScMap.getIsomWidth, hmono.1]
      unfold ScMap.getIsomRect
      rw [hidx]
      exact this
    · exact leftMono_getIsomRect _ _ hmono e (h4 e he)

end World
end IsomTerrain

namespace IsomTerrain
namespace World

theorem spaced_suffix (t3 t : List Event) (h : Spaced (t3 ++ t)) : Spaced t := by
  induction t3 with
  | nil => exact h
  | cons e t3 ih =>
    cases e with
    | visited d => exact ih h.1
    | setDiamond d v => exact ih h
    | undoSink u => exact ih h

theorem recentVisits_append (t2 s : List Event) (d : IsomDiamond)
    (hno : ∀ d' v, Event.setDiamond d' v ∉ t2) (hd : d ∈ recentVisits s) :
    d ∈ recentVisits (t2 ++ s) := by
  induction t2 with
  | nil => exact hd
  | cons e t2 ih =>
    have ih' := ih (fun d' v hm => hno d' v (List.mem_cons_of_mem _ hm))
    cases e with
    | visited x => exact List.mem_cons_of_mem _ ih'
    | setDiamond x v => exact absurd (List.mem_cons_self _ _) (hno x v)
    | undoSink u => exact ih'

theorem rewrites_mem (t3 t1 : List Event) (d : IsomDiamond) (v : Nat) :
    d ∈ rewrites (t3 ++ Event.setDiamond d v :: t1) := by
  induction t3 with
  | nil => exact List.mem_cons_self _ _
  | cons e t3 ih =>
    cases e with
    | visited x => exact ih
    | setDiamond x v' => exact List.mem_cons_of_mem _ ih
    | undoSink u => exact ih

theorem spaced_visits (new t3 t2 t1 : List Event) (d : IsomDiamond) (h : Spaced new)
    (hs : new = t3 ++ Event.visited d :: (t2 ++ Event.visited d :: t1)) :
    ∃ d' v, Event.setDiamond d' v ∈ t2 := by
  subst hs
  have h1 := spaced_suffix t3 _ h
  by_contra hcon
  have hno : ∀ d' v, Event.setDiamond d' v ∉ t2 := fun d' v hm => hcon ⟨d', v, hm⟩
  exact h1.2.1 (recentVisits_append t2 (Event.visited d :: t1) d hno (List.mem_cons_self _ _))

theorem spaced_rewrite (new t3 t1 : List Event) (d : IsomDiamond) (v : Nat) (h : Spaced new)
    (hs : new = t3 ++ Event.setDiamond d v :: t1) : Event.visited d ∉ t3 := by
  subst hs
  induction t3 with
  | nil => intro hm; cases hm
  | cons e t3 ih =>
    intro hm
    cases e with
    | visited x =>
      rcases List.mem_cons.mp hm with hm | hm
      · cases hm
        exact h.2.2 (rewrites_mem t3 t1 d v)
      · exact ih h.1 hm
    | setDiamond x v' =>
      rcases List.mem_cons.mp hm with hm | hm
      · cases hm
      · exact ih h hm
    | undoSink u =>
      rcases List.mem_cons.mp hm with hm | hm
      · cases hm
      · exact ih h hm

/-- C7 (amended): in one run of `radiallyUpdateTerrain`, for every map, link table and initial
queue, the events `new` the run adds to the trace (newest first) satisfy: two processings
(mark `Visited` and best-match step) of the same diamond are always separated by a call of
`setDiamondIsomValues`, so between two rewrites every diamond's rectangle is processed at most
once; and a diamond that was handed to `setDiamondIsomValues` is never processed afterwards. -/
theorem C7_processed_once_between_rewrites (undoable : Bool) (fuel : Nat)
    (queue : List IsomDiamond) (w w' : World)
    (h : radiallyUpdateTerrain undoable fuel queue w = some w') :
    ∃ new : List Event, w'.trace = new ++ w.trace ∧
      (∀ (t3 t2 t1 : List Event) (d : IsomDiamond),
        new = t3 ++ Event.visited d :: (t2 ++ Event.visited d :: t1) →
        ∃ d' v, Event.setDiamond d' v ∈ t2) ∧
      (∀ (t3 t1 : List Event) (d : IsomDiamond) (v : Nat),
        new = t3 ++ Event.setDiamond d v :: t1 → Event.visited d ∉ t3) := by
  have key : RadialInv w.trace w' :=
    radiallyUpdateTerrain_inv (RadialInv w.trace) (fun _ => True) undoable
      (fun _ _ _ => trivial)
      (fun d w1 _ hn hv h1 => radialInv_markVisited _ d w1 hn hv h1)
      (fun d v w1 _ hn hv h1 _ => by
        obtain ⟨hi, _⟩ := needsUpdate_index w1.map d hn
        obtain ⟨_, _, f3, _, f5, f6, _⟩ := markVisited_facts d w1
        exact radialInv_setDiamond _ d v undoable _
          (by rw [f6]; exact diamondNeedsUpdate_inBounds _ _ hn) (by rw [f5, f3]; exact hi)
          (radialInv_markVisited _ d w1 hn hv h1))
      fuel queue w w' (fun _ _ => trivial)
      ⟨[], rfl, trivial, (fun _ hm => by cases hm), (fun _ hm => by cases hm)⟩ h
  obtain ⟨new, h1, h2, _, _⟩ := key
  exact ⟨new, h1, fun t3 t2 t1 d hs => spaced_visits new t3 t2 t1 d h2 hs,
    fun t3 t1 d v hs => spaced_rewrite new t3 t1 d v h2 hs⟩

set_option maxRecDepth 100000 in
theorem demoRadial_eq :
    radiallyUpdateTerrain true 100 [⟨0, 0⟩, ⟨1, 1⟩] demoWorld
      = some ((radiallyUpdateTerrain true 100 [⟨0, 0⟩, ⟨1, 1⟩] demoWorld).getD demoWorld) := by
  rfl

/-- C7 (amended) is not vacuous: the run on `demoWorld` with the queue (0,0), (1,1). -/
theorem C7_processed_once_between_rewrites_witness :
    radiallyUpdateTerrain true 100 [⟨0, 0⟩, ⟨1, 1⟩] demoWorld
      = some ((radiallyUpdateTerrain true 100 [⟨0, 0⟩, ⟨1, 1⟩] demoWorld).getD demoWorld) ∧
    ∃ new : List Event,
      ((radiallyUpdateTerrain true 100 [⟨0, 0⟩, ⟨1, 1⟩] demoWorld).getD demoWorld).trace
        = new ++ demoWorld.trace ∧
      (∀ (t3 t2 t1 : List Event) (d : IsomDiamond),
        new = t3 ++ Event.visited d :: (t2 ++ Event.visited d :: t1) →
        ∃ d' v, Event.setDiamond d' v ∈ t2) ∧
      (∀ (t3 t1 : List Event) (d : IsomDiamond) (v : Nat),
        new = t3 ++ Event.setDiamond d v :: t1 → Event.visited d ∉ t3) :=
  ⟨demoRadial_eq,
    C7_processed_once_between_rewrites true 100 [⟨0, 0⟩, ⟨1, 1⟩] demoWorld _ demoRadial_eq⟩

set_option maxRecDepth 100000 in
/-- C7 as stated fails: on `demoWorld` (no `Visited` or `Modified` bit set, three link rows) the
run of `radiallyUpdateTerrain` on the queue (0,0), (1,1) ends and processes the rectangle of
the diamond (0,0) twice: the rewrite of the diamond (1,1) stores its top-left quadrant in the
`right` field of the rectangle (0,0) and so erases the `Visited` bit kept there. -/
theorem C7_counterexample :
    (radiallyUpdateTerrain true 100 [⟨0, 0⟩, ⟨1, 1⟩] demoWorld).map
        (fun w' => w'.trace.filter (fun e => e matches Event.visited _))
      = some [Event.visited ⟨0, 0⟩, Event.visited ⟨1, 1⟩, Event.visited ⟨0, 0⟩] ∧
    (radiallyUpdateTerrain true 100 [⟨0, 0⟩, ⟨1, 1⟩] demoWorld).map
        (fun w' => w'.trace.count (Event.visited ⟨0, 0⟩)) = some 2 := by
  decide

end World
end IsomTerrain

namespace IsomTerrain
namespace World

/-! ## The sides written by `setIsomValue` -/

theorem sideHolds_written (iv f : Nat) :
    SideHolds ((((iv <<< 4) ||| f) % U16) ||| EditorFlag.Modified) iv f := by
  unfold SideHolds
  constructor
  · rw [Nat.and_distrib_right]
    have : EditorFlag.Modified &&& EditorFlag.ClearAll = 0 := by decide
    rw [this, Nat.or_zero]
  · exact or_and_self_right _ _

/-- The rectangle after `set` and `setModified` on the quadrant `q`: its two sides hold. -/
theorem written_holds (r : IsomRect) (q : Quadrant) (iv : Nat) :
    SideHolds (((r.set (ProjectedQuadrant.atQuadrant q) iv).setModified
        (ProjectedQuadrant.atQuadrant q)).side (ProjectedQuadrant.atQuadrant q).firstSide)
      iv (ProjectedQuadrant.atQuadrant q).firstEdgeFlags ∧
    SideHolds (((r.set (ProjectedQuadrant.atQuadrant q) iv).setModified
        (ProjectedQuadrant.atQuadrant q)).side (ProjectedQuadrant.atQuadrant q).secondSide)
      iv (ProjectedQuadrant.atQuadrant q).secondEdgeFlags := by
  cases q <;> exact ⟨sideHolds_written _ _, sideHolds_written _ _⟩

/-- The sides of `q` are not touched by a write of a quadrant `q'` with other sides. -/
theorem written_frame (r : IsomRect) (q q' : Quadrant) (v : Nat) (h : DisjointSides q q') :
    ((r.set (ProjectedQuadrant.atQuadrant q') v).setModified
        (ProjectedQuadrant.atQuadrant q')).side (ProjectedQuadrant.atQuadrant q).firstSide
      = r.side (ProjectedQuadrant.atQuadrant q).firstSide ∧
    ((r.set (ProjectedQuadrant.atQuadrant q') v).setModified
        (ProjectedQuadrant.atQuadrant q')).side (ProjectedQuadrant.atQuadrant q).secondSide
      = r.side (ProjectedQuadrant.atQuadrant q).secondSide := by
  obtain ⟨h1, h2, h3, h4⟩ := h
  cases q <;> cases q' <;>
    first
    | exact ⟨rfl, rfl⟩
    | exact absurd rfl h1
    | exact absurd rfl h2
    | exact absurd rfl h3
    | exact absurd rfl h4

theorem setVisited_side (r : IsomRect) (s : Side) :
    r.setVisited.side s = r.side s ∨ r.setVisited.side s = r.side s ||| EditorFlag.Visited := by
  cases s
  · exact Or.inl rfl
  · exact Or.inl rfl
  · exact Or.inr rfl
  · exact Or.inl rfl

end World
end IsomTerrain

namespace IsomTerrain
namespace World

theorem getIsomRect_setIsomRect_cases (m : ScMap) (p : Point) (r : IsomRect) :
    (m.setIsomRect p r).getIsomRect p = r ∨ (m.setIsomRect p r).getIsomRect p = m.getIsomRect p := by
  by_cases hi : m.rectIndex p < m.isomRects.length
  · exact Or.inl (ScMap.getIsomRect_setIsomRect_self m p r hi)
  · right
    unfold ScMap.getIsomRect ScMap.setIsomRect
    show (List.set _ _ _).getD (m.rectIndex p) default = _
    rw [getD_set_eq]
    simp [hi]

theorem isInBounds_congr (m m' : ScMap) (hw : m'.tileWidth = m.tileWidth)
    (hh : m'.tileHeight = m.tileHeight) (p : Point) : m'.isInBounds p = m.isInBounds p := by
  simp only [ScMap.isInBounds, ScMap.getIsomWidth, ScMap.getIsomHeight, hw, hh]

/-- A write of another rectangle, or of other sides of the same rectangle, keeps a quadrant. -/
theorem holdsQuadrant_setIsomValue_other (p : Point) (q' : Quadrant) (v : Nat) (u : Bool)
    (w : World) (t : IsomDiamond) (q : Quadrant) (iv : Nat)
    (hc : w.map.isInBounds (t.getRectangleCoords q) = true)
    (hd : p ≠ t.getRectangleCoords q ∨ DisjointSides q q')
    (h : HoldsQuadrant w.map t q iv) : HoldsQuadrant (setIsomValue p q' v u w).map t q iv := by
  by_cases hb : w.map.isInBounds p = true
  · rw [(setIsomValue_in p q' v u w hb).1]
    by_cases hpe : t.getRectangleCoords q = p
    · rcases hd with hd | hd
      · exact absurd hpe.symm hd
      · unfold HoldsQuadrant
        rw [hpe]
        rcases getIsomRect_setIsomRect_cases w.map p
          (((w.map.getIsomRect p).set (ProjectedQuadrant.atQuadrant q') v).setModified
            (ProjectedQuadrant.atQuadrant q')) with hr | hr
        · rw [hr, (written_frame _ q q' v hd).1, (written_frame _ q q' v hd).2]
          unfold HoldsQuadrant at h
          rw [hpe] at h
          exact h
        · rw [hr]
          unfold HoldsQuadrant at h
          rw [hpe] at h
          exact h
    · unfold HoldsQuadrant
      rw [ScMap.getIsomRect_setIsomRect_ne w.map p _ _ (isInBounds_x _ _ hb)
        (isInBounds_x _ _ hc) hpe]
      exact h
  · rw [setIsomValue_out p q' v u w (by simpa using hb)]
    exact h

/-- The write of a quadrant makes its two sides hold. -/
theorem holdsQuadrant_setIsomValue_self (t : IsomDiamond) (q : Quadrant) (iv : Nat) (u : Bool)
    (w : World) (hc : w.map.isInBounds (t.getRectangleCoords q) = true)
    (hi : w.map.rectIndex (t.getRectangleCoords q) < w.map.isomRects.length) :
    HoldsQuadrant (setIsomValue (t.getRectangleCoords q) q iv u w).map t q iv := by
  rw [(setIsomValue_in _ q iv u w hc).1]
  unfold HoldsQuadrant
  rw [ScMap.getIsomRect_setIsomRect_self w.map _ _ hi]
  exact written_holds _ q iv

theorem coords_ne (t : IsomDiamond) (q q' : Quadrant) (h : q ≠ q') :
    t.getRectangleCoords q' ≠ t.getRectangleCoords q := by
  have hx : sizeDec t.x ≠ t.x := by unfold sizeDec; rw [size_eq]; omega
  have hy : sizeDec t.y ≠ t.y := by unfold sizeDec; rw [size_eq]; omega
  intro heq
  cases q <;> cases q' <;>
    simp only [IsomDiamond.getRectangleCoords, Point.mk.injEq] at heq <;>
    first
    | exact absurd rfl h
    | omega

end World
end IsomTerrain

namespace IsomTerrain
namespace World

theorem gridComplete_of_length (m : ScMap)
    (h : m.isomRects.length = m.getIsomWidth * m.getIsomHeight) : GridComplete m := by
  intro p hp
  unfold ScMap.isInBounds at hp
  simp only [Bool.and_eq_true, decide_eq_true_eq] at hp
  unfold ScMap.rectIndex
  rw [h]
  have h1 : p.y * m.getIsomWidth + m.getIsomWidth ≤ m.getIsomHeight * m.getIsomWidth := by
    have : (p.y + 1) * m.getIsomWidth ≤ m.getIsomHeight * m.getIsomWidth :=
      Nat.mul_le_mul_right _ hp.2
    rw [Nat.add_mul, Nat.one_mul] at this
    exact this
  rw [Nat.mul_comm m.getIsomWidth]
  omega

theorem gridComplete_mono (m1 m2 : ScMap) (h : LeftMono m1 m2) (hg : GridComplete m1) :
    GridComplete m2 := by
  intro p hp
  rw [isInBounds_congr m1 m2 h.1 h.2.1] at hp
  have := hg p hp
  rw [h.2.2.1]
  simpa only [ScMap.rectIndex, ScMap.getIsomWidth, h.1] using this

/-- One of the four writes of `setDiamondIsomValues t iv`: it makes its own quadrant hold and
keeps the other quadrants of `t`. -/
theorem holds_own_write (t : IsomDiamond) (iv : Nat) (u : Bool) (w1 : World) (q q' : Quadrant)
    (hg : GridComplete w1.map) (hc : w1.map.isInBounds (t.getRectangleCoords q) = true)
    (h : q = q' ∨ HoldsQuadrant w1.map t q iv) :
    HoldsQuadrant (setIsomValue (t.getRectangleCoords q') q' iv u w1).map t q iv := by
  by_cases hq : q = q'
  · subst hq
    exact holdsQuadrant_setIsomValue_self t q iv u w1 hc (hg _ hc)
  · rcases h with h | h
    · exact absurd h hq
    · exact holdsQuadrant_setIsomValue_other _ q' iv u w1 t q iv hc
        (Or.inl (coords_ne t q q' hq)) h

/-- `setDiamondIsomValues t iv` makes every quadrant of `t` inside the grid hold `iv`. -/
theorem diamondHolds_setDiamond_self (t : IsomDiamond) (iv : Nat) (u : Bool) (w : World)
    (hg : GridComplete w.map) : DiamondHolds (setDiamondIsomValues t iv u w).map t iv := by
  intro q hc
  have hmono := leftMono_setDiamond t iv u w
  rw [isInBounds_congr w.map _ hmono.1 hmono.2.1] at hc
  rw [setDiamondIsomValues_eq]
  generalize hw0 : ({ w with trace := Event.setDiamond t iv :: w.trace } : World) = w0
  have hm0 : LeftMono w.map w0.map := by rw [← hw0]; exact leftMono_refl _
  generalize hw1 : setIsomValue (t.getRectangleCoords Quadrant.TopLeft) Quadrant.TopLeft iv u w0
    = w1
  have hm1 : LeftMono w.map w1.map := by
    rw [← hw1]; exact leftMono_trans _ _ _ hm0 (leftMono_setIsomValue _ _ _ _ _)
  generalize hw2 : setIsomValue (t.getRectangleCoords Quadrant.TopRight) Quadrant.TopRight iv u w1
    = w2
  have hm2 : LeftMono w.map w2.map := by
    rw [← hw2]; exact leftMono_trans _ _ _ hm1 (leftMono_setIsomValue _ _ _ _ _)
  generalize hw3 : setIsomValue (t.getRectangleCoords Quadrant.BottomRight) Quadrant.BottomRight
    iv u w2 = w3
  have hm3 : LeftMono w.map w3.map := by
    rw [← hw3]; exact leftMono_trans _ _ _ hm2 (leftMono_setIsomValue _ _ _ _ _)
  have c0 : w0.map.isInBounds (t.getRectangleCoords q) = true := by
    rw [isInBounds_congr w.map _ hm0.1 hm0.2.1]; exact hc
  have c1 : w1.map.isInBounds (t.getRectangleCoords q) = true := by
    rw [isInBounds_congr w.map _ hm1.1 hm1.2.1]; exact hc
  have c2 : w2.map.isInBounds (t.getRectangleCoords q) = true := by
    rw [isInBounds_congr w.map _ hm2.1 hm2.2.1]; exact hc
  have c3 : w3.map.isInBounds (t.getRectangleCoords q) = true := by
    rw [isInBounds_congr w.map _ hm3.1 hm3.2.1]; exact hc
  have g0 := gridComplete_mono _ _ hm0 hg
  have g1 := gridComplete_mono _ _ hm1 hg
  have g2 := gridComplete_mono _ _ hm2 hg
  have g3 := gridComplete_mono _ _ hm3 hg
  have s1 : q = Quadrant.TopLeft → HoldsQuadrant w1.map t q iv := fun hq => by
    rw [← hw1]; exact holds_own_write t iv u w0 q _ g0 c0 (Or.inl hq)
  have s2 : q = Quadrant.TopLeft ∨ q = Quadrant.TopRight → HoldsQuadrant w2.map t q iv :=
    fun hq => by
      rw [← hw2]
      rcases hq with hq | hq
      · exact holds_own_write t iv u w1 q _ g1 c1 (Or.inr (s1 hq))
      · exact holds_own_write t iv u w1 q _ g1 c1 (Or.inl hq)
  have s3 : q = Quadrant.TopLeft ∨ q = Quadrant.TopRight ∨ q = Quadrant.BottomRight →
      HoldsQuadrant w3.map t q iv := fun hq => by
    rw [← hw3]
    rcases hq with hq | hq | hq
    · exact holds_own_write t iv u w2 q _ g2 c2 (Or.inr (s2 (Or.inl hq)))
    · exact holds_own_write t iv u w2 q _ g2 c2 (Or.inr (s2 (Or.inr hq)))
    · exact holds_own_write t iv u w2 q _ g2 c2 (Or.inl hq)
  cases q
  · exact holds_own_write t iv u w3 _ _ g3 c3 (Or.inr (s3 (Or.inl rfl)))
  · exact holds_own_write t iv u w3 _ _ g3 c3 (Or.inr (s3 (Or.inr (Or.inl rfl))))
  · exact holds_own_write t iv u w3 _ _ g3 c3 (Or.inr (s3 (Or.inr (Or.inr rfl))))
  · exact holds_own_write t iv u w3 _ _ g3 c3 (Or.inl rfl)

/-- Two different valid diamonds never write the same side of the same rectangle. -/
theorem coords_disjoint (e t : IsomDiamond) (q q' : Quadrant) (he : GoodDiamond e)
    (ht : GoodDiamond t) (hne : e ≠ t) :
    e.getRectangleCoords q' ≠ t.getRectangleCoords q ∨ DisjointSides q q' := by
  obtain ⟨hev, hex, hey⟩ := he
  obtain ⟨htv, htx, hty⟩ := ht
  rw [isValid_iff] at hev htv
  rw [size_eq] at hev htv hex hey htx hty
  have hne' : e.x ≠ t.x ∨ e.y ≠ t.y := by
    by_contra hc
    apply hne
    have h1 : e.x = t.x := by omega
    have h2 : e.y = t.y := by omega
    cases e; cases t
    simp only [Point.mk.injEq]
    exact ⟨h1, h2⟩
  cases q <;> cases q' <;>
    first
    | (right; unfold DisjointSides; decide)
    | (left
       intro heq
       simp only [IsomDiamond.getRectangleCoords, Point.mk.injEq, sizeDec, size_eq] at heq
       omega)

end World
end IsomTerrain

namespace IsomTerrain
namespace World

theorem leftMono_markVisited (e : IsomDiamond) (w : World) :
    LeftMono w.map (markVisited e w).map :=
  leftMono_setIsomRect _ _ _ (Or.inr (isLeftModified_setVisited _))

theorem goodDiamond_getNeighbor (e : IsomDiamond) (n : Neighbor) (h : GoodDiamond e) :
    GoodDiamond (e.getNeighbor n) := by
  refine ⟨(isValid_getNeighbor e n).trans h.1, ?_, ?_⟩ <;>
  · cases n <;> simp only [IsomDiamond.getNeighbor, sizeInc, sizeDec] <;>
      exact Nat.mod_lt _ (by decide)

theorem goodDiamond_brush (d : IsomDiamond) (hd : d.isValid = true) (bx bY : Int) :
    GoodDiamond ⟨toSize ((d.x : Int) + bx - bY), toSize ((d.y : Int) + bx + bY)⟩ :=
  ⟨(isValid_brush d bx bY).trans hd, toSize_lt _, toSize_lt _⟩

end World
end IsomTerrain

namespace IsomTerrain

namespace World

end World
end IsomTerrain

namespace IsomTerrain
namespace World

end World
end IsomTerrain

namespace IsomTerrain
namespace World

end World
end IsomTerrain

namespace IsomTerrain
namespace World

theorem highRowBrushed_queue : highRowBrushed.2 = [] := by decide

theorem highRowPlaced_eq :
    placeIsomTerrain 100 ⟨0, 0⟩ 1 1 highRowWorld = some (true, highRowBrushed.1) := by
  have hiv : highRowWorld.cache.getTerrainTypeIsomValue 1 = 2048 := rfl
  have hlen : highRowWorld.cache.isomLinks.length = 2049 := List.length_replicate _ _
  have hrow : highRowWorld.cache.isomLinks.getD 2048 default = uniformRow 1 0 := by
    show (List.replicate 2049 (uniformRow 1 0)).getD 2048 default = _
    rw [List.getD_eq_getElem?_getD, List.getElem?_replicate, if_pos (by decide)]
    rfl
  unfold placeIsomTerrain
  simp only [hiv]
  rw [if_neg (by rw [hlen, hrow]; decide)]
  have hq : World.placeBrush ⟨0, 0⟩ 2048 (World.brushMin 1) (World.brushMax 1)
    ({ highRowWorld with cache := highRowWorld.cache.resetChangedArea }, [])
      = highRowBrushed := rfl
  rw [hq, highRowBrushed_queue, radially_nil]

/-- The bound on the row index cannot be dropped: on `highRowWorld`, whose terrain type 1 has
the isomValue 2048 (a row of a hand-made link table of 2049 rows, more than any table
`generateIsomLinks` builds), the call for the diamond (0,0) with extent 1 returns `true`; the
brush offset (0,0) is in the range, its target (0,0) and the rectangle (0,0) of its
bottom-right quadrant are in bounds, the `left` field is 0x8009, and `getIsomValue(left)` is
8, not `(2048 << 4) | 0x8 = 32776`: the mask 0x7FFE of `getIsomValue` removes bit 15, where the
row index 2048 shifted by 4 lands. -/
theorem placeIsomTerrain_highRow_masked :
    highRowWorld.map.isomRects.length
      = highRowWorld.map.getIsomWidth * highRowWorld.map.getIsomHeight ∧
    placeIsomTerrain 100 ⟨0, 0⟩ 1 1 highRowWorld = some (true, highRowBrushed.1) ∧
    highRowWorld.cache.getTerrainTypeIsomValue 1 = 2048 ∧
    (brushMin 1 ≤ 0 ∧ (0 : Int) < brushMax 1) ∧
    highRowWorld.map.isInBounds
      ⟨toSize (((0 : Nat) : Int) + 0 - 0), toSize (((0 : Nat) : Int) + 0 + 0)⟩ = true ∧
    IsomDiamond.getRectangleCoords
      ⟨toSize (((0 : Nat) : Int) + 0 - 0), toSize (((0 : Nat) : Int) + 0 + 0)⟩
      Quadrant.BottomRight = ⟨0, 0⟩ ∧
    (ProjectedQuadrant.atQuadrant Quadrant.BottomRight).firstSide = Side.Left ∧
    (highRowBrushed.1.map.getIsomRect ⟨0, 0⟩).left = 0x8009 ∧
    (highRowBrushed.1.map.getIsomRect ⟨0, 0⟩).getIsomValue Side.Left = 8 ∧
    ¬ ((highRowBrushed.1.map.getIsomRect ⟨0, 0⟩).getIsomValue Side.Left
        = (highRowWorld.cache.getTerrainTypeIsomValue 1 <<< 4) |||
            (ProjectedQuadrant.atQuadrant Quadrant.BottomRight).firstEdgeFlags) := by
  refine ⟨by decide, highRowPlaced_eq, by decide, by decide, by decide, by decide, by decide,
    by decide, by decide, by decide⟩

end World
end IsomTerrain
namespace IsomTerrain

theorem toSize_natCast (n : Nat) (h : n < SIZE_MAX1) : toSize (n : Int) = n := by
  unfold toSize SIZE_MAX1 at *
  omega

theorem sizeSub_of_le (a b : Nat) (hb : b ≤ a) (ha : a < SIZE_MAX1) : sizeSub a b = a - b := by
  unfold sizeSub SIZE_MAX1 at *
  omega

/-- For offsets that are not positive and do not exceed the old extent, the constructor yields
the intersection rectangle `[max(0,-dx), min(old, new - dx))`. -/
theorem boundingBox_new_nonpos (oldWidth oldHeight newWidth newHeight : Nat) (dx dy : Int)
    (hx : dx ≤ 0) (hy : dy ≤ 0) (hxl : -dx ≤ oldWidth) (hyl : -dy ≤ oldHeight)
    (how : oldWidth < 4294967296) (hoh : oldHeight < 4294967296)
    (hnw : newWidth < 4294967296) (hnh : newHeight < 4294967296) :
    ((BoundingBox.new oldWidth oldHeight newWidth newHeight dx dy).left : Int) = max 0 (-dx) ∧
    ((BoundingBox.new oldWidth oldHeight newWidth newHeight dx dy).top : Int) = max 0 (-dy) ∧
    ((BoundingBox.new oldWidth oldHeight newWidth newHeight dx dy).right : Int)
      = min (oldWidth : Int) (newWidth - dx) ∧
    ((BoundingBox.new oldWidth oldHeight newWidth newHeight dx dy).bottom : Int)
      = min (oldHeight : Int) (newHeight - dy) := by
  simp only [BoundingBox.new, toSize, sizeSub, SIZE_MAX1]
  have h1 : ¬ dx > 0 := by omega
  have h2 : ¬ dy > 0 := by omega
  simp only [h1, h2, if_false]
  refine ⟨by omega, by omega, ?_, ?_⟩
  · split_ifs <;> omega
  · split_ifs <;> omega

/-- For a positive offset the constructor ignores the offset: the rectangle is
`[0, min(old, new))`. -/
theorem boundingBox_new_pos (oldWidth oldHeight newWidth newHeight : Nat) (dx dy : Int)
    (hx : 0 ≤ dx) (hy : 0 ≤ dy)
    (how : oldWidth < SIZE_MAX1) (hoh : oldHeight < SIZE_MAX1) :
    BoundingBox.new oldWidth oldHeight newWidth newHeight dx dy =
      { left := 0, top := 0, right := min oldWidth newWidth, bottom := min oldHeight newHeight } := by
  have h1 : toSize (if dx > 0 then 0 else -dx) = 0 := by
    unfold toSize SIZE_MAX1; split_ifs <;> omega
  have h2 : toSize (if dy > 0 then 0 else -dy) = 0 := by
    unfold toSize SIZE_MAX1; split_ifs <;> omega
  have hr : (if sizeSub oldWidth 0 > newWidth then (0 + newWidth) % SIZE_MAX1 else oldWidth)
      = min oldWidth newWidth := by
    unfold sizeSub SIZE_MAX1 at *
    split_ifs <;> omega
  have hb : (if sizeSub oldHeight 0 > newHeight then (0 + newHeight) % SIZE_MAX1 else oldHeight)
      = min oldHeight newHeight := by
    unfold sizeSub SIZE_MAX1 at *
    split_ifs <;> omega
  simp only [BoundingBox.new, h1, h2, hr, hb]

/-- C15: with old and new extent 10 and the offset `xOffset = 3` the constructor yields
`right = 10`, while `min(oldWidth, newWidth - dx)` is `7`; with `xOffset = -3` and the old
extent 2 it yields `left = 3`, `right = 5`, while `min(oldWidth, newWidth - dx)` is `2`. -/
theorem C15_boundingBox_at_failing_input :
    BoundingBox.new 10 10 10 10 3 0 = { left := 0, top := 0, right := 10, bottom := 10 } ∧
    min (10 : Int) (10 - 3) = 7 ∧
    BoundingBox.new 2 3 2 3 (-3) 0 = { left := 3, top := 0, right := 5, bottom := 3 } ∧
    min (2 : Int) (2 - (-3)) = 2 := by
  decide

end IsomTerrain
namespace IsomTerrain
namespace World

/-! ## The copy loop of `copyIsomFrom` -/

theorem foldl_copyRect_length (src : List IsomRect) :
    ∀ (ps : List (Nat × Nat)) (d : List IsomRect),
      (ps.foldl (copyRect src) d).length = d.length := by
  intro ps
  induction ps with
  | nil => intro d; rfl
  | cons p t ih =>
    intro d
    rw [List.foldl_cons, ih]
    unfold copyRect
    exact List.length_set _ _ _

/-- An element no `memcpy` element writes keeps its value. -/
theorem foldl_copyRect_getD_other (src : List IsomRect) (k : Nat) (x : IsomRect) :
    ∀ (ps : List (Nat × Nat)) (d : List IsomRect), (∀ p ∈ ps, p.1 ≠ k) →
      (ps.foldl (copyRect src) d).getD k x = d.getD k x := by
  intro ps
  induction ps with
  | nil => intro d _; rfl
  | cons p t ih =>
    intro d h
    rw [List.foldl_cons, ih _ (fun q hq => h q (List.mem_cons_of_mem _ hq))]
    unfold copyRect
    rw [getD_set_eq]
    have := h p (List.mem_cons_self _ _)
    simp [this]

/-- An element written from one source element only receives that element. -/
theorem foldl_copyRect_getD_image (src : List IsomRect) (k s : Nat) (x : IsomRect) :
    ∀ (ps : List (Nat × Nat)) (d : List IsomRect), (∀ p ∈ ps, p.1 = k → p.2 = s) →
      (∃ p ∈ ps, p.1 = k) → k < d.length →
      (ps.foldl (copyRect src) d).getD k x = src.getD s default := by
  intro ps
  induction ps with
  | nil => intro d _ h; obtain ⟨p, hp, _⟩ := h; cases hp
  | cons p t ih =>
    intro d hfun hex hk
    rw [List.foldl_cons]
    by_cases ht : ∃ q ∈ t, q.1 = k
    · apply ih _ (fun q hq => hfun q (List.mem_cons_of_mem _ hq)) ht
      unfold copyRect
      rw [List.length_set]; exact hk
    · have hne : ∀ q ∈ t, q.1 ≠ k := fun q hq hqk => ht ⟨q, hq, hqk⟩
      rw [foldl_copyRect_getD_other src k x t _ hne]
      obtain ⟨q, hq, hqk⟩ := hex
      have hpq : q = p := by
        rcases List.mem_cons.mp hq with h | h
        · exact h
        · exact absurd hqk (hne q h)
      subst hpq
      unfold copyRect
      rw [getD_set_eq, hfun q (List.mem_cons_self _ _) hqk]
      simp [hqk, hk]

theorem mem_copyPairs (sw dw : Nat) (rc : BoundingBox) (dx dy : Int) (p : Nat × Nat) :
    p ∈ copyPairs sw dw rc dx dy ↔
      ∃ y i, rc.top ≤ y ∧ y < rc.bottom ∧ i < memcpyCount (sizeSub rc.right rc.left) ∧
        p = (toSize (((y : Int) + dy) * (dw : Int) + (rc.left : Int) + dx) + i,
          y * sw + rc.left + i) := by
  unfold copyPairs copyRowPairs rowsOf
  simp only [List.mem_flatMap, List.mem_map, List.mem_range, List.mem_range'_1]
  constructor
  · rintro ⟨y, ⟨hy1, hy2⟩, i, hi, rfl⟩
    exact ⟨y, i, hy1, by omega, hi, rfl⟩
  · rintro ⟨y, i, hy1, hy2, hi, rfl⟩
    exact ⟨y, ⟨hy1, by omega⟩, i, hi, rfl⟩

theorem forGrid_inv (P : World → Prop) (c : IsomCache) (f : Nat → Nat → World → World)
    (w : World) (h0 : P w) (hstep : ∀ x y w, x < c.isomWidth → y < c.isomHeight → P w → P (f x y w)) :
    P (forGrid c f w) := by
  unfold forGrid
  apply foldl_inv _ P _ _ h0
  intro s y hy hs
  apply foldl_inv _ P _ _ hs
  intro s x hx hs
  exact hstep x y s (List.mem_range.mp hx) (List.mem_range.mp hy) hs

end World
end IsomTerrain
namespace IsomTerrain
namespace World

theorem memcpyCount_small (n : Nat) (h : n < 4294967296) : memcpyCount n = n := by
  unfold memcpyCount SIZE_MAX1
  omega

theorem mul_lt_size (a b : Nat) (ha : a < 4294967296) (hb : b < 4294967296) :
    a * b < SIZE_MAX1 := by
  have h1 : a * b ≤ 4294967295 * 4294967295 :=
    Nat.mul_le_mul (by omega) (by omega)
  unfold SIZE_MAX1
  omega

/-- The elements touched by the copy loop for the offsets `(0, 0)`: the rows and columns common
to the two grids. -/
theorem mem_copyPairs_zero (sw sh dw dh : Nat) (hsw : sw < 4294967296) (hsh : sh < 4294967296)
    (hdw : dw < 4294967296) (p : Nat × Nat) :
    p ∈ copyPairs sw dw (BoundingBox.new sw sh dw dh 0 0) 0 0 ↔
      ∃ y i, y < min sh dh ∧ i < min sw dw ∧ p = (y * dw + i, y * sw + i) := by
  have hs1 : sw < SIZE_MAX1 := by unfold SIZE_MAX1; omega
  have hs2 : sh < SIZE_MAX1 := by unfold SIZE_MAX1; omega
  rw [mem_copyPairs, boundingBox_new_pos sw sh dw dh 0 0 (le_refl _) (le_refl _) hs1 hs2]
  have hc : memcpyCount (sizeSub (min sw dw) 0) = min sw dw := by
    rw [sizeSub_of_le _ _ (Nat.zero_le _) (by unfold SIZE_MAX1; omega), Nat.sub_zero]
    exact memcpyCount_small _ (by omega)
  simp only [hc]
  have hbase : ∀ y : Nat, y < min sh dh →
      toSize (((y : Int) + 0) * (dw : Int) + ((0 : Nat) : Int) + 0) = y * dw := by
    intro y hy
    have h := toSize_natCast (y * dw) (mul_lt_size y dw (by omega) hdw)
    have e : ((y : Int) + 0) * (dw : Int) + ((0 : Nat) : Int) + 0 = ((y * dw : Nat) : Int) := by
      push_cast; ring
    rw [e, h]
  constructor
  · rintro ⟨y, i, _, hy, hi, rfl⟩
    refine ⟨y, i, hy, hi, ?_⟩
    rw [hbase y hy, Nat.add_zero]
  · rintro ⟨y, i, hy, hi, rfl⟩
    refine ⟨y, i, Nat.zero_le _, hy, hi, ?_⟩
    rw [hbase y hy, Nat.add_zero]

/-- With the offsets `(0, 0)` an element of the common rows and columns receives the source
element of the same position. -/
theorem copy_zero_getD_in (src d : List IsomRect) (sw sh dw dh : Nat) (hsw : sw < 4294967296)
    (hsh : sh < 4294967296) (hdw : dw < 4294967296) (x y : Nat) (z : IsomRect)
    (hx : x < min sw dw) (hy : y < min sh dh) (hk : y * dw + x < d.length) :
    ((copyPairs sw dw (BoundingBox.new sw sh dw dh 0 0) 0 0).foldl (copyRect src) d).getD
      (y * dw + x) z = src.getD (y * sw + x) default := by
  apply foldl_copyRect_getD_image src (y * dw + x) (y * sw + x) z _ _ _ _ hk
  · intro p hp hpk
    obtain ⟨y', i, _, hi, rfl⟩ := (mem_copyPairs_zero sw sh dw dh hsw hsh hdw p).mp hp
    have := rectIndex_inj dw i y' x y (by omega) (by omega) hpk
    show y' * sw + i = y * sw + x
    rw [this.1, this.2]
  · exact ⟨(y * dw + x, y * sw + x),
      (mem_copyPairs_zero sw sh dw dh hsw hsh hdw _).mpr ⟨y, x, hy, hx, rfl⟩, rfl⟩

/-- With the offsets `(0, 0)` an element outside the common rows and columns is not written. -/
theorem copy_zero_getD_out (src d : List IsomRect) (sw sh dw dh : Nat) (hsw : sw < 4294967296)
    (hsh : sh < 4294967296) (hdw : dw < 4294967296) (x y : Nat) (z : IsomRect)
    (hx : x < dw) (hout : sw ≤ x ∨ sh ≤ y ∨ dh ≤ y) :
    ((copyPairs sw dw (BoundingBox.new sw sh dw dh 0 0) 0 0).foldl (copyRect src) d).getD
      (y * dw + x) z = d.getD (y * dw + x) z := by
  apply foldl_copyRect_getD_other
  intro p hp hpk
  obtain ⟨y', i, hy', hi, rfl⟩ := (mem_copyPairs_zero sw sh dw dh hsw hsh hdw p).mp hp
  have := rectIndex_inj dw i y' x y (by omega) hx hpk
  omega

end World
end IsomTerrain
namespace IsomTerrain
namespace World

/-! ## The undo bookkeeping and the clearing loops of `copyIsomFrom` -/

theorem forGrid_addIsomUndo (w : World) :
    (forGrid w.cache (fun x y => addIsomUndo ⟨x, y⟩) w).map = w.map ∧
    (forGrid w.cache (fun x y => addIsomUndo ⟨x, y⟩) w).cache.isomWidth = w.cache.isomWidth ∧
    (forGrid w.cache (fun x y => addIsomUndo ⟨x, y⟩) w).cache.isomHeight = w.cache.isomHeight := by
  apply forGrid_inv (fun s => s.map = w.map ∧ s.cache.isomWidth = w.cache.isomWidth ∧
    s.cache.isomHeight = w.cache.isomHeight) _ _ _ ⟨rfl, rfl, rfl⟩
  intro x y s _ _ hs
  have h := addIsomUndo_frame ⟨x, y⟩ s
  exact ⟨h.1.trans hs.1, h.2.2.1.trans hs.2.1, h.2.2.2.1.trans hs.2.2⟩

theorem updateUndo_frame (x y : Nat) (w : World) :
    (updateUndo x y w).map = w.map ∧
    (updateUndo x y w).cache.isomWidth = w.cache.isomWidth ∧
    (updateUndo x y w).cache.isomHeight = w.cache.isomHeight := by
  unfold updateUndo
  simp only []
  split <;> exact ⟨rfl, rfl, rfl⟩

theorem forGrid_updateUndo (c : IsomCache) (w : World) :
    (forGrid c updateUndo w).map = w.map := by
  apply forGrid_inv (fun s => s.map = w.map) _ _ _ rfl
  intro x y s _ _ hs
  exact (updateUndo_frame x y s).1.trans hs

theorem clearRect_frame (x y : Nat) (w : World) :
    (clearRect x y w).cache = w.cache ∧
    (clearRect x y w).map.tileWidth = w.map.tileWidth ∧
    (clearRect x y w).map.tileHeight = w.map.tileHeight := ⟨rfl, rfl, rfl⟩

/-- A rectangle that is all zero stays all zero under `clearRect`, and the rectangle cleared
becomes all zero. -/
theorem clearRect_zero (x y : Nat) (w : World) (p : Point) (hx : x < w.map.getIsomWidth)
    (hp : p.x < w.map.getIsomWidth)
    (h : w.map.getIsomRect p = default ∨ p = ⟨x, y⟩) :
    (clearRect x y w).map.getIsomRect p = default := by
  by_cases hpe : p = ⟨x, y⟩
  · subst hpe
    show ((w.map.isomRects.set (w.map.rectIndex ⟨x, y⟩) _).getD (w.map.rectIndex ⟨x, y⟩)
      default) = default
    rw [getD_set_eq]
    split_ifs with hc
    · rfl
    · have hlen : ¬ (w.map.rectIndex ⟨x, y⟩ < w.map.isomRects.length) := fun hl => hc ⟨rfl, hl⟩
      exact List.getD_eq_default _ _ (Nat.le_of_not_lt hlen)
  · rcases h with h | h
    · unfold clearRect
      show (w.map.setIsomRect ⟨x, y⟩ _).getIsomRect p = default
      rw [ScMap.getIsomRect_setIsomRect_ne w.map ⟨x, y⟩ p _ hx hp hpe, h]
    · exact absurd h hpe

theorem clearRect_other (x y : Nat) (w : World) (p : Point) (hx : x < w.map.getIsomWidth)
    (hp : p.x < w.map.getIsomWidth) (hne : p ≠ ⟨x, y⟩) :
    (clearRect x y w).map.getIsomRect p = w.map.getIsomRect p :=
  ScMap.getIsomRect_setIsomRect_ne w.map ⟨x, y⟩ p _ hx hp hne

/-- The state reached from `w0` by clearing rectangles of the columns below its width: the
frame, the rectangles that are certainly zero (`Z`) and the rectangles certainly untouched
(`U`). -/
theorem clearRow_spec (w0 : World) (p : Point) (hp : p.x < w0.map.getIsomWidth) (y : Nat) :
    ∀ (xs : List Nat) (w : World), (∀ x ∈ xs, x < w0.map.getIsomWidth) →
      w.cache = w0.cache → w.map.tileWidth = w0.map.tileWidth →
      w.map.tileHeight = w0.map.tileHeight →
      (xs.foldl (fun wx x => clearRect x y wx) w).cache = w0.cache ∧
      (xs.foldl (fun wx x => clearRect x y wx) w).map.tileWidth = w0.map.tileWidth ∧
      (xs.foldl (fun wx x => clearRect x y wx) w).map.tileHeight = w0.map.tileHeight ∧
      ((w.map.getIsomRect p = default ∨ (p.y = y ∧ p.x ∈ xs)) →
        (xs.foldl (fun wx x => clearRect x y wx) w).map.getIsomRect p = default) ∧
      ((p.y ≠ y ∨ p.x ∉ xs) →
        (xs.foldl (fun wx x => clearRect x y wx) w).map.getIsomRect p = w.map.getIsomRect p) := by
  intro xs
  induction xs with
  | nil =>
    intro w _ hc hw hh
    refine ⟨hc, hw, hh, ?_, fun _ => rfl⟩
    rintro (h | ⟨_, h⟩)
    · exact h
    · cases h
  | cons a t ih =>
    intro w hxs hc hw hh
    rw [List.foldl_cons]
    have ha : a < w.map.getIsomWidth := by
      have := hxs a (List.mem_cons_self _ _)
      unfold ScMap.getIsomWidth at *; rw [hw]; exact this
    have hp' : p.x < w.map.getIsomWidth := by
      unfold ScMap.getIsomWidth at *; rw [hw]; exact hp
    have hi := ih (clearRect a y w) (fun x hx => hxs x (List.mem_cons_of_mem _ hx)) hc hw hh
    refine ⟨hi.1, hi.2.1, hi.2.2.1, ?_, ?_⟩
    · intro h
      apply hi.2.2.2.1
      rcases h with h | ⟨hy, hx⟩
      · exact Or.inl (clearRect_zero a y w p ha hp' (Or.inl h))
      · rcases List.mem_cons.mp hx with hxa | hxt
        · left
          apply clearRect_zero a y w p ha hp'
          right
          cases p; simp only at hy hxa; subst hy; subst hxa; rfl
        · exact Or.inr ⟨hy, hxt⟩
    · intro h
      have hne : p ≠ ⟨a, y⟩ := by
        intro hpe; subst hpe
        rcases h with h | h
        · exact h rfl
        · exact h (List.mem_cons_self _ _)
      rw [hi.2.2.2.2 (by
        rcases h with h | h
        · exact Or.inl h
        · exact Or.inr (fun hm => h (List.mem_cons_of_mem _ hm)))]
      exact clearRect_other a y w p ha hp' hne

end World
end IsomTerrain
namespace IsomTerrain
namespace World

theorem clearGrid_spec (w0 : World) (p : Point) (hp : p.x < w0.map.getIsomWidth)
    (xs : List Nat) (hxs : ∀ x ∈ xs, x < w0.map.getIsomWidth) :
    ∀ (ys : List Nat) (w : World),
      w.cache = w0.cache → w.map.tileWidth = w0.map.tileWidth →
      w.map.tileHeight = w0.map.tileHeight →
      (ys.foldl (fun wy y => xs.foldl (fun wx x => clearRect x y wx) wy) w).cache = w0.cache ∧
      (ys.foldl (fun wy y => xs.foldl (fun wx x => clearRect x y wx) wy) w).map.tileWidth
        = w0.map.tileWidth ∧
      (ys.foldl (fun wy y => xs.foldl (fun wx x => clearRect x y wx) wy) w).map.tileHeight
        = w0.map.tileHeight ∧
      ((w.map.getIsomRect p = default ∨ (p.y ∈ ys ∧ p.x ∈ xs)) →
        (ys.foldl (fun wy y => xs.foldl (fun wx x => clearRect x y wx) wy) w).map.getIsomRect p
          = default) ∧
      ((p.y ∉ ys ∨ p.x ∉ xs) →
        (ys.foldl (fun wy y => xs.foldl (fun wx x => clearRect x y wx) wy) w).map.getIsomRect p
          = w.map.getIsomRect p) := by
  intro ys
  induction ys with
  | nil =>
    intro w hc hw hh
    refine ⟨hc, hw, hh, ?_, fun _ => rfl⟩
    rintro (h | ⟨h, _⟩)
    · exact h
    · cases h
  | cons a t ih =>
    intro w hc hw hh
    rw [List.foldl_cons]
    have hr := clearRow_spec w0 p hp a xs w hxs hc hw hh
    have hi := ih _ hr.1 hr.2.1 hr.2.2.1
    refine ⟨hi.1, hi.2.1, hi.2.2.1, ?_, ?_⟩
    · intro h
      apply hi.2.2.2.1
      rcases h with h | ⟨hy, hx⟩
      · exact Or.inl (hr.2.2.2.1 (Or.inl h))
      · rcases List.mem_cons.mp hy with hya | hyt
        · exact Or.inl (hr.2.2.2.1 (Or.inr ⟨hya, hx⟩))
        · exact Or.inr ⟨hyt, hx⟩
    · intro h
      have h1 : p.y ∉ t ∨ p.x ∉ xs := by
        rcases h with h | h
        · exact Or.inl (fun hm => h (List.mem_cons_of_mem _ hm))
        · exact Or.inr h
      have h2 : p.y ≠ a ∨ p.x ∉ xs := by
        rcases h with h | h
        · exact Or.inl (fun hm => h (hm ▸ List.mem_cons_self _ _))
        · exact Or.inr h
      rw [hi.2.2.2.2 h1, hr.2.2.2.2 h2]

/-- The effect of the clearing block of `copyIsomFrom` on the rectangles of a destination whose
cache has the dimensions of the map: the rectangles right of or below the source grid become
zero, the others keep their value. -/
theorem clearOutOfBounds_spec (sw sh : Nat) (w : World)
    (hcw : w.cache.isomWidth = w.map.getIsomWidth) (p : Point)
    (hp : p.x < w.map.getIsomWidth) :
    (clearOutOfBounds sw sh w).map.tileWidth = w.map.tileWidth ∧
    (clearOutOfBounds sw sh w).map.tileHeight = w.map.tileHeight ∧
    (p.y < w.cache.isomHeight → (sw ≤ p.x ∨ sh ≤ p.y) →
      (clearOutOfBounds sw sh w).map.getIsomRect p = default) ∧
    (p.x < sw → p.y < sh → (clearOutOfBounds sw sh w).map.getIsomRect p = w.map.getIsomRect p) := by
  have h1 := clearGrid_spec w p hp (List.range w.cache.isomWidth)
    (fun x hx => by rw [← hcw]; exact List.mem_range.mp hx)
    (List.range' sh (w.cache.isomHeight - sh)) w rfl rfl rfl
  unfold clearOutOfBounds
  simp only []
  rw [forGrid_updateUndo]
  generalize hw1 : (List.range' sh (w.cache.isomHeight - sh)).foldl
    (fun wy y => (List.range w.cache.isomWidth).foldl (fun wx x => clearRect x y wx) wy) w = w1
    at h1
  have hx1 : p.x ∈ List.range w.cache.isomWidth := by
    rw [List.mem_range, hcw]; exact hp
  have hw1c : w1.cache.isomWidth = w.map.getIsomWidth := by rw [h1.1]; exact hcw
  have hw1h : w1.cache.isomHeight = w.cache.isomHeight := by rw [h1.1]
  by_cases hlt : sw < w1.cache.isomWidth
  · rw [if_pos hlt]
    have h2 := clearGrid_spec w p hp (List.range' sw (w1.cache.isomWidth - sw))
      (fun x hx => by
        have := (List.mem_range'_1.mp hx).2
        omega)
      (List.range w1.cache.isomHeight) w1 h1.1 h1.2.1 h1.2.2.1
    refine ⟨h2.2.1, h2.2.2.1, ?_, ?_⟩
    · intro hy hout
      apply h2.2.2.2.1
      by_cases hsy : sh ≤ p.y
      · left
        apply h1.2.2.2.1
        right
        exact ⟨List.mem_range'_1.mpr ⟨hsy, by omega⟩, hx1⟩
      · right
        have hsx : sw ≤ p.x := by
          rcases hout with h | h
          · exact h
          · exact absurd h hsy
        refine ⟨?_, List.mem_range'_1.mpr ⟨hsx, ?_⟩⟩
        · rw [List.mem_range, hw1h]; exact hy
        · omega
    · intro hx hy
      rw [h2.2.2.2.2 (Or.inr (fun hm => by have := (List.mem_range'_1.mp hm).1; omega)),
        h1.2.2.2.2 (Or.inl (fun hm => by have := (List.mem_range'_1.mp hm).1; omega))]
  · rw [if_neg hlt]
    refine ⟨h1.2.1, h1.2.2.1, ?_, ?_⟩
    · intro hy hout
      apply h1.2.2.2.1
      right
      have hsy : sh ≤ p.y := by
        rcases hout with h | h
        · omega
        · exact h
      exact ⟨List.mem_range'_1.mpr ⟨hsy, by omega⟩, hx1⟩
    · intro hx hy
      exact h1.2.2.2.2 (Or.inl (fun hm => by have := (List.mem_range'_1.mp hm).1; omega))

end World
end IsomTerrain
namespace IsomTerrain
namespace World

theorem copyIsomFrom_false (M : ScMap) (xo yo : Int) (w : World) :
    copyIsomFrom M xo yo false w = copyLoop M (Int.tdiv xo 2) yo w := rfl

theorem copyIsomFrom_true (M : ScMap) (xo yo : Int) (w : World) :
    copyIsomFrom M xo yo true w =
      clearOutOfBounds (M.tileWidth / 2 + 1) (M.tileHeight + 1)
        (copyLoop M (Int.tdiv xo 2) yo (forGrid w.cache (fun x y => addIsomUndo ⟨x, y⟩) w)) := rfl

theorem copyLoop_frame (M : ScMap) (dx dy : Int) (w : World) :
    (copyLoop M dx dy w).cache = w.cache ∧
    (copyLoop M dx dy w).map.tileWidth = w.map.tileWidth ∧
    (copyLoop M dx dy w).map.tileHeight = w.map.tileHeight := ⟨rfl, rfl, rfl⟩

theorem copyLoop_isomRects (M : ScMap) (dx dy : Int) (w : World) :
    (copyLoop M dx dy w).map.isomRects =
      (copyPairs (M.tileWidth / 2 + 1) w.cache.isomWidth
        (BoundingBox.new (M.tileWidth / 2 + 1) (M.tileHeight + 1) w.cache.isomWidth
          w.cache.isomHeight dx dy) dx dy).foldl (copyRect M.isomRects) w.map.isomRects := rfl

theorem copyLoop_getIsomWidth (M : ScMap) (dx dy : Int) (w : World) :
    (copyLoop M dx dy w).map.getIsomWidth = w.map.getIsomWidth := rfl

/-- The copy loop with the offsets `(0, 0)`: a rectangle of the rows and columns common to the
two grids receives the source rectangle of the same position. -/
theorem copyLoop_zero (M : ScMap) (w : World)
    (hcw : w.cache.isomWidth = w.map.getIsomWidth)
    (hch : w.cache.isomHeight = w.map.getIsomHeight)
    (hsw : M.tileWidth < U16) (hsh : M.tileHeight < U16) (hdw : w.map.tileWidth < U16)
    (hlen : w.map.isomRects.length = w.map.getIsomWidth * w.map.getIsomHeight)
    (x y : Nat) (hx : x < w.map.getIsomWidth) (hy : y < w.map.getIsomHeight)
    (hxs : x < M.getIsomWidth) (hys : y < M.getIsomHeight) :
    (copyLoop M 0 0 w).map.getIsomRect ⟨x, y⟩ = M.getIsomRect ⟨x, y⟩ := by
  have hidx : y * w.map.getIsomWidth + x < w.map.isomRects.length := by
    rw [hlen]
    calc y * w.map.getIsomWidth + x < y * w.map.getIsomWidth + w.map.getIsomWidth := by omega
      _ = (y + 1) * w.map.getIsomWidth := by ring
      _ ≤ w.map.getIsomHeight * w.map.getIsomWidth := Nat.mul_le_mul_right _ hy
      _ = w.map.getIsomWidth * w.map.getIsomHeight := Nat.mul_comm _ _
  have b1 : M.tileWidth / 2 + 1 < 4294967296 := by unfold U16 at hsw; omega
  have b2 : M.tileHeight + 1 < 4294967296 := by unfold U16 at hsh; omega
  have b3 : w.map.getIsomWidth < 4294967296 := by
    unfold ScMap.getIsomWidth; unfold U16 at hdw; omega
  unfold ScMap.getIsomRect ScMap.rectIndex
  rw [copyLoop_isomRects, copyLoop_getIsomWidth, hcw, hch]
  show List.getD _ (y * w.map.getIsomWidth + x) default = _
  rw [copy_zero_getD_in M.isomRects w.map.isomRects _ _ _ _ b1 b2 b3 x y default
    (by unfold ScMap.getIsomWidth at hxs; omega)
    (by unfold ScMap.getIsomHeight at hys hy ⊢; omega) hidx]
  rfl

/-- The rectangles of the destination after `copyIsomFrom` with diamond offsets `(0, 0)`, for a
destination whose cache has the dimensions of its map: the rows and columns common to the two
grids hold the source rectangles; with `undoable` the rest of the destination grid is zero. -/
theorem copyIsomFrom_zero (M : ScMap) (w : World) (undoable : Bool) (xTileOffset : Int)
    (hx0 : Int.tdiv xTileOffset 2 = 0)
    (hcw : w.cache.isomWidth = w.map.getIsomWidth)
    (hch : w.cache.isomHeight = w.map.getIsomHeight)
    (hsw : M.tileWidth < U16) (hsh : M.tileHeight < U16) (hdw : w.map.tileWidth < U16)
    (hlen : w.map.isomRects.length = w.map.getIsomWidth * w.map.getIsomHeight)
    (x y : Nat) (hx : x < w.map.getIsomWidth) (hy : y < w.map.getIsomHeight) :
    (x < M.getIsomWidth → y < M.getIsomHeight →
      (copyIsomFrom M xTileOffset 0 undoable w).map.getIsomRect ⟨x, y⟩ = M.getIsomRect ⟨x, y⟩) ∧
    (undoable = true → (M.getIsomWidth ≤ x ∨ M.getIsomHeight ≤ y) →
      (copyIsomFrom M xTileOffset 0 undoable w).map.getIsomRect ⟨x, y⟩ = default) := by
  cases undoable with
  | false =>
    rw [copyIsomFrom_false, hx0]
    exact ⟨copyLoop_zero M w hcw hch hsw hsh hdw hlen x y hx hy, fun h => by cases h⟩
  | true =>
    rw [copyIsomFrom_true, hx0]
    have hu := forGrid_addIsomUndo w
    generalize forGrid w.cache (fun x y => addIsomUndo ⟨x, y⟩) w = w1 at hu
    have hf := copyLoop_frame M 0 0 w1
    have hc := clearOutOfBounds_spec (M.tileWidth / 2 + 1) (M.tileHeight + 1)
      (copyLoop M 0 0 w1)
      (by rw [hf.1, hu.2.1, hcw]; unfold ScMap.getIsomWidth; rw [hf.2.1, hu.1])
      ⟨x, y⟩ (by unfold ScMap.getIsomWidth at hx ⊢; rw [hf.2.1, hu.1]; exact hx)
    refine ⟨fun hxs hys => ?_, fun _ hout => ?_⟩
    · rw [hc.2.2.2 hxs hys]
      exact copyLoop_zero M w1 (by rw [hu.2.1, hu.1]; exact hcw) (by rw [hu.2.2, hu.1]; exact hch)
        hsw hsh (by rw [hu.1]; exact hdw) (by rw [hu.1]; exact hlen) x y
        (by rw [hu.1]; exact hx) (by rw [hu.1]; exact hy) hxs hys
    · apply hc.2.2.1 _ hout
      show y < (copyLoop M 0 0 w1).cache.isomHeight
      rw [hf.1, hu.2.2, hch]; exact hy

/-- C11: copying a source map `M` with the offsets `(0, 0)` into a destination of the same tile
width and height (whose cache has the dimensions of the map and whose rectangle vector covers
the grid) leaves the destination rectangle at every position equal to the source rectangle,
for `undoable` false and true. -/
theorem C11_copy_same_size_roundtrip (M : ScMap) (w : World) (undoable : Bool)
    (hw : w.map.tileWidth = M.tileWidth) (hh : w.map.tileHeight = M.tileHeight)
    (hcw : w.cache.isomWidth = w.map.getIsomWidth)
    (hch : w.cache.isomHeight = w.map.getIsomHeight)
    (htw : M.tileWidth < U16) (hth : M.tileHeight < U16)
    (hlen : w.map.isomRects.length = w.map.getIsomWidth * w.map.getIsomHeight) :
    ∀ x y, x < M.getIsomWidth → y < M.getIsomHeight →
      (copyIsomFrom M 0 0 undoable w).map.getIsomRect ⟨x, y⟩ = M.getIsomRect ⟨x, y⟩ := by
  have hW : w.map.getIsomWidth = M.getIsomWidth := by unfold ScMap.getIsomWidth; rw [hw]
  have hH : w.map.getIsomHeight = M.getIsomHeight := by unfold ScMap.getIsomHeight; rw [hh]
  intro x y hx hy
  exact (copyIsomFrom_zero M w undoable 0 (by decide) hcw hch htw hth (by rw [hw]; exact htw)
    hlen x y (by rw [hW]; exact hx) (by rw [hH]; exact hy)).1 hx hy

set_option maxRecDepth 100000 in
/-- C11 is not vacuous: `copySource` copied into `copyDest` with `undoable` true; the last
rectangle of the grid is the one of the source. -/
theorem C11_copy_same_size_roundtrip_witness :
    copyDest.map.tileWidth = copySource.tileWidth ∧
    copyDest.map.tileHeight = copySource.tileHeight ∧
    copyDest.cache.isomWidth = copyDest.map.getIsomWidth ∧
    copyDest.cache.isomHeight = copyDest.map.getIsomHeight ∧
    copySource.tileWidth < U16 ∧ copySource.tileHeight < U16 ∧
    copyDest.map.isomRects.length = copyDest.map.getIsomWidth * copyDest.map.getIsomHeight ∧
    (copyIsomFrom copySource 0 0 true copyDest).map.getIsomRect ⟨1, 2⟩ =
      { left := 96, top := 96, right := 96, bottom := 96 } :=
  ⟨by decide, by decide, by decide, by decide, by decide, by decide, by decide,
    C11_copy_same_size_roundtrip copySource copyDest true (by decide) (by decide) (by decide)
      (by decide) (by decide) (by decide) (by decide) 1 2 (by decide) (by decide)⟩

/-- C13 (amended): after `copyIsomFrom` with `undoable` true and diamond offsets `(0, 0)`, into a
destination whose cache has the dimensions of the map, every rectangle of the destination grid
outside the copied intersection (the rows and columns common to the two grids) has all four
fields equal to 0, and the rectangles of the intersection hold the source rectangles. -/
theorem C13_cleared_outside_intersection (M : ScMap) (w : World) (xTileOffset : Int)
    (hx0 : Int.tdiv xTileOffset 2 = 0)
    (hcw : w.cache.isomWidth = w.map.getIsomWidth)
    (hch : w.cache.isomHeight = w.map.getIsomHeight)
    (hsw : M.tileWidth < U16) (hsh : M.tileHeight < U16) (hdw : w.map.tileWidth < U16)
    (hlen : w.map.isomRects.length = w.map.getIsomWidth * w.map.getIsomHeight)
    (x y : Nat) (hx : x < w.map.getIsomWidth) (hy : y < w.map.getIsomHeight) :
    (copyIsomFrom M xTileOffset 0 true w).map.getIsomRect ⟨x, y⟩ =
      if x < M.getIsomWidth ∧ y < M.getIsomHeight then M.getIsomRect ⟨x, y⟩
      else { left := 0, top := 0, right := 0, bottom := 0 } := by
  have h := copyIsomFrom_zero M w true xTileOffset hx0 hcw hch hsw hsh hdw hlen x y hx hy
  split_ifs with hc
  · exact h.1 hc.1 hc.2
  · exact h.2 rfl (by omega)

set_option maxRecDepth 100000 in
/-- C13 (amended) is not vacuous: `tinySource` copied into `wideDest` with `undoable` true
leaves the rectangle (2, 1) zero. -/
theorem C13_cleared_outside_intersection_witness :
    Int.tdiv 0 2 = 0 ∧
    wideDest.cache.isomWidth = wideDest.map.getIsomWidth ∧
    wideDest.cache.isomHeight = wideDest.map.getIsomHeight ∧
    tinySource.tileWidth < U16 ∧ tinySource.tileHeight < U16 ∧ wideDest.map.tileWidth < U16 ∧
    wideDest.map.isomRects.length = wideDest.map.getIsomWidth * wideDest.map.getIsomHeight ∧
    2 < wideDest.map.getIsomWidth ∧ 1 < wideDest.map.getIsomHeight ∧
    (copyIsomFrom tinySource 0 0 true wideDest).map.getIsomRect ⟨2, 1⟩ =
      if 2 < tinySource.getIsomWidth ∧ 1 < tinySource.getIsomHeight then
        tinySource.getIsomRect ⟨2, 1⟩
      else { left := 0, top := 0, right := 0, bottom := 0 } :=
  ⟨by decide, by decide, by decide, by decide, by decide, by decide, by decide, by decide,
    by decide,
    C13_cleared_outside_intersection tinySource wideDest 0 (by decide) (by decide) (by decide)
      (by decide) (by decide) (by decide) (by decide) 2 1 (by decide) (by decide)⟩

set_option maxRecDepth 100000 in
/-- C13 as stated fails.  The source grid (1x1) is strictly smaller than the destination grid
(3x2).  With `undoable` false and the offsets `(0, 0)` the copied intersection is the rectangle
(0, 0), and the destination rectangle (1, 0) outside it keeps the value 112.  With `undoable`
true and `xTileOffset = 2` the source rectangle (0, 0) is copied to (1, 0), and the destination
rectangle (0, 0) outside that image keeps the value 112. -/
theorem C13_counterexample :
    tinySource.getIsomWidth < wideDest.map.getIsomWidth ∧
    tinySource.getIsomHeight < wideDest.map.getIsomHeight ∧
    BoundingBox.new tinySource.getIsomWidth tinySource.getIsomHeight wideDest.cache.isomWidth
      wideDest.cache.isomHeight 0 0 = { left := 0, top := 0, right := 1, bottom := 1 } ∧
    (copyIsomFrom tinySource 0 0 false wideDest).map.getIsomRect ⟨1, 0⟩ =
      { left := 112, top := 112, right := 112, bottom := 112 } ∧
    Int.tdiv 2 2 = 1 ∧
    BoundingBox.new tinySource.getIsomWidth tinySource.getIsomHeight wideDest.cache.isomWidth
      wideDest.cache.isomHeight 1 0 = { left := 0, top := 0, right := 1, bottom := 1 } ∧
    (copyIsomFrom tinySource 2 0 true wideDest).map.getIsomRect ⟨0, 0⟩ =
      { left := 112, top := 112, right := 112, bottom := 112 } := by
  decide

set_option maxRecDepth 100000 in
/-- C12 at a failing input: `copySource` copied into the equal-size `copyDest` with
`xTileOffset = 2` (`dx = 1`, `dy = 0`).  The computed rectangle is the whole source grid
(`left = 0`, `right = 2`).  The destination rectangle (0, 1) is the image `(x + 1, y)` of no
source position, and it is overwritten with the source rectangle (1, 0). -/
theorem C12_copy_at_failing_input :
    Int.tdiv 2 2 = 1 ∧
    BoundingBox.new copySource.getIsomWidth copySource.getIsomHeight copyDest.cache.isomWidth
      copyDest.cache.isomHeight 1 0 = { left := 0, top := 0, right := 2, bottom := 3 } ∧
    (copyIsomFrom copySource 2 0 false copyDest).map.getIsomRect ⟨0, 1⟩ =
      copySource.getIsomRect ⟨1, 0⟩ ∧
    copyDest.map.getIsomRect ⟨0, 1⟩ = { left := 112, top := 112, right := 112, bottom := 112 } ∧
    copySource.getIsomRect ⟨1, 0⟩ = { left := 32, top := 32, right := 32, bottom := 32 } := by
  decide

set_option maxRecDepth 100000 in
/-- C14 at failing inputs, for a source and a destination of 2x3 rectangles (6 elements).
With `dx = 1` the copy of the row 0 writes the destination elements 1 and 2, the second being
column 2 of a row of width 2, and the copy of the row 2 writes the element 6, past the end of
the vector.  With `dx = -3` the copy of the row 0 reads the source elements 3 and 4, columns 3
and 4 of a row of width 2. -/
theorem C14_indices_at_failing_input :
    copyDest.cache.isomWidth = 2 ∧ copyDest.map.isomRects.length = 6 ∧
    copySource.isomRects.length = 6 ∧
    copyPairs 2 copyDest.cache.isomWidth
      (BoundingBox.new 2 3 copyDest.cache.isomWidth copyDest.cache.isomHeight 1 0) 1 0
      = [(1, 0), (2, 1), (3, 2), (4, 3), (5, 4), (6, 5)] ∧
    copyRowPairs 2 copyDest.cache.isomWidth
      (BoundingBox.new 2 3 copyDest.cache.isomWidth copyDest.cache.isomHeight (-3) 0) (-3) 0 0
      = [(0, 3), (1, 4)] := by
  decide

end World
end IsomTerrain
namespace IsomTerrain

theorem getD_set_zero (l : List Nat) (i j : Nat) :
    (l.set i 0).getD j 0 = if j = i then 0 else l.getD j 0 := by
  rw [getD_set_eq]
  by_cases h : j = i
  · subst h
    by_cases hl : j < l.length
    · simp [hl]
    · rw [List.getD_eq_default _ _ (Nat.le_of_not_lt hl)]
      simp
  · have : ¬ (i = j) := fun e => h e.symm
    simp [h, this]

namespace World

theorem sizeInc_of_lt (x : Nat) (h : x + 1 < SIZE_MAX1) : sizeInc x = x + 1 :=
  Nat.mod_eq_of_lt h

/-- C17: for a diamond `(x, y)` with `x+1 < isomWidth` and `y+1 < isomHeight` whose rectangle
hash is not a key of `hashToTileGroup`, `updateTileFromIsom` sets `tiles` and `editorTiles` to
0 at `(2x, y)` and `(2x+1, y)` and changes no other tile (nor anything else of the map and the
cache); for a diamond with `x+1 >= isomWidth` or `y+1 >= isomHeight` it changes nothing. -/
theorem C17_unknown_hash_zero_tiles (x y : Nat) (w : World)
    (hxb : x + 1 < SIZE_MAX1) (hyb : y + 1 < SIZE_MAX1) :
    (x + 1 < w.cache.isomWidth → y + 1 < w.cache.isomHeight →
      w.cache.hashToTileGroup.lookup ((w.map.getIsomRect ⟨x, y⟩).getHash w.cache.isomLinks)
        = none →
      (∀ i, (updateTileFromIsom ⟨x, y⟩ w).map.tiles.getD i 0 =
        if i = y * w.map.tileWidth + 2 * x ∨ i = y * w.map.tileWidth + (2 * x + 1) then 0
        else w.map.tiles.getD i 0) ∧
      (∀ i, (updateTileFromIsom ⟨x, y⟩ w).map.editorTiles.getD i 0 =
        if i = y * w.map.tileWidth + 2 * x ∨ i = y * w.map.tileWidth + (2 * x + 1) then 0
        else w.map.editorTiles.getD i 0) ∧
      (updateTileFromIsom ⟨x, y⟩ w).map.tiles.length = w.map.tiles.length ∧
      (updateTileFromIsom ⟨x, y⟩ w).map.editorTiles.length = w.map.editorTiles.length ∧
      (updateTileFromIsom ⟨x, y⟩ w).map.isomRects = w.map.isomRects ∧
      (updateTileFromIsom ⟨x, y⟩ w).cache = w.cache) ∧
    ((w.cache.isomWidth ≤ x + 1 ∨ w.cache.isomHeight ≤ y + 1) →
      updateTileFromIsom ⟨x, y⟩ w = w) := by
  have ex := sizeInc_of_lt x hxb
  have ey := sizeInc_of_lt y hyb
  constructor
  · intro hx hy hhash
    have hg : ¬ (sizeInc x ≥ w.cache.isomWidth ∨ sizeInc y ≥ w.cache.isomHeight) := by
      rw [ex, ey]; omega
    have e : updateTileFromIsom ⟨x, y⟩ w =
        { w with map := (w.map.setTileValue (2 * x) y 0).setTileValue (2 * x + 1) y 0 } := by
      unfold updateTileFromIsom
      simp only [hg, if_false, hhash]
    rw [e]
    refine ⟨?_, ?_, ?_, ?_, rfl, rfl⟩
    · intro i
      show ((w.map.tiles.set (y * w.map.tileWidth + 2 * x) (0 % U16)).set
        (y * w.map.tileWidth + (2 * x + 1)) (0 % U16)).getD i 0 = _
      rw [show 0 % U16 = 0 from rfl, getD_set_zero, getD_set_zero]
      split_ifs <;> first | rfl | omega
    · intro i
      show ((w.map.editorTiles.set (y * w.map.tileWidth + 2 * x) (0 % U16)).set
        (y * w.map.tileWidth + (2 * x + 1)) (0 % U16)).getD i 0 = _
      rw [show 0 % U16 = 0 from rfl, getD_set_zero, getD_set_zero]
      split_ifs <;> first | rfl | omega
    · show ((w.map.tiles.set _ _).set _ _).length = _
      rw [List.length_set, List.length_set]
    · show ((w.map.editorTiles.set _ _).set _ _).length = _
      rw [List.length_set, List.length_set]
  · intro h
    have hg : sizeInc x ≥ w.cache.isomWidth ∨ sizeInc y ≥ w.cache.isomHeight := by
      rw [ex, ey]; omega
    unfold updateTileFromIsom
    simp only [hg, if_true]

end World
end IsomTerrain
namespace IsomTerrain
namespace World

/-! ## The tile pair of a projected diamond -/

theorem tileFrame_set (tw i2 : Nat) (m : ScMap) (cx cy v : Nat) (h : TileFrame tw i2 m) :
    TileFrame tw i2 (m.setTileValue cx cy v) := by
  obtain ⟨h1, h2, h3⟩ := h
  refine ⟨h1, ?_, ?_⟩
  · show i2 < (m.tiles.set _ _).length
    rw [List.length_set]; exact h2
  · show (m.tiles.set _ _).length = (m.editorTiles.set _ _).length
    rw [List.length_set, List.length_set]; exact h3

theorem setTileValue_getD (m : ScMap) (cx cy v j : Nat) :
    (m.setTileValue cx cy v).editorTiles.getD j 0 =
      (if cy * m.tileWidth + cx = j ∧ cy * m.tileWidth + cx < m.editorTiles.length then v % U16
       else m.editorTiles.getD j 0) ∧
    (m.setTileValue cx cy v).tiles.getD j 0 =
      (if cy * m.tileWidth + cx = j ∧ cy * m.tileWidth + cx < m.tiles.length then v % U16
       else m.tiles.getD j 0) :=
  ⟨getD_set_eq _ _ _ _ _, getD_set_eq _ _ _ _ _⟩

/-- A write at another index keeps the pair. -/
theorem goodPair_write_other (tw i1 i2 s : Nat) (m : ScMap) (cx cy v : Nat)
    (h : GoodPair tw i1 i2 s m) (h1 : cy * tw + cx ≠ i1) (h2 : cy * tw + cx ≠ i2) :
    GoodPair tw i1 i2 s (m.setTileValue cx cy v) := by
  obtain ⟨hf, ⟨a, ha, he1, he2⟩, ht1, ht2⟩ := h
  have htw := hf.1
  have g1 := setTileValue_getD m cx cy v i1
  have g2 := setTileValue_getD m cx cy v i2
  rw [htw] at g1 g2
  simp only [h1, h2, false_and, if_false] at g1 g2
  refine ⟨tileFrame_set tw i2 m cx cy v hf, ⟨a, ha, ?_, ?_⟩, ?_, ?_⟩
  · rw [g1.1]; exact he1
  · rw [g2.1]; exact he2
  · rw [g1.1, g1.2]; exact ht1
  · rw [g2.1, g2.2]; exact ht2

/-- A write that stores the value already present (as a `uint16_t`) keeps the pair. -/
theorem goodPair_write_same (tw i1 i2 s : Nat) (m : ScMap) (cx cy v : Nat)
    (h : GoodPair tw i1 i2 s m)
    (hv : v % U16 = m.editorTiles.getD (cy * tw + cx) 0) :
    GoodPair tw i1 i2 s (m.setTileValue cx cy v) := by
  obtain ⟨hf, ⟨a, ha, he1, he2⟩, ht1, ht2⟩ := h
  have htw := hf.1
  have g1 := setTileValue_getD m cx cy v i1
  have g2 := setTileValue_getD m cx cy v i2
  rw [htw] at g1 g2
  have k1 : (m.setTileValue cx cy v).editorTiles.getD i1 0 = m.editorTiles.getD i1 0 := by
    rw [g1.1]; split_ifs with hc
    · rw [hv, hc.1]
    · rfl
  have k2 : (m.setTileValue cx cy v).editorTiles.getD i2 0 = m.editorTiles.getD i2 0 := by
    rw [g2.1]; split_ifs with hc
    · rw [hv, hc.1]
    · rfl
  have k3 : (m.setTileValue cx cy v).tiles.getD i1 0 = m.tiles.getD i1 0 := by
    rw [g1.2]; split_ifs with hc
    · rw [hv, hc.1, ht1]
    · rfl
  have k4 : (m.setTileValue cx cy v).tiles.getD i2 0 = m.tiles.getD i2 0 := by
    rw [g2.2]; split_ifs with hc
    · rw [hv, hc.1, ht2]
    · rfl
  refine ⟨tileFrame_set tw i2 m cx cy v hf, ⟨a, ha, ?_, ?_⟩, ?_, ?_⟩
  · rw [k1]; exact he1
  · rw [k2]; exact he2
  · rw [k1, k3]; exact ht1
  · rw [k2, k4]; exact ht2

/-- Writing `16*a + s` and `16*(a+1) + s` (modulo `uint16_t`) at the two indices establishes
the pair. -/
theorem goodPair_establish (tw i1 i2 s a : Nat) (m : ScMap) (lx rx cy vl vr : Nat)
    (hf : TileFrame tw i2 m) (hi1 : cy * tw + lx = i1) (hi2 : cy * tw + rx = i2)
    (h12 : i1 < i2) (ha : a % 4096 ≠ 4095)
    (hvl : vl % U16 = (16 * a + s) % U16) (hvr : vr % U16 = (16 * (a + 1) + s) % U16) :
    GoodPair tw i1 i2 s ((m.setTileValue lx cy vl).setTileValue rx cy vr) := by
  have hf1 := tileFrame_set tw i2 m lx cy vl hf
  have hf2 := tileFrame_set tw i2 _ rx cy vr hf1
  have htw : (m.setTileValue lx cy vl).tileWidth = tw := hf1.1
  obtain ⟨h1, h2, h3⟩ := hf
  have a1 := setTileValue_getD m lx cy vl i1
  have b1 := setTileValue_getD (m.setTileValue lx cy vl) rx cy vr i1
  have b2 := setTileValue_getD (m.setTileValue lx cy vl) rx cy vr i2
  rw [htw, hi2] at b1 b2
  rw [h1, hi1] at a1
  have l1 : i1 < m.editorTiles.length := by omega
  have l2 : i1 < m.tiles.length := by omega
  have l3 : i2 < (m.setTileValue lx cy vl).editorTiles.length := by
    rw [← hf1.2.2]; exact hf1.2.1
  have l4 : i2 < (m.setTileValue lx cy vl).tiles.length := hf1.2.1
  have ne : ¬ (i2 = i1) := by omega
  simp only [l1, l2, and_self, if_true, true_and] at a1
  simp only [ne, false_and, if_false, l3, l4, and_self, if_true, true_and] at b1 b2
  refine ⟨hf2, ⟨a, ha, ?_, ?_⟩, ?_, ?_⟩
  · rw [b1.1, a1.1]; exact hvl
  · rw [b2.1]; exact hvr
  · rw [b1.1, b1.2, a1.1, a1.2]
  · rw [b2.1, b2.2]

end World
end IsomTerrain
namespace IsomTerrain
namespace World

theorem fillStack_zero (c : IsomCache) (d : IsomDiamond) (lx rx s y : Nat) (m : ScMap) :
    fillStack c d lx rx s 0 y m = m := rfl

theorem fillStack_succ (c : IsomCache) (d : IsomDiamond) (lx rx s fuel y : Nat) (m : ScMap) :
    fillStack c d lx rx s (fuel + 1) y m =
      if y < m.tileHeight then
        if fillStackBreak c lx y m then m
        else fillStack c d lx rx s fuel (y + 1)
          ((m.setTileValue lx y (16 * (fillStackGroups c d lx rx y m).1 + s)).setTileValue rx y
            (16 * (fillStackGroups c d lx rx y m).2 + s))
      else m := rfl

end World
end IsomTerrain
namespace IsomTerrain
namespace World

theorem fillStackGroups_cases (c : IsomCache) (d : IsomDiamond) (lx rx y : Nat) (m : ScMap) :
    fillStackGroups c d lx rx y m =
        (getTileGroup (m.getTileValue lx y), getTileGroup (m.getTileValue rx y)) ∨
      ∃ g pg, c.hashToTileGroup.lookup ((m.getIsomRect ⟨d.x, y⟩).getHash c.isomLinks) = some pg ∧
        g ∈ pg ∧ fillStackGroups c d lx rx y m = (g, (g + 1) % U16) := by
  unfold fillStackGroups
  simp only []
  split_ifs with h1
  · split
    · rename_i pg hpg
      split
      · rename_i g hg
        right
        exact ⟨g, pg, hpg, List.mem_of_find?_eq_some hg, rfl⟩
      · left; rfl
    · left; rfl
  · left; rfl

theorem tileIndex_ne (tw cy y cx c : Nat) (hcx : cx < tw) (hc : c < tw) (hne : cy ≠ y) :
    cy * tw + cx ≠ y * tw + c := by
  intro h
  exact hne (rectIndex_inj tw cx cy c y hcx hc h).2

theorem regroup_same (e a s : Nat) (hs : s < 16) (he : e = (16 * a + s) % U16) :
    (16 * getTileGroup e + s) % U16 = e := by
  unfold getTileGroup U16 at *
  omega

/-- Rewriting a tile of the two columns with its own group and the subtile `s` keeps the
pair. -/
theorem goodPair_rewrite (tw x y s : Nat) (m : ScMap) (cx cy : Nat) (hs : s < 16)
    (hx : 2 * x + 1 < tw) (hcx : cx = 2 * x ∨ cx = 2 * x + 1)
    (h : GoodPair tw (y * tw + 2 * x) (y * tw + (2 * x + 1)) s m) :
    GoodPair tw (y * tw + 2 * x) (y * tw + (2 * x + 1)) s
      (m.setTileValue cx cy (16 * getTileGroup (m.getTileValue cx cy) + s)) := by
  by_cases hy : cy = y
  · subst hy
    apply goodPair_write_same _ _ _ _ _ _ _ _ h
    obtain ⟨hf, ⟨a, _, he1, he2⟩, _, _⟩ := h
    have e : m.getTileValue cx cy = m.editorTiles.getD (cy * tw + cx) 0 := by
      unfold ScMap.getTileValue; rw [hf.1]
    rw [e]
    rcases hcx with hc | hc
    · subst hc
      exact regroup_same _ a s hs he1
    · subst hc
      exact regroup_same _ (a + 1) s hs he2
  · apply goodPair_write_other _ _ _ _ _ _ _ _ h
    · exact tileIndex_ne tw cy y cx (2 * x) (by omega) (by omega) hy
    · exact tileIndex_ne tw cy y cx (2 * x + 1) (by omega) (by omega) hy

theorem getTileValue_set_ne (m : ScMap) (cx cy v cx' cy' : Nat)
    (hne : cy * m.tileWidth + cx ≠ cy' * m.tileWidth + cx') :
    (m.setTileValue cx cy v).getTileValue cx' cy' = m.getTileValue cx' cy' := by
  unfold ScMap.getTileValue
  show (m.editorTiles.set (cy * m.tileWidth + cx) (v % U16)).getD (cy' * m.tileWidth + cx') 0 = _
  rw [getD_set_eq]
  simp [hne]

/-- One iteration of the downward loop keeps the pair, when the candidates of the rectangle of
the row `y` are not congruent to 4095 modulo 4096. -/
theorem goodPair_fillStep (c : IsomCache) (d : IsomDiamond) (tw x y s cy : Nat) (m : ScMap)
    (hs : s < 16) (hx : 2 * x + 1 < tw)
    (hown : ∀ pg, c.hashToTileGroup.lookup ((m.getIsomRect ⟨d.x, y⟩).getHash c.isomLinks)
      = some pg → ∀ e ∈ pg, e % 4096 ≠ 4095)
    (h : GoodPair tw (y * tw + 2 * x) (y * tw + (2 * x + 1)) s m) :
    GoodPair tw (y * tw + 2 * x) (y * tw + (2 * x + 1)) s
      ((m.setTileValue (2 * x) cy
          (16 * (fillStackGroups c d (2 * x) (2 * x + 1) cy m).1 + s)).setTileValue (2 * x + 1) cy
        (16 * (fillStackGroups c d (2 * x) (2 * x + 1) cy m).2 + s)) := by
  rcases fillStackGroups_cases c d (2 * x) (2 * x + 1) cy m with hG | ⟨g, pg, hpg, hg, hG⟩
  · rw [hG]
    have h1 := goodPair_rewrite tw x y s m (2 * x) cy hs hx (Or.inl rfl) h
    have e : m.getTileValue (2 * x + 1) cy =
        (m.setTileValue (2 * x) cy
          (16 * getTileGroup (m.getTileValue (2 * x) cy) + s)).getTileValue (2 * x + 1) cy :=
      (getTileValue_set_ne m _ _ _ _ _ (by omega)).symm
    show GoodPair _ _ _ _ (ScMap.setTileValue _ (2 * x + 1) cy
      (16 * getTileGroup (m.getTileValue (2 * x + 1) cy) + s))
    rw [e]
    exact goodPair_rewrite tw x y s _ (2 * x + 1) cy hs hx (Or.inr rfl) h1
  · rw [hG]
    by_cases hy : cy = y
    · subst hy
      apply goodPair_establish tw _ _ s g m (2 * x) (2 * x + 1) cy _ _ h.1 rfl rfl (by omega)
        (hown pg hpg g hg) rfl
      show (16 * ((g + 1) % U16) + s) % U16 = (16 * (g + 1) + s) % U16
      unfold U16; omega
    · apply goodPair_write_other
      · apply goodPair_write_other _ _ _ _ _ _ _ _ h
        · exact tileIndex_ne tw cy y _ _ (by omega) (by omega) hy
        · exact tileIndex_ne tw cy y _ _ (by omega) (by omega) hy
      · exact tileIndex_ne tw cy y _ _ (by omega) (by omega) hy
      · exact tileIndex_ne tw cy y _ _ (by omega) (by omega) hy

theorem fillStack_goodPair (c : IsomCache) (d : IsomDiamond) (tw x y s : Nat) (r0 : IsomRect)
    (hs : s < 16) (hx : 2 * x + 1 < tw)
    (hown : ∀ pg, c.hashToTileGroup.lookup (r0.getHash c.isomLinks) = some pg →
      ∀ e ∈ pg, e % 4096 ≠ 4095) :
    ∀ (fuel cy : Nat) (m : ScMap), m.getIsomRect ⟨d.x, y⟩ = r0 →
      GoodPair tw (y * tw + 2 * x) (y * tw + (2 * x + 1)) s m →
      GoodPair tw (y * tw + 2 * x) (y * tw + (2 * x + 1)) s
        (fillStack c d (2 * x) (2 * x + 1) s fuel cy m) := by
  intro fuel
  induction fuel with
  | zero => intro cy m _ h; exact h
  | succ n ih =>
    intro cy m hr h
    rw [fillStack_succ]
    split_ifs
    · exact h
    · exact ih _ _ hr (goodPair_fillStep c d tw x y s cy m hs hx (by rw [hr]; exact hown) h)
    · exact h

end World
end IsomTerrain
namespace IsomTerrain
namespace World

theorem writeTileStack_goodPair (c : IsomCache) (tw x y g s : Nat) (m : ScMap)
    (hs : s < 16) (hx : 2 * x + 1 < tw) (hg : g % 4096 ≠ 4095)
    (hown : ∀ pg, c.hashToTileGroup.lookup ((m.getIsomRect ⟨x, y⟩).getHash c.isomLinks)
      = some pg → ∀ e ∈ pg, e % 4096 ≠ 4095)
    (hf : TileFrame tw (y * tw + (2 * x + 1)) m) :
    GoodPair tw (y * tw + 2 * x) (y * tw + (2 * x + 1)) s
      (writeTileStack c ⟨x, y⟩ (2 * x) (2 * x + 1) g s m) := by
  unfold writeTileStack
  simp only []
  refine fillStack_goodPair c ⟨x, y⟩ tw x y s (m.getIsomRect ⟨x, y⟩) hs hx hown _ _ _ ?_ ?_
  · rfl
  apply goodPair_rewrite tw x y s _ (2 * x + 1) _ hs hx (Or.inr rfl)
  apply goodPair_rewrite tw x y s _ (2 * x) _ hs hx (Or.inl rfl)
  exact goodPair_establish tw _ _ s g m (2 * x) (2 * x + 1) y _ _ hf rfl rfl (by omega) hg rfl rfl

theorem chooseDestTileGroup_mem (m : ScMap) (c : IsomCache) (d : IsomDiamond) (lx : Nat)
    (pg : List Nat) :
    chooseDestTileGroup m c d lx pg ∈ pg ∨ chooseDestTileGroup m c d lx pg = 0 := by
  have h0 : pg.getD 0 0 ∈ pg ∨ pg.getD 0 0 = 0 := by
    cases pg with
    | nil => right; rfl
    | cons a t => left; exact List.mem_cons_self _ _
  unfold chooseDestTileGroup
  simp only []
  split_ifs
  · split
    · rename_i g hg
      left; exact List.mem_of_find?_eq_some hg
    · exact h0
  · exact h0
  · exact h0

theorem goodPair_final (tw i1 i2 s : Nat) (m : ScMap) (hs : s < 16)
    (h : GoodPair tw i1 i2 s m) :
    getTileGroup (m.tiles.getD i2 0) = getTileGroup (m.tiles.getD i1 0) + 1 ∧
    m.tiles.getD i1 0 % 16 = s ∧ m.tiles.getD i2 0 % 16 = s ∧
    m.editorTiles.getD i1 0 = m.tiles.getD i1 0 ∧
    m.editorTiles.getD i2 0 = m.tiles.getD i2 0 := by
  obtain ⟨_, ⟨a, ha, he1, he2⟩, ht1, ht2⟩ := h
  rw [ht1, ht2]
  unfold getTileGroup U16 at *
  refine ⟨by omega, by omega, by omega, rfl, rfl⟩

/-- The projection of a diamond `(x, y)` with `x+1 < isomWidth` and `y+1 < isomHeight` whose
rectangle hash is present in `hashToTileGroup`, when no candidate listed for that hash is
congruent to 4095 modulo 4096 (the last group a tile value can name): after
`updateTileFromIsom` the tiles at the columns `2x` and `2x+1` of the row `y` have group indices
`g` and `g+1` and the same subtile index, and `tiles` and `editorTiles` agree at both
positions, for every sequence of random draws. -/
theorem projection_successive_groups_of_good (x y : Nat) (w : World) (potentialGroups : List Nat)
    (htw : w.map.tileWidth < U16) (hth : w.map.tileHeight < U16)
    (hcw : w.cache.isomWidth = w.map.getIsomWidth)
    (hch : w.cache.isomHeight = w.map.getIsomHeight)
    (hlt : w.map.tiles.length = w.map.tileWidth * w.map.tileHeight)
    (hle : w.map.editorTiles.length = w.map.tileWidth * w.map.tileHeight)
    (hx : x + 1 < w.cache.isomWidth) (hy : y + 1 < w.cache.isomHeight)
    (hhash : w.cache.hashToTileGroup.lookup
      ((w.map.getIsomRect ⟨x, y⟩).getHash w.cache.isomLinks) = some potentialGroups)
    (hgood : ∀ e ∈ potentialGroups, e % 4096 ≠ 4095) :
    ∃ g s, s < 16 ∧
      (updateTileFromIsom ⟨x, y⟩ w).map.tiles.getD (y * w.map.tileWidth + 2 * x) 0 / 16 = g ∧
      (updateTileFromIsom ⟨x, y⟩ w).map.tiles.getD (y * w.map.tileWidth + (2 * x + 1)) 0 / 16
        = g + 1 ∧
      (updateTileFromIsom ⟨x, y⟩ w).map.tiles.getD (y * w.map.tileWidth + 2 * x) 0 % 16 = s ∧
      (updateTileFromIsom ⟨x, y⟩ w).map.tiles.getD (y * w.map.tileWidth + (2 * x + 1)) 0 % 16
        = s ∧
      (updateTileFromIsom ⟨x, y⟩ w).map.editorTiles.getD (y * w.map.tileWidth + 2 * x) 0 =
        (updateTileFromIsom ⟨x, y⟩ w).map.tiles.getD (y * w.map.tileWidth + 2 * x) 0 ∧
      (updateTileFromIsom ⟨x, y⟩ w).map.editorTiles.getD (y * w.map.tileWidth + (2 * x + 1)) 0 =
        (updateTileFromIsom ⟨x, y⟩ w).map.tiles.getD (y * w.map.tileWidth + (2 * x + 1)) 0 := by
  have hW : w.cache.isomWidth = w.map.tileWidth / 2 + 1 := hcw
  have hH : w.cache.isomHeight = w.map.tileHeight + 1 := hch
  have hx2 : 2 * x + 1 < w.map.tileWidth := by omega
  have hy2 : y < w.map.tileHeight := by omega
  have ex : sizeInc x = x + 1 := sizeInc_of_lt x (by unfold SIZE_MAX1; unfold U16 at htw; omega)
  have ey : sizeInc y = y + 1 := sizeInc_of_lt y (by unfold SIZE_MAX1; unfold U16 at hth; omega)
  have hg : ¬ (sizeInc x ≥ w.cache.isomWidth ∨ sizeInc y ≥ w.cache.isomHeight) := by
    rw [ex, ey]; omega
  have hidx : y * w.map.tileWidth + (2 * x + 1) < w.map.tileWidth * w.map.tileHeight := by
    calc y * w.map.tileWidth + (2 * x + 1) < y * w.map.tileWidth + w.map.tileWidth := by omega
      _ = (y + 1) * w.map.tileWidth := by ring
      _ ≤ w.map.tileHeight * w.map.tileWidth := Nat.mul_le_mul_right _ hy2
      _ = w.map.tileWidth * w.map.tileHeight := Nat.mul_comm _ _
  have hf : TileFrame w.map.tileWidth (y * w.map.tileWidth + (2 * x + 1)) w.map :=
    ⟨rfl, by rw [hlt]; exact hidx, by rw [hlt, hle]⟩
  have hdest : chooseDestTileGroup w.map w.cache ⟨x, y⟩ (2 * x) potentialGroups % 4096 ≠ 4095 := by
    rcases chooseDestTileGroup_mem w.map w.cache ⟨x, y⟩ (2 * x) potentialGroups with h | h
    · exact hgood _ h
    · rw [h]; decide
  have hr := getRandomSubtile_frame
    (chooseDestTileGroup w.map w.cache ⟨x, y⟩ (2 * x) potentialGroups) w
  have e : (updateTileFromIsom ⟨x, y⟩ w).map =
      writeTileStack w.cache ⟨x, y⟩ (2 * x) (2 * x + 1)
        (chooseDestTileGroup w.map w.cache ⟨x, y⟩ (2 * x) potentialGroups)
        ((getRandomSubtile
          (chooseDestTileGroup w.map w.cache ⟨x, y⟩ (2 * x) potentialGroups) w).1 % 16)
        w.map := by
    unfold updateTileFromIsom
    simp only [hg, if_false, hhash]
    rw [hr.1, hr.2.1]
  have hs : (getRandomSubtile
      (chooseDestTileGroup w.map w.cache ⟨x, y⟩ (2 * x) potentialGroups) w).1 % 16 < 16 :=
    Nat.mod_lt _ (by decide)
  have hown : ∀ pg, w.cache.hashToTileGroup.lookup
      ((w.map.getIsomRect ⟨x, y⟩).getHash w.cache.isomLinks) = some pg →
      ∀ e ∈ pg, e % 4096 ≠ 4095 := by
    intro pg hpg
    rw [hhash] at hpg
    rw [← Option.some.inj hpg]
    exact hgood
  have hgp := writeTileStack_goodPair w.cache w.map.tileWidth x y _ _ w.map hs hx2 hdest hown hf
  rw [← e] at hgp
  have hfin := goodPair_final _ _ _ _ _ hs hgp
  unfold getTileGroup at hfin
  exact ⟨_, _, hs, rfl, hfin.1, hfin.2.1, hfin.2.2.1, hfin.2.2.2.1, hfin.2.2.2.2⟩

/-- C16: for every diamond `(x, y)` with `x+1 < isomWidth` and `y+1 < isomHeight` whose
rectangle hash is present in `hashToTileGroup` (the candidates listed for it being even group
indices, the only ones `Tiles::loadIsom` enters into the index), and for every random subtile
draw (the draws are the stream of the state `w`), after `updateTileFromIsom` the tiles at the
columns `2x` and `2x+1` of the row `y` have the group indices `g` and `g+1` (value / 16) and the
same subtile index (value % 16), and `tiles` and `editorTiles` agree at both positions. -/
theorem C16_projection_successive_groups (x y : Nat) (w : World) (potentialGroups : List Nat)
    (htw : w.map.tileWidth < U16) (hth : w.map.tileHeight < U16)
    (hcw : w.cache.isomWidth = w.map.getIsomWidth)
    (hch : w.cache.isomHeight = w.map.getIsomHeight)
    (hlt : w.map.tiles.length = w.map.tileWidth * w.map.tileHeight)
    (hle : w.map.editorTiles.length = w.map.tileWidth * w.map.tileHeight)
    (hx : x + 1 < w.cache.isomWidth) (hy : y + 1 < w.cache.isomHeight)
    (hhash : w.cache.hashToTileGroup.lookup
      ((w.map.getIsomRect ⟨x, y⟩).getHash w.cache.isomLinks) = some potentialGroups)
    (heven : ∀ e ∈ potentialGroups, e % 2 = 0) :
    ∃ g s, s < 16 ∧
      (updateTileFromIsom ⟨x, y⟩ w).map.tiles.getD (y * w.map.tileWidth + 2 * x) 0 / 16 = g ∧
      (updateTileFromIsom ⟨x, y⟩ w).map.tiles.getD (y * w.map.tileWidth + (2 * x + 1)) 0 / 16
        = g + 1 ∧
      (updateTileFromIsom ⟨x, y⟩ w).map.tiles.getD (y * w.map.tileWidth + 2 * x) 0 % 16 = s ∧
      (updateTileFromIsom ⟨x, y⟩ w).map.tiles.getD (y * w.map.tileWidth + (2 * x + 1)) 0 % 16
        = s ∧
      (updateTileFromIsom ⟨x, y⟩ w).map.editorTiles.getD (y * w.map.tileWidth + 2 * x) 0 =
        (updateTileFromIsom ⟨x, y⟩ w).map.tiles.getD (y * w.map.tileWidth + 2 * x) 0 ∧
      (updateTileFromIsom ⟨x, y⟩ w).map.editorTiles.getD (y * w.map.tileWidth + (2 * x + 1)) 0 =
        (updateTileFromIsom ⟨x, y⟩ w).map.tiles.getD (y * w.map.tileWidth + (2 * x + 1)) 0 :=
  projection_successive_groups_of_good x y w potentialGroups htw hth hcw hch hlt hle hx hy hhash
    (fun e he => by have := heven e he; omega)

end World
end IsomTerrain
namespace IsomTerrain
namespace World

set_option maxRecDepth 100000 in
/-- C16 is not vacuous: on `stackWorld` the diamond (0, 1), whose hash lists the even
candidates 2, 4 and 6, is projected to the groups 4 and 5 with the subtile 3 (the tiles 67 and
83). -/
theorem C16_projection_successive_groups_witness :
    (stackWorld.map.tileWidth < U16 ∧ stackWorld.map.tileHeight < U16 ∧
      stackWorld.cache.isomWidth = stackWorld.map.getIsomWidth ∧
      stackWorld.cache.isomHeight = stackWorld.map.getIsomHeight ∧
      stackWorld.map.tiles.length = stackWorld.map.tileWidth * stackWorld.map.tileHeight ∧
      stackWorld.map.editorTiles.length = stackWorld.map.tileWidth * stackWorld.map.tileHeight ∧
      0 + 1 < stackWorld.cache.isomWidth ∧ 1 + 1 < stackWorld.cache.isomHeight ∧
      stackWorld.cache.hashToTileGroup.lookup
        ((stackWorld.map.getIsomRect ⟨0, 1⟩).getHash stackWorld.cache.isomLinks)
        = some [2, 4, 6] ∧
      ∀ e ∈ [2, 4, 6], e % 2 = 0) ∧
    (updateTileFromIsom ⟨0, 1⟩ stackWorld).map.tiles = [35, 51, 67, 83, 99, 115] ∧
    ∃ g s, s < 16 ∧
      (updateTileFromIsom ⟨0, 1⟩ stackWorld).map.tiles.getD
        (1 * stackWorld.map.tileWidth + 2 * 0) 0 / 16 = g ∧
      (updateTileFromIsom ⟨0, 1⟩ stackWorld).map.tiles.getD
        (1 * stackWorld.map.tileWidth + (2 * 0 + 1)) 0 / 16 = g + 1 ∧
      (updateTileFromIsom ⟨0, 1⟩ stackWorld).map.tiles.getD
        (1 * stackWorld.map.tileWidth + 2 * 0) 0 % 16 = s ∧
      (updateTileFromIsom ⟨0, 1⟩ stackWorld).map.tiles.getD
        (1 * stackWorld.map.tileWidth + (2 * 0 + 1)) 0 % 16 = s ∧
      (updateTileFromIsom ⟨0, 1⟩ stackWorld).map.editorTiles.getD
        (1 * stackWorld.map.tileWidth + 2 * 0) 0 =
        (updateTileFromIsom ⟨0, 1⟩ stackWorld).map.tiles.getD
          (1 * stackWorld.map.tileWidth + 2 * 0) 0 ∧
      (updateTileFromIsom ⟨0, 1⟩ stackWorld).map.editorTiles.getD
        (1 * stackWorld.map.tileWidth + (2 * 0 + 1)) 0 =
        (updateTileFromIsom ⟨0, 1⟩ stackWorld).map.tiles.getD
          (1 * stackWorld.map.tileWidth + (2 * 0 + 1)) 0 :=
  ⟨by decide, by decide,
    C16_projection_successive_groups 0 1 stackWorld [2, 4, 6] (by decide) (by decide)
      (by decide) (by decide) (by decide) (by decide) (by decide) (by decide) (by decide)
      (by decide)⟩

set_option maxRecDepth 100000 in
/-- The condition on the candidates cannot be dropped: on `lastGroupWorld`, whose hand-made
index lists the odd candidate 4095 (an index `Tiles::loadIsom` never enters), the diamond (0, 0)
satisfies `x+1 < isomWidth` and `y+1 < isomHeight`, its rectangle hash 0 is a key of
`hashToTileGroup`, and `updateTileFromIsom` leaves the tiles 65520 and 0 at the columns 0 and
1: the group indices are 4095 and 0, not `g` and `g+1`. -/
theorem updateTileFromIsom_lastGroup_wraps :
    0 + 1 < lastGroupWorld.cache.isomWidth ∧ 0 + 1 < lastGroupWorld.cache.isomHeight ∧
    lastGroupWorld.cache.hashToTileGroup.lookup
      ((lastGroupWorld.map.getIsomRect ⟨0, 0⟩).getHash lastGroupWorld.cache.isomLinks)
      = some [4095] ∧
    (updateTileFromIsom ⟨0, 0⟩ lastGroupWorld).map.tiles = [65520, 0] ∧
    (updateTileFromIsom ⟨0, 0⟩ lastGroupWorld).map.editorTiles = [65520, 0] ∧
    ¬ ∃ g, (updateTileFromIsom ⟨0, 0⟩ lastGroupWorld).map.tiles.getD
        (0 * lastGroupWorld.map.tileWidth + 2 * 0) 0 / 16 = g ∧
      (updateTileFromIsom ⟨0, 0⟩ lastGroupWorld).map.tiles.getD
        (0 * lastGroupWorld.map.tileWidth + (2 * 0 + 1)) 0 / 16 = g + 1 := by
  refine ⟨by decide, by decide, by decide, by decide, by decide, ?_⟩
  rintro ⟨g, h1, h2⟩
  have e : (updateTileFromIsom ⟨0, 0⟩ lastGroupWorld).map.tiles = [65520, 0] := by decide
  rw [e] at h1 h2
  have a1 : ([65520, 0] : List Nat).getD (0 * lastGroupWorld.map.tileWidth + 2 * 0) 0 / 16
      = 4095 := by decide
  have a2 : ([65520, 0] : List Nat).getD (0 * lastGroupWorld.map.tileWidth + (2 * 0 + 1)) 0 / 16
      = 0 := by decide
  rw [a1] at h1
  rw [a2] at h2
  omega

set_option maxRecDepth 100000 in
/-- C17 is not vacuous: on `noHashWorld` (empty hash index) the diamond (0, 1) gets the tiles
0 and 0 in the row 1, and the diamond (1, 1), with `x+1 >= isomWidth`, changes nothing. -/
theorem C17_unknown_hash_zero_tiles_witness :
    (0 + 1 < SIZE_MAX1 ∧ 1 + 1 < SIZE_MAX1 ∧
      0 + 1 < noHashWorld.cache.isomWidth ∧ 1 + 1 < noHashWorld.cache.isomHeight ∧
      noHashWorld.cache.hashToTileGroup.lookup
        ((noHashWorld.map.getIsomRect ⟨0, 1⟩).getHash noHashWorld.cache.isomLinks) = none) ∧
    noHashWorld.map.tiles = [37, 53, 65, 81, 96, 112] ∧
    (updateTileFromIsom ⟨0, 1⟩ noHashWorld).map.tiles = [37, 53, 0, 0, 96, 112] ∧
    (updateTileFromIsom ⟨0, 1⟩ noHashWorld).map.tiles.length = noHashWorld.map.tiles.length ∧
    (updateTileFromIsom ⟨0, 1⟩ noHashWorld).map.isomRects = noHashWorld.map.isomRects :=
  ⟨by decide, by decide, by decide,
    ((C17_unknown_hash_zero_tiles 0 1 noHashWorld (by decide) (by decide)).1
      (by decide) (by decide) (by decide)).2.2.1,
    ((C17_unknown_hash_zero_tiles 0 1 noHashWorld (by decide) (by decide)).1
      (by decide) (by decide) (by decide)).2.2.2.2.1⟩

end World
end IsomTerrain
namespace IsomTerrain
namespace World

/-! ## Independence of the group indices from the random draws -/

theorem foldl_rel {σ α : Type} (f g : σ → α → σ) (R : σ → σ → Prop) :
    ∀ (l : List α) (s1 s2 : σ), R s1 s2 →
      (∀ a s1 s2, a ∈ l → R s1 s2 → R (f s1 a) (g s2 a)) → R (l.foldl f s1) (l.foldl g s2) := by
  intro l
  induction l with
  | nil => intro s1 s2 h _; exact h
  | cons a t ih =>
    intro s1 s2 h hstep
    rw [List.foldl_cons, List.foldl_cons]
    exact ih _ _ (hstep a s1 s2 (List.mem_cons_self _ _) h)
      (fun b t1 t2 hb hr => hstep b t1 t2 (List.mem_cons_of_mem _ hb) hr)

theorem groupEq_refl (m : ScMap) : GroupEq m m := ⟨rfl, rfl, rfl, rfl, rfl⟩

theorem groupEq_getTileValue (m1 m2 : ScMap) (h : GroupEq m1 m2) (cx cy : Nat) :
    getTileGroup (m1.getTileValue cx cy) = getTileGroup (m2.getTileValue cx cy) := by
  obtain ⟨hw, _, _, _, he⟩ := h
  unfold ScMap.getTileValue
  rw [hw]
  have z : getTileGroup 0 = 0 := rfl
  have a1 := List.getD_map (f := getTileGroup) (l := m1.editorTiles) (d := 0)
    (n := cy * m2.tileWidth + cx)
  have a2 := List.getD_map (f := getTileGroup) (l := m2.editorTiles) (d := 0)
    (n := cy * m2.tileWidth + cx)
  rw [← a1, ← a2, he]

theorem groupEq_getIsomRect (m1 m2 : ScMap) (h : GroupEq m1 m2) (p : Point) :
    m1.getIsomRect p = m2.getIsomRect p := by
  obtain ⟨hw, _, hr, _, _⟩ := h
  unfold ScMap.getIsomRect ScMap.rectIndex ScMap.getIsomWidth
  rw [hw, hr]

theorem groupEq_setTileValue (m1 m2 : ScMap) (h : GroupEq m1 m2) (cx cy v1 v2 : Nat)
    (hv : getTileGroup (v1 % U16) = getTileGroup (v2 % U16)) :
    GroupEq (m1.setTileValue cx cy v1) (m2.setTileValue cx cy v2) := by
  obtain ⟨hw, hh, hr, ht, he⟩ := h
  refine ⟨hw, hh, hr, ?_, ?_⟩
  · show (m1.tiles.set (cy * m1.tileWidth + cx) (v1 % U16)).map getTileGroup =
      (m2.tiles.set (cy * m2.tileWidth + cx) (v2 % U16)).map getTileGroup
    rw [List.map_set, List.map_set, ht, hv, hw]
  · show (m1.editorTiles.set (cy * m1.tileWidth + cx) (v1 % U16)).map getTileGroup =
      (m2.editorTiles.set (cy * m2.tileWidth + cx) (v2 % U16)).map getTileGroup
    rw [List.map_set, List.map_set, he, hv, hw]

theorem group_of_value (g s1 s2 : Nat) (h1 : s1 < 16) (h2 : s2 < 16) :
    getTileGroup ((16 * g + s1) % U16) = getTileGroup ((16 * g + s2) % U16) := by
  unfold getTileGroup U16
  omega

end World
end IsomTerrain
namespace IsomTerrain
namespace World

theorem findStackTop_zero (m : ScMap) (c : IsomCache) (lx top curr : Nat) :
    findStackTop m c lx 0 top curr = top := rfl

theorem findStackTop_succ (m : ScMap) (c : IsomCache) (lx fuel top curr : Nat) :
    findStackTop m c lx (fuel + 1) top curr =
      if top > 0 ∧ curr < c.tileGroups.length ∧
          (c.tileGroups.getD curr default).stackConnections.top ≠ 0 then
        if getTileGroup (m.getTileValue lx (top - 1)) ≥ c.tileGroups.length ∨
            (c.tileGroups.getD curr default).stackConnections.top ≠
              (c.tileGroups.getD (getTileGroup (m.getTileValue lx (top - 1)))
                default).stackConnections.bottom then
          top
        else findStackTop m c lx fuel (top - 1) (getTileGroup (m.getTileValue lx (top - 1)))
      else top := rfl

theorem groupEq_findStackTop (m1 m2 : ScMap) (h : GroupEq m1 m2) (c : IsomCache) (lx : Nat) :
    ∀ fuel top curr, findStackTop m1 c lx fuel top curr = findStackTop m2 c lx fuel top curr := by
  intro fuel
  induction fuel with
  | zero => intro top curr; rfl
  | succ n ih =>
    intro top curr
    rw [findStackTop_succ, findStackTop_succ, groupEq_getTileValue m1 m2 h lx (top - 1), ih]

theorem groupEq_chooseDestTileGroup (m1 m2 : ScMap) (h : GroupEq m1 m2) (c : IsomCache)
    (d : IsomDiamond) (lx : Nat) (pg : List Nat) :
    chooseDestTileGroup m1 c d lx pg = chooseDestTileGroup m2 c d lx pg := by
  unfold chooseDestTileGroup
  simp only []
  rw [groupEq_getTileValue m1 m2 h lx (d.y - 1)]

theorem groupEq_fillStackGroups (m1 m2 : ScMap) (h : GroupEq m1 m2) (c : IsomCache)
    (d : IsomDiamond) (lx rx y : Nat) :
    fillStackGroups c d lx rx y m1 = fillStackGroups c d lx rx y m2 := by
  unfold fillStackGroups
  simp only []
  rw [groupEq_getTileValue m1 m2 h lx (y - 1), groupEq_getTileValue m1 m2 h lx y,
    groupEq_getTileValue m1 m2 h rx y, groupEq_getIsomRect m1 m2 h ⟨d.x, y⟩]

theorem groupEq_fillStackBreak (m1 m2 : ScMap) (h : GroupEq m1 m2) (c : IsomCache)
    (lx y : Nat) : fillStackBreak c lx y m1 ↔ fillStackBreak c lx y m2 := by
  unfold fillStackBreak
  rw [groupEq_getTileValue m1 m2 h lx (y - 1), groupEq_getTileValue m1 m2 h lx y]

theorem group_of_value_mod (g s1 s2 : Nat) (h1 : s1 < 16) (h2 : s2 < 16) :
    getTileGroup ((16 * g + s1) % U16) = getTileGroup ((16 * g + s2) % U16) :=
  group_of_value g s1 s2 h1 h2

theorem groupEq_fillStack (c : IsomCache) (d : IsomDiamond) (lx rx s1 s2 : Nat)
    (h1 : s1 < 16) (h2 : s2 < 16) :
    ∀ (fuel y : Nat) (m1 m2 : ScMap), GroupEq m1 m2 →
      GroupEq (fillStack c d lx rx s1 fuel y m1) (fillStack c d lx rx s2 fuel y m2) := by
  intro fuel
  induction fuel with
  | zero => intro y m1 m2 h; exact h
  | succ n ih =>
    intro y m1 m2 h
    rw [fillStack_succ, fillStack_succ, h.2.1]
    by_cases hy : y < m2.tileHeight
    · rw [if_pos hy, if_pos hy]
      by_cases hb : fillStackBreak c lx y m2
      · rw [if_pos hb, if_pos ((groupEq_fillStackBreak m1 m2 h c lx y).mpr hb)]
        exact h
      · rw [if_neg hb, if_neg (fun hb1 => hb ((groupEq_fillStackBreak m1 m2 h c lx y).mp hb1))]
        apply ih
        rw [groupEq_fillStackGroups m1 m2 h c d lx rx y]
        apply groupEq_setTileValue
        · apply groupEq_setTileValue _ _ h
          exact group_of_value _ s1 s2 h1 h2
        · exact group_of_value _ s1 s2 h1 h2
    · rw [if_neg hy, if_neg hy]
      exact h

theorem writeTileStack_eq (c : IsomCache) (d : IsomDiamond) (lx rx g s : Nat) (m : ScMap) :
    writeTileStack c d lx rx g s m =
      writeStackRest c d lx rx s
        ((m.setTileValue lx d.y (16 * g + s)).setTileValue rx d.y (16 * (g + 1) + s)) := rfl

theorem setTileValue_tileHeight (m : ScMap) (cx cy v : Nat) :
    (m.setTileValue cx cy v).tileHeight = m.tileHeight := rfl

theorem groupEq_writeStackRest (c : IsomCache) (d : IsomDiamond) (lx rx s1 s2 : Nat)
    (h1 : s1 < 16) (h2 : s2 < 16) (n1 n2 : ScMap) (h : GroupEq n1 n2) :
    GroupEq (writeStackRest c d lx rx s1 n1) (writeStackRest c d lx rx s2 n2) := by
  unfold writeStackRest
  simp only [setTileValue_tileHeight]
  rw [groupEq_findStackTop n1 n2 h c lx, groupEq_getTileValue n1 n2 h lx d.y, h.2.1]
  generalize findStackTop n2 c lx d.y d.y (getTileGroup (n2.getTileValue lx d.y)) = T
  apply groupEq_fillStack c d lx rx s1 s2 h1 h2
  have a3 : GroupEq (n1.setTileValue lx T (16 * getTileGroup (n1.getTileValue lx T) + s1))
      (n2.setTileValue lx T (16 * getTileGroup (n2.getTileValue lx T) + s2)) := by
    apply groupEq_setTileValue _ _ h
    rw [groupEq_getTileValue n1 n2 h lx T]
    exact group_of_value _ s1 s2 h1 h2
  apply groupEq_setTileValue _ _ a3
  rw [groupEq_getTileValue _ _ a3 rx T]
  exact group_of_value _ s1 s2 h1 h2

theorem groupEq_writeTileStack (c : IsomCache) (d : IsomDiamond) (lx rx g s1 s2 : Nat)
    (h1 : s1 < 16) (h2 : s2 < 16) (m1 m2 : ScMap) (h : GroupEq m1 m2) :
    GroupEq (writeTileStack c d lx rx g s1 m1) (writeTileStack c d lx rx g s2 m2) := by
  rw [writeTileStack_eq, writeTileStack_eq]
  apply groupEq_writeStackRest c d lx rx s1 s2 h1 h2
  apply groupEq_setTileValue
  · apply groupEq_setTileValue _ _ h
    exact group_of_value _ s1 s2 h1 h2
  · exact group_of_value _ s1 s2 h1 h2

/-- Two worlds with the same cache whose maps agree up to subtile indices. -/
theorem groupEq_updateTileFromIsom (d : IsomDiamond) (w1 w2 : World)
    (hc : w1.cache = w2.cache) (h : GroupEq w1.map w2.map) :
    (updateTileFromIsom d w1).cache = (updateTileFromIsom d w2).cache ∧
    GroupEq (updateTileFromIsom d w1).map (updateTileFromIsom d w2).map := by
  unfold updateTileFromIsom
  rw [hc, groupEq_getIsomRect _ _ h d]
  split_ifs with hg
  · exact ⟨hc, h⟩
  · split
    · rename_i pg hpg
      rw [groupEq_chooseDestTileGroup _ _ h]
      have r1 := getRandomSubtile_frame (chooseDestTileGroup w2.map w2.cache d (2 * d.x) pg) w1
      have r2 := getRandomSubtile_frame (chooseDestTileGroup w2.map w2.cache d (2 * d.x) pg) w2
      refine ⟨?_, ?_⟩
      · show (getRandomSubtile _ w1).2.cache = (getRandomSubtile _ w2).2.cache
        rw [r1.2.1, r2.2.1, hc]
      · show GroupEq (writeTileStack (getRandomSubtile _ w1).2.cache d _ _ _ _
            (getRandomSubtile _ w1).2.map)
          (writeTileStack (getRandomSubtile _ w2).2.cache d _ _ _ _ (getRandomSubtile _ w2).2.map)
        rw [r1.2.1, r2.2.1, r1.1, r2.1, hc]
        exact groupEq_writeTileStack _ _ _ _ _ _ _ (Nat.mod_lt _ (by decide))
          (Nat.mod_lt _ (by decide)) _ _ h
    · refine ⟨rfl, ?_⟩
      show GroupEq ((w1.map.setTileValue _ _ 0).setTileValue _ _ 0)
        ((w2.map.setTileValue _ _ 0).setTileValue _ _ 0)
      exact groupEq_setTileValue _ _ (groupEq_setTileValue _ _ h _ _ _ _ rfl) _ _ _ _ rfl

end World
end IsomTerrain
namespace IsomTerrain
namespace World

theorem groupEq_setIsomRect (m1 m2 : ScMap) (h : GroupEq m1 m2) (p : Point) (r : IsomRect) :
    GroupEq (m1.setIsomRect p r) (m2.setIsomRect p r) := by
  obtain ⟨hw, hh, hr, ht, he⟩ := h
  refine ⟨hw, hh, ?_, ht, he⟩
  show m1.isomRects.set (p.y * (m1.tileWidth / 2 + 1) + p.x) r =
    m2.isomRects.set (p.y * (m2.tileWidth / 2 + 1) + p.x) r
  rw [hw, hr]

theorem groupEq_updateTilesCell (x y : Nat) (w1 w2 : World)
    (h : w1.cache = w2.cache ∧ GroupEq w1.map w2.map) :
    (updateTilesCell x y w1).cache = (updateTilesCell x y w2).cache ∧
    GroupEq (updateTilesCell x y w1).map (updateTilesCell x y w2).map := by
  let f : World → World := fun v =>
    { v with map := v.map.setIsomRect ⟨x, y⟩ (v.map.getIsomRect ⟨x, y⟩).clearEditorFlags }
  have key : ∀ v1 v2 : World, (v1.cache = v2.cache ∧ GroupEq v1.map v2.map) →
      (f v1).cache = (f v2).cache ∧ GroupEq (f v1).map (f v2).map := by
    intro v1 v2 hv
    refine ⟨hv.1, ?_⟩
    show GroupEq (v1.map.setIsomRect ⟨x, y⟩ (v1.map.getIsomRect ⟨x, y⟩).clearEditorFlags)
      (v2.map.setIsomRect ⟨x, y⟩ (v2.map.getIsomRect ⟨x, y⟩).clearEditorFlags)
    rw [groupEq_getIsomRect _ _ hv.2]
    exact groupEq_setIsomRect _ _ hv.2 _ _
  have e : ∀ w : World, updateTilesCell x y w =
      f (if (w.map.getIsomRect ⟨x, y⟩).isLeftOrRightModified then updateTileFromIsom ⟨x, y⟩ w
         else w) := fun _ => rfl
  rw [e w1, e w2, groupEq_getIsomRect _ _ h.2]
  split_ifs
  · exact key _ _ (groupEq_updateTileFromIsom ⟨x, y⟩ w1 w2 h.1 h.2)
  · exact key _ _ h

theorem groupEq_updateTilesFromIsom (w1 w2 : World)
    (h : w1.cache = w2.cache ∧ GroupEq w1.map w2.map) :
    GroupEq (updateTilesFromIsom w1).map (updateTilesFromIsom w2).map := by
  unfold updateTilesFromIsom
  simp only []
  rw [h.1]
  have := foldl_rel
    (fun wy y => (rangeIncl w2.cache.changedArea.left w2.cache.changedArea.right).foldl
      (fun wx x => updateTilesCell x y wx) wy)
    (fun wy y => (rangeIncl w2.cache.changedArea.left w2.cache.changedArea.right).foldl
      (fun wx x => updateTilesCell x y wx) wy)
    (fun v1 v2 : World => v1.cache = v2.cache ∧ GroupEq v1.map v2.map)
    (rangeIncl w2.cache.changedArea.top w2.cache.changedArea.bottom) w1 w2 h
    (fun y s1 s2 _ hs =>
      foldl_rel (fun wx x => updateTilesCell x y wx) (fun wx x => updateTilesCell x y wx)
        (fun v1 v2 : World => v1.cache = v2.cache ∧ GroupEq v1.map v2.map) _ s1 s2 hs
        (fun x t1 t2 _ ht => groupEq_updateTilesCell x y t1 t2 ht))
  exact this.2

/-- C18: for every map and cache and any two sequences of random draws, the two runs of
`updateTilesFromIsom` produce identical `isomRects`, and `tiles` and `editorTiles` whose group
indices (`value / 16`) are equal at every position. -/
theorem C18_groups_independent_of_draws (w : World) (rand1 rand2 : Nat → Nat)
    (pos1 pos2 : Nat) :
    (updateTilesFromIsom { w with rand := rand1, randPos := pos1 }).map.isomRects =
      (updateTilesFromIsom { w with rand := rand2, randPos := pos2 }).map.isomRects ∧
    (updateTilesFromIsom { w with rand := rand1, randPos := pos1 }).map.tiles.map getTileGroup =
      (updateTilesFromIsom { w with rand := rand2, randPos := pos2 }).map.tiles.map
        getTileGroup ∧
    (updateTilesFromIsom { w with rand := rand1, randPos := pos1 }).map.editorTiles.map
        getTileGroup =
      (updateTilesFromIsom { w with rand := rand2, randPos := pos2 }).map.editorTiles.map
        getTileGroup := by
  have h := groupEq_updateTilesFromIsom { w with rand := rand1, randPos := pos1 }
    { w with rand := rand2, randPos := pos2 } ⟨rfl, groupEq_refl _⟩
  exact ⟨h.2.2.1, h.2.2.2.1, h.2.2.2.2⟩

end World
end IsomTerrain
namespace IsomTerrain
namespace Tiles

/-! ## The hash index built by `loadIsom` -/

theorem hashInsert_keys (h : List (Nat × List Nat)) (key i : Nat) :
    (hashInsert h key i).map Prod.fst =
      if key ∈ h.map Prod.fst then h.map Prod.fst else h.map Prod.fst ++ [key] := by
  induction h with
  | nil => simp [hashInsert]
  | cons b rest ih =>
    unfold hashInsert
    by_cases hb : b.1 = key
    · simp [hb]
    · rw [if_neg hb, List.map_cons, ih]
      have hb' : ¬ key = b.1 := fun e => hb e.symm
      by_cases hk : key ∈ rest.map Prod.fst
      · simp [hk]
      · simp [hk, hb']

theorem hashInsert_mem (h : List (Nat × List Nat)) (key i : Nat) (b : Nat × List Nat)
    (hb : b ∈ hashInsert h key i) :
    b ∈ h ∨ (b.1 = key ∧ ((∃ b0 ∈ h, b0.1 = key ∧ b.2 = b0.2 ++ [i % U16]) ∨
      (b.2 = [i % U16] ∧ key ∉ h.map Prod.fst))) := by
  induction h with
  | nil =>
    simp only [hashInsert, List.mem_singleton] at hb
    subst hb
    right
    exact ⟨rfl, Or.inr ⟨rfl, by simp⟩⟩
  | cons c rest ih =>
    unfold hashInsert at hb
    by_cases hc : c.1 = key
    · rw [if_pos hc] at hb
      rcases List.mem_cons.mp hb with e | e
      · subst e
        right
        exact ⟨hc, Or.inl ⟨c, List.mem_cons_self _ _, hc, rfl⟩⟩
      · left; exact List.mem_cons_of_mem _ e
    · rw [if_neg hc] at hb
      rcases List.mem_cons.mp hb with e | e
      · left; rw [e]; exact List.mem_cons_self _ _
      · rcases ih e with h1 | ⟨h1, h2⟩
        · left; exact List.mem_cons_of_mem _ h1
        · right
          refine ⟨h1, ?_⟩
          rcases h2 with ⟨b0, hb0, hk, he⟩ | ⟨he, hn⟩
          · exact Or.inl ⟨b0, List.mem_cons_of_mem _ hb0, hk, he⟩
          · right
            refine ⟨he, ?_⟩
            intro hm
            rcases List.mem_cons.mp hm with e1 | e1
            · exact hc e1.symm
            · exact hn e1

theorem occurrences_hashInsert (h : List (Nat × List Nat)) (key i j : Nat) :
    occurrences (hashInsert h key i) j = occurrences h j + if i % U16 = j then 1 else 0 := by
  induction h with
  | nil =>
    unfold occurrences hashInsert
    simp only [List.map_cons, List.map_nil, List.sum_cons, List.sum_nil, List.count_cons,
      List.count_nil]
    by_cases e : i % U16 = j
    · simp [e]
    · simp [e]
  | cons c rest ih =>
    unfold hashInsert
    by_cases hc : c.1 = key
    · rw [if_pos hc]
      unfold occurrences
      simp only [List.map_cons, List.sum_cons, List.count_append, List.count_cons, List.count_nil]
      by_cases e : i % U16 = j
      · simp [e]; omega
      · simp [e]
    · rw [if_neg hc]
      unfold occurrences at ih ⊢
      simp only [List.map_cons, List.sum_cons]
      rw [ih]
      omega

end Tiles
end IsomTerrain
namespace IsomTerrain
namespace Tiles

theorem hashInv_nil (tg : List TileGroup) : HashInv tg [] [] :=
  ⟨List.nodup_nil, fun _ hb => absurd hb (List.not_mem_nil _),
    fun _ hb => absurd hb (List.not_mem_nil _), fun _ => rfl⟩

theorem hashInv_step (tg : List TileGroup) (done : List Nat) (h : List (Nat × List Nat))
    (j : Nat) (hj : j < U16) (hlt : ∀ d ∈ done, d < j) (hinv : HashInv tg done h) :
    HashInv tg (done ++ [j]) (hashInsert h (tileGroupHash (tg.getD j default)) j) := by
  obtain ⟨h1, h2, h3, h4⟩ := hinv
  have hmod : j % U16 = j := Nat.mod_eq_of_lt hj
  refine ⟨?_, ?_, ?_, ?_⟩
  · rw [hashInsert_keys]
    split_ifs with hk
    · exact h1
    · rw [List.nodup_append]
      refine ⟨h1, List.nodup_singleton _, ?_⟩
      intro a ha hb
      rw [List.mem_singleton.mp hb] at ha
      exact hk ha
  · intro b hb i hi
    rcases hashInsert_mem h _ j b hb with hb1 | ⟨hk, hb2⟩
    · have := h2 b hb1 i hi
      exact ⟨List.mem_append_left _ this.1, this.2⟩
    · rcases hb2 with ⟨b0, hb0, hk0, he⟩ | ⟨he, _⟩
      · rw [he, hmod] at hi
        rcases List.mem_append.mp hi with hi1 | hi1
        · have := h2 b0 hb0 i hi1
          exact ⟨List.mem_append_left _ this.1, by rw [hk, ← hk0]; exact this.2⟩
        · have e : i = j := List.mem_singleton.mp hi1
          subst e
          exact ⟨List.mem_append_right _ (List.mem_singleton_self _), hk⟩
      · rw [he, hmod] at hi
        have e : i = j := List.mem_singleton.mp hi
        subst e
        exact ⟨List.mem_append_right _ (List.mem_singleton_self _), hk⟩
  · intro b hb
    rcases hashInsert_mem h _ j b hb with hb1 | ⟨_, hb2⟩
    · exact h3 b hb1
    · rcases hb2 with ⟨b0, hb0, _, he⟩ | ⟨he, _⟩
      · rw [he, hmod, List.pairwise_append]
        refine ⟨h3 b0 hb0, List.pairwise_singleton _ _, ?_⟩
        intro a ha c hc
        rw [List.mem_singleton.mp hc]
        exact hlt a (h2 b0 hb0 a ha).1
      · rw [he]; exact List.pairwise_singleton _ _
  · intro i
    rw [occurrences_hashInsert, h4, hmod, List.count_append]
    by_cases e : j = i
    · simp [e]
    · have : List.count i [j] = 0 := List.count_eq_zero.mpr (by simp; exact fun e1 => e e1.symm)
      simp [e, this]

theorem foldl_evens (tg : List TileGroup) (k : Nat) (hk : 2 * k ≤ U16) :
    HashInv tg ((List.range k).map fun n => 2 * n)
      (((List.range k).map fun n => 2 * n).foldl
        (fun h i => hashInsert h (tileGroupHash (tg.getD i default)) i) []) := by
  induction k with
  | zero => exact hashInv_nil tg
  | succ n ih =>
    rw [List.range_succ, List.map_append, List.foldl_append]
    simp only [List.map_cons, List.map_nil, List.foldl_cons, List.foldl_nil]
    apply hashInv_step tg _ _ (2 * n) (by omega) _ (ih (by omega))
    intro d hd
    obtain ⟨m, hm, rfl⟩ := List.mem_map.mp hd
    have := List.mem_range.mp hm
    omega

theorem exists_bucket_of_occurrences (h : List (Nat × List Nat)) (i : Nat)
    (hpos : 0 < occurrences h i) : ∃ b ∈ h, i ∈ b.2 := by
  induction h with
  | nil => cases hpos
  | cons c rest ih =>
    unfold occurrences at hpos ih
    simp only [List.map_cons, List.sum_cons] at hpos
    by_cases hc : 0 < c.2.count i
    · exact ⟨c, List.mem_cons_self _ _, List.count_pos_iff.mp hc⟩
    · obtain ⟨b, hb, hi⟩ := ih (by omega)
      exact ⟨b, List.mem_cons_of_mem _ hb, hi⟩

theorem lookup_of_mem_nodup (h : List (Nat × List Nat)) (b : Nat × List Nat)
    (hn : (h.map Prod.fst).Nodup) (hb : b ∈ h) : h.lookup b.1 = some b.2 := by
  induction h with
  | nil => cases hb
  | cons c rest ih =>
    rw [List.map_cons, List.nodup_cons] at hn
    rcases List.mem_cons.mp hb with e | e
    · subst e
      simp [List.lookup]
    · have hne : ¬ (b.1 = c.1) := by
        intro e1
        apply hn.1
        rw [← e1]
        exact List.mem_map_of_mem Prod.fst e
      have hb1 : (b.1 == c.1) = false := by simp [hne]
      simp only [List.lookup, hb1]
      exact ih hn.2 e

end Tiles
end IsomTerrain
namespace IsomTerrain
namespace Tiles

theorem mem_evens (k i : Nat) : i ∈ (List.range k).map (fun n => 2 * n) ↔ i % 2 = 0 ∧ i < 2 * k := by
  rw [List.mem_map]
  constructor
  · rintro ⟨m, hm, rfl⟩
    have := List.mem_range.mp hm
    omega
  · rintro ⟨h1, h2⟩
    exact ⟨i / 2, List.mem_range.mpr (by omega), by omega⟩

theorem nodup_evens (k : Nat) : ((List.range k).map fun n => 2 * n).Nodup :=
  List.Nodup.map (fun a b h => by have h2 : 2 * a = 2 * b := h; omega) (List.nodup_range k)

theorem shl_mod_or (x b : Nat) :
    (((x % 2 ^ 32) ||| b) <<< 6) % 2 ^ 32 = ((x ||| b) <<< 6) % 2 ^ 32 := by
  apply Nat.eq_of_testBit_eq
  intro j
  simp only [Nat.testBit_mod_two_pow, Nat.testBit_shiftLeft, Nat.testBit_or]
  by_cases h : j < 32
  · have h2 : j - 6 < 32 := by omega
    simp [h, h2]
  · simp [h]

theorem shl_or_mod_congr (x y b : Nat) (h : x % 2 ^ 32 = y % 2 ^ 32) :
    ((x ||| b) <<< 6) % 2 ^ 32 = ((y ||| b) <<< 6) % 2 ^ 32 := by
  rw [← shl_mod_or x b, ← shl_mod_or y b, h]

/-- The `uint32_t` packing of four links: reducing after every shift gives the same value as
reducing the whole expression once. -/
theorem packed_eq (L T R B : Nat) :
    (((((((L <<< 6) % U32 ||| T) <<< 6) % U32 ||| R) <<< 6) % U32 ||| B) <<< 6) % U32 =
      ((((L <<< 6 ||| T) <<< 6 ||| R) <<< 6 ||| B) <<< 6) % U32 := by
  have e : U32 = 2 ^ 32 := by decide
  rw [e]
  have s1 : (((L <<< 6) % 2 ^ 32 ||| T) <<< 6) % 2 ^ 32 = ((L <<< 6 ||| T) <<< 6) % 2 ^ 32 :=
    shl_mod_or _ _
  have s2 : ((((((L <<< 6) % 2 ^ 32 ||| T) <<< 6) % 2 ^ 32) ||| R) <<< 6) % 2 ^ 32 =
      (((L <<< 6 ||| T) <<< 6 ||| R) <<< 6) % 2 ^ 32 :=
    (shl_mod_or _ _).trans (shl_or_mod_congr _ _ _ s1)
  exact (shl_mod_or _ _).trans (shl_or_mod_congr _ _ _ s2)

/-- The key that `loadIsom` computes for a tile group whose links are `uint16_t` values:
`(((L<<6|T)<<6|R)<<6|B)<<6` in `uint32_t`, OR-ed with the terrain type of the group when one
of the four links is at least 48. -/
theorem tileGroupHash_eq (g : TileGroup)
    (h : g.links.left < U16 ∧ g.links.top < U16 ∧ g.links.right < U16 ∧ g.links.bottom < U16) :
    tileGroupHash g =
      if g.links.left ≥ 48 ∨ g.links.top ≥ 48 ∨ g.links.right ≥ 48 ∨ g.links.bottom ≥ 48 then
        ((((g.links.left <<< 6 ||| g.links.top) <<< 6 ||| g.links.right) <<< 6 |||
          g.links.bottom) <<< 6) % U32 ||| g.terrainType
      else
        ((((g.links.left <<< 6 ||| g.links.top) <<< 6 ||| g.links.right) <<< 6 |||
          g.links.bottom) <<< 6) % U32 := by
  obtain ⟨h1, h2, h3, h4⟩ := h
  have e1 : g.links.left % U32 = g.links.left :=
    Nat.mod_eq_of_lt (by unfold U16 at h1; unfold U32; omega)
  have e2 : g.links.top % U32 = g.links.top :=
    Nat.mod_eq_of_lt (by unfold U16 at h2; unfold U32; omega)
  have e3 : g.links.right % U32 = g.links.right :=
    Nat.mod_eq_of_lt (by unfold U16 at h3; unfold U32; omega)
  have e4 : g.links.bottom % U32 = g.links.bottom :=
    Nat.mod_eq_of_lt (by unfold U16 at h4; unfold U32; omega)
  unfold tileGroupHash
  simp only [e1, e2, e3, e4, packed_eq]

/-- C20: after the loop of `Tiles::loadIsom` on a table of at most 65536 tile groups (whose
links are `uint16_t` values), starting from an empty index, every even group index
`i < tileGroups.size()` occurs exactly once over all buckets of `hashToTileGroup`, namely in
the bucket whose key is `(((L<<6|T)<<6|R)<<6|B)<<6` (a `uint32_t` value, so reduced modulo
`2^32`), OR-ed with the terrain type of the group `i` when one of its links `L`, `T`, `R`, `B`
is at least 48; no odd index occurs in any bucket; and every bucket lists its indices in
ascending order. -/
theorem C20_hash_index (tileGroups : List TileGroup) (hn : tileGroups.length ≤ 65536)
    (hlinks : ∀ g ∈ tileGroups,
      g.links.left < U16 ∧ g.links.top < U16 ∧ g.links.right < U16 ∧ g.links.bottom < U16) :
    (∀ i, i < tileGroups.length → i % 2 = 0 →
      occurrences (loadIsomHashes tileGroups []) i = 1 ∧
      ∃ l, (loadIsomHashes tileGroups []).lookup
          (if (tileGroups.getD i default).links.left ≥ 48 ∨
              (tileGroups.getD i default).links.top ≥ 48 ∨
              (tileGroups.getD i default).links.right ≥ 48 ∨
              (tileGroups.getD i default).links.bottom ≥ 48 then
            (((((tileGroups.getD i default).links.left <<< 6 |||
                (tileGroups.getD i default).links.top) <<< 6 |||
                (tileGroups.getD i default).links.right) <<< 6 |||
                (tileGroups.getD i default).links.bottom) <<< 6) % U32 |||
              (tileGroups.getD i default).terrainType
          else
            (((((tileGroups.getD i default).links.left <<< 6 |||
                (tileGroups.getD i default).links.top) <<< 6 |||
                (tileGroups.getD i default).links.right) <<< 6 |||
                (tileGroups.getD i default).links.bottom) <<< 6) % U32)
        = some l ∧ i ∈ l) ∧
    (∀ b ∈ loadIsomHashes tileGroups [], ∀ j ∈ b.2, j % 2 = 0 ∧ j < tileGroups.length) ∧
    (∀ b ∈ loadIsomHashes tileGroups [], b.2.Pairwise (· < ·)) := by
  have hk : 2 * ((tileGroups.length + 1) / 2) ≤ U16 := by unfold U16; omega
  obtain ⟨h1, h2, h3, h4⟩ := foldl_evens tileGroups ((tileGroups.length + 1) / 2) hk
  have e : (((List.range ((tileGroups.length + 1) / 2)).map fun n => 2 * n).foldl
      (fun h i => hashInsert h (tileGroupHash (tileGroups.getD i default)) i) [])
      = loadIsomHashes tileGroups [] := rfl
  rw [e] at h1 h2 h3 h4
  refine ⟨?_, ?_, h3⟩
  · intro i hi hev
    have hmem : i ∈ (List.range ((tileGroups.length + 1) / 2)).map (fun n => 2 * n) :=
      (mem_evens _ i).mpr ⟨hev, by omega⟩
    have hocc : occurrences (loadIsomHashes tileGroups []) i = 1 := by
      rw [h4 i]
      exact List.count_eq_one_of_mem (nodup_evens _) hmem
    refine ⟨hocc, ?_⟩
    obtain ⟨b, hb, hib⟩ := exists_bucket_of_occurrences (loadIsomHashes tileGroups []) i
      (by rw [hocc]; exact Nat.one_pos)
    refine ⟨b.2, ?_, hib⟩
    have hg : tileGroups.getD i default ∈ tileGroups := by
      rw [List.getD_eq_getElem _ _ hi]
      exact List.getElem_mem hi
    rw [← tileGroupHash_eq _ (hlinks _ hg), ← (h2 b hb i hib).2]
    exact lookup_of_mem_nodup _ b h1 hb
  · intro b hb j hj
    have := (mem_evens _ j).mp (h2 b hb j hj).1
    exact ⟨this.1, by omega⟩

set_option maxRecDepth 100000 in
/-- C20 on `hardEdgeGroups`: the group 0 (soft links) sits in the bucket of the packed links
alone; the groups 2 and 6, whose left link is exactly 48, share the bucket of the key with the
terrain type 6 OR-ed in (805843206 = 805843200 | 6); the group 4, whose left link is 47, sits
in the bucket of the packed links alone. -/
theorem C20_hash_index_witness :
    hardEdgeGroups.length ≤ 65536 ∧
    (∀ g ∈ hardEdgeGroups,
      g.links.left < U16 ∧ g.links.top < U16 ∧ g.links.right < U16 ∧ g.links.bottom < U16) ∧
    loadIsomHashes hardEdgeGroups [] =
      [(17314048, [0]), (805843206, [2, 6]), (789065984, [4])] ∧
    ((∀ i, i < hardEdgeGroups.length → i % 2 = 0 →
      occurrences (loadIsomHashes hardEdgeGroups []) i = 1 ∧
      ∃ l, (loadIsomHashes hardEdgeGroups []).lookup
          (if (hardEdgeGroups.getD i default).links.left ≥ 48 ∨
              (hardEdgeGroups.getD i default).links.top ≥ 48 ∨
              (hardEdgeGroups.getD i default).links.right ≥ 48 ∨
              (hardEdgeGroups.getD i default).links.bottom ≥ 48 then
            (((((hardEdgeGroups.getD i default).links.left <<< 6 |||
                (hardEdgeGroups.getD i default).links.top) <<< 6 |||
                (hardEdgeGroups.getD i default).links.right) <<< 6 |||
                (hardEdgeGroups.getD i default).links.bottom) <<< 6) % U32 |||
              (hardEdgeGroups.getD i default).terrainType
          else
            (((((hardEdgeGroups.getD i default).links.left <<< 6 |||
                (hardEdgeGroups.getD i default).links.top) <<< 6 |||
                (hardEdgeGroups.getD i default).links.right) <<< 6 |||
                (hardEdgeGroups.getD i default).links.bottom) <<< 6) % U32)
        = some l ∧ i ∈ l) ∧
    (∀ b ∈ loadIsomHashes hardEdgeGroups [], ∀ j ∈ b.2, j % 2 = 0 ∧ j < hardEdgeGroups.length) ∧
    (∀ b ∈ loadIsomHashes hardEdgeGroups [], b.2.Pairwise (· < ·))) :=
  ⟨by decide, by decide, by decide, C20_hash_index hardEdgeGroups (by decide) (by decide)⟩

end Tiles
end IsomTerrain
namespace IsomTerrain
namespace Tiles

/-! ## `populateTerrainTypeMap`: the expansion of one row -/

theorem expandRow_succ (temp : List Nat) (start d fuel j : Nat) (st : ExpandState) :
    expandRow temp start d (fuel + 1) j st =
      if temp.getD j 0 ≠ 0 then expandRow temp start d fuel (j + 1) (visit start d st (temp.getD j 0))
      else some st := by
  show (if temp.getD j 0 ≠ 0 then _ else some st) = _
  by_cases h : temp.getD j 0 ≠ 0
  · rw [if_pos h, if_pos h]
    unfold visit
    split_ifs <;> rfl
  · rw [if_neg h, if_neg h]

/-- The scan of a row that holds the non-zero entries `l` followed by a zero visits the entries
of `l` in order. -/
theorem expandRow_eq (temp : List Nat) (start d : Nat) :
    ∀ (l : List Nat) (fuel j : Nat) (st : ExpandState),
      (∀ k, k < l.length → temp.getD (j + k) 0 = l.getD k 0) → (∀ t ∈ l, t ≠ 0) →
      temp.getD (j + l.length) 0 = 0 → l.length < fuel →
      expandRow temp start d fuel j st = some (l.foldl (visit start d) st) := by
  intro l
  induction l with
  | nil =>
    intro fuel j st _ _ hz hf
    obtain ⟨n, rfl⟩ : ∃ n, fuel = n + 1 := ⟨fuel - 1, by simp at hf; omega⟩
    rw [expandRow_succ]
    simp only [List.length_nil, Nat.add_zero] at hz
    rw [if_neg (by rw [hz]; exact fun h => h rfl)]
    rfl
  | cons a t ih =>
    intro fuel j st hl hnz hz hf
    obtain ⟨n, rfl⟩ : ∃ n, fuel = n + 1 := ⟨fuel - 1, by simp at hf; omega⟩
    rw [expandRow_succ]
    have h0 : temp.getD j 0 = a := by
      have := hl 0 (by simp)
      simpa using this
    have ha : a ≠ 0 := hnz a (List.mem_cons_self _ _)
    rw [h0, if_pos ha, List.foldl_cons]
    apply ih
    · intro k hk
      have := hl (k + 1) (by simp; omega)
      rw [show j + 1 + k = j + (k + 1) by omega, this]
      rfl
    · exact fun x hx => hnz x (List.mem_cons_of_mem _ hx)
    · rw [show j + 1 + t.length = j + (a :: t).length by simp; omega]
      exact hz
    · simp at hf; omega

end Tiles
end IsomTerrain
namespace IsomTerrain
namespace Tiles

theorem visit_of_zero (start d : Nat) (st : ExpandState) (t : Nat)
    (hz : st.terrainTypeMap.getD (start + t) 0 = 0) :
    visit start d st t =
      { terrainTypeMap := st.terrainTypeMap.set (start + t)
          (if st.rowData.getD d 0 = 0 then t else st.rowData.getD d 0)
        rowData := st.rowData.set t
          (if st.rowData.getD d 0 = 0 then t else st.rowData.getD d 0)
        terrainTypeStack := st.terrainTypeStack ++ [t] } := by
  unfold visit
  rw [if_pos hz]

theorem visit_of_ne (start d : Nat) (st : ExpandState) (t : Nat)
    (hz : st.terrainTypeMap.getD (start + t) 0 ≠ 0) : visit start d st t = st := by
  unfold visit
  rw [if_neg hz]

theorem visit_length (start d : Nat) (st : ExpandState) (t : Nat) :
    (visit start d st t).terrainTypeMap.length = st.terrainTypeMap.length := by
  by_cases hz : st.terrainTypeMap.getD (start + t) 0 = 0
  · rw [visit_of_zero start d st t hz]
    exact List.length_set _ _ _
  · rw [visit_of_ne start d st t hz]

theorem visit_other (start d : Nat) (st : ExpandState) (t k : Nat) (hk : k ≠ start + t) :
    (visit start d st t).terrainTypeMap.getD k 0 = st.terrainTypeMap.getD k 0 := by
  by_cases hz : st.terrainTypeMap.getD (start + t) 0 = 0
  · rw [visit_of_zero start d st t hz]
    show (st.terrainTypeMap.set (start + t) _).getD k 0 = _
    rw [getD_set_eq, if_neg (fun h => hk h.1.symm)]
  · rw [visit_of_ne start d st t hz]

theorem visit_marks (start d : Nat) (st : ExpandState) (t : Nat) (ht : t ≠ 0)
    (hlen : start + t < st.terrainTypeMap.length) :
    (visit start d st t).terrainTypeMap.getD (start + t) 0 ≠ 0 := by
  by_cases hz : st.terrainTypeMap.getD (start + t) 0 = 0
  · rw [visit_of_zero start d st t hz]
    show (st.terrainTypeMap.set (start + t) _).getD (start + t) 0 ≠ 0
    rw [getD_set_eq, if_pos ⟨rfl, hlen⟩]
    split_ifs with h0
    · exact ht
    · exact h0
  · rw [visit_of_ne start d st t hz]; exact hz

theorem visit_mono (start d : Nat) (st : ExpandState) (t k : Nat)
    (h : st.terrainTypeMap.getD k 0 ≠ 0) :
    (visit start d st t).terrainTypeMap.getD k 0 ≠ 0 := by
  by_cases hk : k = start + t
  · subst hk
    rw [visit_of_ne start d st t h]
    exact h
  · rw [visit_other start d st t k hk]; exact h

theorem visit_stack (start d : Nat) (st : ExpandState) (t : Nat) :
    (visit start d st t).terrainTypeStack = st.terrainTypeStack ∨
    (visit start d st t).terrainTypeStack = st.terrainTypeStack ++ [t] := by
  by_cases hz : st.terrainTypeMap.getD (start + t) 0 = 0
  · rw [visit_of_zero start d st t hz]; right; rfl
  · rw [visit_of_ne start d st t hz]; left; rfl

theorem countP_lt_of_flip (p q : Nat → Bool) (l : List Nat) (t : Nat) (ht : t ∈ l)
    (hpt : p t = true) (hqt : q t = false) (hle : ∀ x, q x = true → p x = true) :
    l.countP q + 1 ≤ l.countP p := by
  induction l with
  | nil => cases ht
  | cons a rest ih =>
    rw [List.countP_cons, List.countP_cons]
    have hmono : rest.countP q ≤ rest.countP p := by
      apply List.countP_mono_left
      intro x _ hx
      exact hle x hx
    by_cases e : a = t
    · subst e
      simp only [hpt, hqt, if_true, Bool.false_eq_true, if_false]
      omega
    · have ht' : t ∈ rest := by
        rcases List.mem_cons.mp ht with h | h
        · exact absurd h.symm e
        · exact h
      have := ih ht'
      by_cases hq : q a = true
      · simp only [hq, hle a hq, if_true]; omega
      · by_cases hp : p a = true
        · simp only [hq, hp, if_true, if_false, Bool.false_eq_true]; omega
        · simp only [hq, hp, if_false, Bool.false_eq_true]; omega

/-- A visit does not increase the sum of the queue length and the number of unmarked types. -/
theorem visit_potential (total start d : Nat) (st : ExpandState) (t : Nat) (ht : t < total)
    (ht0 : t ≠ 0) (hlen : start + t < st.terrainTypeMap.length) :
    (visit start d st t).terrainTypeStack.length +
        unmarked total start (visit start d st t).terrainTypeMap ≤
      st.terrainTypeStack.length + unmarked total start st.terrainTypeMap := by
  by_cases hz : st.terrainTypeMap.getD (start + t) 0 = 0
  · have hs : (visit start d st t).terrainTypeStack = st.terrainTypeStack ++ [t] := by
      rw [visit_of_zero start d st t hz]
    have hm := visit_marks start d st t ht0 hlen
    have hc : unmarked total start (visit start d st t).terrainTypeMap + 1 ≤
        unmarked total start st.terrainTypeMap := by
      unfold unmarked
      apply countP_lt_of_flip _ _ _ t (List.mem_range.mpr ht)
      · simpa using hz
      · simpa using hm
      · intro x hx
        have hx' : (visit start d st t).terrainTypeMap.getD (start + x) 0 = 0 := by
          simpa using hx
        by_contra hne
        have : st.terrainTypeMap.getD (start + x) 0 ≠ 0 := by simpa using hne
        exact visit_mono start d st t _ this hx'
    rw [hs, List.length_append]
    simp only [List.length_singleton]
    omega
  · rw [visit_of_ne start d st t hz]

end Tiles
end IsomTerrain
namespace IsomTerrain
namespace Tiles

theorem row_index_lt (total i t : Nat) (hi : i < total) (ht : t < total) :
    i * total + t < total * total := by
  calc i * total + t < i * total + total := by omega
    _ = (i + 1) * total := by ring
    _ ≤ total * total := Nat.mul_le_mul_right _ hi

/-- A visit of a neighbour of the type being expanded keeps the invariant of the row. -/
theorem rowInv_visit (adj : Nat → List Nat) (total i : Nat) (map0 : List Nat) (d : Nat)
    (st : ExpandState) (t : Nat) (hfit : AdjacencyFits adj total) (hi : i < total)
    (hd : d < total) (hRd : Relation.ReflTransGen (fun a b => b ∈ adj a) i d) (ht : t ∈ adj d)
    (h : RowInv adj total i map0 (some d) st) :
    RowInv adj total i map0 (some d) (visit (i * total) d st t) := by
  obtain ⟨hL, hA, hB, hC, hD, hF⟩ := h
  have ht0 : t ≠ 0 := ((hfit d hd).2 t ht).1
  have htN : t < total := ((hfit d hd).2 t ht).2
  have hRt : Relation.ReflTransGen (fun a b => b ∈ adj a) i t := hRd.tail ht
  have hnew : ∀ t', (visit (i * total) d st t).terrainTypeMap.getD (i * total + t') 0 ≠ 0 →
      st.terrainTypeMap.getD (i * total + t') 0 = 0 →
      t' = t ∧ st.terrainTypeMap.getD (i * total + t) 0 = 0 := by
    intro t' hm hz
    by_cases e : t' = t
    · subst e; exact ⟨rfl, hz⟩
    · exfalso
      rw [visit_other (i * total) d st t _ (by omega)] at hm
      exact hm hz
  refine ⟨?_, ?_, ?_, ?_, ?_, ?_⟩
  · rw [visit_length]; exact hL
  · intro t' ht' hm
    by_cases hz : st.terrainTypeMap.getD (i * total + t') 0 = 0
    · rw [(hnew t' hm hz).1]; exact hRt
    · exact hA t' ht' hz
  · intro q hq
    rcases visit_stack (i * total) d st t with e | e
    · rw [e] at hq; exact hB q hq
    · rw [e] at hq
      rcases List.mem_append.mp hq with h1 | h1
      · exact hB q h1
      · rw [List.mem_singleton.mp h1]; exact ⟨htN, hRt⟩
  · intro t' ht' hm
    have hsub : ∀ q, q ∈ st.terrainTypeStack → q ∈ (visit (i * total) d st t).terrainTypeStack := by
      intro q hq
      rcases visit_stack (i * total) d st t with e | e
      · rw [e]; exact hq
      · rw [e]; exact List.mem_append_left _ hq
    by_cases hold : st.terrainTypeMap.getD (i * total + t') 0 ≠ 0 ∨ t' = i
    · rcases hC t' ht' hold with h1 | h1 | h1
      · exact Or.inl h1
      · exact Or.inr (Or.inl (hsub t' h1))
      · exact Or.inr (Or.inr (fun s hs => visit_mono _ _ _ _ _ (h1 s hs)))
    · have hz : st.terrainTypeMap.getD (i * total + t') 0 = 0 := by
        by_contra hne; exact hold (Or.inl hne)
      have hmk : (visit (i * total) d st t).terrainTypeMap.getD (i * total + t') 0 ≠ 0 := by
        rcases hm with h1 | h1
        · exact h1
        · exact absurd (Or.inr h1) hold
      obtain ⟨e, hzt⟩ := hnew t' hmk hz
      right; left
      rw [e, visit_of_zero _ _ _ _ hzt]
      exact List.mem_append_right _ (List.mem_singleton_self _)
  · by_cases e : t = i
    · subst e
      have hne : st.terrainTypeMap.getD (t * total + t) 0 ≠ 0 := by rw [hD]; exact ht0
      rw [visit_of_ne _ _ _ _ hne]; exact hD
    · rw [visit_other _ _ _ _ _ (by omega)]; exact hD
  · intro k hk
    rw [visit_other _ _ _ _ _ (by
      rcases hk with h1 | h1
      · omega
      · have : (i + 1) * total = i * total + total := by ring
        omega)]
    exact hF k hk

/-- The scan of the whole adjacency list of `d` keeps the invariant, marks every neighbour of
`d`, keeps the marks, and does not increase the potential. -/
theorem rowInv_fold (adj : Nat → List Nat) (total i : Nat) (map0 : List Nat) (d : Nat)
    (hfit : AdjacencyFits adj total) (hi : i < total) (hd : d < total)
    (hRd : Relation.ReflTransGen (fun a b => b ∈ adj a) i d) :
    ∀ (l : List Nat) (st : ExpandState), (∀ s ∈ l, s ∈ adj d) →
      RowInv adj total i map0 (some d) st →
      RowInv adj total i map0 (some d) (l.foldl (visit (i * total) d) st) ∧
      (∀ s ∈ l, (l.foldl (visit (i * total) d) st).terrainTypeMap.getD (i * total + s) 0 ≠ 0) ∧
      (∀ k, st.terrainTypeMap.getD k 0 ≠ 0 →
        (l.foldl (visit (i * total) d) st).terrainTypeMap.getD k 0 ≠ 0) ∧
      (l.foldl (visit (i * total) d) st).terrainTypeStack.length +
          unmarked total (i * total) (l.foldl (visit (i * total) d) st).terrainTypeMap ≤
        st.terrainTypeStack.length + unmarked total (i * total) st.terrainTypeMap := by
  intro l
  induction l with
  | nil => intro st _ h; exact ⟨h, fun s hs => absurd hs (List.not_mem_nil _), fun _ hk => hk, le_refl _⟩
  | cons a rest ih =>
    intro st hsub h
    rw [List.foldl_cons]
    have ha : a ∈ adj d := hsub a (List.mem_cons_self _ _)
    have ha0 : a ≠ 0 := ((hfit d hd).2 a ha).1
    have haN : a < total := ((hfit d hd).2 a ha).2
    have hlen : i * total + a < st.terrainTypeMap.length := by
      rw [h.1]; exact row_index_lt total i a hi haN
    have h1 := rowInv_visit adj total i map0 d st a hfit hi hd hRd ha h
    obtain ⟨r1, r2, r3, r4⟩ := ih (visit (i * total) d st a)
      (fun s hs => hsub s (List.mem_cons_of_mem _ hs)) h1
    refine ⟨r1, ?_, ?_, ?_⟩
    · intro s hs
      rcases List.mem_cons.mp hs with e | e
      · rw [e]
        exact r3 _ (visit_marks (i * total) d st a ha0 hlen)
      · exact r2 s e
    · intro k hk
      exact r3 k (visit_mono _ _ _ _ _ hk)
    · exact le_trans r4 (visit_potential total (i * total) d st a haN ha0 hlen)

end Tiles
end IsomTerrain
namespace IsomTerrain
namespace Tiles

theorem expandStack_nil (temp : List Nat) (total start fuel : Nat) (st : ExpandState)
    (h : st.terrainTypeStack = []) :
    expandStack temp total start (fuel + 1) st = some st.terrainTypeMap := by
  unfold expandStack
  rw [h]

theorem expandStack_cons (temp : List Nat) (total start fuel : Nat) (st : ExpandState)
    (d : Nat) (rest : List Nat) (h : st.terrainTypeStack = d :: rest) :
    expandStack temp total start (fuel + 1) st =
      match expandRow temp start d (temp.length + 1) (d * total)
          { st with terrainTypeStack := rest } with
      | some st1 => expandStack temp total start fuel st1
      | none => none := by
  conv => lhs; unfold expandStack
  rw [h]
  try rfl

/-- The rows of `temp` hold the adjacency lists. -/
theorem scan_row (adj : Nat → List Nat) (total : Nat) (temp : List Nat)
    (hfit : AdjacencyFits adj total)
    (hT : ∀ d k, d < total → k < total → temp.getD (d * total + k) 0 = (adj d).getD k 0)
    (hlen : temp.length = total * total) (start d : Nat) (hd : d < total) (st : ExpandState) :
    expandRow temp start d (temp.length + 1) (d * total) st =
      some ((adj d).foldl (visit start d) st) := by
  have hl := (hfit d hd).1
  apply expandRow_eq temp start d (adj d) _ _ st
  · intro k hk
    exact hT d k hd (by omega)
  · exact fun t ht => ((hfit d hd).2 t ht).1
  · rw [hT d _ hd hl]
    exact List.getD_eq_default _ _ (le_refl _)
  · rw [hlen]
    have : total ≤ total * total := Nat.le_mul_of_pos_left _ (by omega)
    omega

/-- The queue loop ends within the fuel and leaves the invariant with an empty queue. -/
theorem expandStack_spec (adj : Nat → List Nat) (total i : Nat) (map0 temp : List Nat)
    (hfit : AdjacencyFits adj total) (hi : i < total)
    (hT : ∀ d k, d < total → k < total → temp.getD (d * total + k) 0 = (adj d).getD k 0)
    (hlen : temp.length = total * total) :
    ∀ (fuel : Nat) (st : ExpandState), RowInv adj total i map0 none st →
      st.terrainTypeStack.length + unmarked total (i * total) st.terrainTypeMap < fuel →
      ∃ stf, expandStack temp total (i * total) fuel st = some stf.terrainTypeMap ∧
        RowInv adj total i map0 none stf ∧ stf.terrainTypeStack = [] := by
  intro fuel
  induction fuel with
  | zero => intro st _ h; omega
  | succ n ih =>
    intro st hinv hfuel
    cases hs : st.terrainTypeStack with
    | nil =>
      exact ⟨st, expandStack_nil temp total _ n st hs, hinv, hs⟩
    | cons d rest =>
      rw [expandStack_cons temp total _ n st d rest hs]
      obtain ⟨hL, hA, hB, hC, hD, hF⟩ := hinv
      have hd : d < total := (hB d (by rw [hs]; exact List.mem_cons_self _ _)).1
      have hRd := (hB d (by rw [hs]; exact List.mem_cons_self _ _)).2
      rw [scan_row adj total temp hfit hT hlen (i * total) d hd]
      simp only []
      have hpop : RowInv adj total i map0 (some d) { st with terrainTypeStack := rest } := by
        refine ⟨hL, hA, ?_, ?_, hD, hF⟩
        · intro q hq
          exact hB q (by rw [hs]; exact List.mem_cons_of_mem _ hq)
        · intro t ht hm
          rcases hC t ht hm with h1 | h1 | h1
          · cases h1
          · rw [hs] at h1
            rcases List.mem_cons.mp h1 with e | e
            · left; rw [e]
            · right; left; exact e
          · right; right; exact h1
      obtain ⟨r1, r2, _, r4⟩ := rowInv_fold adj total i map0 d hfit hi hd hRd (adj d)
        { st with terrainTypeStack := rest } (fun s hs => hs) hpop
      apply ih
      · obtain ⟨gL, gA, gB, gC, gD, gF⟩ := r1
        refine ⟨gL, gA, gB, ?_, gD, gF⟩
        intro t ht hm
        rcases gC t ht hm with h1 | h1 | h1
        · have e : d = t := Option.some.inj h1
          subst e
          right; right; exact r2
        · right; left; exact h1
        · right; right; exact h1
      · have : ({ st with terrainTypeStack := rest } : ExpandState).terrainTypeStack.length + 1
            = st.terrainTypeStack.length := by
          rw [hs]; rfl
        have e2 : ({ st with terrainTypeStack := rest } : ExpandState).terrainTypeMap
            = st.terrainTypeMap := rfl
        rw [e2] at r4
        omega

end Tiles
end IsomTerrain
namespace IsomTerrain
namespace Tiles

theorem unmarked_le (total start : Nat) (m : List Nat) : unmarked total start m ≤ total := by
  unfold unmarked
  have := List.countP_le_length (fun t => decide (m.getD (start + t) 0 = 0)) (l := List.range total)
  rw [List.length_range] at this
  exact this

/-- The expansion of the type `i` in a map whose row `i` is zero: the call returns, only the row
`i` changes, the diagonal entry is `i`, and the non-zero entries of the row are the types
reachable from `i` (the entry `(0, 0)` apart, which stays zero). -/
theorem expandType_spec (adj : Nat → List Nat) (total i : Nat) (map temp : List Nat)
    (hfit : AdjacencyFits adj total) (hi : i < total) (h16 : total ≤ U16)
    (hT : ∀ d k, d < total → k < total → temp.getD (d * total + k) 0 = (adj d).getD k 0)
    (hlen : temp.length = total * total) (hmlen : map.length = total * total)
    (hzero : ∀ t, t < total → map.getD (i * total + t) 0 = 0) :
    ∃ m, expandType temp total map i = some m ∧ m.length = total * total ∧
      (∀ k, (k < i * total ∨ (i + 1) * total ≤ k) → m.getD k 0 = map.getD k 0) ∧
      m.getD (i * total + i) 0 = i ∧
      (∀ j, j < total → ¬ (i = 0 ∧ j = 0) →
        (m.getD (i * total + j) 0 ≠ 0 ↔ Relation.ReflTransGen (fun a b => b ∈ adj a) i j)) := by
  have hmod : i % U16 = i := Nat.mod_eq_of_lt (by omega)
  have hidx : i * total + i < map.length := by
    rw [hmlen]; exact row_index_lt total i i hi hi
  have hset : ∀ k, (map.set (i * total + i) i).getD k 0 =
      if k = i * total + i then i else map.getD k 0 := by
    intro k
    rw [getD_set_eq]
    by_cases e : k = i * total + i
    · subst e; rw [if_pos ⟨rfl, hidx⟩, if_pos rfl]
    · rw [if_neg (fun h => e h.1.symm), if_neg e]
  have hinit : RowInv adj total i map none
      { terrainTypeMap := map.set (i * total + i) i, rowData := List.replicate total 0,
        terrainTypeStack := [i] } := by
    have hmk : ∀ t, t < total → (map.set (i * total + i) i).getD (i * total + t) 0 ≠ 0 →
        t = i := by
      intro t ht hm
      rw [hset] at hm
      by_contra e
      rw [if_neg (by omega), hzero t ht] at hm
      exact hm rfl
    refine ⟨?_, ?_, ?_, ?_, ?_, ?_⟩
    · show (map.set _ _).length = _
      rw [List.length_set]; exact hmlen
    · intro t ht hm
      rw [hmk t ht hm]
    · intro q hq
      rw [List.mem_singleton.mp hq]
      exact ⟨hi, Relation.ReflTransGen.refl⟩
    · intro t ht hm
      right; left
      have : t = i := by
        rcases hm with h1 | h1
        · exact hmk t ht h1
        · exact h1
      rw [this]; exact List.mem_singleton_self _
    · show (map.set _ _).getD _ 0 = i
      rw [hset, if_pos rfl]
    · intro k hk
      show (map.set _ _).getD k 0 = _
      rw [hset, if_neg (by
        rcases hk with h1 | h1
        · omega
        · have : (i + 1) * total = i * total + total := by ring
          omega)]
  have hfuel : ([i] : List Nat).length + unmarked total (i * total) (map.set (i * total + i) i)
      < total * total + 2 := by
    have h1 := unmarked_le total (i * total) (map.set (i * total + i) i)
    have h2 : total ≤ total * total := Nat.le_mul_of_pos_left _ (by omega)
    simp only [List.length_singleton]
    omega
  obtain ⟨stf, hr, hinv, hemp⟩ := expandStack_spec adj total i map temp hfit hi hT hlen
    (total * total + 2) _ hinit hfuel
  obtain ⟨gL, gA, _, gC, gD, gF⟩ := hinv
  have hclosed : ∀ t, t < total → (stf.terrainTypeMap.getD (i * total + t) 0 ≠ 0 ∨ t = i) →
      ∀ s ∈ adj t, stf.terrainTypeMap.getD (i * total + s) 0 ≠ 0 := by
    intro t ht hm
    rcases gC t ht hm with h1 | h1 | h1
    · cases h1
    · rw [hemp] at h1; cases h1
    · exact h1
  have hreach : ∀ j, Relation.ReflTransGen (fun a b => b ∈ adj a) i j →
      j < total ∧ (stf.terrainTypeMap.getD (i * total + j) 0 ≠ 0 ∨ j = i) := by
    intro j hj
    induction hj with
    | refl => exact ⟨hi, Or.inr rfl⟩
    | tail _ hbc ih =>
      exact ⟨((hfit _ ih.1).2 _ hbc).2, Or.inl (hclosed _ ih.1 ih.2 _ hbc)⟩
  refine ⟨stf.terrainTypeMap, ?_, gL, gF, gD, ?_⟩
  · unfold expandType
    rw [hmod, Nat.mul_comm total i]
    exact hr
  · intro j hj hne
    constructor
    · exact gA j hj
    · intro hR
      rcases (hreach j hR).2 with h1 | h1
      · exact h1
      · subst h1
        rw [gD]
        intro h0
        exact hne ⟨h0, h0⟩

end Tiles
end IsomTerrain
namespace IsomTerrain
namespace Tiles

theorem other_row (total i i' t : Nat) (ht : t < total) (hne : i' ≠ i) :
    i' * total + t < i * total ∨ (i + 1) * total ≤ i' * total + t := by
  rcases Nat.lt_or_gt_of_ne hne with h | h
  · left
    have : (i' + 1) * total ≤ i * total := Nat.mul_le_mul_right _ h
    have e : (i' + 1) * total = i' * total + total := by ring
    omega
  · right
    have : (i + 1) * total ≤ i' * total := Nat.mul_le_mul_right _ h
    omega

/-- The loop over the types: every type of the list gets its row, the rows of the other types
are kept. -/
theorem expandTypes_spec (adj : Nat → List Nat) (total : Nat) (temp : List Nat)
    (hfit : AdjacencyFits adj total) (h16 : total ≤ U16)
    (hT : ∀ d k, d < total → k < total → temp.getD (d * total + k) 0 = (adj d).getD k 0)
    (hlen : temp.length = total * total) :
    ∀ (l : List Nat) (map : List Nat), l.Nodup → (∀ i ∈ l, i < total) →
      map.length = total * total →
      (∀ i ∈ l, ∀ t, t < total → map.getD (i * total + t) 0 = 0) →
      ∃ m, expandTypes temp total l map = some m ∧ m.length = total * total ∧
        (∀ i ∈ l, m.getD (i * total + i) 0 = i ∧
          ∀ j, j < total → ¬ (i = 0 ∧ j = 0) →
            (m.getD (i * total + j) 0 ≠ 0 ↔
              Relation.ReflTransGen (fun a b => b ∈ adj a) i j)) ∧
        (∀ i, i ∉ l → ∀ t, t < total → m.getD (i * total + t) 0 = map.getD (i * total + t) 0) := by
  intro l
  induction l with
  | nil =>
    intro map _ _ hm _
    exact ⟨map, rfl, hm, fun i hi => absurd hi (List.not_mem_nil _), fun _ _ _ _ => rfl⟩
  | cons i rest ih =>
    intro map hnd hlt hm hzero
    rw [List.nodup_cons] at hnd
    have hi : i < total := hlt i (List.mem_cons_self _ _)
    obtain ⟨m1, e1, l1, f1, d1, r1⟩ := expandType_spec adj total i map temp hfit hi h16 hT hlen hm
      (hzero i (List.mem_cons_self _ _))
    have hz1 : ∀ i' ∈ rest, ∀ t, t < total → m1.getD (i' * total + t) 0 = 0 := by
      intro i' hi' t ht
      have hne : i' ≠ i := fun e => hnd.1 (e ▸ hi')
      rw [f1 _ (other_row total i i' t ht hne)]
      exact hzero i' (List.mem_cons_of_mem _ hi') t ht
    obtain ⟨m2, e2, l2, s2, f2⟩ := ih m1 hnd.2 (fun x hx => hlt x (List.mem_cons_of_mem _ hx)) l1 hz1
    refine ⟨m2, ?_, l2, ?_, ?_⟩
    · show (match expandType temp total map i with
        | some m => expandTypes temp total rest m
        | none => none) = some m2
      rw [e1]
      exact e2
    · intro i' hi'
      rcases List.mem_cons.mp hi' with e | e
      · subst e
        have hrow : ∀ t, t < total → m2.getD (i' * total + t) 0 = m1.getD (i' * total + t) 0 :=
          f2 i' hnd.1
        refine ⟨by rw [hrow i' hi]; exact d1, ?_⟩
        intro j hj hne
        rw [hrow j hj]
        exact r1 j hj hne
      · exact s2 i' e
    · intro i' hi' t ht
      have hne : i' ≠ i := fun e => hi' (e ▸ List.mem_cons_self _ _)
      rw [f2 i' (fun h => hi' (List.mem_cons_of_mem _ h)) t ht,
        f1 _ (other_row total i i' t ht hne)]

theorem adjacencySquare_getD (adj : Nat → List Nat) (total d k : Nat) (hd : d < total)
    (hk : k < total) :
    (adjacencySquare adj total).getD (d * total + k) 0 = (adj d).getD k 0 := by
  unfold adjacencySquare
  have hidx : d * total + k < total * total := row_index_lt total d k hd hk
  rw [List.getD_eq_getElem _ _ (by rw [List.length_map, List.length_range]; exact hidx)]
  rw [List.getElem_map, List.getElem_range]
  have e1 : (d * total + k) / total = d := by
    rw [Nat.add_comm, Nat.add_mul_div_right _ _ (by omega), Nat.div_eq_of_lt hk, Nat.zero_add]
  have e2 : (d * total + k) % total = k := by
    rw [Nat.add_comm, Nat.add_mul_mod_self_right, Nat.mod_eq_of_lt hk]
  rw [e1, e2]

/-- `populateTerrainTypeMap` on a compressed map whose decompression is the square of its
adjacency lists: the call returns a map with `map[i*N + i] = i` for every `i < N`, and for
`i, j < N` other than `i = j = 0`, `map[i*N + j] != 0` exactly when `j` is reachable from `i`.
The entry `map[0]` is zero. -/
theorem populateTerrainTypeMap_spec (compressed : List Nat) (total : Nat) (h16 : total ≤ U16)
    (hfit : AdjacencyFits (adjacencyList compressed) total)
    (hdec : decompress compressed total (compressed.length + 1) 0
      (List.replicate (total * total) 0) = some (adjacencySquare (adjacencyList compressed) total)) :
    ∃ m, populateTerrainTypeMap compressed total = some m ∧ m.length = total * total ∧
      ∀ i, i < total → m.getD (i * total + i) 0 = i ∧
        ∀ j, j < total → ¬ (i = 0 ∧ j = 0) →
          (m.getD (i * total + j) 0 ≠ 0 ↔ Reachable compressed i j) := by
  have hT := adjacencySquare_getD (adjacencyList compressed) total
  have hlen : (adjacencySquare (adjacencyList compressed) total).length = total * total := by
    unfold adjacencySquare
    rw [List.length_map, List.length_range]
  obtain ⟨m, e, l, s, _⟩ := expandTypes_spec (adjacencyList compressed) total _ hfit h16 hT hlen
    (List.range total).reverse (List.replicate (total * total) 0)
    (List.nodup_reverse.mpr (List.nodup_range total))
    (fun i hi => List.mem_range.mp (List.mem_reverse.mp hi))
    (List.length_replicate _ _)
    (fun i _ t _ => by
      rw [List.getD_eq_getElem?_getD, List.getElem?_replicate]
      split_ifs <;> rfl)
  refine ⟨m, ?_, l, ?_⟩
  · unfold populateTerrainTypeMap
    rw [hdec]
    exact e
  · intro i hi
    exact s i (List.mem_reverse.mpr (List.mem_range.mpr hi))

end Tiles
end IsomTerrain
namespace IsomTerrain
namespace Tiles

/-! ## The built-in tilesets -/

set_option maxRecDepth 1000000 in
theorem badlands_fits : AdjacencyFits (adjacencyList Brush.Badlands.terrainTypeMap) 36 := by
  decide!

set_option maxRecDepth 1000000 in
theorem badlands_decompress :
    decompress Brush.Badlands.terrainTypeMap 36 (Brush.Badlands.terrainTypeMap.length + 1) 0
      (List.replicate (36 * 36) 0)
      = some (adjacencySquare (adjacencyList Brush.Badlands.terrainTypeMap) 36) := by
  decide!

set_option maxRecDepth 1000000 in
theorem space_fits : AdjacencyFits (adjacencyList Brush.Space.terrainTypeMap) 22 := by
  decide!

set_option maxRecDepth 1000000 in
theorem space_decompress :
    decompress Brush.Space.terrainTypeMap 22 (Brush.Space.terrainTypeMap.length + 1) 0
      (List.replicate (22 * 22) 0)
      = some (adjacencySquare (adjacencyList Brush.Space.terrainTypeMap) 22) := by
  decide!

set_option maxRecDepth 1000000 in
theorem installation_fits : AdjacencyFits (adjacencyList Brush.Installation.terrainTypeMap) 16 := by
  decide!

set_option maxRecDepth 1000000 in
theorem installation_decompress :
    decompress Brush.Installation.terrainTypeMap 16 (Brush.Installation.terrainTypeMap.length + 1) 0
      (List.replicate (16 * 16) 0)
      = some (adjacencySquare (adjacencyList Brush.Installation.terrainTypeMap) 16) := by
  decide!

set_option maxRecDepth 1000000 in
theorem ashworld_fits : AdjacencyFits (adjacencyList Brush.Ashworld.terrainTypeMap) 18 := by
  decide!

set_option maxRecDepth 1000000 in
theorem ashworld_decompress :
    decompress Brush.Ashworld.terrainTypeMap 18 (Brush.Ashworld.terrainTypeMap.length + 1) 0
      (List.replicate (18 * 18) 0)
      = some (adjacencySquare (adjacencyList Brush.Ashworld.terrainTypeMap) 18) := by
  decide!

set_option maxRecDepth 1000000 in
theorem jungle_fits : AdjacencyFits (adjacencyList Brush.Jungle.terrainTypeMap) 36 := by
  decide!

set_option maxRecDepth 1000000 in
theorem jungle_decompress :
    decompress Brush.Jungle.terrainTypeMap 36 (Brush.Jungle.terrainTypeMap.length + 1) 0
      (List.replicate (36 * 36) 0)
      = some (adjacencySquare (adjacencyList Brush.Jungle.terrainTypeMap) 36) := by
  decide!

theorem loaded_eq :
    loadedTerrainTypeMap 0 = populateTerrainTypeMap Brush.Badlands.terrainTypeMap 36 ∧
    loadedTerrainTypeMap 1 = populateTerrainTypeMap Brush.Space.terrainTypeMap 22 ∧
    loadedTerrainTypeMap 2 = populateTerrainTypeMap Brush.Installation.terrainTypeMap 16 ∧
    loadedTerrainTypeMap 3 = populateTerrainTypeMap Brush.Ashworld.terrainTypeMap 18 ∧
    loadedTerrainTypeMap 4 = populateTerrainTypeMap Brush.Jungle.terrainTypeMap 36 ∧
    loadedTerrainTypeMap 5 = populateTerrainTypeMap Brush.Jungle.terrainTypeMap 36 ∧
    loadedTerrainTypeMap 6 = populateTerrainTypeMap Brush.Jungle.terrainTypeMap 36 ∧
    loadedTerrainTypeMap 7 = populateTerrainTypeMap Brush.Jungle.terrainTypeMap 36 :=
  ⟨rfl, rfl, rfl, rfl, rfl, rfl, rfl, rfl⟩

theorem tileset_sizes :
    tilesetTerrainTypes.map List.length = [36, 22, 16, 18, 36, 36, 36, 36] ∧
    compressedTerrainTypeMaps =
      [Brush.Badlands.terrainTypeMap, Brush.Space.terrainTypeMap,
        Brush.Installation.terrainTypeMap, Brush.Ashworld.terrainTypeMap,
        Brush.Jungle.terrainTypeMap, Brush.Jungle.terrainTypeMap, Brush.Jungle.terrainTypeMap,
        Brush.Jungle.terrainTypeMap] := ⟨rfl, rfl⟩

/-- C19 (amended): for each built-in tileset, with its compressed terrain type map and its
descriptor table of size `N`, `populateTerrainTypeMap` returns a map with `map[i*N + i] = i`
for every `i < N`, and for every `i, j < N` other than `i = j = 0`, `map[i*N + j] != 0` if and
only if the type `j` is reachable from the type `i` by following the adjacency lists (in zero
or more steps). -/
theorem C19_terrain_type_map_reachability (tilesetIndex : Nat) (ht : tilesetIndex < 8) :
    ∃ m, loadedTerrainTypeMap tilesetIndex = some m ∧
      ∀ i, i < (tilesetTerrainTypes.getD tilesetIndex []).length →
        m.getD (i * (tilesetTerrainTypes.getD tilesetIndex []).length + i) 0 = i ∧
        ∀ j, j < (tilesetTerrainTypes.getD tilesetIndex []).length → ¬ (i = 0 ∧ j = 0) →
          (m.getD (i * (tilesetTerrainTypes.getD tilesetIndex []).length + j) 0 ≠ 0 ↔
            Reachable (compressedTerrainTypeMaps.getD tilesetIndex []) i j) := by
  have h16 : ∀ n, n ≤ 36 → n ≤ U16 := fun n h => by unfold U16; omega
  have key : ∀ (c : List Nat) (n : Nat), n ≤ 36 → AdjacencyFits (adjacencyList c) n →
      decompress c n (c.length + 1) 0 (List.replicate (n * n) 0)
        = some (adjacencySquare (adjacencyList c) n) →
      ∃ m, populateTerrainTypeMap c n = some m ∧
        ∀ i, i < n → m.getD (i * n + i) 0 = i ∧
          ∀ j, j < n → ¬ (i = 0 ∧ j = 0) → (m.getD (i * n + j) 0 ≠ 0 ↔ Reachable c i j) := by
    intro c n hn hf hd
    obtain ⟨m, e, _, s⟩ := populateTerrainTypeMap_spec c n (h16 n hn) hf hd
    exact ⟨m, e, s⟩
  interval_cases tilesetIndex
  · exact key _ 36 (by omega) badlands_fits badlands_decompress
  · exact key _ 22 (by omega) space_fits space_decompress
  · exact key _ 16 (by omega) installation_fits installation_decompress
  · exact key _ 18 (by omega) ashworld_fits ashworld_decompress
  · exact key _ 36 (by omega) jungle_fits jungle_decompress
  · exact key _ 36 (by omega) jungle_fits jungle_decompress
  · exact key _ 36 (by omega) jungle_fits jungle_decompress
  · exact key _ 36 (by omega) jungle_fits jungle_decompress

end Tiles
end IsomTerrain
namespace IsomTerrain
namespace Tiles

/-- C19 (amended) on the badlands tileset. -/
theorem C19_terrain_type_map_reachability_witness :
    0 < 8 ∧
    ∃ m, loadedTerrainTypeMap 0 = some m ∧
      ∀ i, i < (tilesetTerrainTypes.getD 0 []).length →
        m.getD (i * (tilesetTerrainTypes.getD 0 []).length + i) 0 = i ∧
        ∀ j, j < (tilesetTerrainTypes.getD 0 []).length → ¬ (i = 0 ∧ j = 0) →
          (m.getD (i * (tilesetTerrainTypes.getD 0 []).length + j) 0 ≠ 0 ↔
            Reachable (compressedTerrainTypeMaps.getD 0 []) i j) :=
  ⟨by decide, C19_terrain_type_map_reachability 0 (by decide)⟩

/-- C19 as stated fails on the badlands tileset (`N = 36`).  The entry `map[0*N + 0]` is 0,
while the type 0 is reachable from the type 0 (in zero steps).  Reading "reachable" as
reachable in at least one step does not save the claim: `map[1*N + 1]` is 1, and the type 1 has an
empty adjacency list, so that nothing is reachable from it in at least one step. -/
theorem C19_counterexample :
    ∃ m, loadedTerrainTypeMap 0 = some m ∧ (tilesetTerrainTypes.getD 0 []).length = 36 ∧
      (m.getD (0 * 36 + 0) 0 = 0 ∧ Reachable (compressedTerrainTypeMaps.getD 0 []) 0 0) ∧
      (m.getD (1 * 36 + 1) 0 ≠ 0 ∧
        ¬ Relation.TransGen (Adjacent (compressedTerrainTypeMaps.getD 0 [])) 1 1) := by
  obtain ⟨m, e, _, s⟩ := populateTerrainTypeMap_spec Brush.Badlands.terrainTypeMap 36
    (by unfold U16; omega) badlands_fits badlands_decompress
  refine ⟨m, e, rfl, ⟨(s 0 (by omega)).1, Relation.ReflTransGen.refl⟩, ?_, ?_⟩
  · rw [(s 1 (by omega)).1]
    exact Nat.one_ne_zero
  · intro h
    obtain ⟨b, hb, _⟩ := Relation.TransGen.head'_iff.mp h
    have e1 : adjacencyList (compressedTerrainTypeMaps.getD 0 []) 1 = [] := by decide
    unfold Adjacent at hb
    rw [e1] at hb
    exact absurd hb (List.not_mem_nil _)

end Tiles
end IsomTerrain

namespace IsomTerrain
namespace ScMap

/-- One round of the loop of `countNeighborMatches`, in terms of `quadrantMatches`. -/
theorem countNeighborMatchesFrom_cons (shapeLinks : ShapeLinks) (nb : IsomNeighbors)
    (isomLinks : List ShapeLinks) (q : Quadrant) (rest : List Quadrant) (total : Nat) :
    countNeighborMatchesFrom shapeLinks nb isomLinks (q :: rest) total =
      if quadrantMatches shapeLinks nb isomLinks q = true then
        countNeighborMatchesFrom shapeLinks nb isomLinks rest (total + 1)
      else if (nb.get q).modified = true then 0
      else countNeighborMatchesFrom shapeLinks nb isomLinks rest total := by
  rw [countNeighborMatchesFrom]
  simp only [quadrantMatches, LinkId.OnlyMatchSameType, Bool.and_eq_true, Bool.or_eq_true,
    decide_eq_true_eq]
  by_cases h1 : (nb.get q).linkId = shapeLinks.getLinkId q
  · rw [h1]
  · have h2 : ¬ shapeLinks.getLinkId q = (nb.get q).linkId := fun h => h1 h.symm
    simp [h1, h2]

/-- The loop of `countNeighborMatches` over any list of quadrants: `0` when a modified
neighbour does not match, else the running total plus the number of matching quadrants. -/
theorem countNeighborMatchesFrom_spec (shapeLinks : ShapeLinks) (nb : IsomNeighbors)
    (isomLinks : List ShapeLinks) :
    ∀ (qs : List Quadrant) (total : Nat),
      countNeighborMatchesFrom shapeLinks nb isomLinks qs total =
        if (qs.any fun q =>
            (nb.get q).modified && !quadrantMatches shapeLinks nb isomLinks q) = true then 0
        else total + qs.countP (quadrantMatches shapeLinks nb isomLinks) := by
  intro qs
  induction qs with
  | nil => intro total; simp [countNeighborMatchesFrom]
  | cons q rest ih =>
    intro total
    rw [countNeighborMatchesFrom_cons, ih, ih]
    by_cases hm : quadrantMatches shapeLinks nb isomLinks q = true
    · simp [hm, List.countP_cons]
      split_ifs <;> omega
    · by_cases hmod : (nb.get q).modified = true
      · simp [hm, hmod]
      · simp [hm, hmod, List.countP_cons]

/-- C25: for every link-table row and neighbour snapshot, `countNeighborMatches` returns 0 if
some quadrant whose neighbour is modified does not match, and otherwise the number of
quadrants (0 to 4) that match, where the quadrant `q` matches iff `row.getLinkId(q)` equals the
neighbour's link id and that link id is below 255 or the row has the terrain type of the
neighbour's row. -/
theorem C25_countNeighborMatches (shapeLinks : ShapeLinks) (nb : IsomNeighbors)
    (isomLinks : List ShapeLinks) :
    countNeighborMatches shapeLinks nb isomLinks =
      (if modifiedMismatch shapeLinks nb isomLinks = true then 0
        else quadrants.countP (quadrantMatches shapeLinks nb isomLinks)) ∧
    quadrants.countP (quadrantMatches shapeLinks nb isomLinks) ≤ 4 ∧
    (modifiedMismatch shapeLinks nb isomLinks = true ↔
      ∃ q : Quadrant, (nb.get q).modified = true ∧
        quadrantMatches shapeLinks nb isomLinks q = false) ∧
    (∀ q : Quadrant, quadrantMatches shapeLinks nb isomLinks q = true ↔
      (shapeLinks.getLinkId q = (nb.get q).linkId ∧
        ((nb.get q).linkId < 255 ∨
          shapeLinks.terrainType =
            (isomLinks.getD (nb.get q).isomValue default).terrainType))) := by
  have h := countNeighborMatchesFrom_spec shapeLinks nb isomLinks quadrants 0
  refine ⟨?_, List.countP_le_length _, ?_, ?_⟩
  · unfold countNeighborMatches
    rw [h, Nat.zero_add]
    rfl
  · unfold modifiedMismatch
    rw [List.any_eq_true]
    constructor
    · rintro ⟨q, _, hq⟩
      simp only [Bool.and_eq_true, Bool.not_eq_true'] at hq
      exact ⟨q, hq⟩
    · rintro ⟨q, hq⟩
      refine ⟨q, ?_, ?_⟩
      · cases q <;> simp [quadrants]
      · simp only [Bool.and_eq_true, Bool.not_eq_true']
        exact hq
  · intro q
    simp [quadrantMatches]

end ScMap
end IsomTerrain

namespace IsomTerrain
namespace IsomRect

theorem or_eq_add_of_mod (a e : Nat) (ha : a % 64 = 0) (he : e < 64) : a ||| e = a + e := by
  have h := Nat.mul_add_lt_is_or (show e < 2 ^ 6 from he) (a / 64)
  have e1 : 2 ^ 6 * (a / 64) = a := by
    have := Nat.div_add_mod a 64
    omega
  rw [e1] at h
  exact h.symm

/-- One round of the loop of `getHash` in terms of the components of the side. -/
theorem hashStep_eq (r : IsomRect) (isomLinks : List ShapeLinks) (acc : Nat × Nat) (s : Side) :
    hashStep r isomLinks acc s =
      (((acc.1 ||| r.sideLink isomLinks s) <<< 6) % 4294967296,
        if r.sideHard isomLinks s = true then (r.sideRow isomLinks s).terrainType else acc.2) := by
  unfold hashStep sideHard sideLink sideRow
  simp only [Link.SoftLinks, Bool.and_eq_true, decide_eq_true_eq]
  split_ifs <;> rfl

/-- One round of the hash accumulation on a hash that is a multiple of 64 below `2 ^ 24`. -/
theorem hash_round (a e : Nat) (ha : a % 64 = 0) (hb : a < 16777216) (he : e < 64) :
    ((a ||| e) <<< 6) % 4294967296 = (a + e) * 64 := by
  rw [or_eq_add_of_mod a e ha he, Nat.shiftLeft_eq]
  have : (2 : Nat) ^ 6 = 64 := by norm_num
  rw [this]
  exact Nat.mod_eq_of_lt (by omega)

/-- C29: for every isom rectangle and link table in which the four referenced rows exist and
every referenced edge link and terrain type is below 64, `IsomRect::getHash` equals
`L*2^24 + T*2^18 + R*2^12 + B*2^6 + tt`, where `L, T, R, B` are `getEdgeLink` of the left, top,
right and bottom fields in their rows (row = `(field & 0x7FFE) >> 4`) and `tt` is the
terrain type of the last side, in the order left, top, right, bottom, whose row has non-zero
terrain type and whose edge link is above 48, or 0 if there is no such side. -/
theorem C29_getHash_formula (r : IsomRect) (isomLinks : List ShapeLinks)
    (_hrow : ∀ s : Side, (r.side s &&& 0x7FFE) >>> 4 < isomLinks.length)
    (hlink : ∀ s : Side, r.sideLink isomLinks s < 64)
    (htt : ∀ s : Side, (r.sideRow isomLinks s).terrainType < 64) :
    r.getHash isomLinks =
      r.sideLink isomLinks Side.Left * 2 ^ 24 + r.sideLink isomLinks Side.Top * 2 ^ 18 +
        r.sideLink isomLinks Side.Right * 2 ^ 12 + r.sideLink isomLinks Side.Bottom * 2 ^ 6 +
        r.lastHardTerrainType isomLinks ∧
    (∀ s : Side, r.sideRow isomLinks s = isomLinks.getD ((r.side s &&& 0x7FFE) >>> 4) default) ∧
    (∀ s : Side, r.sideLink isomLinks s =
      (r.sideRow isomLinks s).getEdgeLink (r.side s &&& 0x7FFE)) := by
  refine ⟨?_, fun _ => rfl, fun _ => rfl⟩
  have hL := hlink Side.Left
  have hT := hlink Side.Top
  have hR := hlink Side.Right
  have hB := hlink Side.Bottom
  have h1 : ((0 ||| r.sideLink isomLinks Side.Left) <<< 6) % 4294967296
      = r.sideLink isomLinks Side.Left * 64 := by
    rw [hash_round 0 _ rfl (by norm_num) hL, Nat.zero_add]
  have h2 := hash_round (r.sideLink isomLinks Side.Left * 64) _ (by omega) (by omega) hT
  have h3 := hash_round ((r.sideLink isomLinks Side.Left * 64
    + r.sideLink isomLinks Side.Top) * 64) _ (by omega) (by omega) hR
  have h4 := hash_round (((r.sideLink isomLinks Side.Left * 64
    + r.sideLink isomLinks Side.Top) * 64 + r.sideLink isomLinks Side.Right) * 64) _
    (by omega) (by omega) hB
  have hlast : r.lastHardTerrainType isomLinks < 64 := by
    unfold lastHardTerrainType
    split
    · exact htt _
    · norm_num
  unfold getHash sides
  simp only [List.foldl_cons, List.foldl_nil, hashStep_eq, h1, h2, h3, h4]
  have hsnd : (if r.sideHard isomLinks Side.Bottom = true then
        (r.sideRow isomLinks Side.Bottom).terrainType
      else if r.sideHard isomLinks Side.Right = true then
        (r.sideRow isomLinks Side.Right).terrainType
      else if r.sideHard isomLinks Side.Top = true then
        (r.sideRow isomLinks Side.Top).terrainType
      else if r.sideHard isomLinks Side.Left = true then
        (r.sideRow isomLinks Side.Left).terrainType
      else 0) = r.lastHardTerrainType isomLinks := by
    unfold lastHardTerrainType
    simp only [List.find?]
    cases r.sideHard isomLinks Side.Bottom <;> cases r.sideHard isomLinks Side.Right <;>
      cases r.sideHard isomLinks Side.Top <;> cases r.sideHard isomLinks Side.Left <;> rfl
  rw [hsnd, or_eq_add_of_mod _ _ (by omega) hlast]
  norm_num
  ring

end IsomRect
end IsomTerrain

namespace IsomTerrain
namespace IsomRect

/-- C29 is not vacuous: on `hashRect` and `hashLinks` the hash is
`51*2^24 + 6*2^18 + 1*2^12 + 50*2^6 + 5`. -/
theorem C29_getHash_formula_witness :
    hashRect.getHash hashLinks = 51 * 2 ^ 24 + 6 * 2 ^ 18 + 1 * 2 ^ 12 + 50 * 2 ^ 6 + 5 ∧
    (hashRect.getHash hashLinks =
      hashRect.sideLink hashLinks Side.Left * 2 ^ 24 +
        hashRect.sideLink hashLinks Side.Top * 2 ^ 18 +
        hashRect.sideLink hashLinks Side.Right * 2 ^ 12 +
        hashRect.sideLink hashLinks Side.Bottom * 2 ^ 6 +
        hashRect.lastHardTerrainType hashLinks) :=
  ⟨by decide,
    (C29_getHash_formula hashRect hashLinks (fun s => by cases s <;> decide)
      (fun s => by cases s <;> decide) (fun s => by cases s <;> decide)).1⟩

end IsomRect
end IsomTerrain

namespace IsomTerrain
namespace IsomRect

theorem shiftRight_and (a b i : Nat) : (a &&& b) >>> i = (a >>> i) &&& (b >>> i) := by
  apply Nat.eq_of_testBit_eq
  intro j
  simp [Nat.testBit_shiftRight]

/-- The row index read back from a stored field: the field `(v << 4) | f`, stored as a
`uint16_t`, masked with `ClearAll` and shifted, gives the low eleven bits of `v`. -/
theorem stored_row (v f : Nat) (hf : f < 16) :
    ((((v <<< 4) ||| f) % U16) &&& EditorFlag.ClearAll) >>> 4 = v % 2048 := by
  rw [shl4_or v f hf, shiftRight_and]
  have hm : EditorFlag.ClearAll >>> 4 = 2 ^ 11 - 1 := by decide
  rw [hm, Nat.and_pow_two_sub_one_eq_mod, Nat.shiftRight_eq_div_pow]
  unfold U16
  norm_num
  omega

/-- The row index read back from both sides written by `set`, for every value. -/
theorem set_row (q : Quadrant) (v : Nat) (r : IsomRect) :
    (r.set (ProjectedQuadrant.atQuadrant q) v).getIsomValue
        (ProjectedQuadrant.atQuadrant q).firstSide >>> 4 = v % 2048 ∧
    (r.set (ProjectedQuadrant.atQuadrant q) v).getIsomValue
        (ProjectedQuadrant.atQuadrant q).secondSide >>> 4 = v % 2048 := by
  cases q
  · exact ⟨stored_row v 0x0 (by decide), stored_row v 0x2 (by decide)⟩
  · exact ⟨stored_row v 0x4 (by decide), stored_row v 0x6 (by decide)⟩
  · exact ⟨stored_row v 0x8 (by decide), stored_row v 0xA (by decide)⟩
  · exact ⟨stored_row v 0xC (by decide), stored_row v 0xE (by decide)⟩

/-- C30 (amended): for every quadrant `q` and every 11-bit row index `v` (`v < 2048`), after
`IsomRect::set(ProjectedQuadrant(q), v)` the row index reads back from both written sides:
`getIsomValue(side) >> 4 == v`, so `getHash` looks up the row `v` for both sides. -/
theorem C30_row_reads_back (q : Quadrant) (v : Nat) (r : IsomRect) (hv : v < 2048) :
    (r.set (ProjectedQuadrant.atQuadrant q) v).getIsomValue
        (ProjectedQuadrant.atQuadrant q).firstSide >>> 4 = v ∧
    (r.set (ProjectedQuadrant.atQuadrant q) v).getIsomValue
        (ProjectedQuadrant.atQuadrant q).secondSide >>> 4 = v ∧
    (∀ isomLinks : List ShapeLinks,
      (r.set (ProjectedQuadrant.atQuadrant q) v).sideRow isomLinks
          (ProjectedQuadrant.atQuadrant q).firstSide = isomLinks.getD v default ∧
      (r.set (ProjectedQuadrant.atQuadrant q) v).sideRow isomLinks
          (ProjectedQuadrant.atQuadrant q).secondSide = isomLinks.getD v default) := by
  have h := set_row q v r
  rw [Nat.mod_eq_of_lt hv] at h
  refine ⟨h.1, h.2, fun isomLinks => ?_⟩
  unfold sideRow
  rw [h.1, h.2]
  exact ⟨rfl, rfl⟩

/-- C30 (amended) is not vacuous: the row 2047 reads back from the top-left quadrant. -/
theorem C30_row_reads_back_witness :
    (2047 : Nat) < 2048 ∧
    (hashRect.set (ProjectedQuadrant.atQuadrant Quadrant.TopLeft) 2047).getIsomValue
        Side.Right >>> 4 = 2047 ∧
    (hashRect.set (ProjectedQuadrant.atQuadrant Quadrant.TopLeft) 2047).getIsomValue
        Side.Bottom >>> 4 = 2047 :=
  ⟨by decide, (C30_row_reads_back Quadrant.TopLeft 2047 hashRect (by decide)).1,
    (C30_row_reads_back Quadrant.TopLeft 2047 hashRect (by decide)).2.1⟩

/-- C30 as stated fails: the 12-bit row index 2048, written to the top-left quadrant, reads
back as 0 from both sides (bit 15 of the field is the `Visited` flag, which `getIsomValue`
masks away), and `getHash` looks up the row 0 instead of the row 2048. -/
theorem C30_counterexample :
    (2048 : Nat) < 4096 ∧
    ((({} : IsomRect).set (ProjectedQuadrant.atQuadrant Quadrant.TopLeft) 2048).getIsomValue
        Side.Right >>> 4 = 0) ∧
    ((({} : IsomRect).set (ProjectedQuadrant.atQuadrant Quadrant.TopLeft) 2048).getIsomValue
        Side.Bottom >>> 4 = 0) ∧
    (({} : IsomRect).set (ProjectedQuadrant.atQuadrant Quadrant.TopLeft) 2048).getIsomValue
        Side.Right >>> 4 ≠ 2048 := by
  decide

end IsomRect
end IsomTerrain

namespace IsomTerrain
namespace World

/-- The result of `findBestMatchIsomValue` is a row different from the central row. -/
theorem findBestMatchIsomValue_ne (fuel : Nat) (m : ScMap) (d : IsomDiamond) (c : IsomCache)
    (b : Nat) (h : m.findBestMatchIsomValue fuel d c = some (some b)) :
    b ≠ m.getCentralIsomValue d := by
  unfold ScMap.findBestMatchIsomValue at h
  simp only [] at h
  split at h
  · exact absurd h (by simp)
  · split at h
    · exact absurd h (by simp)
    · split at h
      · exact absurd h (by simp)
      · split_ifs at h with he
        · exact absurd h (by simp)
        · simp only [Option.some.injEq] at h
          rw [← h]
          exact he

/-- C27 (amended): in `radiallyUpdateTerrain`, for every processed diamond (one that needs an
update and is not visited) whose best-match row (`findBestMatchIsomValue`) differs from its
current central row and is not the row 0, the loop continues from the state in which the
best-match row is written to all four in-bounds quadrants of the diamond by
`setDiamondIsomValues`: both sides of each quadrant hold the row with their edge flag and the
`Modified` bit. -/
theorem C27_best_match_written (undoable : Bool) (fuel : Nat) (d : IsomDiamond)
    (rest : List IsomDiamond) (w : World) (b : Nat)
    (hgrid : GridComplete w.map)
    (hneed : w.map.diamondNeedsUpdate d = true)
    (hvis : (w.map.getIsomRect d).isVisited = false)
    (hbest : (markVisited d w).map.findBestMatchIsomValue fuel d (markVisited d w).cache
      = some (some b))
    (hb : b ≠ 0) :
    b ≠ (markVisited d w).map.getCentralIsomValue d ∧
    radiallyUpdateTerrain undoable (fuel + 1) (d :: rest) w =
      radiallyUpdateTerrain undoable fuel
        (pushNeighbors (setDiamondIsomValues d b undoable (markVisited d w)).map d rest)
        (setDiamondIsomValues d b undoable (markVisited d w)) ∧
    (∃ new, (setDiamondIsomValues d b undoable (markVisited d w)).trace =
      new ++ Event.setDiamond d b :: Event.visited d :: w.trace) ∧
    DiamondHolds (setDiamondIsomValues d b undoable (markVisited d w)).map d b := by
  refine ⟨findBestMatchIsomValue_ne _ _ _ _ _ hbest, ?_, ?_, ?_⟩
  · rw [radially_succ, hneed, hvis, hbest]
    simp only [Bool.not_false, Bool.and_self, if_true]
    rw [if_pos hb]
  · obtain ⟨new, hnew, _⟩ := setDiamond_trace d b undoable (markVisited d w)
    exact ⟨new, hnew⟩
  · exact diamondHolds_setDiamond_self d b undoable _
      (gridComplete_mono _ _ (leftMono_markVisited d w) hgrid)

end World
end IsomTerrain

namespace IsomTerrain
namespace World

/-- C27 (amended) is not vacuous: on `demoWorld` the diamond (1,1) holds the row 2, its best
match is the row 1, and the row 1 is written to its quadrants. -/
theorem C27_best_match_written_witness :
    (markVisited ⟨1, 1⟩ demoWorld).map.findBestMatchIsomValue 9 ⟨1, 1⟩
      (markVisited ⟨1, 1⟩ demoWorld).cache = some (some 1) ∧
    DiamondHolds (setDiamondIsomValues ⟨1, 1⟩ 1 true (markVisited ⟨1, 1⟩ demoWorld)).map
      ⟨1, 1⟩ 1 :=
  ⟨by decide,
    (C27_best_match_written true 9 ⟨1, 1⟩ [] demoWorld 1
      (gridComplete_of_length _ (by decide)) (by decide) (by decide) (by decide)
      (by decide)).2.2.2⟩

/-- C27 as stated fails: on `lonelyWorld` the processed diamond (1,1) holds the row 2 and its
best match is the row 0 (no row scores above 0), which differs from the central row, but
`setDiamondIsomValues` is not called: the run ends with no `setDiamond` event and with the
row 2 still in the four fields of the rectangle (1,1) (only the `Visited` bit was added). -/
theorem C27_counterexample :
    lonelyWorld.map.diamondNeedsUpdate ⟨1, 1⟩ = true ∧
    (lonelyWorld.map.getIsomRect ⟨1, 1⟩).isVisited = false ∧
    lonelyWorld.map.getCentralIsomValue ⟨1, 1⟩ = 2 ∧
    (markVisited ⟨1, 1⟩ lonelyWorld).map.findBestMatchIsomValue 9 ⟨1, 1⟩
      (markVisited ⟨1, 1⟩ lonelyWorld).cache = some (some 0) ∧
    (radiallyUpdateTerrain true 10 [⟨1, 1⟩] lonelyWorld).map
        (fun w => (w.trace, w.map.isomRects)) =
      some ([Event.visited ⟨0, 0⟩, Event.visited ⟨1, 1⟩],
        [{ left := 16, top := 16, right := 32784, bottom := 16 }, {}, {},
          { left := 32, top := 32, right := 32800, bottom := 32 }]) := by
  decide

end World
end IsomTerrain

namespace IsomTerrain
namespace World

/-- An invariant of the scan of `searchForBestMatch`: a property of the neighbour record kept
by every replacement of `bestMatch` with a row of the table. -/
theorem searchLoop_inv (Q : IsomNeighbors → Prop) (st : Nat) (uh ue : Bool) (c : IsomCache)
    (hQ : ∀ (nb : IsomNeighbors) (iv mc : Nat), Q nb → iv < c.isomLinks.length →
      Q { nb with bestMatch := { isomValue := iv, matchCount := mc } }) :
    ∀ (fuel iv : Nat) (nb nb' : IsomNeighbors), Q nb →
      ScMap.searchLoop st uh ue c fuel iv nb = some nb' → Q nb' := by
  intro fuel
  induction fuel with
  | zero => intro iv nb nb' _ h; exact absurd h (by simp [ScMap.searchLoop])
  | succ n ih =>
    intro iv nb nb' hnb h
    unfold ScMap.searchLoop at h
    by_cases hiv : iv < c.isomLinks.length
    · rw [if_pos hiv] at h
      simp only [] at h
      split_ifs at h
      · simp only [Option.some.injEq] at h
        rw [← h]; exact hnb
      · exact ih _ _ _ (hQ nb iv _ hnb hiv) h
      · exact ih _ _ _ hnb h
    · rw [if_neg hiv] at h
      simp only [Option.some.injEq] at h
      rw [← h]; exact hnb

theorem searchForBestMatch_inv (Q : IsomNeighbors → Prop) (c : IsomCache)
    (hQ : ∀ (nb : IsomNeighbors) (iv mc : Nat), Q nb → iv < c.isomLinks.length →
      Q { nb with bestMatch := { isomValue := iv, matchCount := mc } })
    (fuel st : Nat) (nb nb' : IsomNeighbors) (hnb : Q nb)
    (h : ScMap.searchForBestMatch fuel st nb c = some nb') : Q nb' := by
  unfold ScMap.searchForBestMatch at h
  exact searchLoop_inv Q _ _ _ c hQ fuel _ nb nb' hnb h

/-- The three passes of `findBestMatchIsomValue` keep such a property of the neighbour record;
the result is the row of the final `bestMatch`. -/
theorem findBestMatchIsomValue_inv (Q : IsomNeighbors → Prop) (m : ScMap) (d : IsomDiamond)
    (c : IsomCache)
    (hQ : ∀ (nb : IsomNeighbors) (iv mc : Nat), Q nb → iv < c.isomLinks.length →
      Q { nb with bestMatch := { isomValue := iv, matchCount := mc } })
    (h0 : Q (m.loadNeighborInfo d {} c.isomLinks))
    (fuel b : Nat) (h : m.findBestMatchIsomValue fuel d c = some (some b)) :
    ∃ nb, Q nb ∧ nb.bestMatch.isomValue = b := by
  unfold ScMap.findBestMatchIsomValue at h
  simp only [] at h
  generalize hp1 : (if m.getCentralIsomValue d < c.isomLinks.length then
      ScMap.searchForBestMatch fuel
        (c.terrainTypeMap.getD
          ((m.loadNeighborInfo d {} c.isomLinks).maxModifiedOfFour * c.terrainTypes.length +
            (c.isomLinks.getD (m.getCentralIsomValue d) default).terrainType) 0)
        (m.loadNeighborInfo d {} c.isomLinks) c
      else some (m.loadNeighborInfo d {} c.isomLinks)) = p1 at h
  cases p1 with
  | none => exact absurd h (by simp)
  | some nb1 =>
    have q1 : Q nb1 := by
      split_ifs at hp1
      · exact searchForBestMatch_inv Q c hQ _ _ _ _ h0 hp1
      · simp only [Option.some.injEq] at hp1
        rw [← hp1]; exact h0
    simp only [] at h
    generalize hp2 : ScMap.searchForBestMatch fuel nb1.maxModifiedOfFour nb1 c = p2 at h
    cases p2 with
    | none => exact absurd h (by simp)
    | some nb2 =>
      have q2 : Q nb2 := searchForBestMatch_inv Q c hQ _ _ _ _ q1 hp2
      simp only [] at h
      generalize hp3 : ScMap.searchForBestMatch fuel ((c.terrainTypes.length / 2 + 1) % U16)
        nb2 c = p3 at h
      cases p3 with
      | none => exact absurd h (by simp)
      | some nb3 =>
        have q3 : Q nb3 := searchForBestMatch_inv Q c hQ _ _ _ _ q2 hp3
        simp only [] at h
        split_ifs at h
        · exact absurd h (by simp)
        · simp only [Option.some.injEq] at h
          exact ⟨nb3, q3, h⟩

/-- The loading of the neighbours does not touch `bestMatch`. -/
theorem loadNeighborInfo_bestMatch (m : ScMap) (d : IsomDiamond) (nb : IsomNeighbors)
    (isomLinks : List ShapeLinks) :
    (m.loadNeighborInfo d nb isomLinks).bestMatch = nb.bestMatch := by
  unfold ScMap.loadNeighborInfo
  apply foldl_inv _ (fun x : IsomNeighbors => x.bestMatch = nb.bestMatch)
  · rfl
  · intro x i _ hx
    unfold ScMap.loadNeighborStep
    simp only []
    split_ifs <;> (try exact hx) <;> (cases i <;> exact hx)

/-- A row returned by `findBestMatchIsomValue` is the row 0 or a row of the link table. -/
theorem findBestMatchIsomValue_bound (fuel : Nat) (m : ScMap) (d : IsomDiamond) (c : IsomCache)
    (b : Nat) (h : m.findBestMatchIsomValue fuel d c = some (some b)) :
    b = 0 ∨ b < c.isomLinks.length := by
  obtain ⟨nb, hnb, e⟩ := findBestMatchIsomValue_inv
    (fun nb => nb.bestMatch.isomValue = 0 ∨ nb.bestMatch.isomValue < c.isomLinks.length)
    m d c (fun _ _ _ _ hiv => Or.inr hiv)
    (by show _ = 0 ∨ _; rw [loadNeighborInfo_bestMatch]; exact Or.inl rfl) fuel b h
  rw [← e]; exact hnb

end World
end IsomTerrain

namespace IsomTerrain
namespace World

/-- An invariant of the states of `radiallyUpdateTerrain`, as `radiallyUpdateTerrain_inv`, where
the rewritten row is known to be a non-zero row of the link table. -/
theorem radiallyUpdateTerrain_inv_best (P : World → Prop) (G : IsomDiamond → Prop)
    (undoable : Bool)
    (hG : ∀ d n, G d → G (IsomDiamond.getNeighbor d n))
    (hvisit : ∀ d w, G d → w.map.diamondNeedsUpdate d = true →
      (w.map.getIsomRect d).isVisited = false → P w → P (markVisited d w))
    (hset : ∀ d v w, G d → w.map.diamondNeedsUpdate d = true →
      (w.map.getIsomRect d).isVisited = false → P w → v ≠ 0 → v < w.cache.isomLinks.length →
      P (setDiamondIsomValues d v undoable (markVisited d w))) :
    ∀ (fuel : Nat) (q : List IsomDiamond) (w w' : World), (∀ d ∈ q, G d) → P w →
      radiallyUpdateTerrain undoable fuel q w = some w' → P w' := by
  intro fuel
  induction fuel with
  | zero =>
    intro q w w' _ hP h
    cases q with
    | nil => rw [radially_nil, Option.some.injEq] at h; rw [← h]; exact hP
    | cons d rest => rw [radially_zero] at h; exact absurd h (by simp)
  | succ n ih =>
    intro q w w' hq hP h
    cases q with
    | nil => rw [radially_nil, Option.some.injEq] at h; rw [← h]; exact hP
    | cons d rest =>
      have hGd : G d := hq d (List.mem_cons_self _ _)
      have hrest : ∀ x ∈ rest, G x := fun x hx => hq x (List.mem_cons_of_mem _ hx)
      have hpush : ∀ m, ∀ x ∈ pushNeighbors m d rest, G x := by
        intro m x hx
        rcases pushNeighbors_mem m d rest x hx with h1 | ⟨i, h1⟩
        · exact hrest x h1
        · rw [h1]; exact hG d i hGd
      rw [radially_succ] at h
      by_cases hc : (w.map.diamondNeedsUpdate d && !(w.map.getIsomRect d).isVisited) = true
      · rw [if_pos hc] at h
        simp only [Bool.and_eq_true, Bool.not_eq_true'] at hc
        generalize hfb : (markVisited d w).map.findBestMatchIsomValue n d (markVisited d w).cache
          = r at h
        rcases r with _ | _ | bm
        · exact absurd h (by simp)
        · exact ih _ _ _ hrest (hvisit d w hGd hc.1 hc.2 hP) h
        · simp only [] at h
          by_cases hb : bm ≠ 0
          · rw [if_pos hb] at h
            have hlt : bm < w.cache.isomLinks.length := by
              rcases findBestMatchIsomValue_bound _ _ _ _ _ hfb with h0 | h1
              · exact absurd h0 hb
              · exact h1
            exact ih _ _ _ (hpush _) (hset d bm w hGd hc.1 hc.2 hP hb hlt) h
          · rw [if_neg hb] at h
            exact ih _ _ _ (hpush _) (hvisit d w hGd hc.1 hc.2 hP) h
      · rw [if_neg hc] at h
        exact ih _ _ _ hrest hP h

/-- An invariant of a call of `placeIsomTerrain` that returns, with either result: the rows
written are rows of the link table and the centre diamond of the brush is valid. -/
theorem placeIsomTerrain_inv_best (P : World → Prop) (G : IsomDiamond → Prop)
    (fuel : Nat) (d : IsomDiamond) (terrainType brushExtent : Nat) (w w' : World) (b : Bool)
    (hG : ∀ d n, G d → G (IsomDiamond.getNeighbor d n))
    (hGb : d.isValid = true →
      ∀ bx bY : Int, G ⟨toSize ((d.x : Int) + bx - bY), toSize ((d.y : Int) + bx + bY)⟩)
    (h0 : P w)
    (hreset : P { w with cache := w.cache.resetChangedArea })
    (hbrush : ∀ (bx bY : Int) (w1 : World), P w1 → d.isValid = true →
      w.cache.getTerrainTypeIsomValue terrainType < w.cache.isomLinks.length →
      w1.map.isInBounds ⟨toSize ((d.x : Int) + bx - bY), toSize ((d.y : Int) + bx + bY)⟩ = true →
      P (setDiamondIsomValues ⟨toSize ((d.x : Int) + bx - bY), toSize ((d.y : Int) + bx + bY)⟩
        (w.cache.getTerrainTypeIsomValue terrainType) true w1))
    (hvisit : ∀ e w1, G e → w1.map.diamondNeedsUpdate e = true →
      (w1.map.getIsomRect e).isVisited = false → P w1 → P (markVisited e w1))
    (hset : ∀ e v w1, G e → w1.map.diamondNeedsUpdate e = true →
      (w1.map.getIsomRect e).isVisited = false → P w1 → v ≠ 0 →
      v < w1.cache.isomLinks.length →
      P (setDiamondIsomValues e v true (markVisited e w1)))
    (h : placeIsomTerrain fuel d terrainType brushExtent w = some (b, w')) : P w' := by
  unfold placeIsomTerrain at h
  simp only [] at h
  split_ifs at h with hg
  · simp only [Option.some.injEq, Prod.mk.injEq] at h
    rw [← h.2]; exact h0
  · have hval : d.isValid = true := by simpa using (fun hc => hg (Or.inr (Or.inl hc)))
    have hlt : w.cache.getTerrainTypeIsomValue terrainType < w.cache.isomLinks.length := by
      by_contra hc
      exact hg (Or.inr (Or.inr (Or.inl (Nat.le_of_not_lt hc))))
    have hb := placeBrush_inv P G d (w.cache.getTerrainTypeIsomValue terrainType)
      (brushMin brushExtent) (brushMax brushExtent) hG (hGb hval)
      (fun bx bY w1 h1 hin => hbrush bx bY w1 h1 hval hlt hin)
      ({ w with cache := w.cache.resetChangedArea }, []) hreset (by simp)
    generalize hr : radiallyUpdateTerrain true fuel
      (placeBrush d (w.cache.getTerrainTypeIsomValue terrainType) (brushMin brushExtent)
        (brushMax brushExtent) ({ w with cache := w.cache.resetChangedArea }, [])).2
      (placeBrush d (w.cache.getTerrainTypeIsomValue terrainType) (brushMin brushExtent)
        (brushMax brushExtent) ({ w with cache := w.cache.resetChangedArea }, [])).1 = r at h
    cases r with
    | none => simp at h
    | some w2 =>
      simp only [Option.some.injEq, Prod.mk.injEq] at h
      rw [← h.2]
      exact radiallyUpdateTerrain_inv_best P G true hG hvisit hset fuel _ _ _ hb.2 hb.1 hr

end World
end IsomTerrain

namespace IsomTerrain
namespace World

theorem fieldRow_or_flag (x m : Nat) (hm : m &&& EditorFlag.ClearAll = 0) :
    fieldRow (x ||| m) = fieldRow x := by
  unfold fieldRow
  rw [Nat.and_distrib_right, hm, Nat.or_zero]

theorem fieldRow_stored (v f : Nat) (hf : f < 16) :
    fieldRow ((((v <<< 4) ||| f) % U16) ||| EditorFlag.Modified) = v % 2048 := by
  rw [fieldRow_or_flag _ _ (by decide)]
  exact IsomRect.stored_row v f hf

/-- After `set` and `setModified` on a quadrant, every field of the rectangle keeps its row or
holds the low eleven bits of the written row. -/
theorem written_rows (r : IsomRect) (q : Quadrant) (v : Nat) (s : Side) :
    fieldRow (((r.set (ProjectedQuadrant.atQuadrant q) v).setModified
        (ProjectedQuadrant.atQuadrant q)).side s) = fieldRow (r.side s) ∨
    fieldRow (((r.set (ProjectedQuadrant.atQuadrant q) v).setModified
        (ProjectedQuadrant.atQuadrant q)).side s) = v % 2048 := by
  cases q <;> cases s <;>
    first
    | exact Or.inl rfl
    | exact Or.inr (fieldRow_stored v _ (by decide))

theorem setVisited_rows (r : IsomRect) (s : Side) :
    fieldRow (r.setVisited.side s) = fieldRow (r.side s) := by
  rcases setVisited_side r s with h | h
  · rw [h]
  · rw [h]; exact fieldRow_or_flag _ _ (by decide)

/-- Replacing the rectangle at an index by a function of itself keeps a property of all the
rectangles that the function keeps. -/
theorem forall_mem_set_getD (l : List IsomRect) (i : Nat) (f : IsomRect → IsomRect)
    (Q : IsomRect → Prop) (h : ∀ r ∈ l, Q r) (hf : ∀ r, Q r → Q (f r)) :
    ∀ r ∈ l.set i (f (l.getD i default)), Q r := by
  intro r hr
  by_cases hi : i < l.length
  · rcases List.mem_or_eq_of_mem_set hr with h1 | h1
    · exact h r h1
    · rw [h1]
      apply hf
      rw [List.getD_eq_getElem _ _ hi]
      exact h _ (List.getElem_mem hi)
  · rw [List.set_eq_of_length_le (Nat.le_of_not_lt hi)] at hr
    exact h r hr

theorem rowsInTable_setIsomValue (p : Point) (q : Quadrant) (v : Nat) (u : Bool) (w : World)
    (hv : v < w.cache.isomLinks.length) (h : RowsInTable w) :
    RowsInTable (setIsomValue p q v u w) := by
  by_cases hb : w.map.isInBounds p = true
  · obtain ⟨hm, _, _, _, hl, _⟩ := setIsomValue_in p q v u w hb
    unfold RowsInTable
    rw [hm, hl]
    exact forall_mem_set_getD w.map.isomRects _
      (fun r => (r.set (ProjectedQuadrant.atQuadrant q) v).setModified
        (ProjectedQuadrant.atQuadrant q))
      (fun r => ∀ s : Side, fieldRow (r.side s) < w.cache.isomLinks.length) h
      (fun r hr s => by
        rcases written_rows r q v s with e | e
        · rw [e]; exact hr s
        · rw [e]; exact Nat.lt_of_le_of_lt (Nat.mod_le _ _) hv)
  · rw [setIsomValue_out p q v u w (by simpa using hb)]
    exact h

theorem rowsInTable_setDiamond (d : IsomDiamond) (v : Nat) (u : Bool) (w : World)
    (hv : v < w.cache.isomLinks.length) (h : RowsInTable w) :
    RowsInTable (setDiamondIsomValues d v u w) ∧
    (setDiamondIsomValues d v u w).cache.isomLinks = w.cache.isomLinks := by
  apply setDiamondIsomValues_keeps
    (fun w1 => RowsInTable w1 ∧ w1.cache.isomLinks = w.cache.isomLinks) d v u w
  · exact fun h1 => h1
  · intro p q w1 h1
    exact ⟨rowsInTable_setIsomValue p q v u w1 (by rw [h1.2]; exact hv) h1.1,
      (setIsomValue_isomLinks p q v u w1).trans h1.2⟩
  · exact ⟨h, rfl⟩

theorem rowsInTable_markVisited (d : IsomDiamond) (w : World) (h : RowsInTable w) :
    RowsInTable (markVisited d w) :=
  forall_mem_set_getD w.map.isomRects _ IsomRect.setVisited
    (fun r => ∀ s : Side, fieldRow (r.side s) < w.cache.isomLinks.length) h
    (fun r hr s => by rw [setVisited_rows]; exact hr s)

/-- C22: if before `placeIsomTerrain` every field of every isom rectangle, after clearing the
editor flags (mask `0x7FFE`) and the low nibble, holds a row index below `isomLinks.size()`,
then the same holds after the call (the link table is not changed by it), for every diamond,
terrain type and brush extent and for either result of the call. -/
theorem C22_row_indices_in_table (fuel : Nat) (d : IsomDiamond) (terrainType brushExtent : Nat)
    (w w' : World) (b : Bool)
    (hrows : ∀ r ∈ w.map.isomRects, ∀ s : Side,
      (r.side s &&& 0x7FFE) >>> 4 < w.cache.isomLinks.length)
    (h : placeIsomTerrain fuel d terrainType brushExtent w = some (b, w')) :
    w'.cache.isomLinks = w.cache.isomLinks ∧
    ∀ r ∈ w'.map.isomRects, ∀ s : Side,
      (r.side s &&& 0x7FFE) >>> 4 < w'.cache.isomLinks.length := by
  have key := placeIsomTerrain_inv_best
    (fun w1 => RowsInTable w1 ∧ w1.cache.isomLinks = w.cache.isomLinks) (fun _ => True)
    fuel d terrainType brushExtent w w' b
    (fun _ _ _ => trivial) (fun _ _ _ => trivial)
    ⟨hrows, rfl⟩ ⟨hrows, rfl⟩
    (fun bx bY w1 h1 _ hlt _ => by
      have := rowsInTable_setDiamond
        ⟨toSize ((d.x : Int) + bx - bY), toSize ((d.y : Int) + bx + bY)⟩
        (w.cache.getTerrainTypeIsomValue terrainType) true w1
        (by rw [h1.2]; exact hlt) h1.1
      exact ⟨this.1, this.2.trans h1.2⟩)
    (fun e w1 _ _ _ h1 => ⟨rowsInTable_markVisited e w1 h1.1, h1.2⟩)
    (fun e v w1 _ _ _ h1 _ hlt => by
      have := rowsInTable_setDiamond e v true (markVisited e w1) hlt
        (rowsInTable_markVisited e w1 h1.1)
      exact ⟨this.1, this.2.trans h1.2⟩)
    h
  exact ⟨key.2, key.1⟩

end World
end IsomTerrain

namespace IsomTerrain
namespace World

/-- C22 is not vacuous: the rectangles of `demoWorld` hold the rows 0, 1 and 2 of a table of
three rows, and so do the rectangles after placing terrain on the diamond (0,0). -/
theorem C22_row_indices_in_table_witness :
    placeIsomTerrain 100 ⟨0, 0⟩ 1 1 demoWorld = some (true, demoPlaced) ∧
    ∀ r ∈ demoPlaced.map.isomRects, ∀ s : Side,
      (r.side s &&& 0x7FFE) >>> 4 < demoPlaced.cache.isomLinks.length :=
  ⟨demoPlaced_eq,
    (C22_row_indices_in_table 100 ⟨0, 0⟩ 1 1 demoWorld demoPlaced true
      (by
        intro r hr s
        have hr' : r ∈ [({ left := 16, top := 16, right := 16, bottom := 16 } : IsomRect), {}, {},
            { left := 32, top := 32, right := 32, bottom := 32 }] := hr
        simp only [List.mem_cons, List.mem_singleton, List.not_mem_nil, or_false] at hr'
        rcases hr' with e | e | e | e <;> rw [e] <;> cases s <;> decide)
      demoPlaced_eq).2⟩

end World
end IsomTerrain

namespace IsomTerrain
namespace World

/-! ## Independence of the edit from the undo map and the changed area -/

theorem editView_eq_iff (w1 w2 : World) :
    editView w1 = editView w2 ↔
      w1.map = w2.map ∧ w1.cache.isomLinks = w2.cache.isomLinks ∧
      w1.cache.terrainTypes = w2.cache.terrainTypes ∧
      w1.cache.terrainTypeMap = w2.cache.terrainTypeMap := by
  unfold editView
  simp only [Prod.mk.injEq]

theorem editView_setIsomValue (p : Point) (q : Quadrant) (v : Nat) (u : Bool) (w1 w2 : World)
    (h : editView w1 = editView w2) :
    editView (setIsomValue p q v u w1) = editView (setIsomValue p q v u w2) := by
  rw [editView_eq_iff] at h ⊢
  obtain ⟨hm, hl, ht, htm⟩ := h
  by_cases hb : w1.map.isInBounds p = true
  · have hb2 : w2.map.isInBounds p = true := by rw [← hm]; exact hb
    obtain ⟨a1, _, _, _, a5, a6, a7, _⟩ := setIsomValue_in p q v u w1 hb
    obtain ⟨b1, _, _, _, b5, b6, b7, _⟩ := setIsomValue_in p q v u w2 hb2
    rw [a1, a5, a6, a7, b1, b5, b6, b7, hm]
    exact ⟨rfl, hl, ht, htm⟩
  · have hb1 : w1.map.isInBounds p = false := by simpa using hb
    have hb2 : w2.map.isInBounds p = false := by rw [← hm]; exact hb1
    rw [setIsomValue_out p q v u w1 hb1, setIsomValue_out p q v u w2 hb2]
    exact ⟨hm, hl, ht, htm⟩

theorem editView_setDiamond (d : IsomDiamond) (v : Nat) (u : Bool) (w1 w2 : World)
    (h : editView w1 = editView w2) :
    editView (setDiamondIsomValues d v u w1) = editView (setDiamondIsomValues d v u w2) := by
  rw [setDiamondIsomValues_eq, setDiamondIsomValues_eq]
  exact editView_setIsomValue _ _ _ _ _ _ (editView_setIsomValue _ _ _ _ _ _
    (editView_setIsomValue _ _ _ _ _ _ (editView_setIsomValue _ _ _ _ _ _ h)))

theorem editView_markVisited (d : IsomDiamond) (w1 w2 : World)
    (h : editView w1 = editView w2) :
    editView (markVisited d w1) = editView (markVisited d w2) := by
  rw [editView_eq_iff] at h ⊢
  obtain ⟨hm, hl, ht, htm⟩ := h
  refine ⟨?_, hl, ht, htm⟩
  show w1.map.setIsomRect d _ = w2.map.setIsomRect d _
  rw [hm]

theorem searchLoop_congr (st : Nat) (uh ue : Bool) (c1 c2 : IsomCache)
    (hl : c1.isomLinks = c2.isomLinks) :
    ∀ (fuel iv : Nat) (nb : IsomNeighbors),
      ScMap.searchLoop st uh ue c1 fuel iv nb = ScMap.searchLoop st uh ue c2 fuel iv nb := by
  intro fuel
  induction fuel with
  | zero => intro iv nb; rfl
  | succ n ih =>
    intro iv nb
    unfold ScMap.searchLoop
    simp only [hl, ih]

theorem searchForBestMatch_congr (fuel st : Nat) (nb : IsomNeighbors) (c1 c2 : IsomCache)
    (hl : c1.isomLinks = c2.isomLinks) (ht : c1.terrainTypes = c2.terrainTypes) :
    ScMap.searchForBestMatch fuel st nb c1 = ScMap.searchForBestMatch fuel st nb c2 := by
  unfold ScMap.searchForBestMatch IsomCache.getTerrainTypeIsomValue
  simp only [ht]
  exact searchLoop_congr _ _ _ c1 c2 hl _ _ _

theorem findBestMatchIsomValue_congr (fuel : Nat) (m : ScMap) (d : IsomDiamond)
    (c1 c2 : IsomCache) (hl : c1.isomLinks = c2.isomLinks)
    (ht : c1.terrainTypes = c2.terrainTypes) (htm : c1.terrainTypeMap = c2.terrainTypeMap) :
    m.findBestMatchIsomValue fuel d c1 = m.findBestMatchIsomValue fuel d c2 := by
  unfold ScMap.findBestMatchIsomValue
  simp only [hl, ht, htm, searchForBestMatch_congr _ _ _ c1 c2 hl ht]

/-- Two runs of `radiallyUpdateTerrain` from states with the same map and tables agree on
whether they end and on the map and tables they end with. -/
theorem editView_radially (u : Bool) :
    ∀ (fuel : Nat) (q : List IsomDiamond) (w1 w2 : World), editView w1 = editView w2 →
      (radiallyUpdateTerrain u fuel q w1).map editView =
        (radiallyUpdateTerrain u fuel q w2).map editView := by
  intro fuel
  induction fuel with
  | zero =>
    intro q w1 w2 h
    cases q with
    | nil => rw [radially_nil, radially_nil, Option.map_some', Option.map_some', h]
    | cons d rest => rfl
  | succ n ih =>
    intro q w1 w2 h
    cases q with
    | nil => rw [radially_nil, radially_nil, Option.map_some', Option.map_some', h]
    | cons d rest =>
      have hm : w1.map = w2.map := ((editView_eq_iff _ _).mp h).1
      have hv := editView_markVisited d w1 w2 h
      obtain ⟨hvm, hvl, hvt, hvtm⟩ := (editView_eq_iff _ _).mp hv
      rw [radially_succ, radially_succ, hm,
        findBestMatchIsomValue_congr n _ d _ _ hvl hvt hvtm, hvm]
      split_ifs with hc
      · generalize (markVisited d w2).map.findBestMatchIsomValue n d (markVisited d w2).cache = r
        rcases r with _ | _ | bm
        · rfl
        · exact ih _ _ _ hv
        · simp only []
          have hs := editView_setDiamond d bm u _ _ hv
          split_ifs
          · rw [((editView_eq_iff _ _).mp hs).1]
            exact ih _ _ _ hs
          · exact ih _ _ _ hv
      · exact ih _ _ _ h

end World
end IsomTerrain

namespace IsomTerrain
namespace World

theorem editView_placeBrushCell (d : IsomDiamond) (v : Nat) (bMin bMax bx bY : Int)
    (s1 s2 : World × List IsomDiamond)
    (h : editView s1.1 = editView s2.1 ∧ s1.2 = s2.2) :
    editView (placeBrushCell d v bMin bMax bx bY s1).1 =
        editView (placeBrushCell d v bMin bMax bx bY s2).1 ∧
      (placeBrushCell d v bMin bMax bx bY s1).2 = (placeBrushCell d v bMin bMax bx bY s2).2 := by
  have hm : s1.1.map = s2.1.map := ((editView_eq_iff _ _).mp h.1).1
  have hs := editView_setDiamond
    ⟨toSize ((d.x : Int) + bx - bY), toSize ((d.y : Int) + bx + bY)⟩ v true _ _ h.1
  have hsm := ((editView_eq_iff _ _).mp hs).1
  unfold placeBrushCell
  simp only []
  by_cases hin : s1.1.map.isInBounds
      ⟨toSize ((d.x : Int) + bx - bY), toSize ((d.y : Int) + bx + bY)⟩ = true
  · have hin2 := hin
    rw [hm] at hin2
    rw [if_pos hin, if_pos hin2]
    by_cases he : bx = bMin ∨ bx = bMax - 1 ∨ bY = bMin ∨ bY = bMax - 1
    · rw [if_pos he, if_pos he]
      dsimp only
      refine ⟨hs, ?_⟩
      rw [hsm, h.2]
    · rw [if_neg he, if_neg he]
      dsimp only
      exact ⟨hs, h.2⟩
  · have hin2 := hin
    rw [hm] at hin2
    rw [if_neg hin, if_neg hin2]
    exact h

theorem editView_placeBrush (d : IsomDiamond) (v : Nat) (bMin bMax : Int)
    (s1 s2 : World × List IsomDiamond)
    (h : editView s1.1 = editView s2.1 ∧ s1.2 = s2.2) :
    editView (placeBrush d v bMin bMax s1).1 = editView (placeBrush d v bMin bMax s2).1 ∧
      (placeBrush d v bMin bMax s1).2 = (placeBrush d v bMin bMax s2).2 := by
  unfold placeBrush
  apply foldl_rel _ _
    (fun a b : World × List IsomDiamond => editView a.1 = editView b.1 ∧ a.2 = b.2) _ _ _ h
  intro bx t1 t2 _ ht
  apply foldl_rel _ _
    (fun a b : World × List IsomDiamond => editView a.1 = editView b.1 ∧ a.2 = b.2) _ _ _ ht
  intro bY u1 u2 _ hu
  exact editView_placeBrushCell d v bMin bMax bx bY u1 u2 hu

/-- Two calls of `placeIsomTerrain` with the same arguments on states with the same map and
tables agree on whether they return, on the result and on the isom rectangles. -/
theorem placeOutcome_congr (fuel : Nat) (d : IsomDiamond) (terrainType brushExtent : Nat)
    (w1 w2 : World) (h : editView w1 = editView w2) :
    (placeIsomTerrain fuel d terrainType brushExtent w1).map placeOutcome =
      (placeIsomTerrain fuel d terrainType brushExtent w2).map placeOutcome := by
  obtain ⟨hm, hl, ht, htm⟩ := (editView_eq_iff _ _).mp h
  have hiv : w1.cache.getTerrainTypeIsomValue terrainType =
      w2.cache.getTerrainTypeIsomValue terrainType := by
    unfold IsomCache.getTerrainTypeIsomValue
    rw [ht]
  unfold placeIsomTerrain
  simp only []
  rw [hiv, hl]
  split_ifs
  · simp only [Option.map_some', placeOutcome, hm]
  · have hb := editView_placeBrush d (w2.cache.getTerrainTypeIsomValue terrainType)
      (brushMin brushExtent) (brushMax brushExtent)
      ({ w1 with cache := w1.cache.resetChangedArea }, [])
      ({ w2 with cache := w2.cache.resetChangedArea }, [])
      ⟨(editView_eq_iff _ _).mpr ⟨hm, hl, ht, htm⟩, rfl⟩
    have hr := editView_radially true fuel
      (placeBrush d (w2.cache.getTerrainTypeIsomValue terrainType) (brushMin brushExtent)
        (brushMax brushExtent) ({ w2 with cache := w2.cache.resetChangedArea }, [])).2 _ _ hb.1
    rw [hb.2]
    generalize radiallyUpdateTerrain true fuel
      (placeBrush d (w2.cache.getTerrainTypeIsomValue terrainType) (brushMin brushExtent)
        (brushMax brushExtent) ({ w2 with cache := w2.cache.resetChangedArea }, [])).2
      (placeBrush d (w2.cache.getTerrainTypeIsomValue terrainType) (brushMin brushExtent)
        (brushMax brushExtent) ({ w1 with cache := w1.cache.resetChangedArea }, [])).1 = r1 at hr ⊢
    generalize radiallyUpdateTerrain true fuel
      (placeBrush d (w2.cache.getTerrainTypeIsomValue terrainType) (brushMin brushExtent)
        (brushMax brushExtent) ({ w2 with cache := w2.cache.resetChangedArea }, [])).2
      (placeBrush d (w2.cache.getTerrainTypeIsomValue terrainType) (brushMin brushExtent)
        (brushMax brushExtent) ({ w2 with cache := w2.cache.resetChangedArea }, [])).1 = r2 at hr ⊢
    cases r1 <;> cases r2
    · rfl
    · simp at hr
    · simp at hr
    · simp only [Option.map_some', Option.some.injEq] at hr
      simp only [Option.map_some', placeOutcome, ((editView_eq_iff _ _).mp hr).1]

/-- C24: for every map and every two caches that differ only in the contents of `undoMap` and
in `changedArea` (in particular when one of them was just cleared by
`finalizeUndoableOperation`), `placeIsomTerrain` with the same arguments returns the same
result and produces identical `isomRects` (and the one call returns iff the other does). -/
theorem C24_finalize_idempotence (fuel : Nat) (d : IsomDiamond) (terrainType brushExtent : Nat)
    (w : World) (undoMap2 : List (Option IsomRectUndo)) (area2 : BoundingBox) :
    (placeIsomTerrain fuel d terrainType brushExtent
        { w with cache := { w.cache with undoMap := undoMap2, changedArea := area2 } }).map
        placeOutcome =
      (placeIsomTerrain fuel d terrainType brushExtent w).map placeOutcome ∧
    (placeIsomTerrain fuel d terrainType brushExtent
        { w with cache :=
          { w.cache.finalizeUndoableOperation with changedArea := area2 } }).map placeOutcome =
      (placeIsomTerrain fuel d terrainType brushExtent w).map placeOutcome :=
  ⟨placeOutcome_congr fuel d terrainType brushExtent _ w rfl,
    placeOutcome_congr fuel d terrainType brushExtent _ w rfl⟩

end World
end IsomTerrain

namespace IsomTerrain
namespace World

/-! ## Coherence of the diamonds -/

/-- A write of another rectangle, or of other sides of the same rectangle, keeps the two fields
of a quadrant. -/
theorem quadrantSides_setIsomValue_other (p : Point) (q2 : Quadrant) (v : Nat) (u : Bool)
    (w : World) (t : IsomDiamond) (q : Quadrant)
    (hc : w.map.isInBounds (t.getRectangleCoords q) = true)
    (hd : p ≠ t.getRectangleCoords q ∨ DisjointSides q q2) :
    quadrantSides (setIsomValue p q2 v u w).map t q = quadrantSides w.map t q := by
  by_cases hb : w.map.isInBounds p = true
  · rw [(setIsomValue_in p q2 v u w hb).1]
    by_cases hpe : t.getRectangleCoords q = p
    · rcases hd with hd | hd
      · exact absurd hpe.symm hd
      · unfold quadrantSides
        rw [hpe]
        rcases getIsomRect_setIsomRect_cases w.map p
          (((w.map.getIsomRect p).set (ProjectedQuadrant.atQuadrant q2) v).setModified
            (ProjectedQuadrant.atQuadrant q2)) with hr | hr
        · rw [hr, (written_frame _ q q2 v hd).1, (written_frame _ q q2 v hd).2]
        · rw [hr]
    · unfold quadrantSides
      rw [ScMap.getIsomRect_setIsomRect_ne w.map p _ _ (isInBounds_x _ _ hb)
        (isInBounds_x _ _ hc) hpe]
  · rw [setIsomValue_out p q2 v u w (by simpa using hb)]

/-- `setDiamondIsomValues` on a valid diamond leaves the fields of every in-bounds quadrant of
every other valid diamond as they are. -/
theorem quadrantSides_setDiamond_other (e t : IsomDiamond) (v : Nat) (u : Bool) (w : World)
    (he : GoodDiamond e) (ht : GoodDiamond t) (hne : e ≠ t) (q : Quadrant)
    (hc : w.map.isInBounds (t.getRectangleCoords q) = true) :
    quadrantSides (setDiamondIsomValues e v u w).map t q = quadrantSides w.map t q := by
  rw [setDiamondIsomValues_eq]
  generalize hw0 : ({ w with trace := Event.setDiamond e v :: w.trace } : World) = w0
  have hm0 : LeftMono w.map w0.map := by rw [← hw0]; exact leftMono_refl _
  have k0 : quadrantSides w0.map t q = quadrantSides w.map t q := by rw [← hw0]
  have step : ∀ (w1 : World) (q2 : Quadrant), LeftMono w.map w1.map →
      quadrantSides w1.map t q = quadrantSides w.map t q →
      LeftMono w.map (setIsomValue (e.getRectangleCoords q2) q2 v u w1).map ∧
      quadrantSides (setIsomValue (e.getRectangleCoords q2) q2 v u w1).map t q
        = quadrantSides w.map t q := by
    intro w1 q2 hm hk
    refine ⟨leftMono_trans _ _ _ hm (leftMono_setIsomValue _ _ _ _ _), ?_⟩
    rw [quadrantSides_setIsomValue_other _ q2 v u w1 t q
      (by rw [isInBounds_congr w.map _ hm.1 hm.2.1]; exact hc)
      (coords_disjoint e t q q2 he ht hne)]
    exact hk
  obtain ⟨m1, k1⟩ := step w0 Quadrant.TopLeft hm0 k0
  obtain ⟨m2, k2⟩ := step _ Quadrant.TopRight m1 k1
  obtain ⟨m3, k3⟩ := step _ Quadrant.BottomRight m2 k2
  exact (step _ Quadrant.BottomLeft m3 k3).2

theorem coherentAt_congr (m1 m2 : ScMap) (t : IsomDiamond) (v : Nat)
    (hw : m2.tileWidth = m1.tileWidth) (hh : m2.tileHeight = m1.tileHeight)
    (hs : ∀ q, m1.isInBounds (t.getRectangleCoords q) = true →
      fieldRow (quadrantSides m2 t q).1 = fieldRow (quadrantSides m1 t q).1 ∧
      fieldRow (quadrantSides m2 t q).2 = fieldRow (quadrantSides m1 t q).2)
    (h : CoherentAt m1 t v) : CoherentAt m2 t v := by
  intro q hc
  rw [isInBounds_congr m1 m2 hw hh] at hc
  rw [(hs q hc).1, (hs q hc).2]
  exact h q hc

theorem coherent_setDiamond_other (e t : IsomDiamond) (v : Nat) (u : Bool) (w : World)
    (he : GoodDiamond e) (ht : GoodDiamond t) (hne : e ≠ t) (h : Coherent w.map t) :
    Coherent (setDiamondIsomValues e v u w).map t := by
  obtain ⟨x, hx⟩ := h
  have hmono := leftMono_setDiamond e v u w
  refine ⟨x, coherentAt_congr w.map _ t x hmono.1 hmono.2.1 ?_ hx⟩
  intro q hc
  rw [quadrantSides_setDiamond_other e t v u w he ht hne q hc]
  exact ⟨rfl, rfl⟩

theorem coherent_markVisited (e t : IsomDiamond) (w : World) (h : Coherent w.map t) :
    Coherent (markVisited e w).map t := by
  obtain ⟨x, hx⟩ := h
  refine ⟨x, coherentAt_congr w.map _ t x rfl rfl ?_ hx⟩
  intro q _
  unfold quadrantSides
  rcases getIsomRect_markVisited e (t.getRectangleCoords q) w with hr | hr
  · rw [hr]; exact ⟨rfl, rfl⟩
  · rw [hr]; exact ⟨setVisited_rows _ _, setVisited_rows _ _⟩

/-- A field that holds the row `iv` (in the sense of `SideHolds`) stores the row index
`iv % 2048`. -/
theorem fieldRow_of_sideHolds (x iv f : Nat) (hf : f < 16) (h : SideHolds x iv f) :
    fieldRow x = iv % 2048 := by
  unfold fieldRow
  rw [h.1]
  exact IsomRect.stored_row iv f hf

theorem coherent_setDiamond_self (t : IsomDiamond) (v : Nat) (u : Bool) (w : World)
    (hg : GridComplete w.map) : Coherent (setDiamondIsomValues t v u w).map t := by
  refine ⟨v % 2048, ?_⟩
  intro q hc
  have h := diamondHolds_setDiamond_self t v u w hg q hc
  unfold HoldsQuadrant at h
  unfold quadrantSides
  constructor
  · exact fieldRow_of_sideHolds _ v _ (by cases q <;> decide) h.1
  · exact fieldRow_of_sideHolds _ v _ (by cases q <;> decide) h.2

/-- The invariant behind C23: the grid stays complete and the valid diamonds coherent. -/
theorem coherent_setDiamond (e : IsomDiamond) (v : Nat) (u : Bool) (w0 w : World)
    (he : GoodDiamond e) (hg : GridComplete w0.map)
    (h : LeftMono w0.map w.map ∧ ∀ t, GoodDiamond t → Coherent w.map t) :
    LeftMono w0.map (setDiamondIsomValues e v u w).map ∧
      ∀ t, GoodDiamond t → Coherent (setDiamondIsomValues e v u w).map t := by
  refine ⟨leftMono_trans _ _ _ h.1 (leftMono_setDiamond e v u w), ?_⟩
  intro t ht
  by_cases hne : e = t
  · rw [← hne]
    exact coherent_setDiamond_self e v u w (gridComplete_mono _ _ h.1 hg)
  · exact coherent_setDiamond_other e t v u w he ht hne (h.2 t ht)

theorem coherent_markVisited_all (e : IsomDiamond) (w0 w : World)
    (h : LeftMono w0.map w.map ∧ ∀ t, GoodDiamond t → Coherent w.map t) :
    LeftMono w0.map (markVisited e w).map ∧
      ∀ t, GoodDiamond t → Coherent (markVisited e w).map t :=
  ⟨leftMono_trans _ _ _ h.1 (leftMono_markVisited e w),
    fun t ht => coherent_markVisited e t w (h.2 t ht)⟩

/-- C23: if before `placeIsomTerrain` every valid diamond is coherent, meaning that the sides
of all its in-bounds quadrants (the two sides per quadrant given by `ProjectedQuadrant`) store
one and the same link-table row index, then after the call every valid diamond is still
coherent (on a map whose `isomRects` holds one rectangle per grid position; a valid diamond is
one with `(x + y) % 2 == 0` whose coordinates are `size_t` values). -/
theorem C23_coherence_preserved (fuel : Nat) (d : IsomDiamond) (terrainType brushExtent : Nat)
    (w w' : World) (b : Bool)
    (hgrid : w.map.isomRects.length = w.map.getIsomWidth * w.map.getIsomHeight)
    (hco : ∀ t : IsomDiamond, GoodDiamond t → Coherent w.map t)
    (h : placeIsomTerrain fuel d terrainType brushExtent w = some (b, w')) :
    ∀ t : IsomDiamond, GoodDiamond t → Coherent w'.map t := by
  have hg : GridComplete w.map := gridComplete_of_length _ hgrid
  have key := placeIsomTerrain_inv_best
    (fun w1 => LeftMono w.map w1.map ∧ ∀ t, GoodDiamond t → Coherent w1.map t) GoodDiamond
    fuel d terrainType brushExtent w w' b
    (fun e n he => goodDiamond_getNeighbor e n he)
    (fun hv bx bY => goodDiamond_brush d hv bx bY)
    ⟨leftMono_refl _, hco⟩ ⟨leftMono_refl _, hco⟩
    (fun bx bY w1 h1 hv _ _ =>
      coherent_setDiamond _ _ true w w1 (goodDiamond_brush d hv bx bY) hg h1)
    (fun e w1 _ _ _ h1 => coherent_markVisited_all e w w1 h1)
    (fun e v w1 he _ _ h1 _ _ =>
      coherent_setDiamond e v true w _ he hg (coherent_markVisited_all e w w1 h1))
    h
  exact key.2

end World
end IsomTerrain

namespace IsomTerrain
namespace World

/-- On a complete grid all of whose fields store the row `v`, every diamond is coherent. -/
theorem coherent_uniform (m : ScMap) (v : Nat) (hg : GridComplete m)
    (h : ∀ r ∈ m.isomRects, ∀ s : Side, fieldRow (r.side s) = v) (t : IsomDiamond) :
    Coherent m t := by
  refine ⟨v, ?_⟩
  intro q hc
  have hi := hg _ hc
  have hmem : m.getIsomRect (t.getRectangleCoords q) ∈ m.isomRects := by
    unfold ScMap.getIsomRect
    rw [List.getD_eq_getElem _ _ hi]
    exact List.getElem_mem hi
  exact ⟨h _ hmem _, h _ hmem _⟩

set_option maxRecDepth 100000 in
theorem flatPlaced_eq : placeIsomTerrain 100 ⟨0, 0⟩ 1 1 flatWorld = some (true, flatPlaced) := by
  rfl

set_option maxRecDepth 100000 in
/-- C23 is not vacuous: every diamond of `flatWorld` is coherent (every field stores the row
2), the call rewrites the diamonds (0,0) and (1,1) to the row 1, and the valid diamond (1,1)
is coherent afterwards. -/
theorem C23_coherence_preserved_witness :
    placeIsomTerrain 100 ⟨0, 0⟩ 1 1 flatWorld = some (true, flatPlaced) ∧
    flatPlaced.map.isomRects ≠ flatWorld.map.isomRects ∧
    GoodDiamond ⟨1, 1⟩ ∧ Coherent flatPlaced.map ⟨1, 1⟩ :=
  ⟨flatPlaced_eq, by decide, ⟨by decide, by decide, by decide⟩,
    C23_coherence_preserved 100 ⟨0, 0⟩ 1 1 flatWorld flatPlaced true (by decide)
      (fun t _ => coherent_uniform flatWorld.map 2 (gridComplete_of_length _ (by decide))
        (by
          intro r hr s
          have hr2 : r = { left := 32, top := 32, right := 32, bottom := 32 } :=
            List.eq_of_mem_replicate hr
          rw [hr2]
          cases s <;> decide) t)
      flatPlaced_eq ⟨1, 1⟩ ⟨by decide, by decide, by decide⟩⟩

end World
end IsomTerrain

namespace IsomTerrain
namespace ScMap

/-! ## The scan of `searchForBestMatch` as a fold over the scanned rows -/

theorem get_bestMatch (nb : IsomNeighbors) (bm : BestMatch) (q : Quadrant) :
    ({ nb with bestMatch := bm } : IsomNeighbors).get q = nb.get q := by
  cases q <;> rfl

/-- The match count does not depend on `bestMatch`. -/
theorem countNeighborMatchesFrom_congr (sl : ShapeLinks) (nb nb2 : IsomNeighbors)
    (links : List ShapeLinks) (h : ∀ q, nb2.get q = nb.get q) :
    ∀ (qs : List Quadrant) (total : Nat),
      countNeighborMatchesFrom sl nb2 links qs total = countNeighborMatchesFrom sl nb links qs total := by
  intro qs
  induction qs with
  | nil => intro total; rfl
  | cons q rest ih =>
    intro total
    rw [countNeighborMatchesFrom_cons, countNeighborMatchesFrom_cons, ih, ih]
    unfold quadrantMatches
    rw [h q]

theorem rowCount_congr (c : IsomCache) (nb nb2 : IsomNeighbors) (h : ∀ q, nb2.get q = nb.get q)
    (row : Nat) : rowCount c nb2 row = rowCount c nb row := by
  unfold rowCount countNeighborMatches
  exact countNeighborMatchesFrom_congr _ nb nb2 _ h _ _

theorem scanStep_get (c : IsomCache) (nb : IsomNeighbors) (row : Nat) (q : Quadrant) :
    (scanStep c nb row).get q = nb.get q := by
  unfold scanStep
  split_ifs
  · exact get_bestMatch _ _ _
  · rfl

theorem scanStep_max (c : IsomCache) (nb : IsomNeighbors) (row : Nat) :
    (scanStep c nb row).maxModifiedOfFour = nb.maxModifiedOfFour := by
  unfold scanStep
  split_ifs <;> rfl

theorem foldl_scanStep_get (c : IsomCache) (rows : List Nat) :
    ∀ (nb : IsomNeighbors),
      (∀ q, (rows.foldl (scanStep c) nb).get q = nb.get q) ∧
      (rows.foldl (scanStep c) nb).maxModifiedOfFour = nb.maxModifiedOfFour := by
  induction rows with
  | nil => intro nb; exact ⟨fun _ => rfl, rfl⟩
  | cons r rest ih =>
    intro nb
    rw [List.foldl_cons]
    exact ⟨fun q => ((ih _).1 q).trans (scanStep_get c nb r q),
      (ih _).2.trans (scanStep_max c nb r)⟩

/-- One round of the loop of `searchForBestMatch`, in terms of `scanStops` and `scanStep`. -/
theorem searchLoop_succ (st : Nat) (c : IsomCache) (fuel iv : Nat) (nb : IsomNeighbors) :
    searchLoop st (st == c.terrainTypes.length / 2 + 1) (st == 0) c (fuel + 1) iv nb =
      if iv < c.isomLinks.length then
        if scanStops c st iv = true then some nb
        else searchLoop st (st == c.terrainTypes.length / 2 + 1) (st == 0) c fuel
          ((iv + 1) % U16) (scanStep c nb iv)
      else some nb := by
  conv => lhs; unfold searchLoop
  by_cases hiv : iv < c.isomLinks.length
  · rw [if_pos hiv, if_pos hiv]
    simp only []
    rfl
  · rw [if_neg hiv, if_neg hiv]

/-- On a table of fewer than 65536 rows and with enough fuel, the loop of
`searchForBestMatch` from the row `iv` returns the fold of `scanStep` over the rows from `iv`
up to the end of the table or the first row at which the scan stops. -/
theorem searchLoop_eq (st : Nat) (c : IsomCache) (hlen : c.isomLinks.length < 65536) :
    ∀ (fuel iv : Nat) (nb : IsomNeighbors), c.isomLinks.length - iv < fuel →
      searchLoop st (st == c.terrainTypes.length / 2 + 1) (st == 0) c fuel iv nb =
        some (((List.range' iv (c.isomLinks.length - iv)).takeWhile
          fun row => !scanStops c st row).foldl (scanStep c) nb) := by
  intro fuel
  induction fuel with
  | zero => intro iv nb h; exact absurd h (Nat.not_lt_zero _)
  | succ n ih =>
    intro iv nb h
    rw [searchLoop_succ]
    by_cases hiv : iv < c.isomLinks.length
    · rw [if_pos hiv]
      have hr : List.range' iv (c.isomLinks.length - iv) =
          iv :: List.range' (iv + 1) (c.isomLinks.length - (iv + 1)) := by
        have : c.isomLinks.length - iv = (c.isomLinks.length - (iv + 1)) + 1 := by omega
        rw [this, List.range'_succ]
      rw [hr, List.takeWhile_cons]
      by_cases hs : scanStops c st iv = true
      · rw [if_pos hs]
        simp [hs]
      · rw [if_neg hs]
        have hs2 : scanStops c st iv = false := by simpa using hs
        simp only [hs2, Bool.not_false, if_true, List.foldl_cons]
        have hw : (iv + 1) % U16 = iv + 1 := Nat.mod_eq_of_lt (by unfold U16; omega)
        rw [hw]
        exact ih _ _ (by omega)
    · rw [if_neg hiv]
      have : c.isomLinks.length - iv = 0 := by omega
      rw [this]
      rfl

/-- `searchForBestMatch` returns the fold of `scanStep` over `scanRows`. -/
theorem searchForBestMatch_eq (fuel st : Nat) (nb : IsomNeighbors) (c : IsomCache)
    (hlen : c.isomLinks.length < 65536) (hf : c.isomLinks.length < fuel) :
    searchForBestMatch fuel st nb c = some ((scanRows c st).foldl (scanStep c) nb) := by
  unfold searchForBestMatch scanRows
  exact searchLoop_eq st c hlen fuel _ nb (by omega)

end ScMap
end IsomTerrain

namespace IsomTerrain
namespace ScMap

/-! ## The best match after the three passes -/

theorem earliestBest_max (count : Nat → Nat) (rows : List Nat) (bm : BestMatch)
    (h : EarliestBest count rows bm) : ∀ x ∈ rows, count x ≤ bm.matchCount := by
  intro x hx
  rcases h with ⟨hz, _⟩ | ⟨pre, r, post, e, hbm, _, hpre, hpost⟩
  · rw [hz x hx]; exact Nat.zero_le _
  · subst e
    rw [hbm]
    rcases List.mem_append.mp hx with h1 | h1
    · exact Nat.le_of_lt (hpre x h1)
    · rcases List.mem_cons.mp h1 with h2 | h2
      · rw [h2]
      · exact hpost x h2

/-- Scanning one more row keeps `bestMatch` the earliest row with the maximal count. -/
theorem earliestBest_step (count : Nat → Nat) (rows : List Nat) (bm : BestMatch) (r : Nat)
    (h : EarliestBest count rows bm) :
    EarliestBest count (rows ++ [r])
      (if count r > bm.matchCount then { isomValue := r, matchCount := count r } else bm) := by
  by_cases hgt : count r > bm.matchCount
  · rw [if_pos hgt]
    right
    refine ⟨rows, r, [], rfl, rfl, Nat.lt_of_le_of_lt (Nat.zero_le _) hgt, ?_,
      fun x hx => absurd hx (List.not_mem_nil _)⟩
    intro x hx
    exact Nat.lt_of_le_of_lt (earliestBest_max count rows bm h x hx) hgt
  · rw [if_neg hgt]
    rcases h with ⟨hz, hbm⟩ | ⟨pre, r0, post, e, hbm, hpos, hpre, hpost⟩
    · left
      refine ⟨?_, hbm⟩
      intro x hx
      rcases List.mem_append.mp hx with h1 | h1
      · exact hz x h1
      · rw [List.mem_singleton.mp h1]
        rw [hbm] at hgt
        exact Nat.eq_zero_of_not_pos hgt
    · right
      refine ⟨pre, r0, post ++ [r], by rw [e]; simp, hbm, hpos, hpre, ?_⟩
      intro x hx
      rcases List.mem_append.mp hx with h1 | h1
      · exact hpost x h1
      · rw [List.mem_singleton.mp h1]
        rw [hbm] at hgt
        exact Nat.le_of_not_lt hgt

theorem foldl_scanStep_best (c : IsomCache) (nb0 : IsomNeighbors) :
    ∀ (rows done : List Nat) (nb : IsomNeighbors), (∀ q, nb.get q = nb0.get q) →
      EarliestBest (rowCount c nb0) done nb.bestMatch →
      EarliestBest (rowCount c nb0) (done ++ rows) (rows.foldl (scanStep c) nb).bestMatch := by
  intro rows
  induction rows with
  | nil => intro done nb _ h; rw [List.append_nil]; exact h
  | cons r rest ih =>
    intro done nb hq h
    rw [List.foldl_cons]
    have e : done ++ r :: rest = (done ++ [r]) ++ rest := by simp
    rw [e]
    apply ih
    · intro q; rw [scanStep_get]; exact hq q
    · have hs : (scanStep c nb r).bestMatch =
          if rowCount c nb0 r > nb.bestMatch.matchCount then
            { isomValue := r, matchCount := rowCount c nb0 r } else nb.bestMatch := by
        unfold scanStep
        rw [rowCount_congr c nb0 nb hq r]
        split_ifs <;> rfl
      rw [hs]
      exact earliestBest_step _ _ _ _ h

theorem mem_takeWhile_range' (p : Nat → Bool) (a n r : Nat)
    (h : r ∈ (List.range' a n).takeWhile p) : a ≤ r ∧ r < a + n := by
  have h1 := (List.takeWhile_sublist p).subset h
  rw [List.mem_range'_1] at h1
  exact h1

theorem takeWhile_range' (p : Nat → Bool) :
    ∀ (n a : Nat), (List.range' a n).takeWhile p =
      List.range' a ((List.range' a n).takeWhile p).length := by
  intro n
  induction n with
  | zero => intro a; rfl
  | succ k ih =>
    intro a
    rw [List.range'_succ, List.takeWhile_cons]
    split
    · rw [List.length_cons, List.range'_succ]
      congr 1
      exact ih (a + 1)
    · rfl

theorem scanRows_lt (c : IsomCache) (st r : Nat) (h : r ∈ scanRows c st) :
    r < c.isomLinks.length := by
  have := mem_takeWhile_range' _ _ _ _ h
  omega

theorem scanRows_same (c : IsomCache) (st : Nat) (h0 : st ≠ 0)
    (h1 : st ≠ c.terrainTypes.length / 2 + 1) : scanRows c st = sameTypeRows c st := by
  unfold scanRows sameTypeRows
  congr 1
  funext row
  unfold scanStops
  have e0 : (st == 0) = false := by simpa using h0
  have e1 : (st == c.terrainTypes.length / 2 + 1) = false := by simpa using h1
  rw [e0, e1]
  generalize (c.isomLinks.getD row default).terrainType = t
  by_cases h : t = st
  · simp [h]
  · have hb : (t == st) = false := by simpa using h
    simp [h, bne, hb]

theorem scanRows_low (c : IsomCache) (st : Nat) (h0 : st ≠ 0)
    (h1 : st = c.terrainTypes.length / 2 + 1) : scanRows c st = lowTypeRows c st := by
  unfold scanRows lowTypeRows
  congr 1
  funext row
  unfold scanStops
  have e0 : (st == 0) = false := by simpa using h0
  have e1 : (st == c.terrainTypes.length / 2 + 1) = true := by simpa using h1
  rw [e0, e1]
  generalize (c.isomLinks.getD row default).terrainType = t
  by_cases hle : t ≤ st
  · have h2 : ¬ st < t := by omega
    simp [hle, h2]
  · have h2 : st < t := by omega
    have h3 : t ≠ st := by omega
    simp [hle, h2, h3]

end ScMap
end IsomTerrain

namespace IsomTerrain
namespace ScMap

/-- The three passes as one fold over `passRows`. -/
theorem findBestMatchIsomValue_fold (fuel : Nat) (m : ScMap) (d : IsomDiamond) (c : IsomCache)
    (hlen : c.isomLinks.length < 65536) (hf : c.isomLinks.length < fuel) :
    m.findBestMatchIsomValue fuel d c =
      some (if ((passRows m d c).foldl (scanStep c)
          (m.loadNeighborInfo d {} c.isomLinks)).bestMatch.isomValue = m.getCentralIsomValue d
        then none
        else some ((passRows m d c).foldl (scanStep c)
          (m.loadNeighborInfo d {} c.isomLinks)).bestMatch.isomValue) := by
  unfold findBestMatchIsomValue passRows
  simp only []
  generalize m.loadNeighborInfo d {} c.isomLinks = nb0
  by_cases hp : m.getCentralIsomValue d < c.isomLinks.length
  · rw [if_pos hp, if_pos hp]
    rw [searchForBestMatch_eq _ _ _ _ hlen hf]
    simp only []
    rw [searchForBestMatch_eq _ _ _ _ hlen hf]
    simp only []
    rw [searchForBestMatch_eq _ _ _ _ hlen hf]
    simp only []
    rw [(foldl_scanStep_get c _ nb0).2, List.foldl_append, List.foldl_append]
    split_ifs with h1
    · rfl
    · rfl
  · rw [if_neg hp, if_neg hp]
    simp only []
    rw [searchForBestMatch_eq _ _ _ _ hlen hf]
    simp only []
    rw [searchForBestMatch_eq _ _ _ _ hlen hf]
    simp only []
    rw [List.nil_append, List.foldl_append]
    split_ifs with h1
    · rfl
    · rfl

/-- With enough fuel on a table of fewer than 65536 rows, `findBestMatchIsomValue` returns, and
its `bestMatch` is the earliest row with the maximal count among the rows scanned by the
three passes. -/
theorem findBestMatchIsomValue_spec (fuel : Nat) (m : ScMap) (d : IsomDiamond) (c : IsomCache)
    (hlen : c.isomLinks.length < 65536) (hf : c.isomLinks.length < fuel) :
    ∃ bm, EarliestBest (rowCount c (m.loadNeighborInfo d {} c.isomLinks)) (passRows m d c) bm ∧
      m.findBestMatchIsomValue fuel d c =
        some (if bm.isomValue = m.getCentralIsomValue d then none else some bm.isomValue) := by
  have hfold := foldl_scanStep_best c (m.loadNeighborInfo d {} c.isomLinks) (passRows m d c) []
    (m.loadNeighborInfo d {} c.isomLinks) (fun _ => rfl)
    (Or.inl ⟨fun _ h => absurd h (List.not_mem_nil _),
      World.loadNeighborInfo_bestMatch m d {} c.isomLinks⟩)
  rw [List.nil_append] at hfold
  exact ⟨_, hfold, findBestMatchIsomValue_fold fuel m d c hlen hf⟩

theorem passRows_lt (m : ScMap) (d : IsomDiamond) (c : IsomCache) (r : Nat)
    (h : r ∈ passRows m d c) : r < c.isomLinks.length := by
  unfold passRows at h
  rcases List.mem_append.mp h with h1 | h1
  · rcases List.mem_append.mp h1 with h2 | h2
    · split_ifs at h2
      · exact scanRows_lt _ _ _ h2
      · exact absurd h2 (List.not_mem_nil _)
    · exact scanRows_lt _ _ _ h2
  · exact scanRows_lt _ _ _ h1

/-- The value `maxModifiedOfFour` that `loadNeighborInfo` leaves is the initial one or the
terrain type of a row of the link table. -/
theorem loadNeighborInfo_max (m : ScMap) (d : IsomDiamond) (nb : IsomNeighbors)
    (isomLinks : List ShapeLinks) :
    (m.loadNeighborInfo d nb isomLinks).maxModifiedOfFour = nb.maxModifiedOfFour ∨
    ∃ r, r < isomLinks.length ∧
      (m.loadNeighborInfo d nb isomLinks).maxModifiedOfFour =
        (isomLinks.getD r default).terrainType := by
  unfold ScMap.loadNeighborInfo
  apply foldl_inv _ (fun x : IsomNeighbors =>
    x.maxModifiedOfFour = nb.maxModifiedOfFour ∨
    ∃ r, r < isomLinks.length ∧ x.maxModifiedOfFour = (isomLinks.getD r default).terrainType)
  · exact Or.inl rfl
  · intro x i _ hx
    unfold ScMap.loadNeighborStep
    simp only []
    split_ifs with h1 h2 h3
    · exact Or.inr ⟨_, h2, rfl⟩
    · cases i <;> exact hx
    · cases i <;> exact hx
    · exact hx

/-- On a cache in which no row of the link table carries the terrain type
`terrainTypes.size()/2 + 1` and the terrain type map holds that type at most in the row of
that type, the passes 1 and 2 of `findBestMatchIsomValue` never start from it. -/
theorem pass_starts (m : ScMap) (d : IsomDiamond) (c : IsomCache)
    (htypes : ∀ r, r < c.isomLinks.length →
      (c.isomLinks.getD r default).terrainType < c.terrainTypes.length ∧
      (c.isomLinks.getD r default).terrainType ≠ c.terrainTypes.length / 2 + 1)
    (hmap : ∀ i, i < c.terrainTypes.length → ∀ j, j < c.terrainTypes.length →
      c.terrainTypeMap.getD (i * c.terrainTypes.length + j) 0 = c.terrainTypes.length / 2 + 1 →
      i = c.terrainTypes.length / 2 + 1) :
    (m.loadNeighborInfo d {} c.isomLinks).maxModifiedOfFour ≠ c.terrainTypes.length / 2 + 1 ∧
    (m.getCentralIsomValue d < c.isomLinks.length →
      c.terrainTypeMap.getD
        ((m.loadNeighborInfo d {} c.isomLinks).maxModifiedOfFour * c.terrainTypes.length +
          (c.isomLinks.getD (m.getCentralIsomValue d) default).terrainType) 0
        ≠ c.terrainTypes.length / 2 + 1) := by
  have hmm : (m.loadNeighborInfo d {} c.isomLinks).maxModifiedOfFour
      ≠ c.terrainTypes.length / 2 + 1 := by
    rcases loadNeighborInfo_max m d {} c.isomLinks with h | ⟨r, hr, h⟩
    · rw [h]
      show (0 : Nat) ≠ _
      omega
    · rw [h]
      exact (htypes r hr).2
  refine ⟨hmm, ?_⟩
  intro hp heq
  have hprev := (htypes _ hp).1
  have hlt : (m.loadNeighborInfo d {} c.isomLinks).maxModifiedOfFour
      < c.terrainTypes.length := by
    rcases loadNeighborInfo_max m d {} c.isomLinks with h | ⟨r, hr, h⟩
    · rw [h]
      show (0 : Nat) < _
      omega
    · rw [h]
      exact (htypes r hr).1
  exact hmm (hmap _ hlt _ hprev heq)

/-- C26: on a cache as `Tiles::loadIsom` builds it (a link table of at least one and fewer
than 65536 rows in which every row carries a terrain type of the descriptor table other than
`terrainTypes.size()/2 + 1`, and a terrain type map that holds that type at most in the row of
that type; see `builtin_tables_in_range`), `searchForBestMatch(start)` returns and scans the
consecutive rows from `terrainTypes[start].isomValue` upward; in the passes 1 and 2 of
`findBestMatchIsomValue` (start = mapped type, start = `maxModifiedOfFour`) with `start != 0` it
stops at the first row whose terrain type differs from `start`; over the rows it scans it
replaces `bestMatch` only by a row whose match count is strictly greater than the current best
count, so that after the three passes `bestMatch` is the earliest-scanned row with the maximal
count (or the row 0 with count 0 when no scanned row scores above 0) and its index is below
`isomLinks.size()`. -/
theorem C26_best_match_search (fuel : Nat) (m : ScMap) (d : IsomDiamond) (c : IsomCache)
    (hpos : 0 < c.isomLinks.length) (hlen : c.isomLinks.length < 65536)
    (htypes : ∀ r, r < c.isomLinks.length →
      (c.isomLinks.getD r default).terrainType < c.terrainTypes.length ∧
      (c.isomLinks.getD r default).terrainType ≠ c.terrainTypes.length / 2 + 1)
    (hmap : ∀ i, i < c.terrainTypes.length → ∀ j, j < c.terrainTypes.length →
      c.terrainTypeMap.getD (i * c.terrainTypes.length + j) 0 = c.terrainTypes.length / 2 + 1 →
      i = c.terrainTypes.length / 2 + 1)
    (hf : c.isomLinks.length < fuel) :
    (∀ (start : Nat) (nb : IsomNeighbors),
      searchForBestMatch fuel start nb c = some ((scanRows c start).foldl (scanStep c) nb)) ∧
    (∀ start : Nat,
      scanRows c start =
        List.range' (c.getTerrainTypeIsomValue start) (scanRows c start).length ∧
      ∀ r ∈ scanRows c start, r < c.isomLinks.length) ∧
    (m.getCentralIsomValue d < c.isomLinks.length →
      c.terrainTypeMap.getD
        ((m.loadNeighborInfo d {} c.isomLinks).maxModifiedOfFour * c.terrainTypes.length +
          (c.isomLinks.getD (m.getCentralIsomValue d) default).terrainType) 0 ≠ 0 →
      scanRows c (c.terrainTypeMap.getD
        ((m.loadNeighborInfo d {} c.isomLinks).maxModifiedOfFour * c.terrainTypes.length +
          (c.isomLinks.getD (m.getCentralIsomValue d) default).terrainType) 0) =
        sameTypeRows c (c.terrainTypeMap.getD
          ((m.loadNeighborInfo d {} c.isomLinks).maxModifiedOfFour * c.terrainTypes.length +
            (c.isomLinks.getD (m.getCentralIsomValue d) default).terrainType) 0)) ∧
    ((m.loadNeighborInfo d {} c.isomLinks).maxModifiedOfFour ≠ 0 →
      scanRows c (m.loadNeighborInfo d {} c.isomLinks).maxModifiedOfFour =
        sameTypeRows c (m.loadNeighborInfo d {} c.isomLinks).maxModifiedOfFour) ∧
    ∃ bm : BestMatch,
      EarliestBest (rowCount c (m.loadNeighborInfo d {} c.isomLinks)) (passRows m d c) bm ∧
      bm.isomValue < c.isomLinks.length ∧
      m.findBestMatchIsomValue fuel d c =
        some (if bm.isomValue = m.getCentralIsomValue d then none else some bm.isomValue) := by
  obtain ⟨hs2, hs1⟩ := pass_starts m d c htypes hmap
  refine ⟨fun start nb => searchForBestMatch_eq fuel start nb c hlen hf,
    fun start => ⟨takeWhile_range' _ _ _, fun r hr => scanRows_lt c start r hr⟩,
    fun hp h0 => scanRows_same c _ h0 (hs1 hp),
    fun h0 => scanRows_same c _ h0 hs2, ?_⟩
  obtain ⟨bm, hbest, hres⟩ := findBestMatchIsomValue_spec fuel m d c hlen hf
  refine ⟨bm, hbest, ?_, hres⟩
  rcases hbest with ⟨_, hbm⟩ | ⟨pre, r, post, e, hbm, _⟩
  · rw [hbm]; exact hpos
  · rw [hbm]
    exact passRows_lt m d c r (by rw [e]; simp)

end ScMap
end IsomTerrain


namespace IsomTerrain
namespace ScMap

set_option maxRecDepth 100000 in
/-- C26 is not vacuous: on the map of `demoPlaced` with `demoCache` (two terrain types, so
`terrainTypes.size()/2 + 1` is 2, a type no row carries) the diamond (1,1) has a modified
neighbour of type 1; the passes 1 and 2 both start from the type 1 and scan the rows 1 and 2,
the rows of that type, the pass 3 scans the rows 0, 1, 2; the counts are 0, 4, 0 and the best
match is the row 1, which the diamond already holds. -/
theorem C26_best_match_search_witness :
    (0 < demoCache.isomLinks.length ∧ demoCache.isomLinks.length < 65536 ∧
      demoCache.isomLinks.length < 10 ∧
      demoPlaced.map.getCentralIsomValue ⟨1, 1⟩ = 1 ∧
      (demoPlaced.map.loadNeighborInfo ⟨1, 1⟩ {} demoCache.isomLinks).maxModifiedOfFour = 1 ∧
      demoCache.terrainTypeMap.getD
        ((demoPlaced.map.loadNeighborInfo ⟨1, 1⟩ {} demoCache.isomLinks).maxModifiedOfFour *
            demoCache.terrainTypes.length +
          (demoCache.isomLinks.getD (demoPlaced.map.getCentralIsomValue ⟨1, 1⟩)
            default).terrainType) 0 = 1) ∧
    sameTypeRows demoCache 1 = [1, 2] ∧
    passRows demoPlaced.map ⟨1, 1⟩ demoCache = [1, 2, 1, 2, 0, 1, 2] ∧
    demoPlaced.map.findBestMatchIsomValue 10 ⟨1, 1⟩ demoCache = some none ∧
    scanRows demoCache (demoPlaced.map.loadNeighborInfo ⟨1, 1⟩ {}
        demoCache.isomLinks).maxModifiedOfFour =
      sameTypeRows demoCache (demoPlaced.map.loadNeighborInfo ⟨1, 1⟩ {}
        demoCache.isomLinks).maxModifiedOfFour ∧
    ∃ bm : BestMatch,
      EarliestBest
        (rowCount demoCache (demoPlaced.map.loadNeighborInfo ⟨1, 1⟩ {} demoCache.isomLinks))
        (passRows demoPlaced.map ⟨1, 1⟩ demoCache) bm ∧
      bm.isomValue < demoCache.isomLinks.length ∧
      demoPlaced.map.findBestMatchIsomValue 10 ⟨1, 1⟩ demoCache =
        some (if bm.isomValue = demoPlaced.map.getCentralIsomValue ⟨1, 1⟩ then none
          else some bm.isomValue) :=
  have h := C26_best_match_search 10 demoPlaced.map ⟨1, 1⟩ demoCache (by decide) (by decide)
    (by decide) (by decide) (by decide)
  ⟨by decide, by decide, by decide, by decide, h.2.2.2.1 (by decide), h.2.2.2.2⟩

/-- The condition on the rows cannot be dropped: on the hand-made `sweepCache` the type 3 is
`terrainTypes.size()/2 + 1` and owns rows of the link table (in the built-in tables that type
has the isomValue 0 and no row); for the diamond (1,1) of `sweepMap` the pass 2 starts from
`maxModifiedOfFour = 3`, which is not 0, at the row 3. The first row whose terrain type differs
from 3 is the row 4 (type 1), so the rows up to there are the row 3 alone, but the scan runs on
over the rows 4 and 5 and the call leaves the row 5 (beyond the row 4) as the best match. -/
theorem searchForBestMatch_sweep_overruns :
    (sweepMap.loadNeighborInfo ⟨1, 1⟩ {} sweepCache.isomLinks).maxModifiedOfFour = 3 ∧
    sweepCache.getTerrainTypeIsomValue 3 = 3 ∧
    (sweepCache.isomLinks.getD 4 default).terrainType = 1 ∧
    sameTypeRows sweepCache 3 = [3] ∧
    scanRows sweepCache 3 = [3, 4, 5] ∧
    (searchForBestMatch 10
        (sweepMap.loadNeighborInfo ⟨1, 1⟩ {} sweepCache.isomLinks).maxModifiedOfFour
        (sweepMap.loadNeighborInfo ⟨1, 1⟩ {} sweepCache.isomLinks) sweepCache).map
        (fun nb => nb.bestMatch) = some { isomValue := 5, matchCount := 4 } := by
  decide

end ScMap
end IsomTerrain

namespace IsomTerrain
namespace Tiles

/-! ## `populateTerrainTypeMap`: the entries are first hops of shortest paths -/

theorem reachIn_lt (adj : Nat → List Nat) (total i : Nat) (hfit : AdjacencyFits adj total)
    (hi : i < total) : ∀ (n t : Nat), ReachIn adj n i t → t < total := by
  intro n
  induction n with
  | zero => intro t h; rw [← (show i = t from h)]; exact hi
  | succ k ih =>
    intro t h
    obtain ⟨c, hc, htc⟩ := h
    exact ((hfit c (ih c hc)).2 t htc).2

theorem reachIn_reachable (adj : Nat → List Nat) (a : Nat) :
    ∀ (n b : Nat), ReachIn adj n a b → Relation.ReflTransGen (fun x y => y ∈ adj x) a b := by
  intro n
  induction n with
  | zero => intro b h; rw [← (show a = b from h)]
  | succ k ih =>
    intro b h
    obtain ⟨c, hc, hbc⟩ := h
    exact (ih c hc).tail hbc

theorem dist_unique (adj : Nat → List Nat) (i t a b : Nat) (ha : Dist adj i t a)
    (hb : Dist adj i t b) : a = b :=
  Nat.le_antisymm (ha.2 b hb.1) (hb.2 a ha.1)

theorem dist_self (adj : Nat → List Nat) (i : Nat) : Dist adj i i 0 :=
  ⟨rfl, fun _ _ => Nat.zero_le _⟩

/-- The map entry and the row data after a visit of an unmarked type. -/
theorem visit_entries (total i d : Nat) (st : ExpandState) (t : Nat) (hi : i < total)
    (ht : t < total) (hL : st.terrainTypeMap.length = total * total)
    (hR : st.rowData.length = total)
    (hz : st.terrainTypeMap.getD (i * total + t) 0 = 0) :
    (∀ x, (visit (i * total) d st t).terrainTypeMap.getD (i * total + x) 0 =
      if x = t then (if st.rowData.getD d 0 = 0 then t else st.rowData.getD d 0)
      else st.terrainTypeMap.getD (i * total + x) 0) ∧
    (∀ x, (visit (i * total) d st t).rowData.getD x 0 =
      if x = t then (if st.rowData.getD d 0 = 0 then t else st.rowData.getD d 0)
      else st.rowData.getD x 0) ∧
    (visit (i * total) d st t).terrainTypeStack = st.terrainTypeStack ++ [t] ∧
    (visit (i * total) d st t).rowData.length = total := by
  rw [visit_of_zero _ _ _ _ hz]
  have hidx : i * total + t < st.terrainTypeMap.length := by
    rw [hL]; exact row_index_lt total i t hi ht
  refine ⟨?_, ?_, rfl, ?_⟩
  · intro x
    show (st.terrainTypeMap.set _ _).getD _ 0 = _
    rw [getD_set_eq]
    by_cases e : x = t
    · subst e; rw [if_pos ⟨rfl, hidx⟩, if_pos rfl]
    · rw [if_neg (fun h => e (by omega)), if_neg e]
  · intro x
    show (st.rowData.set _ _).getD _ 0 = _
    rw [getD_set_eq]
    by_cases e : x = t
    · subst e; rw [if_pos ⟨rfl, by rw [hR]; exact ht⟩, if_pos rfl]
    · rw [if_neg (fun h => e h.1.symm), if_neg e]
  · show (st.rowData.set _ _).length = _
    rw [List.length_set]; exact hR

end Tiles
end IsomTerrain

namespace IsomTerrain
namespace Tiles

/-- A visit of a neighbour of the type being expanded keeps the first-hop invariant. -/
theorem hopInv_visit (adj : Nat → List Nat) (total i : Nat) (map0 : List Nat) (d : Nat)
    (st : ExpandState) (t : Nat) (hfit : AdjacencyFits adj total) (hi : i < total)
    (hi0 : i ≠ 0) (hd : d < total) (ht : t ∈ adj d)
    (hr : RowInv adj total i map0 (some d) st) (h : HopInv adj total i (some d) st) :
    HopInv adj total i (some d) (visit (i * total) d st t) := by
  by_cases hz : st.terrainTypeMap.getD (i * total + t) 0 = 0
  swap
  · rw [visit_of_ne _ _ _ _ hz]; exact h
  obtain ⟨hL, _, _, _, hD, _⟩ := hr
  obtain ⟨gL, gI, gH, gQ, gP, k, q1, q2, gS, g1, g2, gK, gM⟩ := h
  have ht0 : t ≠ 0 := ((hfit d hd).2 t ht).1
  have htN : t < total := ((hfit d hd).2 t ht).2
  have hti : t ≠ i := by
    intro e
    rw [e, hD] at hz
    exact hi0 hz
  have hdk : Dist adj i d k := gK d rfl
  have hdt : Dist adj i t (k + 1) := by
    refine ⟨⟨d, hdk.1, ht⟩, ?_⟩
    intro m hm
    by_contra hlt
    rcases gM t m (by omega) hm with h1 | h1
    · exact h1 hz
    · exact hti h1
  obtain ⟨eM, eR, eS, eL⟩ := visit_entries total i d st t hi htN hL gL hz
  generalize hnv : (if st.rowData.getD d 0 = 0 then t else st.rowData.getD d 0) = nv at eM eR
  have hhop : FirstHop adj i t nv ∧ nv ≠ 0 := by
    by_cases hdi : d = i
    · have hR0 : st.rowData.getD d 0 = 0 := by rw [hdi]; exact gI
      rw [if_pos hR0] at hnv
      rw [← hnv]
      have hk0 : k = 0 := dist_unique adj i d k 0 hdk (by rw [hdi]; exact dist_self adj i)
      refine ⟨⟨by rw [← hdi]; exact ht, 0, rfl, ?_⟩, ht0⟩
      rw [hk0] at hdt
      exact hdt
    · have hm : st.terrainTypeMap.getD (i * total + d) 0 ≠ 0 := (gP d rfl).resolve_left hdi
      obtain ⟨hRd, hh, n, hn, hdn⟩ := gH d hd hdi hm
      have hRne : st.rowData.getD d 0 ≠ 0 := by rw [hRd]; exact hm
      rw [if_neg hRne] at hnv
      rw [← hnv, hRd]
      have hkn : k = n + 1 := dist_unique adj i d k (n + 1) hdk hdn
      refine ⟨⟨hh, n + 1, ⟨d, hn, ht⟩, ?_⟩, hm⟩
      rw [hkn] at hdt
      exact hdt
  have hmono : ∀ x, st.terrainTypeMap.getD (i * total + x) 0 ≠ 0 →
      (visit (i * total) d st t).terrainTypeMap.getD (i * total + x) 0 ≠ 0 := by
    intro x hx
    rw [eM]
    split_ifs with e
    · exact hhop.2
    · exact hx
  refine ⟨eL, ?_, ?_, ?_, ?_, k, q1, q2 ++ [t], ?_, g1, ?_, gK, ?_⟩
  · rw [eR, if_neg (fun e => hti e.symm)]; exact gI
  · intro x hx hxi hm
    rw [eM] at hm ⊢
    rw [eR]
    by_cases e : x = t
    · rw [if_pos e]
      rw [if_pos e]
      rw [e]
      exact ⟨rfl, hhop.1⟩
    · rw [if_neg e] at hm ⊢
      rw [if_neg e]
      exact gH x hx hxi hm
  · intro q hq
    rw [eS] at hq
    rcases List.mem_append.mp hq with h1 | h1
    · rcases gQ q h1 with h2 | h2
      · exact Or.inl h2
      · exact Or.inr (hmono q h2)
    · right
      rw [List.mem_singleton.mp h1, eM, if_pos rfl]
      exact hhop.2
  · intro p hp
    rcases gP p hp with h2 | h2
    · exact Or.inl h2
    · exact Or.inr (hmono p h2)
  · rw [eS, gS, List.append_assoc]
  · intro q hq
    rcases List.mem_append.mp hq with h1 | h1
    · exact g2 q h1
    · rw [List.mem_singleton.mp h1]; exact hdt
  · intro x n hn hx
    rcases gM x n hn hx with h1 | h1
    · exact Or.inl (hmono x h1)
    · exact Or.inr h1

/-- The scan of the adjacency list of `d` keeps the row invariant and the first-hop
invariant. -/
theorem hopInv_fold (adj : Nat → List Nat) (total i : Nat) (map0 : List Nat) (d : Nat)
    (hfit : AdjacencyFits adj total) (hi : i < total) (hi0 : i ≠ 0) (hd : d < total)
    (hRd : Relation.ReflTransGen (fun a b => b ∈ adj a) i d) :
    ∀ (l : List Nat) (st : ExpandState), (∀ s ∈ l, s ∈ adj d) →
      RowInv adj total i map0 (some d) st → HopInv adj total i (some d) st →
      HopInv adj total i (some d) (l.foldl (visit (i * total) d) st) := by
  intro l
  induction l with
  | nil => intro st _ _ h; exact h
  | cons a rest ih =>
    intro st hsub hr h
    rw [List.foldl_cons]
    have ha : a ∈ adj d := hsub a (List.mem_cons_self _ _)
    exact ih _ (fun s hs => hsub s (List.mem_cons_of_mem _ hs))
      (rowInv_visit adj total i map0 d st a hfit hi hd hRd ha hr)
      (hopInv_visit adj total i map0 d st a hfit hi hi0 hd ha hr h)

end Tiles
end IsomTerrain

namespace IsomTerrain
namespace Tiles

/-- Taking the next type from the queue keeps the first-hop invariant: when the types of the
distance `k` are used up, every type of the distance `k + 1` is already marked. -/
theorem hopInv_pop (adj : Nat → List Nat) (total i : Nat) (map0 : List Nat) (st : ExpandState)
    (d : Nat) (rest : List Nat) (hfit : AdjacencyFits adj total) (hi : i < total)
    (hs : st.terrainTypeStack = d :: rest)
    (hr : RowInv adj total i map0 none st) (h : HopInv adj total i none st) :
    HopInv adj total i (some d) { st with terrainTypeStack := rest } := by
  obtain ⟨_, _, _, hC, _, _⟩ := hr
  obtain ⟨gL, gI, gH, gQ, _, k, q1, q2, gS, g1, g2, _, gM⟩ := h
  have hdm : d = i ∨ st.terrainTypeMap.getD (i * total + d) 0 ≠ 0 :=
    gQ d (by rw [hs]; exact List.mem_cons_self _ _)
  refine ⟨gL, gI, gH, fun q hq => gQ q (by rw [hs]; exact List.mem_cons_of_mem _ hq),
    fun p hp => by rw [← Option.some.inj hp]; exact hdm, ?_⟩
  rw [hs] at gS
  cases q1 with
  | nil =>
    rw [List.nil_append] at gS
    have hdq : Dist adj i d (k + 1) := g2 d (by rw [← gS]; exact List.mem_cons_self _ _)
    refine ⟨k + 1, rest, [], (List.append_nil _).symm,
      fun q hq => g2 q (by rw [← gS]; exact List.mem_cons_of_mem _ hq),
      fun q hq => absurd hq (List.not_mem_nil _),
      fun p hp => by rw [← Option.some.inj hp]; exact hdq, ?_⟩
    intro t n hn ht
    by_cases hle : n ≤ k
    · exact gM t n hle ht
    · have hn1 : n = k + 1 := by omega
      subst hn1
      obtain ⟨c, hc, htc⟩ := ht
      have hcN : c < total := reachIn_lt adj total i hfit hi k c hc
      rcases hC c hcN (gM c k (Nat.le_refl _) hc) with h1 | h1 | h1
      · cases h1
      · exfalso
        rw [hs, gS] at h1
        have := (g2 c h1).2 k hc
        omega
      · exact Or.inl (h1 t htc)
  | cons a q1' =>
    rw [List.cons_append, List.cons.injEq] at gS
    refine ⟨k, q1', q2, gS.2, fun q hq => g1 q (List.mem_cons_of_mem _ hq), g2,
      fun p hp => by
        rw [← Option.some.inj hp, gS.1]
        exact g1 a (List.mem_cons_self _ _), gM⟩

theorem hopInv_done (adj : Nat → List Nat) (total i d : Nat) (st : ExpandState)
    (h : HopInv adj total i (some d) st) : HopInv adj total i none st := by
  obtain ⟨gL, gI, gH, gQ, _, k, q1, q2, gS, g1, g2, _, gM⟩ := h
  exact ⟨gL, gI, gH, gQ, fun _ hp => absurd hp (by simp), k, q1, q2, gS, g1, g2,
    fun _ hp => absurd hp (by simp), gM⟩

/-- The queue loop ends within the fuel and leaves both invariants with an empty queue. -/
theorem expandStack_hop (adj : Nat → List Nat) (total i : Nat) (map0 temp : List Nat)
    (hfit : AdjacencyFits adj total) (hi : i < total) (hi0 : i ≠ 0)
    (hT : ∀ d k, d < total → k < total → temp.getD (d * total + k) 0 = (adj d).getD k 0)
    (hlen : temp.length = total * total) :
    ∀ (fuel : Nat) (st : ExpandState), RowInv adj total i map0 none st →
      HopInv adj total i none st →
      st.terrainTypeStack.length + unmarked total (i * total) st.terrainTypeMap < fuel →
      ∃ stf, expandStack temp total (i * total) fuel st = some stf.terrainTypeMap ∧
        RowInv adj total i map0 none stf ∧ HopInv adj total i none stf ∧
        stf.terrainTypeStack = [] := by
  intro fuel
  induction fuel with
  | zero => intro st _ _ h; omega
  | succ n ih =>
    intro st hinv hhop hfuel
    cases hs : st.terrainTypeStack with
    | nil =>
      exact ⟨st, expandStack_nil temp total _ n st hs, hinv, hhop, hs⟩
    | cons d rest =>
      rw [expandStack_cons temp total _ n st d rest hs]
      have hpopH := hopInv_pop adj total i map0 st d rest hfit hi hs hinv hhop
      obtain ⟨hL, hA, hB, hC, hD, hF⟩ := hinv
      have hd : d < total := (hB d (by rw [hs]; exact List.mem_cons_self _ _)).1
      have hRd := (hB d (by rw [hs]; exact List.mem_cons_self _ _)).2
      rw [scan_row adj total temp hfit hT hlen (i * total) d hd]
      simp only []
      have hpop : RowInv adj total i map0 (some d) { st with terrainTypeStack := rest } := by
        refine ⟨hL, hA, ?_, ?_, hD, hF⟩
        · intro q hq
          exact hB q (by rw [hs]; exact List.mem_cons_of_mem _ hq)
        · intro t ht hm
          rcases hC t ht hm with h1 | h1 | h1
          · cases h1
          · rw [hs] at h1
            rcases List.mem_cons.mp h1 with e | e
            · left; rw [e]
            · right; left; exact e
          · right; right; exact h1
      obtain ⟨r1, r2, _, r4⟩ := rowInv_fold adj total i map0 d hfit hi hd hRd (adj d)
        { st with terrainTypeStack := rest } (fun s hs => hs) hpop
      have rH := hopInv_fold adj total i map0 d hfit hi hi0 hd hRd (adj d)
        { st with terrainTypeStack := rest } (fun s hs => hs) hpop hpopH
      apply ih
      · obtain ⟨gL, gA, gB, gC, gD, gF⟩ := r1
        refine ⟨gL, gA, gB, ?_, gD, gF⟩
        intro t ht hm
        rcases gC t ht hm with h1 | h1 | h1
        · have e : d = t := Option.some.inj h1
          subst e
          right; right; exact r2
        · right; left; exact h1
        · right; right; exact h1
      · exact hopInv_done adj total i d _ rH
      · have : ({ st with terrainTypeStack := rest } : ExpandState).terrainTypeStack.length + 1
            = st.terrainTypeStack.length := by
          rw [hs]; rfl
        have e2 : ({ st with terrainTypeStack := rest } : ExpandState).terrainTypeMap
            = st.terrainTypeMap := rfl
        rw [e2] at r4
        omega

end Tiles
end IsomTerrain

namespace IsomTerrain
namespace Tiles

/-- The expansion of a type `i > 0` in a map whose row `i` is zero: every non-zero entry of the
row, the diagonal apart, is the first hop of a shortest path from `i` to its column. -/
theorem expandType_hop (adj : Nat → List Nat) (total i : Nat) (map temp : List Nat)
    (hfit : AdjacencyFits adj total) (hi : i < total) (hi0 : i ≠ 0) (h16 : total ≤ U16)
    (hT : ∀ d k, d < total → k < total → temp.getD (d * total + k) 0 = (adj d).getD k 0)
    (hlen : temp.length = total * total) (hmlen : map.length = total * total)
    (hzero : ∀ t, t < total → map.getD (i * total + t) 0 = 0) :
    ∃ m, expandType temp total map i = some m ∧
      ∀ j, j < total → j ≠ i → m.getD (i * total + j) 0 ≠ 0 →
        FirstHop adj i j (m.getD (i * total + j) 0) := by
  have hmod : i % U16 = i := Nat.mod_eq_of_lt (by omega)
  have hidx : i * total + i < map.length := by
    rw [hmlen]; exact row_index_lt total i i hi hi
  have hset : ∀ k, (map.set (i * total + i) i).getD k 0 =
      if k = i * total + i then i else map.getD k 0 := by
    intro k
    rw [getD_set_eq]
    by_cases e : k = i * total + i
    · subst e; rw [if_pos ⟨rfl, hidx⟩, if_pos rfl]
    · rw [if_neg (fun h => e h.1.symm), if_neg e]
  have hmk : ∀ t, t < total → (map.set (i * total + i) i).getD (i * total + t) 0 ≠ 0 →
      t = i := by
    intro t ht hm
    rw [hset] at hm
    by_contra e
    rw [if_neg (by omega), hzero t ht] at hm
    exact hm rfl
  have hinit : RowInv adj total i map none
      { terrainTypeMap := map.set (i * total + i) i, rowData := List.replicate total 0,
        terrainTypeStack := [i] } := by
    refine ⟨?_, ?_, ?_, ?_, ?_, ?_⟩
    · show (map.set _ _).length = _
      rw [List.length_set]; exact hmlen
    · intro t ht hm
      rw [hmk t ht hm]
    · intro q hq
      rw [List.mem_singleton.mp hq]
      exact ⟨hi, Relation.ReflTransGen.refl⟩
    · intro t ht hm
      right; left
      have : t = i := by
        rcases hm with h1 | h1
        · exact hmk t ht h1
        · exact h1
      rw [this]; exact List.mem_singleton_self _
    · show (map.set _ _).getD _ 0 = i
      rw [hset, if_pos rfl]
    · intro k hk
      show (map.set _ _).getD k 0 = _
      rw [hset, if_neg (by
        rcases hk with h1 | h1
        · omega
        · have : (i + 1) * total = i * total + total := by ring
          omega)]
  have hhop : HopInv adj total i none
      { terrainTypeMap := map.set (i * total + i) i, rowData := List.replicate total 0,
        terrainTypeStack := [i] } := by
    refine ⟨List.length_replicate _ _, ?_, ?_, ?_, fun _ hp => absurd hp (by simp),
      0, [i], [], rfl, ?_, fun _ hq => absurd hq (List.not_mem_nil _),
      fun _ hp => absurd hp (by simp), ?_⟩
    · show (List.replicate total 0).getD i 0 = 0
      rw [List.getD_eq_getElem?_getD, List.getElem?_replicate, if_pos hi]
      rfl
    · intro t ht hti hm
      exact absurd (hmk t ht hm) hti
    · intro q hq
      exact Or.inl (List.mem_singleton.mp hq)
    · intro q hq
      rw [List.mem_singleton.mp hq]
      exact dist_self adj i
    · intro t n hn ht
      have hn0 : n = 0 := by omega
      subst hn0
      exact Or.inr (show i = t from ht).symm
  have hfuel : ([i] : List Nat).length + unmarked total (i * total) (map.set (i * total + i) i)
      < total * total + 2 := by
    have h1 := unmarked_le total (i * total) (map.set (i * total + i) i)
    have h2 : total ≤ total * total := Nat.le_mul_of_pos_left _ (by omega)
    simp only [List.length_singleton]
    omega
  obtain ⟨stf, hr, _, hh, _⟩ := expandStack_hop adj total i map temp hfit hi hi0 hT hlen
    (total * total + 2) _ hinit hhop hfuel
  refine ⟨stf.terrainTypeMap, ?_, ?_⟩
  · unfold expandType
    rw [hmod, Nat.mul_comm total i]
    exact hr
  · intro j hj hji hm
    exact (hh.2.2.1 j hj hji hm).2

/-- The loop over the types: every type `i > 0` of the list gets a row of first hops. -/
theorem expandTypes_hop (adj : Nat → List Nat) (total : Nat) (temp : List Nat)
    (hfit : AdjacencyFits adj total) (h16 : total ≤ U16)
    (hT : ∀ d k, d < total → k < total → temp.getD (d * total + k) 0 = (adj d).getD k 0)
    (hlen : temp.length = total * total) :
    ∀ (l : List Nat) (map : List Nat), l.Nodup → (∀ i ∈ l, i < total) →
      map.length = total * total →
      (∀ i ∈ l, ∀ t, t < total → map.getD (i * total + t) 0 = 0) →
      ∃ m, expandTypes temp total l map = some m ∧
        ∀ i ∈ l, i ≠ 0 → ∀ j, j < total → j ≠ i → m.getD (i * total + j) 0 ≠ 0 →
          FirstHop adj i j (m.getD (i * total + j) 0) := by
  intro l
  induction l with
  | nil =>
    intro map _ _ _ _
    exact ⟨map, rfl, fun i hi => absurd hi (List.not_mem_nil _)⟩
  | cons i rest ih =>
    intro map hnd hlt hm hzero
    rw [List.nodup_cons] at hnd
    have hi : i < total := hlt i (List.mem_cons_self _ _)
    obtain ⟨m1, e1, l1, f1, _, _⟩ := expandType_spec adj total i map temp hfit hi h16 hT hlen hm
      (hzero i (List.mem_cons_self _ _))
    have hz1 : ∀ i' ∈ rest, ∀ t, t < total → m1.getD (i' * total + t) 0 = 0 := by
      intro i' hi' t ht
      have hne : i' ≠ i := fun e => hnd.1 (e ▸ hi')
      rw [f1 _ (other_row total i i' t ht hne)]
      exact hzero i' (List.mem_cons_of_mem _ hi') t ht
    have hrest := fun x hx => hlt x (List.mem_cons_of_mem _ hx)
    obtain ⟨m2, e2, s2⟩ := ih m1 hnd.2 hrest l1 hz1
    obtain ⟨m2', e2', _, _, f2⟩ := expandTypes_spec adj total temp hfit h16 hT hlen rest m1
      hnd.2 hrest l1 hz1
    have em : m2' = m2 := Option.some.inj (e2'.symm.trans e2)
    rw [em] at f2
    refine ⟨m2, ?_, ?_⟩
    · show (match expandType temp total map i with
        | some m => expandTypes temp total rest m
        | none => none) = some m2
      rw [e1]
      exact e2
    · intro i' hi' hi0 j hj hji
      rcases List.mem_cons.mp hi' with e | e
      · subst e
        rw [f2 i' hnd.1 j hj]
        obtain ⟨m1', e1', h1⟩ := expandType_hop adj total i' map temp hfit hi hi0 h16 hT hlen hm
          (hzero i' (List.mem_cons_self _ _))
        have em1 : m1' = m1 := Option.some.inj (e1'.symm.trans e1)
        rw [em1] at h1
        exact h1 j hj hji
      · exact s2 i' e hi0 j hj hji

/-- `populateTerrainTypeMap` on a compressed map whose decompression is the square of its
adjacency lists: for `0 < i < N`, `j < N`, `j != i`, a non-zero entry `map[i*N + j]` is the
first hop of a shortest path from `i` to `j`. -/
theorem populateTerrainTypeMap_hop (compressed : List Nat) (total : Nat) (h16 : total ≤ U16)
    (hfit : AdjacencyFits (adjacencyList compressed) total)
    (hdec : decompress compressed total (compressed.length + 1) 0
      (List.replicate (total * total) 0) = some (adjacencySquare (adjacencyList compressed) total)) :
    ∃ m, populateTerrainTypeMap compressed total = some m ∧
      ∀ i, 0 < i → i < total → ∀ j, j < total → j ≠ i → m.getD (i * total + j) 0 ≠ 0 →
        FirstHop (adjacencyList compressed) i j (m.getD (i * total + j) 0) := by
  have hT := adjacencySquare_getD (adjacencyList compressed) total
  have hlen : (adjacencySquare (adjacencyList compressed) total).length = total * total := by
    unfold adjacencySquare
    rw [List.length_map, List.length_range]
  obtain ⟨m, e, s⟩ := expandTypes_hop (adjacencyList compressed) total _ hfit h16 hT hlen
    (List.range total).reverse (List.replicate (total * total) 0)
    (List.nodup_reverse.mpr (List.nodup_range total))
    (fun i hi => List.mem_range.mp (List.mem_reverse.mp hi))
    (List.length_replicate _ _)
    (fun i _ t _ => by
      rw [List.getD_eq_getElem?_getD, List.getElem?_replicate]
      split_ifs <;> rfl)
  refine ⟨m, ?_, ?_⟩
  · unfold populateTerrainTypeMap
    rw [hdec]
    exact e
  · intro i hi0 hi
    exact s i (List.mem_reverse.mpr (List.mem_range.mpr hi)) (by omega)

end Tiles
end IsomTerrain

namespace IsomTerrain
namespace Tiles

/-- C28: for each built-in tileset (descriptor table of size `N`), every `0 < i < N` and every
`j < N`, `j != i`, with `map[i*N + j] != 0` after `populateTerrainTypeMap`, the entry
`map[i*N + j]` is a member of the adjacency list of `i` (a direct neighbour of `i`) from which
`j` is reachable, and it is the first hop of a shortest path from `i` to `j`: `j` is reached
from it in `n` steps, and `n + 1` is the least number of steps from `i` to `j`. -/
theorem C28_first_hop (tilesetIndex : Nat) (ht : tilesetIndex < 8) :
    ∃ m, loadedTerrainTypeMap tilesetIndex = some m ∧
      ∀ i j, 0 < i → i < (tilesetTerrainTypes.getD tilesetIndex []).length →
        j < (tilesetTerrainTypes.getD tilesetIndex []).length → j ≠ i →
        m.getD (i * (tilesetTerrainTypes.getD tilesetIndex []).length + j) 0 ≠ 0 →
        Adjacent (compressedTerrainTypeMaps.getD tilesetIndex []) i
          (m.getD (i * (tilesetTerrainTypes.getD tilesetIndex []).length + j) 0) ∧
        Reachable (compressedTerrainTypeMaps.getD tilesetIndex [])
          (m.getD (i * (tilesetTerrainTypes.getD tilesetIndex []).length + j) 0) j ∧
        ∃ n, ReachIn (adjacencyList (compressedTerrainTypeMaps.getD tilesetIndex [])) n
            (m.getD (i * (tilesetTerrainTypes.getD tilesetIndex []).length + j) 0) j ∧
          ReachIn (adjacencyList (compressedTerrainTypeMaps.getD tilesetIndex [])) (n + 1) i j ∧
          ∀ k, ReachIn (adjacencyList (compressedTerrainTypeMaps.getD tilesetIndex [])) k i j →
            n + 1 ≤ k := by
  have h16 : ∀ n, n ≤ 36 → n ≤ U16 := fun n h => by unfold U16; omega
  have key : ∀ (c : List Nat) (n : Nat), n ≤ 36 → AdjacencyFits (adjacencyList c) n →
      decompress c n (c.length + 1) 0 (List.replicate (n * n) 0)
        = some (adjacencySquare (adjacencyList c) n) →
      ∃ m, populateTerrainTypeMap c n = some m ∧
        ∀ i j, 0 < i → i < n → j < n → j ≠ i → m.getD (i * n + j) 0 ≠ 0 →
          Adjacent c i (m.getD (i * n + j) 0) ∧ Reachable c (m.getD (i * n + j) 0) j ∧
          ∃ k, ReachIn (adjacencyList c) k (m.getD (i * n + j) 0) j ∧
            ReachIn (adjacencyList c) (k + 1) i j ∧
            ∀ k', ReachIn (adjacencyList c) k' i j → k + 1 ≤ k' := by
    intro c n hn hf hd
    obtain ⟨m, e, s⟩ := populateTerrainTypeMap_hop c n (h16 n hn) hf hd
    refine ⟨m, e, ?_⟩
    intro i j hi0 hi hj hji hm
    obtain ⟨hadj, k, hk, hdist⟩ := s i hi0 hi j hj hji hm
    exact ⟨hadj, reachIn_reachable _ _ k j hk, k, hk, hdist.1, hdist.2⟩
  interval_cases tilesetIndex
  · exact key _ 36 (by omega) badlands_fits badlands_decompress
  · exact key _ 22 (by omega) space_fits space_decompress
  · exact key _ 16 (by omega) installation_fits installation_decompress
  · exact key _ 18 (by omega) ashworld_fits ashworld_decompress
  · exact key _ 36 (by omega) jungle_fits jungle_decompress
  · exact key _ 36 (by omega) jungle_fits jungle_decompress
  · exact key _ 36 (by omega) jungle_fits jungle_decompress
  · exact key _ 36 (by omega) jungle_fits jungle_decompress

set_option maxRecDepth 100000 in
/-- C28 is not vacuous: on the badlands tileset (`N = 36`) the entry for `i = 2` (dirt) and
`j = 3` (high dirt) is not zero, and it is a direct neighbour of the type 2 on a shortest
path to the type 3. -/
theorem C28_first_hop_witness :
    ∃ m, loadedTerrainTypeMap 0 = some m ∧ m.getD (2 * 36 + 3) 0 ≠ 0 ∧
      Adjacent (compressedTerrainTypeMaps.getD 0 []) 2 (m.getD (2 * 36 + 3) 0) ∧
      Reachable (compressedTerrainTypeMaps.getD 0 []) (m.getD (2 * 36 + 3) 0) 3 := by
  obtain ⟨m, e, h⟩ := C28_first_hop 0 (by decide)
  obtain ⟨m2, e2, _, s⟩ := populateTerrainTypeMap_spec Brush.Badlands.terrainTypeMap 36
    (by unfold U16; omega) badlands_fits badlands_decompress
  have em : m2 = m := Option.some.inj (e2.symm.trans e)
  rw [em] at s
  have hne : m.getD (2 * 36 + 3) 0 ≠ 0 := by
    apply ((s 2 (by omega)).2 3 (by omega) (by omega)).mpr
    have h1 : Adjacent Brush.Badlands.terrainTypeMap 2 34 := by
      unfold Adjacent; decide
    have h2 : Adjacent Brush.Badlands.terrainTypeMap 34 3 := by
      unfold Adjacent; decide
    exact (Relation.ReflTransGen.single h1).tail h2
  have h3 := h 2 3 (by omega) (by decide) (by decide) (by omega) hne
  exact ⟨m, e, hne, h3.1, h3.2.1⟩

end Tiles
end IsomTerrain

namespace IsomTerrain

/-! ## The fields that the population of a shape block leaves alone -/

namespace TerrainTypeShapes

theorem map_assign (shapes : TerrainTypeShapes) (i : Nat) (f : ShapeLinks → ShapeLinks)
    (hf : ∀ s, (f s).terrainType = s.terrainType) :
    (shapes.assign i f).map (fun s => s.terrainType) = shapes.map (fun s => s.terrainType) := by
  unfold assign row
  apply List.ext_getElem
  · simp
  · intro n h1 h2
    simp only [List.length_map, List.length_set] at h1 h2
    simp only [List.getElem_map, List.getElem_set]
    split
    · next h => subst h; rw [hf, List.getD_eq_getElem _ _ h2]
    · rfl

theorem map_assign_setTopLeftRight (shapes : TerrainTypeShapes) (i v : Nat) :
    (shapes.assign i (ShapeLinks.setTopLeftRight v)).map (fun s => s.terrainType) =
      shapes.map (fun s => s.terrainType) :=
  map_assign shapes i _ (fun _ => rfl)

theorem map_assign_setTopLeftBottom (shapes : TerrainTypeShapes) (i v : Nat) :
    (shapes.assign i (ShapeLinks.setTopLeftBottom v)).map (fun s => s.terrainType) =
      shapes.map (fun s => s.terrainType) :=
  map_assign shapes i _ (fun _ => rfl)

theorem map_assign_setTopLeftLinkId (shapes : TerrainTypeShapes) (i v : Nat) :
    (shapes.assign i (ShapeLinks.setTopLeftLinkId v)).map (fun s => s.terrainType) =
      shapes.map (fun s => s.terrainType) :=
  map_assign shapes i _ (fun _ => rfl)

theorem map_assign_setTopRightLeft (shapes : TerrainTypeShapes) (i v : Nat) :
    (shapes.assign i (ShapeLinks.setTopRightLeft v)).map (fun s => s.terrainType) =
      shapes.map (fun s => s.terrainType) :=
  map_assign shapes i _ (fun _ => rfl)

theorem map_assign_setTopRightBottom (shapes : TerrainTypeShapes) (i v : Nat) :
    (shapes.assign i (ShapeLinks.setTopRightBottom v)).map (fun s => s.terrainType) =
      shapes.map (fun s => s.terrainType) :=
  map_assign shapes i _ (fun _ => rfl)

theorem map_assign_setTopRightLinkId (shapes : TerrainTypeShapes) (i v : Nat) :
    (shapes.assign i (ShapeLinks.setTopRightLinkId v)).map (fun s => s.terrainType) =
      shapes.map (fun s => s.terrainType) :=
  map_assign shapes i _ (fun _ => rfl)

theorem map_assign_setBottomRightLeft (shapes : TerrainTypeShapes) (i v : Nat) :
    (shapes.assign i (ShapeLinks.setBottomRightLeft v)).map (fun s => s.terrainType) =
      shapes.map (fun s => s.terrainType) :=
  map_assign shapes i _ (fun _ => rfl)

theorem map_assign_setBottomRightTop (shapes : TerrainTypeShapes) (i v : Nat) :
    (shapes.assign i (ShapeLinks.setBottomRightTop v)).map (fun s => s.terrainType) =
      shapes.map (fun s => s.terrainType) :=
  map_assign shapes i _ (fun _ => rfl)

theorem map_assign_setBottomRightLinkId (shapes : TerrainTypeShapes) (i v : Nat) :
    (shapes.assign i (ShapeLinks.setBottomRightLinkId v)).map (fun s => s.terrainType) =
      shapes.map (fun s => s.terrainType) :=
  map_assign shapes i _ (fun _ => rfl)

theorem map_assign_setBottomLeftTop (shapes : TerrainTypeShapes) (i v : Nat) :
    (shapes.assign i (ShapeLinks.setBottomLeftTop v)).map (fun s => s.terrainType) =
      shapes.map (fun s => s.terrainType) :=
  map_assign shapes i _ (fun _ => rfl)

theorem map_assign_setBottomLeftRight (shapes : TerrainTypeShapes) (i v : Nat) :
    (shapes.assign i (ShapeLinks.setBottomLeftRight v)).map (fun s => s.terrainType) =
      shapes.map (fun s => s.terrainType) :=
  map_assign shapes i _ (fun _ => rfl)

theorem map_assign_setBottomLeftLinkId (shapes : TerrainTypeShapes) (i v : Nat) :
    (shapes.assign i (ShapeLinks.setBottomLeftLinkId v)).map (fun s => s.terrainType) =
      shapes.map (fun s => s.terrainType) :=
  map_assign shapes i _ (fun _ => rfl)

theorem populateJutInEastWest_types (shapes : TerrainTypeShapes) (tilesetCv5s : List TileGroup)
    (shapeTileGroups : List ShapeTileGroup) :
    (shapes.populateJutInEastWest tilesetCv5s shapeTileGroups).map (fun s => s.terrainType) =
      shapes.map (fun s => s.terrainType) := by
  unfold populateJutInEastWest
  dsimp only
  split_ifs <;> simp only [map_assign_setTopLeftRight, map_assign_setTopLeftBottom, map_assign_setTopLeftLinkId, map_assign_setTopRightLeft, map_assign_setTopRightBottom, map_assign_setTopRightLinkId, map_assign_setBottomRightLeft, map_assign_setBottomRightTop, map_assign_setBottomRightLinkId, map_assign_setBottomLeftTop, map_assign_setBottomLeftRight, map_assign_setBottomLeftLinkId]

theorem populateEmptyQuadrantLinks_types (shapes : TerrainTypeShapes) :
    shapes.populateEmptyQuadrantLinks.map (fun s => s.terrainType) =
      shapes.map (fun s => s.terrainType) := by
  unfold populateEmptyQuadrantLinks
  simp only [map_assign_setTopLeftRight, map_assign_setTopLeftBottom, map_assign_setTopLeftLinkId, map_assign_setTopRightLeft, map_assign_setTopRightBottom, map_assign_setTopRightLinkId, map_assign_setBottomRightLeft, map_assign_setBottomRightTop, map_assign_setBottomRightLinkId, map_assign_setBottomLeftTop, map_assign_setBottomLeftRight, map_assign_setBottomLeftLinkId]

theorem populateHardcodedLinkId_types (shapes : TerrainTypeShapes) (shapeIndex : Nat) :
    (shapes.populateHardcodedLinkId shapeIndex).map (fun s => s.terrainType) =
      shapes.map (fun s => s.terrainType) := by
  unfold populateHardcodedLinkId
  dsimp only
  split_ifs <;> simp only [map_assign_setTopLeftRight, map_assign_setTopLeftBottom, map_assign_setTopLeftLinkId, map_assign_setTopRightLeft, map_assign_setTopRightBottom, map_assign_setTopRightLinkId, map_assign_setBottomRightLeft, map_assign_setBottomRightTop, map_assign_setBottomRightLinkId, map_assign_setBottomLeftTop, map_assign_setBottomLeftRight, map_assign_setBottomLeftLinkId]

theorem foldl_types {α : Type} (f : TerrainTypeShapes → α → TerrainTypeShapes)
    (hf : ∀ shapes a, (f shapes a).map (fun s => s.terrainType) =
      shapes.map (fun s => s.terrainType)) :
    ∀ (l : List α) (shapes : TerrainTypeShapes),
      (l.foldl f shapes).map (fun s => s.terrainType) = shapes.map (fun s => s.terrainType) := by
  intro l
  induction l with
  | nil => intro shapes; rfl
  | cons a t ih => intro shapes; rw [List.foldl_cons, ih, hf]

theorem populateHardcodedLinkIds_types (shapes : TerrainTypeShapes) :
    shapes.populateHardcodedLinkIds.map (fun s => s.terrainType) =
      shapes.map (fun s => s.terrainType) :=
  foldl_types _ populateHardcodedLinkId_types _ _

theorem fillOuterLinkIds_types (shapes : TerrainTypeShapes) (linkId : Nat) :
    (shapes.fillOuterLinkIds linkId).map (fun s => s.terrainType) =
      shapes.map (fun s => s.terrainType) := by
  unfold fillOuterLinkIds
  simp only [map_assign_setTopLeftRight, map_assign_setTopLeftBottom, map_assign_setTopLeftLinkId, map_assign_setTopRightLeft, map_assign_setTopRightBottom, map_assign_setTopRightLinkId, map_assign_setBottomRightLeft, map_assign_setBottomRightTop, map_assign_setBottomRightLinkId, map_assign_setBottomLeftTop, map_assign_setBottomLeftRight, map_assign_setBottomLeftLinkId]

theorem fillInnerLinkIds_types (shapes : TerrainTypeShapes) (linkId : Nat) :
    (shapes.fillInnerLinkIds linkId).map (fun s => s.terrainType) =
      shapes.map (fun s => s.terrainType) := by
  unfold fillInnerLinkIds
  simp only [map_assign_setTopLeftRight, map_assign_setTopLeftBottom, map_assign_setTopLeftLinkId, map_assign_setTopRightLeft, map_assign_setTopRightBottom, map_assign_setTopRightLinkId, map_assign_setBottomRightLeft, map_assign_setBottomRightTop, map_assign_setBottomRightLinkId, map_assign_setBottomLeftTop, map_assign_setBottomLeftRight, map_assign_setBottomLeftLinkId]

theorem populateLinkIdsToSolidBrush_types (tilesetCv5s : List TileGroup)
    (shapeTileGroups : List ShapeTileGroup) (isomLinks : List ShapeLinks)
    (shapes : TerrainTypeShapes) (i : Nat) :
    (populateLinkIdsToSolidBrush tilesetCv5s shapeTileGroups isomLinks shapes i).map
        (fun s => s.terrainType) = shapes.map (fun s => s.terrainType) := by
  unfold populateLinkIdsToSolidBrush
  dsimp only
  split_ifs <;> simp only [fillOuterLinkIds_types, fillInnerLinkIds_types]

theorem populateLinkIdsToSolidBrushes_types (shapes : TerrainTypeShapes)
    (tilesetCv5s : List TileGroup) (shapeTileGroups : List ShapeTileGroup)
    (totalSolidBrushEntries : Nat) (isomLinks : List ShapeLinks) :
    (shapes.populateLinkIdsToSolidBrushes tilesetCv5s shapeTileGroups totalSolidBrushEntries
        isomLinks).map (fun s => s.terrainType) = shapes.map (fun s => s.terrainType) :=
  foldl_types _ (populateLinkIdsToSolidBrush_types _ _ _) _ _

end TerrainTypeShapes

namespace Tiles

open TerrainTypeShapes

theorem matchShape_types (tileGroup : TileGroup) (tileGroupIndex : Nat) (noStackAbove : Bool)
    (state : TerrainTypeShapes × List ShapeTileGroup) (shapeIndex : Nat) :
    (matchShape tileGroup tileGroupIndex noStackAbove state shapeIndex).1.map
        (fun s => s.terrainType) = state.1.map (fun s => s.terrainType) := by
  unfold matchShape
  dsimp only
  split_ifs <;> simp only [map_assign_setTopLeftRight, map_assign_setTopLeftBottom, map_assign_setTopLeftLinkId, map_assign_setTopRightLeft, map_assign_setTopRightBottom, map_assign_setTopRightLinkId, map_assign_setBottomRightLeft, map_assign_setBottomRightTop, map_assign_setBottomRightLinkId, map_assign_setBottomLeftTop, map_assign_setBottomLeftRight, map_assign_setBottomLeftLinkId]

theorem foldl_state_types {α : Type}
    (f : TerrainTypeShapes × List ShapeTileGroup → α → TerrainTypeShapes × List ShapeTileGroup)
    (hf : ∀ state a, (f state a).1.map (fun s => s.terrainType) =
      state.1.map (fun s => s.terrainType)) :
    ∀ (l : List α) (state : TerrainTypeShapes × List ShapeTileGroup),
      (l.foldl f state).1.map (fun s => s.terrainType) =
        state.1.map (fun s => s.terrainType) := by
  intro l
  induction l with
  | nil => intro state; rfl
  | cons a t ih => intro state; rw [List.foldl_cons, ih, hf]

theorem matchTileGroup_types (tilesetCv5s : List TileGroup)
    (state : TerrainTypeShapes × List ShapeTileGroup) (tileGroupIndex : Nat) :
    (matchTileGroup tilesetCv5s state tileGroupIndex).1.map (fun s => s.terrainType) =
      state.1.map (fun s => s.terrainType) :=
  foldl_state_types _ (matchShape_types _ _ _) _ _

theorem foldl_column {σ τ α : Type} (f : σ → α → σ) (g : τ → α → τ) (R : σ → τ → Prop) :
    ∀ (l : List α) (s1 : σ) (s2 : τ), R s1 s2 →
      (∀ a s1 s2, R s1 s2 → R (f s1 a) (g s2 a)) → R (l.foldl f s1) (l.foldl g s2) := by
  intro l
  induction l with
  | nil => intro s1 s2 h _; exact h
  | cons a t ih =>
    intro s1 s2 h hstep
    rw [List.foldl_cons, List.foldl_cons]
    exact ih _ _ (hstep a s1 s2 h) hstep

theorem padIsomLinks_types (isomLinks : List ShapeLinks) (size : Nat) :
    (padIsomLinks isomLinks size).map (fun s => s.terrainType) =
      padColumn (isomLinks.map (fun s => s.terrainType)) size := by
  unfold padIsomLinks padColumn
  rw [List.map_append, List.map_replicate, List.length_map]

theorem addSolidBrush_types (tilesetCv5s : List TileGroup)
    (terrainTypeTileGroups : List (List Nat)) (isomLinks : List ShapeLinks)
    (solidBrush : TerrainTypeInfo) :
    (addSolidBrush tilesetCv5s terrainTypeTileGroups isomLinks solidBrush).map
        (fun s => s.terrainType) =
      padColumn (isomLinks.map (fun s => s.terrainType)) solidBrush.isomValue ++
        [solidBrush.index % 256] := by
  unfold addSolidBrush
  dsimp only
  rw [List.map_append, padIsomLinks_types]
  rfl

theorem addTerrainTypeShapes_types (tilesetCv5s : List TileGroup)
    (terrainTypeTileGroups : List (List Nat)) (totalSolidBrushEntries : Nat)
    (isomLinks : List ShapeLinks) (otherTerrainType : TerrainTypeInfo) :
    (addTerrainTypeShapes tilesetCv5s terrainTypeTileGroups totalSolidBrushEntries isomLinks
        otherTerrainType).map (fun s => s.terrainType) =
      isomLinks.map (fun s => s.terrainType) ++
        List.replicate 14 (otherTerrainType.index % 256) := by
  unfold addTerrainTypeShapes
  dsimp only
  rw [List.map_append, populateLinkIdsToSolidBrushes_types, populateHardcodedLinkIds_types,
    populateEmptyQuadrantLinks_types, populateJutInEastWest_types,
    foldl_state_types _ (matchTileGroup_types tilesetCv5s), List.map_replicate]

/-- The terrain types of the rows of the generated table do not depend on the tile groups. -/
theorem generateIsomLinks_types (tileGroups : List TileGroup)
    (terrainTypes : List TerrainTypeInfo) :
    (generateIsomLinks tileGroups terrainTypes).map (fun s => s.terrainType) =
      terrainTypeColumn terrainTypes := by
  unfold generateIsomLinks terrainTypeColumn
  dsimp only
  refine foldl_column _ _
    (fun (isomLinks : List ShapeLinks) (column : List Nat) =>
      isomLinks.map (fun s => s.terrainType) = column) _ _ _ ?_ ?_
  · show List.map _ _ = _
    rw [padIsomLinks_types]
    congr 1
    refine foldl_column _ _
      (fun (isomLinks : List ShapeLinks) (column : List Nat) =>
      isomLinks.map (fun s => s.terrainType) = column) _ _ _ rfl ?_
    intro b s1 s2 h
    show List.map _ _ = _
    rw [addSolidBrush_types, h]
  · intro t s1 s2 h
    show List.map _ _ = _
    rw [addTerrainTypeShapes_types, h]

theorem generateIsomLinks_length (tileGroups : List TileGroup)
    (terrainTypes : List TerrainTypeInfo) :
    (generateIsomLinks tileGroups terrainTypes).length = (terrainTypeColumn terrainTypes).length := by
  rw [← generateIsomLinks_types tileGroups terrainTypes, List.length_map]

theorem generateIsomLinks_terrainType (tileGroups : List TileGroup)
    (terrainTypes : List TerrainTypeInfo) (r : Nat) :
    ((generateIsomLinks tileGroups terrainTypes).getD r default).terrainType =
      (terrainTypeColumn terrainTypes).getD r 0 := by
  rw [← generateIsomLinks_types tileGroups terrainTypes]
  rw [List.getD_eq_getElem?_getD, List.getD_eq_getElem?_getD, List.getElem?_map]
  cases (generateIsomLinks tileGroups terrainTypes)[r]? <;> rfl

end Tiles

end IsomTerrain

namespace IsomTerrain

namespace Tiles

/-! ## The padding rows of the generated link table -/

set_option maxRecDepth 1000000 in
theorem builtin_column_described :
    ∀ tilesetIndex < 8,
      ∀ r < (terrainTypeColumn (tilesetTerrainTypes.getD tilesetIndex [])).length,
        ((terrainTypeColumn (tilesetTerrainTypes.getD tilesetIndex [])).getD r 0 ≠ 0 ↔
          describedRow (tilesetTerrainTypes.getD tilesetIndex []) r = true) := by
  decide!

/-- C21 (amended): for every built-in tileset and every tile-group table, a row of the table that
`generateIsomLinks` builds has a non-zero `terrainType` exactly when the terrain type table
describes it, as the `isomValue` row of a solid brush or as one of the 14 rows from the
`isomValue` of another terrain type; every other row, row 0 and the padding rows, has
`terrainType` 0. -/
theorem C21_described_rows (tilesetIndex : Nat) (ht : tilesetIndex < 8)
    (tileGroups : List TileGroup) (r : Nat)
    (hr : r < (generateIsomLinks tileGroups (tilesetTerrainTypes.getD tilesetIndex [])).length) :
    ((generateIsomLinks tileGroups (tilesetTerrainTypes.getD tilesetIndex [])).getD r
        default).terrainType ≠ 0 ↔
      describedRow (tilesetTerrainTypes.getD tilesetIndex []) r = true := by
  rw [generateIsomLinks_terrainType]
  rw [generateIsomLinks_length] at hr
  exact builtin_column_described tilesetIndex ht r hr

set_option maxRecDepth 1000000 in
/-- C21, an instance: row 13 of the Badlands table built from `badlandsGroups`, the first of the
14 rows of terrain type 34, is described and has that terrain type. -/
theorem C21_described_rows_witness :
    (0 : Nat) < 8 ∧
      13 < (generateIsomLinks badlandsGroups (tilesetTerrainTypes.getD 0 [])).length ∧
      describedRow (tilesetTerrainTypes.getD 0 []) 13 = true ∧
      ((generateIsomLinks badlandsGroups (tilesetTerrainTypes.getD 0 [])).getD 13
        default).terrainType = 34 ∧
      (((generateIsomLinks badlandsGroups (tilesetTerrainTypes.getD 0 [])).getD 13
          default).terrainType ≠ 0 ↔
        describedRow (tilesetTerrainTypes.getD 0 []) 13 = true) :=
  ⟨by decide, by decide!, by decide!, by decide!,
    C21_described_rows 0 (by decide) badlandsGroups 13 (by decide!)⟩

set_option maxRecDepth 1000000 in
/-- C21, the claim as stated fails: row 10 of the Badlands table built from `badlandsGroups`
lies inside the table (it has 125 rows) and is a padding row `ShapeLinks{}`, pushed
between the last solid brush (row 9) and the first other terrain type (row 13); its
`terrainType` is 0. -/
theorem C21_counterexample :
    0 < 10 ∧
      (generateIsomLinks badlandsGroups (tilesetTerrainTypes.getD 0 [])).length = 125 ∧
      (generateIsomLinks badlandsGroups (tilesetTerrainTypes.getD 0 [])).getD 10 default = {} ∧
      ((generateIsomLinks badlandsGroups (tilesetTerrainTypes.getD 0 [])).getD 10
        default).terrainType = 0 :=
  ⟨by decide, by decide!, by decide!, by decide!⟩

end Tiles

end IsomTerrain

namespace IsomTerrain

/-! ## The quadrant shared with a neighbour -/

/-- C35: for a diamond with `size_t` coordinates and every direction, the rectangle of the
diamond's quadrant in that direction is the rectangle of the neighbour's opposite quadrant
(with the wrap-around of `size_t`); `OppositeQuadrant` swaps `TopLeft` with `BottomRight` and
`TopRight` with `BottomLeft` and is an involution; `getNeighbor` maps valid diamonds to valid
diamonds. -/
theorem C35_neighbor_geometry (d : IsomDiamond) (hx : d.x < SIZE_MAX1) (hy : d.y < SIZE_MAX1) :
    (∀ i : Neighbor,
      d.getRectangleCoords i.toQuadrant =
        (d.getNeighbor i).getRectangleCoords (OppositeQuadrant i.toQuadrant)) ∧
    OppositeQuadrant Quadrant.TopLeft = Quadrant.BottomRight ∧
    OppositeQuadrant Quadrant.BottomRight = Quadrant.TopLeft ∧
    OppositeQuadrant Quadrant.TopRight = Quadrant.BottomLeft ∧
    OppositeQuadrant Quadrant.BottomLeft = Quadrant.TopRight ∧
    (∀ q : Quadrant, OppositeQuadrant (OppositeQuadrant q) = q) ∧
    (∀ i : Neighbor, d.isValid = true → (d.getNeighbor i).isValid = true) := by
  refine ⟨?_, rfl, rfl, rfl, rfl, ?_, ?_⟩
  · intro i
    rw [size_eq] at hx hy
    cases i <;>
      simp only [Neighbor.toQuadrant, OppositeQuadrant, IsomDiamond.getNeighbor,
        IsomDiamond.getRectangleCoords, sizeInc, sizeDec, size_eq, Point.mk.injEq, and_true,
        true_and] <;>
      omega
  · intro q
    cases q <;> rfl
  · intro i h
    rw [isValid_getNeighbor]
    exact h

/-- C35 at the corner diamond `(0, 0)`, where the upper-left neighbour wraps around. -/
theorem C35_neighbor_geometry_witness :
    (0 : Nat) < SIZE_MAX1 ∧
    (IsomDiamond.getRectangleCoords ⟨0, 0⟩ Quadrant.TopLeft =
        (IsomDiamond.getNeighbor ⟨0, 0⟩ Neighbor.UpperLeft).getRectangleCoords
          Quadrant.BottomRight) ∧
    IsomDiamond.getNeighbor ⟨0, 0⟩ Neighbor.UpperLeft =
      ⟨18446744073709551615, 18446744073709551615⟩ ∧
    (IsomDiamond.getNeighbor ⟨0, 0⟩ Neighbor.UpperLeft).isValid = true :=
  ⟨by decide,
    (C35_neighbor_geometry ⟨0, 0⟩ (by decide) (by decide)).1 Neighbor.UpperLeft,
    by decide,
    (C35_neighbor_geometry ⟨0, 0⟩ (by decide) (by decide)).2.2.2.2.2.2 Neighbor.UpperLeft
      (by decide)⟩

end IsomTerrain

namespace IsomTerrain

namespace World

/-! ## Every rectangle side belongs to at most one valid diamond -/

/-- C37: two different valid diamonds never write the same side of the same rectangle: for
any quadrants the rectangles differ or the two quadrants name disjoint pairs of sides; hence
`setDiamondIsomValues` on the one diamond leaves both fields of every in-bounds quadrant of
the other as they are. -/
theorem C37_sides_of_one_diamond (d1 d2 : IsomDiamond) (h1 : GoodDiamond d1)
    (h2 : GoodDiamond d2) (hne : d1 ≠ d2) :
    (∀ q1 q2 : Quadrant,
      d1.getRectangleCoords q1 ≠ d2.getRectangleCoords q2 ∨ DisjointSides q2 q1) ∧
    (∀ (isomValue : Nat) (undoable : Bool) (w : World) (q : Quadrant),
      w.map.isInBounds (d2.getRectangleCoords q) = true →
      quadrantSides (setDiamondIsomValues d1 isomValue undoable w).map d2 q =
        quadrantSides w.map d2 q) :=
  ⟨fun q1 q2 => coords_disjoint d1 d2 q2 q1 h1 h2 hne,
    fun isomValue undoable w q hc =>
      quadrantSides_setDiamond_other d1 d2 isomValue undoable w h1 h2 hne q hc⟩

/-- C37 on the diamonds `(1, 1)` and `(2, 2)`, which share the rectangle `(1, 1)`: the first
writes its left and top sides (bottom-right quadrant), the second its right and bottom sides
(top-left quadrant). -/
theorem C37_sides_of_one_diamond_witness :
    GoodDiamond ⟨1, 1⟩ ∧ GoodDiamond ⟨2, 2⟩ ∧ (⟨1, 1⟩ : IsomDiamond) ≠ ⟨2, 2⟩ ∧
    IsomDiamond.getRectangleCoords ⟨1, 1⟩ Quadrant.BottomRight =
      IsomDiamond.getRectangleCoords ⟨2, 2⟩ Quadrant.TopLeft ∧
    DisjointSides Quadrant.TopLeft Quadrant.BottomRight :=
  have h1 : GoodDiamond ⟨1, 1⟩ := ⟨by decide, by decide, by decide⟩
  have h2 : GoodDiamond ⟨2, 2⟩ := ⟨by decide, by decide, by decide⟩
  have hne : (⟨1, 1⟩ : IsomDiamond) ≠ ⟨2, 2⟩ := by decide
  ⟨h1, h2, hne, by decide,
    ((C37_sides_of_one_diamond ⟨1, 1⟩ ⟨2, 2⟩ h1 h2 hne).1 Quadrant.BottomRight
      Quadrant.TopLeft).resolve_left (fun h => h (by decide))⟩

end World

end IsomTerrain

namespace IsomTerrain

namespace TerrainTypeShapes

/-! ## Which function assigns which link-id slot -/

theorem length_assign (shapes : TerrainTypeShapes) (i : Nat) (f : ShapeLinks → ShapeLinks) :
    (shapes.assign i f).length = shapes.length := by
  unfold assign
  rw [List.length_set]

theorem row_assign (shapes : TerrainTypeShapes) (i j : Nat) (f : ShapeLinks → ShapeLinks) :
    (shapes.assign i f).row j =
      if i = j ∧ j < shapes.length then f (shapes.row j) else shapes.row j := by
  unfold assign row
  rw [List.getD_eq_getElem?_getD, List.getElem?_set]
  by_cases hij : i = j
  · subst hij
    by_cases hl : i < shapes.length
    · rw [if_pos rfl, if_pos hl, if_pos ⟨rfl, hl⟩]
      rfl
    · rw [if_pos rfl, if_neg hl, if_neg (fun h => hl h.2), List.getD_eq_getElem?_getD,
        List.getElem?_eq_none (Nat.le_of_not_lt hl)]
  · rw [if_neg hij, if_neg (fun h => hij h.1), List.getD_eq_getElem?_getD]

theorem slot_assign_setTopLeftLinkId (shapes : TerrainTypeShapes) (i v s : Nat) (q : Quadrant) :
    linkIdSlot (shapes.assign i (ShapeLinks.setTopLeftLinkId v)) s q =
      if i = s ∧ s < shapes.length ∧ q = Quadrant.TopLeft then v else linkIdSlot shapes s q := by
  unfold linkIdSlot
  rw [row_assign]
  by_cases h : i = s ∧ s < shapes.length
  · rw [if_pos h]
    cases q <;> simp [h, ShapeLinks.getLinkId, ShapeLinks.setTopLeftLinkId]
  · rw [if_neg h, if_neg (fun h2 => h ⟨h2.1, h2.2.1⟩)]

theorem slot_assign_setTopRightLinkId (shapes : TerrainTypeShapes) (i v s : Nat) (q : Quadrant) :
    linkIdSlot (shapes.assign i (ShapeLinks.setTopRightLinkId v)) s q =
      if i = s ∧ s < shapes.length ∧ q = Quadrant.TopRight then v else linkIdSlot shapes s q := by
  unfold linkIdSlot
  rw [row_assign]
  by_cases h : i = s ∧ s < shapes.length
  · rw [if_pos h]
    cases q <;> simp [h, ShapeLinks.getLinkId, ShapeLinks.setTopRightLinkId]
  · rw [if_neg h, if_neg (fun h2 => h ⟨h2.1, h2.2.1⟩)]

theorem slot_assign_setBottomRightLinkId (shapes : TerrainTypeShapes) (i v s : Nat) (q : Quadrant) :
    linkIdSlot (shapes.assign i (ShapeLinks.setBottomRightLinkId v)) s q =
      if i = s ∧ s < shapes.length ∧ q = Quadrant.BottomRight then v else linkIdSlot shapes s q := by
  unfold linkIdSlot
  rw [row_assign]
  by_cases h : i = s ∧ s < shapes.length
  · rw [if_pos h]
    cases q <;> simp [h, ShapeLinks.getLinkId, ShapeLinks.setBottomRightLinkId]
  · rw [if_neg h, if_neg (fun h2 => h ⟨h2.1, h2.2.1⟩)]

theorem slot_assign_setBottomLeftLinkId (shapes : TerrainTypeShapes) (i v s : Nat) (q : Quadrant) :
    linkIdSlot (shapes.assign i (ShapeLinks.setBottomLeftLinkId v)) s q =
      if i = s ∧ s < shapes.length ∧ q = Quadrant.BottomLeft then v else linkIdSlot shapes s q := by
  unfold linkIdSlot
  rw [row_assign]
  by_cases h : i = s ∧ s < shapes.length
  · rw [if_pos h]
    cases q <;> simp [h, ShapeLinks.getLinkId, ShapeLinks.setBottomLeftLinkId]
  · rw [if_neg h, if_neg (fun h2 => h ⟨h2.1, h2.2.1⟩)]

theorem slot_ite_setTopLeftLinkId (c : Prop) [Decidable c] (shapes : TerrainTypeShapes)
    (i v s : Nat) (q : Quadrant) :
    linkIdSlot (if c then shapes.assign i (ShapeLinks.setTopLeftLinkId v) else shapes) s q =
      if c ∧ i = s ∧ s < shapes.length ∧ q = Quadrant.TopLeft then v else linkIdSlot shapes s q := by
  by_cases hc : c
  · rw [if_pos hc, slot_assign_setTopLeftLinkId]
    simp only [hc, true_and]
  · rw [if_neg hc, if_neg (fun h => hc h.1)]

theorem slot_ite_setTopRightLinkId (c : Prop) [Decidable c] (shapes : TerrainTypeShapes)
    (i v s : Nat) (q : Quadrant) :
    linkIdSlot (if c then shapes.assign i (ShapeLinks.setTopRightLinkId v) else shapes) s q =
      if c ∧ i = s ∧ s < shapes.length ∧ q = Quadrant.TopRight then v else linkIdSlot shapes s q := by
  by_cases hc : c
  · rw [if_pos hc, slot_assign_setTopRightLinkId]
    simp only [hc, true_and]
  · rw [if_neg hc, if_neg (fun h => hc h.1)]

theorem slot_ite_setBottomRightLinkId (c : Prop) [Decidable c] (shapes : TerrainTypeShapes)
    (i v s : Nat) (q : Quadrant) :
    linkIdSlot (if c then shapes.assign i (ShapeLinks.setBottomRightLinkId v) else shapes) s q =
      if c ∧ i = s ∧ s < shapes.length ∧ q = Quadrant.BottomRight then v else linkIdSlot shapes s q := by
  by_cases hc : c
  · rw [if_pos hc, slot_assign_setBottomRightLinkId]
    simp only [hc, true_and]
  · rw [if_neg hc, if_neg (fun h => hc h.1)]

theorem slot_ite_setBottomLeftLinkId (c : Prop) [Decidable c] (shapes : TerrainTypeShapes)
    (i v s : Nat) (q : Quadrant) :
    linkIdSlot (if c then shapes.assign i (ShapeLinks.setBottomLeftLinkId v) else shapes) s q =
      if c ∧ i = s ∧ s < shapes.length ∧ q = Quadrant.BottomLeft then v else linkIdSlot shapes s q := by
  by_cases hc : c
  · rw [if_pos hc, slot_assign_setBottomLeftLinkId]
    simp only [hc, true_and]
  · rw [if_neg hc, if_neg (fun h => hc h.1)]

theorem length_ite_assign (c : Prop) [Decidable c] (shapes : TerrainTypeShapes) (i : Nat)
    (f : ShapeLinks → ShapeLinks) :
    (if c then shapes.assign i f else shapes).length = shapes.length := by
  split
  · exact length_assign _ _ _
  · rfl

theorem length_populateHardcodedLinkId (shapes : TerrainTypeShapes) (k : Nat) :
    (shapes.populateHardcodedLinkId k).length = shapes.length := by
  unfold populateHardcodedLinkId
  dsimp only
  simp only [length_ite_assign]

theorem slot_populateHardcodedLinkId (shapes : TerrainTypeShapes) (k s : Nat) (q : Quadrant) :
    linkIdSlot (shapes.populateHardcodedLinkId k) s q =
      if k = s ∧ s < shapes.length ∧ ShapeDefinitions.linkId k q ≥ LinkId.OnlyMatchSameType then
        ShapeDefinitions.linkId k q
      else linkIdSlot shapes s q := by
  unfold populateHardcodedLinkId
  dsimp only
  simp only [slot_ite_setTopLeftLinkId, slot_ite_setTopRightLinkId,
    slot_ite_setBottomRightLinkId, slot_ite_setBottomLeftLinkId, length_ite_assign]
  cases q <;>
    simp only [reduceCtorEq, and_false, if_false, and_true, ShapeDefinitions.linkId] <;>
    apply if_congr _ rfl rfl <;>
    tauto

theorem foldl_populateHardcodedLinkId (s : Nat) (q : Quadrant) :
    ∀ (n : Nat) (shapes : TerrainTypeShapes),
      ((List.range n).foldl populateHardcodedLinkId shapes).length = shapes.length ∧
      linkIdSlot ((List.range n).foldl populateHardcodedLinkId shapes) s q =
        if s < n ∧ s < shapes.length ∧
            ShapeDefinitions.linkId s q ≥ LinkId.OnlyMatchSameType then
          ShapeDefinitions.linkId s q
        else linkIdSlot shapes s q := by
  intro n
  induction n with
  | zero => intro shapes; simp
  | succ n ih =>
    intro shapes
    rw [List.range_succ, List.foldl_append, List.foldl_cons, List.foldl_nil]
    obtain ⟨h1, h2⟩ := ih shapes
    refine ⟨by rw [length_populateHardcodedLinkId, h1], ?_⟩
    rw [slot_populateHardcodedLinkId, h1, h2]
    by_cases hn : n = s
    · subst hn
      simp only [Nat.lt_irrefl, false_and, if_false, true_and, Nat.lt_succ_self]
    · have hs1 : s < n + 1 ↔ s < n := by omega
      simp only [hn, false_and, if_false, hs1]

/-- The three sets of slots are pairwise disjoint and cover the 56 slots: 32 hardcoded, 12
outer, 12 inner. -/
theorem slots_partition :
    (∀ slot ∈ allSlots,
      (hardSlot slot.1 slot.2 && !outerSlot slot.1 slot.2 && !innerSlot slot.1 slot.2 ||
        !hardSlot slot.1 slot.2 && outerSlot slot.1 slot.2 && !innerSlot slot.1 slot.2 ||
        !hardSlot slot.1 slot.2 && !outerSlot slot.1 slot.2 && innerSlot slot.1 slot.2) = true) ∧
    allSlots.length = 56 ∧
    allSlots.countP (fun slot => hardSlot slot.1 slot.2) = 32 ∧
    allSlots.countP (fun slot => outerSlot slot.1 slot.2) = 12 ∧
    allSlots.countP (fun slot => innerSlot slot.1 slot.2) = 12 := by
  decide

theorem mem_allSlots (s : Nat) (hs : s < 14) (q : Quadrant) : (s, q) ∈ allSlots := by
  interval_cases s <;> cases q <;> decide

theorem hardcoded_slot (shapes : TerrainTypeShapes) (h : shapes.length = 14) (s : Nat)
    (hs : s < 14) (q : Quadrant) :
    linkIdSlot shapes.populateHardcodedLinkIds s q =
      (if hardSlot s q = true then ShapeDefinitions.linkId s q else linkIdSlot shapes s q) := by
  unfold populateHardcodedLinkIds hardSlot
  rw [(foldl_populateHardcodedLinkId s q _ shapes).2, h]
  have hl : ShapeDefinitions.shapes.length = 14 := rfl
  rw [hl]
  simp only [hs, true_and, decide_eq_true_eq]

theorem blankShapes_length : blankShapes.length = 14 := rfl

theorem blankShapes_slot (s : Nat) (q : Quadrant) : linkIdSlot blankShapes s q = 0 := by
  unfold linkIdSlot row blankShapes
  rw [List.getD_eq_getElem?_getD, List.getElem?_replicate]
  split <;> cases q <;> rfl

theorem outer_slot (shapes : TerrainTypeShapes) (h : shapes.length = 14) (linkId s : Nat)
    (hs : s < 14) (q : Quadrant) :
    linkIdSlot (shapes.fillOuterLinkIds linkId) s q =
      (if outerSlot s q = true then linkId else linkIdSlot shapes s q) := by
  unfold outerSlot fillOuterLinkIds
  simp only [slot_assign_setTopLeftLinkId, slot_assign_setTopRightLinkId, slot_assign_setBottomRightLinkId, slot_assign_setBottomLeftLinkId, length_assign, h, blankShapes_length, blankShapes_slot, Shape.EdgeNorthWest, Shape.EdgeNorthEast, Shape.EdgeSouthEast, Shape.EdgeSouthWest, Shape.JutOutNorth, Shape.JutOutEast, Shape.JutOutSouth, Shape.JutOutWest, Shape.JutInEast, Shape.JutInWest, Shape.JutInNorth, Shape.JutInSouth, Shape.Horizontal, Shape.Vertical]
  interval_cases s <;> cases q <;> simp

theorem inner_slot (shapes : TerrainTypeShapes) (h : shapes.length = 14) (linkId s : Nat)
    (hs : s < 14) (q : Quadrant) :
    linkIdSlot (shapes.fillInnerLinkIds linkId) s q =
      (if innerSlot s q = true then linkId else linkIdSlot shapes s q) := by
  unfold innerSlot fillInnerLinkIds
  simp only [slot_assign_setTopLeftLinkId, slot_assign_setTopRightLinkId, slot_assign_setBottomRightLinkId, slot_assign_setBottomLeftLinkId, length_assign, h, blankShapes_length, blankShapes_slot, Shape.EdgeNorthWest, Shape.EdgeNorthEast, Shape.EdgeSouthEast, Shape.EdgeSouthWest, Shape.JutOutNorth, Shape.JutOutEast, Shape.JutOutSouth, Shape.JutOutWest, Shape.JutInEast, Shape.JutInWest, Shape.JutInNorth, Shape.JutInSouth, Shape.Horizontal, Shape.Vertical]
  interval_cases s <;> cases q <;> simp

/-- C40: each of the 56 link-id slots of a block of 14 shape rows is assigned by exactly one of
`populateHardcodedLinkIds` (the slots whose template link id is 255 or more, which receive the
template link id), `fillOuterLinkIds` and `fillInnerLinkIds` (which write their argument); each
function leaves the slots of the other two as they are. -/
theorem C40_linkId_slots (shapes : TerrainTypeShapes) (h : shapes.length = 14)
    (linkId s : Nat) (hs : s < 14) (q : Quadrant) :
    (hardSlot s q && !outerSlot s q && !innerSlot s q ||
      !hardSlot s q && outerSlot s q && !innerSlot s q ||
      !hardSlot s q && !outerSlot s q && innerSlot s q) = true ∧
    linkIdSlot shapes.populateHardcodedLinkIds s q =
      (if hardSlot s q = true then ShapeDefinitions.linkId s q else linkIdSlot shapes s q) ∧
    linkIdSlot (shapes.fillOuterLinkIds linkId) s q =
      (if outerSlot s q = true then linkId else linkIdSlot shapes s q) ∧
    linkIdSlot (shapes.fillInnerLinkIds linkId) s q =
      (if innerSlot s q = true then linkId else linkIdSlot shapes s q) :=
  ⟨slots_partition.1 (s, q) (mem_allSlots s hs q), hardcoded_slot shapes h s hs q,
    outer_slot shapes h linkId s hs q, inner_slot shapes h linkId s hs q⟩

/-- C40 on the blank block with the link id 7: the top-left slot of `EdgeNorthWest` is an outer
slot, and only `fillOuterLinkIds` writes it. -/
theorem C40_linkId_slots_witness :
    blankShapes.length = 14 ∧ Shape.EdgeNorthWest < 14 ∧
    outerSlot Shape.EdgeNorthWest Quadrant.TopLeft = true ∧
    linkIdSlot blankShapes.populateHardcodedLinkIds Shape.EdgeNorthWest Quadrant.TopLeft = 0 ∧
    linkIdSlot (blankShapes.fillOuterLinkIds 7) Shape.EdgeNorthWest Quadrant.TopLeft = 7 ∧
    linkIdSlot (blankShapes.fillInnerLinkIds 7) Shape.EdgeNorthWest Quadrant.TopLeft = 0 :=
  have h := C40_linkId_slots blankShapes (by decide) 7 Shape.EdgeNorthWest (by decide)
    Quadrant.TopLeft
  ⟨by decide, by decide, by decide, h.2.1.trans (by decide), h.2.2.1.trans (by decide),
    h.2.2.2.trans (by decide)⟩

end TerrainTypeShapes

end IsomTerrain

namespace IsomTerrain

namespace Tiles

/-! ## The rows of the generated table lie where the `isomValue`s point -/

theorem addSolidBrush_linkIds (tilesetCv5s : List TileGroup)
    (terrainTypeTileGroups : List (List Nat)) (isomLinks : List ShapeLinks)
    (solidBrush : TerrainTypeInfo) :
    (addSolidBrush tilesetCv5s terrainTypeTileGroups isomLinks solidBrush).map linkIdRow =
      isomLinks.map linkIdRow ++
        List.replicate (solidBrush.isomValue - (isomLinks.map linkIdRow).length)
          [0, 0, 0, 0, 0] ++
        [[solidBrush.index % 256, solidBrush.linkId, solidBrush.linkId, solidBrush.linkId,
          solidBrush.linkId]] := by
  unfold addSolidBrush padIsomLinks
  dsimp only
  rw [List.map_append, List.map_append, List.map_replicate, List.length_map]
  rfl

theorem solidBrushes_linkIds (tilesetCv5s : List TileGroup)
    (terrainTypeTileGroups : List (List Nat)) (terrainTypes : List TerrainTypeInfo) :
    ((solidBrushes terrainTypes).foldl (addSolidBrush tilesetCv5s terrainTypeTileGroups)
        []).map linkIdRow = solidBrushColumn terrainTypes := by
  unfold solidBrushColumn
  refine foldl_column _ _
    (fun (isomLinks : List ShapeLinks) (column : List (List Nat)) =>
      isomLinks.map linkIdRow = column) _ _ _ rfl ?_
  intro b s1 s2 h
  show List.map _ _ = _
  rw [addSolidBrush_linkIds, h]

theorem foldl_addTerrainTypeShapes_prefix (tilesetCv5s : List TileGroup)
    (terrainTypeTileGroups : List (List Nat)) (totalSolidBrushEntries : Nat) :
    ∀ (l : List TerrainTypeInfo) (isomLinks : List ShapeLinks),
      ∃ rest, l.foldl
        (addTerrainTypeShapes tilesetCv5s terrainTypeTileGroups totalSolidBrushEntries)
        isomLinks = isomLinks ++ rest := by
  intro l
  induction l with
  | nil => intro isomLinks; exact ⟨[], (List.append_nil _).symm⟩
  | cons a t ih =>
    intro isomLinks
    rw [List.foldl_cons]
    obtain ⟨rest, hr⟩ := ih
      (addTerrainTypeShapes tilesetCv5s terrainTypeTileGroups totalSolidBrushEntries isomLinks a)
    rw [hr]
    unfold addTerrainTypeShapes
    dsimp only
    rw [List.append_assoc]
    exact ⟨_, rfl⟩

/-- The rows pushed for the solid brushes are a prefix of the generated table. -/
theorem generateIsomLinks_prefix (tileGroups : List TileGroup)
    (terrainTypes : List TerrainTypeInfo) :
    ∃ solid rest, generateIsomLinks tileGroups terrainTypes = solid ++ rest ∧
      solid.map linkIdRow = solidBrushColumn terrainTypes := by
  unfold generateIsomLinks
  dsimp only
  obtain ⟨rest, hr⟩ := foldl_addTerrainTypeShapes_prefix
    (List.take (min 1024 tileGroups.length) tileGroups)
    (collectTileGroups (List.take (min 1024 tileGroups.length) tileGroups) terrainTypes.length)
    ((solidBrushes terrainTypes).foldl
      (addSolidBrush (List.take (min 1024 tileGroups.length) tileGroups)
        (collectTileGroups (List.take (min 1024 tileGroups.length) tileGroups)
          terrainTypes.length)) []).length
    (otherTerrainTypes terrainTypes)
    (padIsomLinks
      ((solidBrushes terrainTypes).foldl
        (addSolidBrush (List.take (min 1024 tileGroups.length) tileGroups)
          (collectTileGroups (List.take (min 1024 tileGroups.length) tileGroups)
            terrainTypes.length)) [])
      ((otherTerrainTypes terrainTypes).getD 0 default).isomValue)
  rw [hr]
  unfold padIsomLinks
  rw [List.append_assoc]
  exact ⟨_, _, rfl, solidBrushes_linkIds _ _ _⟩

/-- Below the length of the solid brush part the link ids of a row of the generated table do
not depend on the tile groups. -/
theorem generateIsomLinks_linkIds (tileGroups : List TileGroup)
    (terrainTypes : List TerrainTypeInfo) (v : Nat)
    (hv : v < (solidBrushColumn terrainTypes).length) :
    linkIdRow ((generateIsomLinks tileGroups terrainTypes).getD v default) =
      (solidBrushColumn terrainTypes).getD v [] := by
  obtain ⟨solid, rest, h1, h2⟩ := generateIsomLinks_prefix tileGroups terrainTypes
  have hl : v < solid.length := by
    rw [← h2, List.length_map] at hv
    exact hv
  rw [h1, ← h2, List.getD_eq_getElem?_getD, List.getD_eq_getElem?_getD,
    List.getElem?_append_left hl, List.getElem?_map, List.getElem?_eq_getElem hl]
  rfl

theorem builtin_index :
    ∀ tilesetIndex < 8,
      ∀ i < (tilesetTerrainTypes.getD tilesetIndex []).length,
        ((tilesetTerrainTypes.getD tilesetIndex []).getD i default).index = i := by
  decide

set_option maxRecDepth 1000000 in
theorem builtin_solid_rows :
    ∀ tilesetIndex < 8,
      ∀ i < (tilesetTerrainTypes.getD tilesetIndex []).length,
        1 ≤ i ∧ i ≤ (tilesetTerrainTypes.getD tilesetIndex []).length / 2 ∧
            ((tilesetTerrainTypes.getD tilesetIndex []).getD i default).isomValue ≠ 0 →
          ((tilesetTerrainTypes.getD tilesetIndex []).getD i default).isomValue <
              (solidBrushColumn (tilesetTerrainTypes.getD tilesetIndex [])).length ∧
            (solidBrushColumn (tilesetTerrainTypes.getD tilesetIndex [])).getD
              ((tilesetTerrainTypes.getD tilesetIndex []).getD i default).isomValue [] =
              [i, ((tilesetTerrainTypes.getD tilesetIndex []).getD i default).linkId,
                ((tilesetTerrainTypes.getD tilesetIndex []).getD i default).linkId,
                ((tilesetTerrainTypes.getD tilesetIndex []).getD i default).linkId,
                ((tilesetTerrainTypes.getD tilesetIndex []).getD i default).linkId] := by
  decide!

set_option maxRecDepth 1000000 in
theorem builtin_shape_rows :
    ∀ tilesetIndex < 8,
      ∀ i < (tilesetTerrainTypes.getD tilesetIndex []).length,
        (tilesetTerrainTypes.getD tilesetIndex []).length / 2 < i ∧
            ((tilesetTerrainTypes.getD tilesetIndex []).getD i default).isomValue ≠ 0 →
          ∀ k < 14,
            (terrainTypeColumn (tilesetTerrainTypes.getD tilesetIndex [])).getD
              (((tilesetTerrainTypes.getD tilesetIndex []).getD i default).isomValue + k) 0 =
              i := by
  decide!

set_option maxRecDepth 1000000 in
/-- On the tile group table `badlandsGroups` the generated link table is the one that
`linkTableGenTest` expects for Badlands, field by field. -/
theorem linkTableGenTest_badlands :
    (generateIsomLinks badlandsGroups Brush.Badlands.terrainTypeInfo).map linkTableRow =
      TestData.badlandsIsomLinks := by
  decide!

/-- C36: for every built-in tileset and every tile-group table, the generated link table has
each descriptor where its `isomValue` points. The descriptor at position `i` has the index `i`;
for a solid brush (`1 <= i <= N/2`, non-zero `isomValue`) the row `isomValue` has the terrain
type of the brush and its `linkId` in all four quadrants; for another terrain type (`i > N/2`,
non-zero `isomValue`) the 14 rows from `isomValue` on have its terrain type. -/
theorem C36_rows_at_isomValue (tilesetIndex : Nat) (ht : tilesetIndex < 8)
    (tileGroups : List TileGroup) (i : Nat)
    (hi : i < (tilesetTerrainTypes.getD tilesetIndex []).length) :
    ((tilesetTerrainTypes.getD tilesetIndex []).getD i default).index = i ∧
    (1 ≤ i → i ≤ (tilesetTerrainTypes.getD tilesetIndex []).length / 2 →
      ((tilesetTerrainTypes.getD tilesetIndex []).getD i default).isomValue ≠ 0 →
      ((generateIsomLinks tileGroups (tilesetTerrainTypes.getD tilesetIndex [])).getD
          ((tilesetTerrainTypes.getD tilesetIndex []).getD i default).isomValue
          default).terrainType =
        ((tilesetTerrainTypes.getD tilesetIndex []).getD i default).index ∧
      ∀ q : Quadrant,
        ((generateIsomLinks tileGroups (tilesetTerrainTypes.getD tilesetIndex [])).getD
            ((tilesetTerrainTypes.getD tilesetIndex []).getD i default).isomValue
            default).getLinkId q =
          ((tilesetTerrainTypes.getD tilesetIndex []).getD i default).linkId) ∧
    ((tilesetTerrainTypes.getD tilesetIndex []).length / 2 < i →
      ((tilesetTerrainTypes.getD tilesetIndex []).getD i default).isomValue ≠ 0 →
      ∀ k < 14,
        ((generateIsomLinks tileGroups (tilesetTerrainTypes.getD tilesetIndex [])).getD
            (((tilesetTerrainTypes.getD tilesetIndex []).getD i default).isomValue + k)
            default).terrainType =
          ((tilesetTerrainTypes.getD tilesetIndex []).getD i default).index) := by
  have hidx := builtin_index tilesetIndex ht i hi
  refine ⟨hidx, ?_, ?_⟩
  · intro h1 h2 h3
    obtain ⟨hv, hrow⟩ := builtin_solid_rows tilesetIndex ht i hi ⟨h1, h2, h3⟩
    have hl := generateIsomLinks_linkIds tileGroups (tilesetTerrainTypes.getD tilesetIndex [])
      _ hv
    rw [hrow] at hl
    unfold linkIdRow at hl
    simp only [List.cons.injEq, and_true] at hl
    obtain ⟨e0, e1, e2, e3, e4⟩ := hl
    refine ⟨by rw [e0, hidx], ?_⟩
    intro q
    cases q
    · exact e1
    · exact e2
    · exact e3
    · exact e4
  · intro h1 h2 k hk
    rw [generateIsomLinks_terrainType, hidx]
    exact builtin_shape_rows tilesetIndex ht i hi ⟨h1, h2⟩ k hk

set_option maxRecDepth 1000000 in
/-- C36 on the Badlands table built from `badlandsGroups`, in which every solid brush has a
tile group: the brush at position 4 (`isomValue` 9, `linkId` 4) has its row at 9, and the
terrain type at position 34 (`isomValue` 13) has the rows 13 to 26. -/
theorem C36_rows_at_isomValue_witness :
    (0 : Nat) < 8 ∧ 4 < (tilesetTerrainTypes.getD 0 []).length ∧
    34 < (tilesetTerrainTypes.getD 0 []).length ∧
    (∀ b ∈ solidBrushes (tilesetTerrainTypes.getD 0 []),
      (collectTileGroups (badlandsGroups.take (min 1024 badlandsGroups.length))
        (tilesetTerrainTypes.getD 0 []).length).getD b.index [] ≠ []) ∧
    ((generateIsomLinks badlandsGroups (tilesetTerrainTypes.getD 0 [])).getD 9
        default).terrainType = 4 ∧
    ((generateIsomLinks badlandsGroups (tilesetTerrainTypes.getD 0 [])).getD 9
        default).getLinkId Quadrant.TopLeft = 4 ∧
    ((generateIsomLinks badlandsGroups (tilesetTerrainTypes.getD 0 [])).getD (13 + 13)
        default).terrainType = 34 :=
  ⟨by decide, by decide, by decide, by decide!,
    ((C36_rows_at_isomValue 0 (by decide) badlandsGroups 4 (by decide)).2.1 (by decide)
      (by decide) (by decide)).1,
    ((C36_rows_at_isomValue 0 (by decide) badlandsGroups 4 (by decide)).2.1 (by decide)
      (by decide) (by decide)).2 Quadrant.TopLeft,
    (C36_rows_at_isomValue 0 (by decide) badlandsGroups 34 (by decide)).2.2 (by decide)
      (by decide) 13 (by decide)⟩

end Tiles

end IsomTerrain

namespace IsomTerrain

/-! ## The hash of a rectangle carrying a solid brush row and the key of its tile group -/

namespace IsomRect

theorem carried_field (v f : Nat) (hf : f < 16) (hv : v < 2048) :
    ((((v <<< 4) ||| f) % U16 ||| EditorFlag.Modified) &&& EditorFlag.ClearAll) >>> 4 = v ∧
    ((((v <<< 4) ||| f) % U16 ||| EditorFlag.Modified) &&& EditorFlag.ClearAll) &&&
      EdgeFlags.Mask = f &&& 0xE := by
  constructor
  · have h := World.fieldRow_stored v f hf
    unfold fieldRow at h
    rw [h]
    exact Nat.mod_eq_of_lt hv
  · rw [Nat.and_assoc]
    have hm : EditorFlag.ClearAll &&& EdgeFlags.Mask = 0xE := by decide
    rw [hm]
    exact (stored_and_mask v f hf).2

/-- The hash of a rectangle whose four sides refer to one row, from the four edge links. -/
theorem getHash_of_sides (R : IsomRect) (isomLinks : List ShapeLinks) (row : ShapeLinks)
    (l t r b : Nat) (hrow : ∀ s : Side, R.sideRow isomLinks s = row)
    (hL : R.sideLink isomLinks Side.Left = l) (hT : R.sideLink isomLinks Side.Top = t)
    (hR : R.sideLink isomLinks Side.Right = r) (hB : R.sideLink isomLinks Side.Bottom = b) :
    R.getHash isomLinks =
      ((((((((0 ||| l) <<< 6) % 4294967296 ||| t) <<< 6) % 4294967296 ||| r) <<< 6) %
        4294967296 ||| b) <<< 6) % 4294967296 |||
        (if row.terrainType ≠ 0 ∧ (l > 48 ∨ t > 48 ∨ r > 48 ∨ b > 48) then row.terrainType
         else 0) := by
  unfold getHash sides
  simp only [List.foldl_cons, List.foldl_nil, hashStep_eq, sideHard, hrow, hL, hT, hR, hB]
  congr 1
  by_cases h0 : row.terrainType = 0
  · simp [h0]
  · by_cases hb : b > 48
    · simp [h0, hb]
    · by_cases hr : r > 48
      · simp [h0, hb, hr]
      · by_cases ht : t > 48
        · simp [h0, hb, hr, ht]
        · by_cases hl : l > 48 <;> simp [h0, hb, hr, ht, hl]

/-- The row and the edge link that `getHash` reads from a field that carries the row `v` with
the edge flag `f`, when row `v` of the table is `row`. -/
theorem carried_side (R : IsomRect) (isomLinks : List ShapeLinks) (row : ShapeLinks) (s : Side)
    (v f : Nat) (hf : f < 16) (hv : v < 2048) (hrow : isomLinks.getD v default = row)
    (hs : R.side s = ((v <<< 4) ||| f) % U16 ||| EditorFlag.Modified) :
    R.sideRow isomLinks s = row ∧ R.sideLink isomLinks s = row.getEdgeLink (f &&& 0xE) := by
  obtain ⟨h1, h2⟩ := carried_field v f hf hv
  have hr : R.sideRow isomLinks s = row := by
    unfold sideRow getIsomValue
    rw [hs, h1, hrow]
  refine ⟨hr, ?_⟩
  unfold sideLink
  rw [hr]
  unfold getIsomValue ShapeLinks.getEdgeLink
  rw [hs]
  simp only [h2]
  have hm : (f &&& 0xE) &&& EdgeFlags.Mask = f &&& 0xE := by
    rw [Nat.and_assoc]
    rfl
  rw [hm]

/-- The hash of a rectangle all of whose sides were written from diamonds carrying the solid
brush row of the tile group `G` is the key of `G` in the hash index, unless `G` has a link equal
to 48 and none above 48. -/
theorem getHash_writtenTwice (G : TileGroup) (linkId v : Nat) (isomLinks : List ShapeLinks)
    (r0 : IsomRect) (q : Quadrant)
    (hl : G.links.left ≤ 56 ∧ G.links.top ≤ 56 ∧ G.links.right ≤ 56 ∧ G.links.bottom ≤ 56)
    (ht : 1 ≤ G.terrainType ∧ G.terrainType ≤ 63) (hv : v < 2048)
    (hrow : isomLinks.getD v default = Tiles.solidBrushRow G.links G.terrainType linkId)
    (h48 : (G.links.left ≥ 48 ∨ G.links.top ≥ 48 ∨ G.links.right ≥ 48 ∨ G.links.bottom ≥ 48) →
      (G.links.left > 48 ∨ G.links.top > 48 ∨ G.links.right > 48 ∨ G.links.bottom > 48)) :
    (r0.writtenTwice q v).getHash isomLinks = Tiles.tileGroupHash G := by
  have hsides : ∀ s : Side, (r0.writtenTwice q v).sideRow isomLinks s =
      Tiles.solidBrushRow G.links G.terrainType linkId ∧
      (r0.writtenTwice q v).sideLink isomLinks s =
        (match s with
          | Side.Left => G.links.left
          | Side.Top => G.links.top
          | Side.Right => G.links.right
          | Side.Bottom => G.links.bottom) := by
    intro s
    cases q <;> cases s <;>
      first
      | exact carried_side _ isomLinks _ _ v 0x0 (by decide) hv hrow rfl
      | exact carried_side _ isomLinks _ _ v 0x2 (by decide) hv hrow rfl
      | exact carried_side _ isomLinks _ _ v 0x4 (by decide) hv hrow rfl
      | exact carried_side _ isomLinks _ _ v 0x6 (by decide) hv hrow rfl
      | exact carried_side _ isomLinks _ _ v 0x8 (by decide) hv hrow rfl
      | exact carried_side _ isomLinks _ _ v 0xA (by decide) hv hrow rfl
      | exact carried_side _ isomLinks _ _ v 0xC (by decide) hv hrow rfl
      | exact carried_side _ isomLinks _ _ v 0xE (by decide) hv hrow rfl
  rw [getHash_of_sides _ isomLinks _ _ _ _ _ (fun s => (hsides s).1) (hsides Side.Left).2
    (hsides Side.Top).2 (hsides Side.Right).2 (hsides Side.Bottom).2]
  obtain ⟨h1, h2, h3, h4⟩ := hl
  have htt : (Tiles.solidBrushRow G.links G.terrainType linkId).terrainType = G.terrainType := by
    unfold Tiles.solidBrushRow
    exact Nat.mod_eq_of_lt (by omega)
  unfold Tiles.tileGroupHash U32
  rw [htt]
  simp only [Nat.zero_or, Nat.mod_eq_of_lt (show G.links.left < 4294967296 by omega),
    Nat.mod_eq_of_lt (show G.links.top < 4294967296 by omega),
    Nat.mod_eq_of_lt (show G.links.right < 4294967296 by omega),
    Nat.mod_eq_of_lt (show G.links.bottom < 4294967296 by omega)]
  by_cases hge : G.links.left ≥ 48 ∨ G.links.top ≥ 48 ∨ G.links.right ≥ 48 ∨ G.links.bottom ≥ 48
  · rw [if_pos hge, if_pos ⟨by omega, h48 hge⟩]
  · rw [if_neg hge, if_neg (fun h => hge (by omega)), Nat.or_zero]

end IsomRect

namespace World

/-- Two writes of `setIsomValue` through opposite quadrants leave the rectangle
`writtenTwice`. -/
theorem getIsomRect_written_twice (p : Point) (q : Quadrant) (v : Nat) (u1 u2 : Bool)
    (w : World) (hb : w.map.isInBounds p = true)
    (hi : w.map.rectIndex p < w.map.isomRects.length) :
    (setIsomValue p (OppositeQuadrant q) v u2 (setIsomValue p q v u1 w)).map.getIsomRect p =
      (w.map.getIsomRect p).writtenTwice q v := by
  have h1 := (setIsomValue_in p q v u1 w hb).1
  have hb2 : (setIsomValue p q v u1 w).map.isInBounds p = true := by
    rw [h1]
    exact hb
  have h2 := (setIsomValue_in p (OppositeQuadrant q) v u2 (setIsomValue p q v u1 w) hb2).1
  have hi2 : (setIsomValue p q v u1 w).map.rectIndex p <
      (setIsomValue p q v u1 w).map.isomRects.length := by
    rw [h1]
    unfold ScMap.setIsomRect
    simpa using hi
  rw [h2, ScMap.getIsomRect_setIsomRect_self _ _ _ hi2, h1,
    ScMap.getIsomRect_setIsomRect_self _ _ _ hi]
  rfl

end World

namespace Tiles

/-- The row that `addSolidBrush` appends is `solidBrushRow` of the links of the first tile
group of the brush. -/
theorem addSolidBrush_row (tilesetCv5s : List TileGroup) (terrainTypeTileGroups : List (List Nat))
    (isomLinks : List ShapeLinks) (solidBrush : TerrainTypeInfo) :
    addSolidBrush tilesetCv5s terrainTypeTileGroups isomLinks solidBrush =
      padIsomLinks isomLinks solidBrush.isomValue ++
        [solidBrushRow
          (tilesetCv5s.getD ((terrainTypeTileGroups.getD solidBrush.index []).getD 0 0)
            default).links solidBrush.index solidBrush.linkId] :=
  rfl

set_option maxRecDepth 1000000 in
/-- C38 at a failing input: the tile group 0 of `softEdgeGroups` has the terrain type 1 and the
links 48, 1, 1, 1, and row 1 of the generated link table is the solid brush row made of these
links. After the diamonds `(0, 0)` and `(1, 1)` are given the row 1, all four sides of the
rectangle `(0, 0)` carry it, and its hash is `48*2^24 + 2^18 + 2^12 + 2^6` without a terrain
type, while the key of the tile group in the hash index has the terrain type 1 added: the
lookup of the rectangle's hash finds no bucket. -/
theorem C38_hash_at_failing_input :
    softEdgeGroups.getD 0 default = linkGroup 1 48 1 1 1 ∧
    softEdgeWritten.cache.isomLinks.getD 1 default =
      solidBrushRow (softEdgeGroups.getD 0 default).links 1 1 ∧
    softEdgeWritten.map.getIsomRect ⟨0, 0⟩ = ({} : IsomRect).writtenTwice Quadrant.BottomRight 1 ∧
    (softEdgeWritten.map.getIsomRect ⟨0, 0⟩).getHash softEdgeWritten.cache.isomLinks =
      48 * 2 ^ 24 + 2 ^ 18 + 2 ^ 12 + 2 ^ 6 ∧
    tileGroupHash (softEdgeGroups.getD 0 default) = 48 * 2 ^ 24 + 2 ^ 18 + 2 ^ 12 + 2 ^ 6 + 1 ∧
    softEdgeWritten.cache.hashToTileGroup.lookup
      (tileGroupHash (softEdgeGroups.getD 0 default)) = some [0] ∧
    softEdgeWritten.cache.hashToTileGroup.lookup
      ((softEdgeWritten.map.getIsomRect ⟨0, 0⟩).getHash softEdgeWritten.cache.isomLinks) =
      none := by
  decide!

end Tiles

end IsomTerrain

namespace IsomTerrain

namespace World

/-! ## The subtile chosen by `getRandomSubtile` -/

theorem countCommon_spec (mega : List Nat) :
    ∀ (fuel c : Nat), 16 ≤ c + fuel → c ≤ 16 → (∀ j < c, mega.getD j 0 ≠ 0) →
      c ≤ countCommon mega fuel c ∧ countCommon mega fuel c ≤ 16 ∧
      (∀ j < countCommon mega fuel c, mega.getD j 0 ≠ 0) ∧
      (countCommon mega fuel c < 16 → mega.getD (countCommon mega fuel c) 0 = 0) := by
  intro fuel
  induction fuel with
  | zero =>
    intro c h1 h2 h3
    have hc : c = 16 := by omega
    subst hc
    exact ⟨Nat.le_refl _, Nat.le_refl _, h3, fun h => absurd h (Nat.lt_irrefl _)⟩
  | succ fuel ih =>
    intro c h1 h2 h3
    unfold countCommon
    by_cases hc : c < 16 ∧ mega.getD c 0 ≠ 0
    · rw [if_pos hc]
      obtain ⟨a1, a2, a3, a4⟩ := ih (c + 1) (by omega) (by omega) (by
        intro j hj
        by_cases hjc : j = c
        · subst hjc; exact hc.2
        · exact h3 j (by omega))
      exact ⟨by omega, a2, a3, a4⟩
    · rw [if_neg hc]
      refine ⟨Nat.le_refl _, h2, h3, ?_⟩
      intro hlt
      by_contra hne
      exact hc ⟨hlt, hne⟩

theorem countRare_spec (mega : List Nat) (tc : Nat) :
    ∀ (fuel r : Nat), 16 ≤ tc + r + 1 + fuel →
      (r = 0 ∨ tc + r ≤ 15) → (∀ j, tc < j → j ≤ tc + r → mega.getD j 0 ≠ 0) →
      r ≤ countRare mega tc fuel r ∧
      (countRare mega tc fuel r = 0 ∨ tc + countRare mega tc fuel r ≤ 15) ∧
      (∀ j, tc < j → j ≤ tc + countRare mega tc fuel r → mega.getD j 0 ≠ 0) ∧
      (tc + countRare mega tc fuel r + 1 < 16 →
        mega.getD (tc + countRare mega tc fuel r + 1) 0 = 0) := by
  intro fuel
  induction fuel with
  | zero =>
    intro r h1 h2 h3
    unfold countRare
    exact ⟨Nat.le_refl _, h2, h3, fun h => by omega⟩
  | succ fuel ih =>
    intro r h1 h2 h3
    unfold countRare
    by_cases hc : tc + r + 1 < 16 ∧ mega.getD (tc + r + 1) 0 ≠ 0
    · rw [if_pos hc]
      obtain ⟨a1, a2, a3, a4⟩ := ih (r + 1) (by omega) (Or.inr (by omega)) (by
        intro j hj1 hj2
        by_cases hjc : j = tc + r + 1
        · subst hjc; exact hc.2
        · exact h3 j hj1 (by omega))
      exact ⟨by omega, a2, a3, a4⟩
    · rw [if_neg hc]
      refine ⟨Nat.le_refl _, h2, h3, ?_⟩
      intro hlt
      by_contra hne
      exact hc ⟨hlt, hne⟩

theorem totalCommon_spec (c : IsomCache) (g : Nat) :
    c.totalCommon g ≤ 16 ∧
    (∀ j < c.totalCommon g, (c.tileGroups.getD g default).megaTileIndex.getD j 0 ≠ 0) ∧
    (c.totalCommon g < 16 →
      (c.tileGroups.getD g default).megaTileIndex.getD (c.totalCommon g) 0 = 0) := by
  obtain ⟨_, a2, a3, a4⟩ := countCommon_spec (c.tileGroups.getD g default).megaTileIndex 16 0
    (by omega) (by omega) (fun j hj => absurd hj (Nat.not_lt_zero _))
  exact ⟨a2, a3, a4⟩

theorem totalRare_spec (c : IsomCache) (g : Nat) :
    (c.totalRare g = 0 ∨ c.totalCommon g + c.totalRare g ≤ 15) ∧
    (∀ j, c.totalCommon g < j → j ≤ c.totalCommon g + c.totalRare g →
      (c.tileGroups.getD g default).megaTileIndex.getD j 0 ≠ 0) ∧
    (c.totalCommon g + c.totalRare g + 1 < 16 →
      (c.tileGroups.getD g default).megaTileIndex.getD
        (c.totalCommon g + c.totalRare g + 1) 0 = 0) := by
  obtain ⟨_, a2, a3, a4⟩ := countRare_spec (c.tileGroups.getD g default).megaTileIndex
    (c.totalCommon g) 16 0 (by omega) (Or.inl rfl) (fun j h1 h2 => by omega)
  exact ⟨a2, a3, a4⟩

/-- The result of `getRandomSubtile` for a group of the table, from the two counts and the
draws. -/
theorem getRandomSubtile_eq (g : Nat) (w : World) (hg : g < w.cache.tileGroups.length)
    (h4 : g < 4096) :
    (getRandomSubtile g w).1 =
      (if w.cache.totalRare g ≠ 0 ∧ w.rand w.randPos ≤ RAND_MAX / 20 then
        16 * g + (w.cache.totalCommon g + 1 + w.rand (w.randPos + 1) % w.cache.totalRare g)
      else if w.cache.totalCommon g ≠ 0 then
        16 * g + (if w.cache.totalRare g ≠ 0 then w.rand (w.randPos + 1)
          else w.rand w.randPos) % w.cache.totalCommon g
      else 16 * g) := by
  have hc := (totalCommon_spec w.cache g).1
  have hr := (totalRare_spec w.cache g).1
  have hU : U16 = 65536 := rfl
  unfold IsomCache.totalRare IsomCache.totalCommon at hc hr ⊢
  unfold getRandomSubtile nextRand
  simp only [if_pos hg, hU]
  generalize countRare (w.cache.tileGroups.getD g default).megaTileIndex
    (countCommon (w.cache.tileGroups.getD g default).megaTileIndex 16 0) 16 0 = tr at hr ⊢
  generalize countCommon (w.cache.tileGroups.getD g default).megaTileIndex 16 0 = tc at hc hr ⊢
  by_cases h1 : tr ≠ 0
  · have hm := Nat.mod_lt (w.rand (w.randPos + 1)) (Nat.pos_of_ne_zero h1)
    by_cases h2 : w.rand w.randPos ≤ RAND_MAX / 20
    · simp only [if_pos h1, if_pos h2, if_pos (And.intro h1 h2)]
      omega
    · by_cases h3 : tc ≠ 0
      · have hm2 := Nat.mod_lt (w.rand (w.randPos + 1)) (Nat.pos_of_ne_zero h3)
        simp only [if_pos h1, if_neg h2, if_pos h3, if_neg (fun h : tr ≠ 0 ∧ _ => h2 h.2)]
        omega
      · simp only [if_pos h1, if_neg h2, if_neg h3, if_neg (fun h : tr ≠ 0 ∧ _ => h2 h.2)]
        omega
  · by_cases h3 : tc ≠ 0
    · have hm2 := Nat.mod_lt (w.rand w.randPos) (Nat.pos_of_ne_zero h3)
      simp only [if_neg h1, if_pos h3, if_neg (fun h : tr ≠ 0 ∧ _ => h1 h.1)]
      omega
    · simp only [if_neg h1, if_neg h3, if_neg (fun h : tr ≠ 0 ∧ _ => h1 h.1)]
      omega

/-- C34 (amended): for a tile group index `g < 4096`. Inside the table, `getRandomSubtile`
returns `16*g + k` with `k < 16`: the rare index `totalCommon + 1 + draw2 % totalRare` when
there are rare tiles and the first draw is at most `RAND_MAX / 20`, else a common index
`draw % totalCommon` when there are common tiles, else `16*g`, the fall-back; so `k` is a
common index, a rare index, or 0 by fall-back, and the fall-back happens exactly when the group
has no common tile and either no rare tile or a first draw above `RAND_MAX / 20`. The counts
are the lengths of the runs of non-zero megatile entries. Beyond the table the result is
`16*g` and no draw is made. -/
theorem C34_random_subtile (g : Nat) (w : World) (h4 : g < 4096) :
    (g < w.cache.tileGroups.length →
      (getRandomSubtile g w).1 =
        (if w.cache.totalRare g ≠ 0 ∧ w.rand w.randPos ≤ RAND_MAX / 20 then
          16 * g + (w.cache.totalCommon g + 1 + w.rand (w.randPos + 1) % w.cache.totalRare g)
        else if w.cache.totalCommon g ≠ 0 then
          16 * g + (if w.cache.totalRare g ≠ 0 then w.rand (w.randPos + 1)
            else w.rand w.randPos) % w.cache.totalCommon g
        else 16 * g) ∧
      (∃ k < 16, (getRandomSubtile g w).1 = 16 * g + k ∧
        (k < w.cache.totalCommon g ∨
          (w.cache.totalCommon g < k ∧ k ≤ w.cache.totalCommon g + w.cache.totalRare g) ∨
          (k = 0 ∧ w.cache.totalCommon g = 0 ∧
            (w.cache.totalRare g = 0 ∨ RAND_MAX / 20 < w.rand w.randPos)))) ∧
      (∀ j < w.cache.totalCommon g,
        (w.cache.tileGroups.getD g default).megaTileIndex.getD j 0 ≠ 0) ∧
      (w.cache.totalCommon g < 16 →
        (w.cache.tileGroups.getD g default).megaTileIndex.getD (w.cache.totalCommon g) 0 = 0) ∧
      (∀ j, w.cache.totalCommon g < j → j ≤ w.cache.totalCommon g + w.cache.totalRare g →
        (w.cache.tileGroups.getD g default).megaTileIndex.getD j 0 ≠ 0)) ∧
    (w.cache.tileGroups.length ≤ g →
      (getRandomSubtile g w).1 = 16 * g ∧ (getRandomSubtile g w).2.randPos = w.randPos) := by
  constructor
  · intro hg
    have hc := totalCommon_spec w.cache g
    have hr := totalRare_spec w.cache g
    have heq := getRandomSubtile_eq g w hg h4
    refine ⟨heq, ?_, hc.2.1, hc.2.2, hr.2.1⟩
    rw [heq]
    by_cases h1 : w.cache.totalRare g ≠ 0 ∧ w.rand w.randPos ≤ RAND_MAX / 20
    · rw [if_pos h1]
      have hm := Nat.mod_lt (w.rand (w.randPos + 1)) (Nat.pos_of_ne_zero h1.1)
      refine ⟨_, ?_, rfl, Or.inr (Or.inl ⟨by omega, by omega⟩)⟩
      have := hr.1
      omega
    · rw [if_neg h1]
      by_cases h3 : w.cache.totalCommon g ≠ 0
      · rw [if_pos h3]
        have hm := Nat.mod_lt (if w.cache.totalRare g ≠ 0 then w.rand (w.randPos + 1)
          else w.rand w.randPos) (Nat.pos_of_ne_zero h3)
        have := hc.1
        exact ⟨_, by omega, rfl, Or.inl hm⟩
      · rw [if_neg h3]
        refine ⟨0, by omega, rfl, Or.inr (Or.inr ⟨rfl, not_not.mp h3, ?_⟩)⟩
        by_cases h5 : w.cache.totalRare g = 0
        · exact Or.inl h5
        · exact Or.inr (Nat.lt_of_not_le (fun h => h1 ⟨h5, h⟩))
  · intro hg
    unfold getRandomSubtile
    rw [if_neg (Nat.not_lt.mpr hg)]
    exact ⟨Nat.mod_eq_of_lt (by unfold U16; omega), rfl⟩

set_option maxRecDepth 100000 in
/-- C34 on `stackWorld`, group 4 (megatile indices 1, 1, 0, 1, 1: two common tiles and two rare
ones; the draws are 3 and 10): the first draw is at most `RAND_MAX / 20`, and the result is
the rare subtile `16*4 + (2 + 1 + 10 % 2) = 67`. -/
theorem C34_random_subtile_witness :
    (4 : Nat) < 4096 ∧ 4 < stackWorld.cache.tileGroups.length ∧
    stackWorld.cache.totalCommon 4 = 2 ∧ stackWorld.cache.totalRare 4 = 2 ∧
    (getRandomSubtile 4 stackWorld).1 = 67 ∧
    (∃ k < 16, (getRandomSubtile 4 stackWorld).1 = 16 * 4 + k ∧
      (k < stackWorld.cache.totalCommon 4 ∨
        (stackWorld.cache.totalCommon 4 < k ∧
          k ≤ stackWorld.cache.totalCommon 4 + stackWorld.cache.totalRare 4) ∨
        (k = 0 ∧ stackWorld.cache.totalCommon 4 = 0 ∧
          (stackWorld.cache.totalRare 4 = 0 ∨
            RAND_MAX / 20 < stackWorld.rand stackWorld.randPos)))) :=
  ⟨by decide, by decide, by decide, by decide, by decide,
    ((C34_random_subtile 4 stackWorld (by decide)).1 (by decide)).2.1⟩

set_option maxRecDepth 100000 in
/-- C34, the claim as stated fails twice. The group 1 of `rareOnlyWorld` has a rare tile and no
common tile; with a first draw of 2000, above `RAND_MAX / 20`, the call falls back to `16*1`,
which is neither a common nor a rare index of the group. And for the index 4096, beyond the
table, the `uint16_t` result is 0, not `16*4096`. -/
theorem C34_counterexample :
    ((1 : Nat) < rareOnlyWorld.cache.tileGroups.length ∧
      rareOnlyWorld.cache.totalCommon 1 = 0 ∧ rareOnlyWorld.cache.totalRare 1 = 1 ∧
      (rareOnlyWorld.cache.tileGroups.getD 1 default).megaTileIndex.getD 1 0 = 5 ∧
      rareOnlyWorld.rand rareOnlyWorld.randPos = 2000 ∧ RAND_MAX / 20 = 1638 ∧
      (getRandomSubtile 1 rareOnlyWorld).1 = 16 * 1) ∧
    (rareOnlyWorld.cache.tileGroups.length ≤ 4096 ∧
      (getRandomSubtile 4096 rareOnlyWorld).1 = 0 ∧ 16 * 4096 ≠ 0) := by
  decide

end World

end IsomTerrain

namespace IsomTerrain

namespace World

/-! ## `updateTilesFromIsom` clears the editor flags of the changed area -/

theorem clearEditorFlags_side (r : IsomRect) (s : Side) :
    r.clearEditorFlags.side s = r.side s &&& 0x7FFE := by
  cases s <;> rfl

/-- A call of `updateTilesFromIsom` on a reset changed area does nothing. -/
theorem updateTilesFromIsom_reset (w : World) (hh : 0 < w.cache.isomHeight)
    (ha : w.cache.changedArea =
      { left := w.cache.isomWidth, right := 0, top := w.cache.isomHeight, bottom := 0 }) :
    updateTilesFromIsom w = w := by
  unfold updateTilesFromIsom
  simp only [ha]
  have hr : rangeIncl w.cache.isomHeight 0 = [] := by
    unfold rangeIncl
    have : 0 + 1 - w.cache.isomHeight = 0 := by omega
    rw [this]
    rfl
  rw [hr, List.foldl_nil]
  unfold IsomCache.resetChangedArea
  rw [← ha]

/-- C31: for a changed area that lies within the row width of the grid and a cache of
positive height, after `updateTilesFromIsom` every rectangle inside the box that `changedArea`
held before the call has each field equal to its previous value AND `0x7FFE`, every rectangle
outside the box is unchanged, `changedArea` is the inverted initial box, and a repeated call
changes nothing. -/
theorem C31_update_clears_area (w : World)
    (hr : w.cache.changedArea.right < w.map.getIsomWidth) (hh : 0 < w.cache.isomHeight) :
    (∀ p : Point, p.x < w.map.getIsomWidth → InBox w.cache.changedArea p →
      ∀ s : Side,
        ((updateTilesFromIsom w).map.getIsomRect p).side s =
          (w.map.getIsomRect p).side s &&& 0x7FFE) ∧
    (∀ p : Point, p.x < w.map.getIsomWidth → ¬ InBox w.cache.changedArea p →
      (updateTilesFromIsom w).map.getIsomRect p = w.map.getIsomRect p) ∧
    (updateTilesFromIsom w).map.isomRects.length = w.map.isomRects.length ∧
    (updateTilesFromIsom w).cache.changedArea =
      { left := w.cache.isomWidth, right := 0, top := w.cache.isomHeight, bottom := 0 } ∧
    updateTilesFromIsom (updateTilesFromIsom w) = updateTilesFromIsom w := by
  have hc : (updateTilesFromIsom w).cache = w.cache.resetChangedArea := by
    obtain ⟨_, _, h3, _⟩ := clearedOn_grid w hr
    unfold updateTilesFromIsom
    simp only []
    rw [h3]
  have ha : (updateTilesFromIsom w).cache.changedArea =
      { left := w.cache.isomWidth, right := 0, top := w.cache.isomHeight, bottom := 0 } := by
    rw [hc]
    rfl
  refine ⟨?_, ?_, ?_, ha, ?_⟩
  · intro p hp hbox s
    have h := (updateTilesFromIsom_rects w hr p hp).2.2.1
      ⟨⟨hbox.2.2.1, hbox.2.2.2⟩, ⟨hbox.1, hbox.2.1⟩⟩
    rw [h, clearEditorFlags_side]
  · intro p hp hbox
    exact (updateTilesFromIsom_rects w hr p hp).2.2.2
      (fun h => hbox ⟨h.2.1, h.2.2, h.1.1, h.1.2⟩)
  · exact (updateTilesFromIsom_rects w hr ⟨0, 0⟩ (Nat.succ_pos _)).1
  · apply updateTilesFromIsom_reset
    · rw [hc]
      exact hh
    · rw [ha, hc]
      rfl

set_option maxRecDepth 100000 in
/-- C31 on `demoPlaced`, the state after a placement: the rectangle (0, 0) lies in the changed
area and carries the `Modified` bit; the call clears it, resets the changed area, and a second
call changes nothing. -/
theorem C31_update_clears_area_witness :
    demoPlaced.cache.changedArea.right < demoPlaced.map.getIsomWidth ∧
    0 < demoPlaced.cache.isomHeight ∧
    InBox demoPlaced.cache.changedArea ⟨0, 0⟩ ∧
    (demoPlaced.map.getIsomRect ⟨0, 0⟩).side Side.Left &&& 0x0001 = 1 ∧
    ((updateTilesFromIsom demoPlaced).map.getIsomRect ⟨0, 0⟩).side Side.Left =
      (demoPlaced.map.getIsomRect ⟨0, 0⟩).side Side.Left &&& 0x7FFE ∧
    (updateTilesFromIsom demoPlaced).cache.changedArea =
      { left := 2, right := 0, top := 2, bottom := 0 } ∧
    updateTilesFromIsom (updateTilesFromIsom demoPlaced) = updateTilesFromIsom demoPlaced :=
  have h := C31_update_clears_area demoPlaced (by decide) (by decide)
  ⟨by decide, by decide, ⟨by decide, by decide, by decide, by decide⟩, by decide,
    h.1 ⟨0, 0⟩ (by decide) ⟨by decide, by decide, by decide, by decide⟩ Side.Left,
    h.2.2.2.1, h.2.2.2.2⟩

end World

end IsomTerrain

namespace IsomTerrain

namespace World

/-! ## No editor flag is left after a placement and a projection -/

theorem areaRight_setIsomValue (p : Point) (q : Quadrant) (v : Nat) (u : Bool) (w : World)
    (h : w.cache.changedArea.right < w.map.getIsomWidth) :
    (setIsomValue p q v u w).cache.changedArea.right < (setIsomValue p q v u w).map.getIsomWidth := by
  by_cases hb : w.map.isInBounds p = true
  · obtain ⟨a1, a2, _⟩ := setIsomValue_in p q v u w hb
    rw [a1, a2]
    have hx := isInBounds_x _ _ hb
    unfold BoundingBox.expandToInclude
    show max w.cache.changedArea.right p.x < w.map.getIsomWidth
    exact max_lt h hx
  · rw [setIsomValue_out p q v u w (by simpa using hb)]
    exact h

/-- The invariant of a placement behind the clearing: the changes lie in the changed area,
the changed area lies within the row width, and the number of rectangles is kept. -/
theorem placeIsomTerrain_area (fuel : Nat) (d : IsomDiamond) (terrainType brushExtent : Nat)
    (w w' : World) (h : placeIsomTerrain fuel d terrainType brushExtent w = some (true, w')) :
    ChangesInArea w w' ∧ w'.cache.changedArea.right < w'.map.getIsomWidth ∧
      w'.map.isomRects.length = w.map.isomRects.length := by
  have hset : ∀ (e : IsomDiamond) (v : Nat) (w1 : World),
      (ChangesInArea w w1 ∧ w1.cache.changedArea.right < w1.map.getIsomWidth ∧
        w1.map.isomRects.length = w.map.isomRects.length) →
      (ChangesInArea w (setDiamondIsomValues e v true w1) ∧
        (setDiamondIsomValues e v true w1).cache.changedArea.right <
          (setDiamondIsomValues e v true w1).map.getIsomWidth ∧
        (setDiamondIsomValues e v true w1).map.isomRects.length = w.map.isomRects.length) := by
    intro e v w1 h1
    exact setDiamondIsomValues_keeps
      (fun w2 => ChangesInArea w w2 ∧ w2.cache.changedArea.right < w2.map.getIsomWidth ∧
        w2.map.isomRects.length = w.map.isomRects.length) e v true w1 (fun h2 => h2)
      (fun p q w2 h2 => ⟨changesInArea_setIsomValue w p q v true w2 h2.1,
        areaRight_setIsomValue p q v true w2 h2.2.1,
        (setIsomValue_dims p q v true w2).2.2.trans h2.2.2⟩) h1
  have hvisit : ∀ (e : IsomDiamond) (w1 : World), w1.map.diamondNeedsUpdate e = true →
      (ChangesInArea w w1 ∧ w1.cache.changedArea.right < w1.map.getIsomWidth ∧
        w1.map.isomRects.length = w.map.isomRects.length) →
      (ChangesInArea w (markVisited e w1) ∧
        (markVisited e w1).cache.changedArea.right < (markVisited e w1).map.getIsomWidth ∧
        (markVisited e w1).map.isomRects.length = w.map.isomRects.length) := by
    intro e w1 he h1
    refine ⟨changesInArea_markVisited w e w1 he h1.1, ?_, ?_⟩
    · have hx := isInBounds_x _ _ (diamondNeedsUpdate_inBounds _ _ he)
      show max w1.cache.changedArea.right e.x < w1.map.getIsomWidth
      exact max_lt h1.2.1 hx
    · show (List.set _ _ _).length = _
      rw [List.length_set]
      exact h1.2.2
  exact placeIsomTerrain_inv
    (fun w1 => ChangesInArea w w1 ∧ w1.cache.changedArea.right < w1.map.getIsomWidth ∧
      w1.map.isomRects.length = w.map.isomRects.length)
    (fun _ => True) fuel d terrainType brushExtent w w'
    (fun _ _ _ => trivial) (fun _ _ => trivial)
    ⟨⟨rfl, rfl, fun p _ hp => absurd rfl hp⟩, Nat.succ_pos _, rfl⟩
    (fun _ _ w1 h1 _ => hset _ _ w1 h1)
    (fun e w1 _ he _ h1 => hvisit e w1 he h1)
    (fun e v w1 _ he _ h1 _ => hset e v _ (hvisit e w1 he h1))
    h

theorem cleared_no_flags (x : Nat) : (x &&& 0x7FFE) &&& 0x8001 = 0 := by
  rw [Nat.and_assoc]
  have h : (0x7FFE : Nat) &&& 0x8001 = 0 := by decide
  rw [h, Nat.and_zero]

/-- Every rectangle of the list is the rectangle of a position in a column of the grid. -/
theorem getD_eq_getIsomRect (m : ScMap) (i : Nat) :
    m.isomRects.getD i default =
      m.getIsomRect ⟨i % m.getIsomWidth, i / m.getIsomWidth⟩ := by
  unfold ScMap.getIsomRect ScMap.rectIndex
  show _ = m.isomRects.getD (i / m.getIsomWidth * m.getIsomWidth + i % m.getIsomWidth) default
  rw [Nat.div_add_mod']

/-- C39: if no isom rectangle carries an editor flag, then after a call of `placeIsomTerrain`
that returns true and a call of `updateTilesFromIsom` no isom rectangle of the map carries an
editor flag: every field AND `0x8001` is 0. -/
theorem C39_no_flags_after_update (fuel : Nat) (d : IsomDiamond) (terrainType brushExtent : Nat)
    (w w' : World)
    (hclean : ∀ r ∈ w.map.isomRects, ∀ s : Side, r.side s &&& 0x8001 = 0)
    (h : placeIsomTerrain fuel d terrainType brushExtent w = some (true, w')) :
    ∀ r ∈ (updateTilesFromIsom w').map.isomRects, ∀ s : Side, r.side s &&& 0x8001 = 0 := by
  obtain ⟨⟨hw, _, hchg⟩, hr, hlen⟩ := placeIsomTerrain_area fuel d terrainType brushExtent w w' h
  have hW : w'.map.getIsomWidth = w.map.getIsomWidth := by
    simp only [ScMap.getIsomWidth, hw]
  intro r hmem s
  obtain ⟨i, hi, rfl⟩ := List.getElem_of_mem hmem
  have hlen2 := (updateTilesFromIsom_rects w' hr ⟨0, 0⟩ (Nat.succ_pos _)).1
  have hW2 : (updateTilesFromIsom w').map.getIsomWidth = w'.map.getIsomWidth := by
    simp only [ScMap.getIsomWidth, (updateTilesFromIsom_rects w' hr ⟨0, 0⟩ (Nat.succ_pos _)).2.1]
  have hpx : i % w'.map.getIsomWidth < w'.map.getIsomWidth := Nat.mod_lt _ (Nat.succ_pos _)
  have e1 : (updateTilesFromIsom w').map.isomRects[i] =
      (updateTilesFromIsom w').map.getIsomRect
        ⟨i % w'.map.getIsomWidth, i / w'.map.getIsomWidth⟩ := by
    rw [← hW2, ← getD_eq_getIsomRect, List.getD_eq_getElem _ _ hi]
  rw [e1]
  obtain ⟨_, _, hin, hout⟩ := updateTilesFromIsom_rects w' hr
    ⟨i % w'.map.getIsomWidth, i / w'.map.getIsomWidth⟩ hpx
  by_cases hbox : (w'.cache.changedArea.top ≤ i / w'.map.getIsomWidth ∧
      i / w'.map.getIsomWidth ≤ w'.cache.changedArea.bottom) ∧
      (w'.cache.changedArea.left ≤ i % w'.map.getIsomWidth ∧
        i % w'.map.getIsomWidth ≤ w'.cache.changedArea.right)
  · rw [hin hbox, clearEditorFlags_side]
    exact cleared_no_flags _
  · rw [hout hbox]
    have hsame : w'.map.getIsomRect ⟨i % w'.map.getIsomWidth, i / w'.map.getIsomWidth⟩ =
        w.map.getIsomRect ⟨i % w'.map.getIsomWidth, i / w'.map.getIsomWidth⟩ := by
      by_contra hne
      have := hchg ⟨i % w'.map.getIsomWidth, i / w'.map.getIsomWidth⟩ (by rw [← hW]; exact hpx) hne
      exact hbox ⟨⟨this.2.2.1, this.2.2.2⟩, ⟨this.1, this.2.1⟩⟩
    rw [hsame, hW, ← getD_eq_getIsomRect]
    have hi0 : i < w.map.isomRects.length := by
      rw [← hlen, ← hlen2]
      exact hi
    rw [List.getD_eq_getElem _ _ hi0]
    exact hclean _ (List.getElem_mem hi0) s

set_option maxRecDepth 100000 in
/-- C39 on `demoWorld`: no rectangle carries a flag, the placement returns true and leaves
flags on the rectangle (0, 0), and after the projection no rectangle carries a flag. -/
theorem C39_no_flags_after_update_witness :
    (∀ r ∈ demoWorld.map.isomRects, ∀ s : Side, r.side s &&& 0x8001 = 0) ∧
    placeIsomTerrain 100 ⟨0, 0⟩ 1 1 demoWorld = some (true, demoPlaced) ∧
    (demoPlaced.map.getIsomRect ⟨0, 0⟩).side Side.Right &&& 0x8001 ≠ 0 ∧
    (∀ r ∈ (updateTilesFromIsom demoPlaced).map.isomRects, ∀ s : Side,
      r.side s &&& 0x8001 = 0) :=
  have hclean : ∀ r ∈ demoWorld.map.isomRects, ∀ s : Side, r.side s &&& 0x8001 = 0 := by
    intro r hr s
    cases s <;> revert r <;> decide
  ⟨hclean, demoPlaced_eq, by decide,
    C39_no_flags_after_update 100 ⟨0, 0⟩ 1 1 demoWorld demoPlaced hclean demoPlaced_eq⟩

end World

end IsomTerrain

namespace IsomTerrain

namespace World

/-! ## The undo records of a sequence of undoable writes -/

/-- The undo map and the trace after an undoable `setIsomValue` inside the grid. -/
theorem setIsomValue_undoable (p : Point) (q : Quadrant) (v : Nat) (w : World)
    (hb : w.map.isInBounds p = true)
    (hi : p.y * w.cache.isomWidth + p.x < w.cache.undoMap.length) :
    (w.cache.undoMap.getD (p.y * w.cache.isomWidth + p.x) none = none →
      (setIsomValue p q v true w).cache.undoMap =
        w.cache.undoMap.set (p.y * w.cache.isomWidth + p.x)
          (some { diamond := p, oldValue := (w.map.getIsomRect p).clearEditorFlags,
                  newValue := (((w.map.getIsomRect p).set (ProjectedQuadrant.atQuadrant q)
                    v).setModified (ProjectedQuadrant.atQuadrant q)).clearEditorFlags }) ∧
      (setIsomValue p q v true w).trace =
        Event.undoSink (IsomRectUndo.new p (w.map.getIsomRect p) {}) :: w.trace) ∧
    (∀ u, w.cache.undoMap.getD (p.y * w.cache.isomWidth + p.x) none = some u →
      (setIsomValue p q v true w).cache.undoMap =
        w.cache.undoMap.set (p.y * w.cache.isomWidth + p.x)
          (some { u with newValue := (((w.map.getIsomRect p).set
            (ProjectedQuadrant.atQuadrant q) v).setModified
              (ProjectedQuadrant.atQuadrant q)).clearEditorFlags }) ∧
      (setIsomValue p q v true w).trace = w.trace) := by
  constructor
  · intro hn
    unfold setIsomValue addIsomUndo
    simp only [hb, if_true, Bool.true_and, decide_eq_true_eq, hi, hn, getD_set_eq, and_self,
      List.set_set, IsomRectUndo.setNewValue, IsomRectUndo.new]
  · intro u hu
    unfold setIsomValue addIsomUndo
    simp only [hb, if_true, Bool.true_and, decide_eq_true_eq, hi, hu, IsomRectUndo.setNewValue]
    exact ⟨trivial, trivial⟩

theorem isInBounds_dims (m1 m2 : ScMap) (hw : m1.tileWidth = m2.tileWidth)
    (hh : m1.tileHeight = m2.tileHeight) (p : Point) : m1.isInBounds p = m2.isInBounds p := by
  unfold ScMap.isInBounds ScMap.getIsomWidth ScMap.getIsomHeight
  rw [hw, hh]

theorem undo_index_lt (W H : Nat) (p : Point) (hx : p.x < W) (hy : p.y < H) :
    p.y * W + p.x < W * H := by
  have h1 : p.y * W + p.x < (p.y + 1) * W := by
    rw [Nat.succ_mul]
    omega
  have h2 : (p.y + 1) * W ≤ H * W := Nat.mul_le_mul_right W hy
  rw [Nat.mul_comm W H]
  omega

theorem undoInv_weaken (w0 w : World) (written : List Point) (p : Point)
    (hp : w0.map.isInBounds p = false) (h : UndoInv w0 written w) :
    UndoInv w0 (p :: written) w := by
  obtain ⟨a1, a2, a3, a4, a5, a6, new, b1, b2, b3⟩ := h
  refine ⟨a1, a2, a3, a4, a5, ?_, new, b1, b2, ?_⟩
  · intro p' hb'
    have hne : p' ≠ p := by
      intro e
      rw [e, hp] at hb'
      exact Bool.noConfusion hb'
    refine ⟨fun hm => (a6 p' hb').1 ?_, fun hm => (a6 p' hb').2 ?_⟩
    · rcases List.mem_cons.mp hm with e | e
      · exact absurd e hne
      · exact e
    · exact fun e => hm (List.mem_cons_of_mem _ e)
  · intro u hu
    obtain ⟨c1, c2, c3⟩ := b3 u hu
    exact ⟨List.mem_cons_of_mem _ c1, c2, c3⟩

/-- One undoable write keeps the invariant. -/
theorem undoInv_step (w0 w : World) (written : List Point) (p : Point) (q : Quadrant) (v : Nat)
    (hW : w0.cache.isomWidth = w0.map.getIsomWidth)
    (hH : w0.cache.isomHeight = w0.map.getIsomHeight)
    (hlen : w0.cache.undoMap.length = w0.cache.isomWidth * w0.cache.isomHeight)
    (hgrid : GridComplete w0.map) (h : UndoInv w0 written w) :
    UndoInv w0 (p :: written) (setIsomValue p q v true w) := by
  have hinv := h
  obtain ⟨a1, a2, a3, a4, a5, a6, new, b1, b2, b3⟩ := h
  have hbe : w.map.isInBounds p = w0.map.isInBounds p := isInBounds_dims _ _ a1 a2 p
  have hWm : w.map.getIsomWidth = w0.map.getIsomWidth := by
    simp only [ScMap.getIsomWidth, a1]
  by_cases hb0 : w0.map.isInBounds p = true
  swap
  · have hb0f : w0.map.isInBounds p = false := by simpa using hb0
    rw [setIsomValue_out p q v true w (by rw [hbe]; exact hb0f)]
    exact undoInv_weaken w0 w written p hb0f hinv
  have hb : w.map.isInBounds p = true := by rw [hbe]; exact hb0
  have hpx : p.x < w0.map.getIsomWidth := isInBounds_x _ _ hb0
  have hpy : p.y < w0.map.getIsomHeight := by
    unfold ScMap.isInBounds at hb0
    simp only [Bool.and_eq_true, decide_eq_true_eq] at hb0
    exact hb0.2
  have hi : p.y * w.cache.isomWidth + p.x < w.cache.undoMap.length := by
    rw [a4, a5, hlen, hW, hH]
    exact undo_index_lt _ _ p hpx hpy
  have hi0 : p.y * w0.cache.isomWidth + p.x < w.cache.undoMap.length := by
    rw [← a4]; exact hi
  obtain ⟨m1, _, m3, _, _, _, _, _⟩ := setIsomValue_in p q v true w hb
  have hri : w.map.rectIndex p < w.map.isomRects.length := by
    have := hgrid p hb0
    unfold ScMap.rectIndex at this ⊢
    rw [hWm, a3]
    exact this
  have hself : (setIsomValue p q v true w).map.getIsomRect p =
      ((w.map.getIsomRect p).set (ProjectedQuadrant.atQuadrant q) v).setModified
        (ProjectedQuadrant.atQuadrant q) := by
    rw [m1, ScMap.getIsomRect_setIsomRect_self _ _ _ hri]
  have hother : ∀ p' : Point, w0.map.isInBounds p' = true → p' ≠ p →
      (setIsomValue p q v true w).map.getIsomRect p' = w.map.getIsomRect p' ∧
      p'.y * w0.cache.isomWidth + p'.x ≠ p.y * w0.cache.isomWidth + p.x := by
    intro p' hb' hne
    have hpx' : p'.x < w0.map.getIsomWidth := isInBounds_x _ _ hb'
    refine ⟨?_, ?_⟩
    · rw [m1]
      exact ScMap.getIsomRect_setIsomRect_ne w.map p p' _ (by rw [hWm]; exact hpx)
        (by rw [hWm]; exact hpx') hne
    · intro e
      rw [hW] at e
      obtain ⟨e1, e2⟩ := rectIndex_inj _ _ _ _ _ hpx' hpx e
      apply hne
      cases p; cases p'
      simp only [Point.mk.injEq]
      exact ⟨e1, e2⟩
  have hdims : (setIsomValue p q v true w).map.tileWidth = w0.map.tileWidth ∧
      (setIsomValue p q v true w).map.tileHeight = w0.map.tileHeight ∧
      (setIsomValue p q v true w).map.isomRects.length = w0.map.isomRects.length := by
    obtain ⟨d1, d2, d3⟩ := setIsomValue_dims p q v true w
    exact ⟨d1.trans a1, d2.trans a2, d3.trans a3⟩
  obtain ⟨hnone, hsome⟩ := setIsomValue_undoable p q v w hb hi
  rw [a4] at hnone hsome
  cases hcur : w.cache.undoMap.getD (p.y * w0.cache.isomWidth + p.x) none with
  | none =>
    obtain ⟨hu, ht⟩ := hnone hcur
    have hpw : p ∉ written := by
      intro hm
      rw [(a6 p hb0).1 hm] at hcur
      exact Option.noConfusion hcur
    have hold : w.map.getIsomRect p = w0.map.getIsomRect p := ((a6 p hb0).2 hpw).2
    refine ⟨hdims.1, hdims.2.1, hdims.2.2, m3.trans a4, ?_, ?_, ?_⟩
    · rw [hu, List.length_set]; exact a5
    · intro p' hb'
      by_cases hpe : p' = p
      · subst hpe
        refine ⟨fun _ => ?_, fun hm => absurd (List.mem_cons_self _ _) hm⟩
        rw [hu, getD_set_eq, if_pos ⟨rfl, hi0⟩, hself, hold]
      · obtain ⟨o1, o2⟩ := hother p' hb' hpe
        rw [hu, getD_set_eq, if_neg (fun hc => o2 hc.1.symm), o1]
        refine ⟨fun hm => (a6 p' hb').1 ?_, fun hm => (a6 p' hb').2 ?_⟩
        · rcases List.mem_cons.mp hm with e | e
          · exact absurd e hpe
          · exact e
        · exact fun e => hm (List.mem_cons_of_mem _ e)
    · refine ⟨Event.undoSink (IsomRectUndo.new p (w.map.getIsomRect p) {}) :: new, ?_, ?_, ?_⟩
      · rw [ht, b1]; rfl
      · show (p :: (sinkCalls new).map fun u => u.diamond).Nodup
        refine List.nodup_cons.mpr ⟨?_, b2⟩
        intro hm
        obtain ⟨u, hu1, hu2⟩ := List.mem_map.mp hm
        exact hpw (hu2 ▸ (b3 u hu1).1)
      · intro u hu1
        rcases List.mem_cons.mp hu1 with e | e
        · subst e
          exact ⟨List.mem_cons_self _ _, hb0, by
            show (w.map.getIsomRect p).clearEditorFlags = (w0.map.getIsomRect p).clearEditorFlags
            rw [hold]⟩
        · obtain ⟨c1, c2, c3⟩ := b3 u e
          exact ⟨List.mem_cons_of_mem _ c1, c2, c3⟩
  | some u =>
    obtain ⟨hu, ht⟩ := hsome u hcur
    have hpw : p ∈ written := by
      by_contra hm
      rw [((a6 p hb0).2 hm).1] at hcur
      exact Option.noConfusion hcur
    have hrec := (a6 p hb0).1 hpw
    rw [hcur] at hrec
    have hueq := Option.some.inj hrec
    refine ⟨hdims.1, hdims.2.1, hdims.2.2, m3.trans a4, ?_, ?_, ?_⟩
    · rw [hu, List.length_set]; exact a5
    · intro p' hb'
      by_cases hpe : p' = p
      · subst hpe
        refine ⟨fun _ => ?_, fun hm => absurd (List.mem_cons_self _ _) hm⟩
        rw [hu, getD_set_eq, if_pos ⟨rfl, hi0⟩, hself, hueq]
      · obtain ⟨o1, o2⟩ := hother p' hb' hpe
        rw [hu, getD_set_eq, if_neg (fun hc => o2 hc.1.symm), o1]
        refine ⟨fun hm => (a6 p' hb').1 ?_, fun hm => (a6 p' hb').2 ?_⟩
        · rcases List.mem_cons.mp hm with e | e
          · exact absurd e hpe
          · exact e
        · exact fun e => hm (List.mem_cons_of_mem _ e)
    · refine ⟨new, by rw [ht, b1], b2, ?_⟩
      intro u' hu1
      obtain ⟨c1, c2, c3⟩ := b3 u' hu1
      exact ⟨List.mem_cons_of_mem _ c1, c2, c3⟩

/-- The invariant holds after every sequence of undoable writes. -/
theorem undoInv_fold (w0 : World)
    (hW : w0.cache.isomWidth = w0.map.getIsomWidth)
    (hH : w0.cache.isomHeight = w0.map.getIsomHeight)
    (hlen : w0.cache.undoMap.length = w0.cache.isomWidth * w0.cache.isomHeight)
    (hgrid : GridComplete w0.map) (writes : List (Point × Quadrant × Nat)) :
    ∀ (written : List Point) (w : World), UndoInv w0 written w →
      UndoInv w0 ((writes.map fun x => x.1).reverse ++ written) (undoableWrites writes w) := by
  induction writes with
  | nil => intro written w h; exact h
  | cons x rest ih =>
    intro written w h
    have h1 := ih (x.1 :: written) _ (undoInv_step w0 w written x.1 x.2.1 x.2.2 hW hH hlen hgrid h)
    have e : ((x :: rest).map fun x => x.1).reverse ++ written =
        (rest.map fun x => x.1).reverse ++ (x.1 :: written) := by
      simp only [List.map_cons, List.reverse_cons, List.append_assoc, List.singleton_append]
    rw [e]
    exact h1

/-- The invariant holds initially when the undo map is empty. -/
theorem undoInv_init (w0 : World)
    (hempty : w0.cache.undoMap = List.replicate (w0.cache.isomWidth * w0.cache.isomHeight) none) :
    UndoInv w0 [] w0 := by
  refine ⟨rfl, rfl, rfl, rfl, rfl, ?_, [], rfl, List.nodup_nil, ?_⟩
  · intro p _
    refine ⟨fun h => absurd h (List.not_mem_nil _), fun _ => ⟨?_, rfl⟩⟩
    rw [hempty, List.getD_eq_getElem?_getD, List.getElem?_replicate]
    split <;> rfl
  · intro u hu
    exact absurd hu (List.not_mem_nil _)

/-- Undoable writes to other positions keep a rectangle. -/
theorem undoableWrites_rect_other (writes : List (Point × Quadrant × Nat)) (p : Point)
    (hp : p ∉ writes.map fun x => x.1) :
    ∀ w : World, p.x < w.map.getIsomWidth →
      (undoableWrites writes w).map.getIsomRect p = w.map.getIsomRect p := by
  induction writes with
  | nil => intro w _; rfl
  | cons x rest ih =>
    intro w hx
    have hne : p ≠ x.1 := fun e => hp (by rw [e]; exact List.mem_cons_self _ _)
    have hrest : p ∉ rest.map fun x => x.1 := fun e => hp (List.mem_cons_of_mem _ e)
    have hw : (setIsomValue x.1 x.2.1 x.2.2 true w).map.getIsomWidth = w.map.getIsomWidth := by
      simp only [ScMap.getIsomWidth, (setIsomValue_dims x.1 x.2.1 x.2.2 true w).1]
    show (undoableWrites rest (setIsomValue x.1 x.2.1 x.2.2 true w)).map.getIsomRect p = _
    rw [ih hrest _ (by rw [hw]; exact hx)]
    by_cases hb : w.map.isInBounds x.1 = true
    · rw [(setIsomValue_in x.1 x.2.1 x.2.2 true w hb).1]
      exact ScMap.getIsomRect_setIsomRect_ne w.map x.1 p _ (isInBounds_x _ _ hb) hx hne
    · rw [setIsomValue_out x.1 x.2.1 x.2.2 true w (by simpa using hb)]

theorem undoableWrites_append (a b : List (Point × Quadrant × Nat)) (w : World) :
    undoableWrites (a ++ b) w = undoableWrites b (undoableWrites a w) := by
  unfold undoableWrites
  rw [List.foldl_append]

theorem undoableWrites_width (writes : List (Point × Quadrant × Nat)) :
    ∀ w : World, (undoableWrites writes w).map.getIsomWidth = w.map.getIsomWidth := by
  induction writes with
  | nil => intro w; rfl
  | cons x rest ih =>
    intro w
    show (undoableWrites rest (setIsomValue x.1 x.2.1 x.2.2 true w)).map.getIsomWidth = _
    rw [ih]
    simp only [ScMap.getIsomWidth, (setIsomValue_dims x.1 x.2.1 x.2.2 true w).1]

/-- C33: across any sequence of undoable `setIsomValue` writes that starts from an all-empty
undo map (of the size of the rectangle grid, as the cache keeps it), (1) the undo sink
`IsomCache::addIsomUndo` is called at most once per rectangle position: the positions of the
sink calls made by the sequence are pairwise distinct; (2) after every prefix of the sequence,
each position inside the grid that the prefix wrote has an undo record whose old value is the
rectangle before the sequence with the editor flags cleared (so later writes never change it)
and whose new value is the current rectangle with the editor flags cleared; (3) the rectangle
before the first write to a position is the rectangle before the sequence; (4) the current
rectangle of a position is the one right after the most recent write to it. -/
theorem C33_undo_records (w0 : World) (writes : List (Point × Quadrant × Nat))
    (hW : w0.cache.isomWidth = w0.map.getIsomWidth)
    (hH : w0.cache.isomHeight = w0.map.getIsomHeight)
    (hempty : w0.cache.undoMap = List.replicate (w0.cache.isomWidth * w0.cache.isomHeight) none)
    (hgrid : GridComplete w0.map) :
    (∃ new : List Event, (undoableWrites writes w0).trace = new ++ w0.trace ∧
      ((sinkCalls new).map fun u => u.diamond).Nodup) ∧
    (∀ (pre post : List (Point × Quadrant × Nat)) (p : Point), writes = pre ++ post →
      w0.map.isInBounds p = true → p ∈ pre.map (fun x => x.1) →
      (undoableWrites pre w0).cache.undoMap.getD
          (p.y * (undoableWrites pre w0).cache.isomWidth + p.x) none =
        some { diamond := p
               oldValue := (w0.map.getIsomRect p).clearEditorFlags
               newValue := ((undoableWrites pre w0).map.getIsomRect p).clearEditorFlags }) ∧
    (∀ (pre post : List (Point × Quadrant × Nat)) (x : Point × Quadrant × Nat),
      writes = pre ++ x :: post → w0.map.isInBounds x.1 = true →
      x.1 ∉ pre.map (fun y => y.1) →
      (undoableWrites pre w0).map.getIsomRect x.1 = w0.map.getIsomRect x.1) ∧
    (∀ (pre post : List (Point × Quadrant × Nat)) (x : Point × Quadrant × Nat),
      writes = pre ++ x :: post → w0.map.isInBounds x.1 = true →
      x.1 ∉ post.map (fun y => y.1) →
      (undoableWrites writes w0).map.getIsomRect x.1 =
        (undoableWrites (pre ++ [x]) w0).map.getIsomRect x.1) := by
  have hlen : w0.cache.undoMap.length = w0.cache.isomWidth * w0.cache.isomHeight := by
    rw [hempty, List.length_replicate]
  have hinv : ∀ ws : List (Point × Quadrant × Nat),
      UndoInv w0 ((ws.map fun x => x.1).reverse ++ []) (undoableWrites ws w0) :=
    fun ws => undoInv_fold w0 hW hH hlen hgrid ws [] w0 (undoInv_init w0 hempty)
  refine ⟨?_, ?_, ?_, ?_⟩
  · obtain ⟨_, _, _, _, _, _, new, b1, b2, _⟩ := hinv writes
    exact ⟨new, b1, b2⟩
  · intro pre post p _ hb hp
    obtain ⟨_, _, _, a4, _, a6, _⟩ := hinv pre
    rw [a4]
    exact (a6 p hb).1 (by simpa using hp)
  · intro pre post x _ hb hx
    exact undoableWrites_rect_other pre x.1 hx w0 (isInBounds_x _ _ hb)
  · intro pre post x hw hb hx
    have e : pre ++ x :: post = (pre ++ [x]) ++ post := by simp
    rw [hw, e, undoableWrites_append]
    exact undoableWrites_rect_other post x.1 hx _
      (by rw [undoableWrites_width]; exact isInBounds_x _ _ hb)

/-- Witness for C33: on the 2x1-tile demo map with an empty undo map, three undoable writes, two
of them to the rectangle (0,0). -/
theorem C33_undo_records_witness :
    (∃ new : List Event,
      (undoableWrites [(⟨0, 0⟩, Quadrant.TopLeft, 1), (⟨1, 0⟩, Quadrant.TopRight, 1),
        (⟨0, 0⟩, Quadrant.BottomRight, 1)] demoWorld).trace = new ++ demoWorld.trace ∧
      ((sinkCalls new).map fun u => u.diamond).Nodup) ∧
    (∀ (pre post : List (Point × Quadrant × Nat)) (p : Point),
      [(⟨0, 0⟩, Quadrant.TopLeft, 1), (⟨1, 0⟩, Quadrant.TopRight, 1),
        (⟨0, 0⟩, Quadrant.BottomRight, 1)] = pre ++ post →
      demoWorld.map.isInBounds p = true → p ∈ pre.map (fun x => x.1) →
      (undoableWrites pre demoWorld).cache.undoMap.getD
          (p.y * (undoableWrites pre demoWorld).cache.isomWidth + p.x) none =
        some { diamond := p
               oldValue := (demoWorld.map.getIsomRect p).clearEditorFlags
               newValue := ((undoableWrites pre demoWorld).map.getIsomRect p).clearEditorFlags }) ∧
    (∀ (pre post : List (Point × Quadrant × Nat)) (x : Point × Quadrant × Nat),
      [(⟨0, 0⟩, Quadrant.TopLeft, 1), (⟨1, 0⟩, Quadrant.TopRight, 1),
        (⟨0, 0⟩, Quadrant.BottomRight, 1)] = pre ++ x :: post →
      demoWorld.map.isInBounds x.1 = true → x.1 ∉ pre.map (fun y => y.1) →
      (undoableWrites pre demoWorld).map.getIsomRect x.1 = demoWorld.map.getIsomRect x.1) ∧
    (∀ (pre post : List (Point × Quadrant × Nat)) (x : Point × Quadrant × Nat),
      [(⟨0, 0⟩, Quadrant.TopLeft, 1), (⟨1, 0⟩, Quadrant.TopRight, 1),
        (⟨0, 0⟩, Quadrant.BottomRight, 1)] = pre ++ x :: post →
      demoWorld.map.isInBounds x.1 = true → x.1 ∉ post.map (fun y => y.1) →
      (undoableWrites [(⟨0, 0⟩, Quadrant.TopLeft, 1), (⟨1, 0⟩, Quadrant.TopRight, 1),
        (⟨0, 0⟩, Quadrant.BottomRight, 1)] demoWorld).map.getIsomRect x.1 =
        (undoableWrites (pre ++ [x]) demoWorld).map.getIsomRect x.1) :=
  C33_undo_records demoWorld
    [(⟨0, 0⟩, Quadrant.TopLeft, 1), (⟨1, 0⟩, Quadrant.TopRight, 1),
      (⟨0, 0⟩, Quadrant.BottomRight, 1)]
    rfl rfl rfl (gridComplete_of_length _ rfl)

/-- The undo map and the sink calls of the three writes of the witness: two records, two sink
calls, the record of (0,0) holding the value after the second write to it. -/
theorem undoableWrites_demo :
    (undoableWrites [(⟨0, 0⟩, Quadrant.TopLeft, 1), (⟨1, 0⟩, Quadrant.TopRight, 1),
        (⟨0, 0⟩, Quadrant.BottomRight, 1)] demoWorld).cache.undoMap =
      [some { diamond := ⟨0, 0⟩, oldValue := { left := 16, top := 16, right := 16, bottom := 16 }
              newValue := { left := 24, top := 26, right := 16, bottom := 18 } },
       some { diamond := ⟨1, 0⟩, oldValue := {}
              newValue := { left := 20, top := 0, right := 0, bottom := 22 } },
       none, none] ∧
    ((sinkCalls (undoableWrites [(⟨0, 0⟩, Quadrant.TopLeft, 1), (⟨1, 0⟩, Quadrant.TopRight, 1),
        (⟨0, 0⟩, Quadrant.BottomRight, 1)] demoWorld).trace).map fun u => u.diamond) =
      [⟨1, 0⟩, ⟨0, 0⟩] := by
  decide

end World

end IsomTerrain

namespace IsomTerrain

namespace World

/-! ## C32: the diamonds marked by `resizeIsom` -/

theorem radiallyUpdateTerrain_nil (undoable : Bool) (fuel : Nat) (w : World) :
    radiallyUpdateTerrain undoable fuel [] w = some w := by
  cases fuel <;> rfl

/-- Without `fixBorders` the first loop of `resizeIsom` on `resizeWorld` leaves the queue of
`radiallyUpdateTerrain` empty. -/
theorem resizeWorld_queue :
    ((sortEdges (resizeFirstLoop (resizeInnerArea 0 0 4 1 resizeWorld.cache) false
        resizeWorld).2).filter fun edge =>
      (resizeFirstLoop (resizeInnerArea 0 0 4 1 resizeWorld.cache) false
        resizeWorld).1.map.diamondNeedsUpdate edge) = [] := by
  decide!

/-- On `resizeWorld` the result of `resizeIsom` does not depend on the fuel. -/
theorem resizeWorld_fuel (fuel : Nat) :
    resizeIsom fuel 0 0 4 1 false resizeWorld = resizeIsom 0 0 0 4 1 false resizeWorld := by
  unfold resizeIsom
  simp only [resizeWorld_queue, radiallyUpdateTerrain_nil]

/-- C32 at a failing input: a 4x1-tile map resized to 4x4 tiles with offsets 0, without
`fixBorders`, from a map without editor flags.  The inner area is the box `{0, 0, 2, 1}`.  The
diamond (1,3) is valid and inside the grid, and its four quadrant rectangles (0,2), (1,2), (1,3),
(0,3) are inside the grid and outside the inner area (their `y` is at least `innerArea.bottom`);
`resizeIsom` returns, with whatever fuel, and in its result none of the four quadrants of the
diamond has the `Modified` bit on both of its sides: the rectangle (0,2) carries no flag at
all. -/
theorem C32_resize_at_failing_input (fuel : Nat) :
    noEditorFlags resizeWorld.map = true ∧
    resizeInnerArea 0 0 4 1 resizeWorld.cache = { left := 0, top := 0, right := 2, bottom := 1 } ∧
    IsomDiamond.isValid ⟨1, 3⟩ = true ∧ resizeWorld.map.isInBounds ⟨1, 3⟩ = true ∧
    (quadrants.map fun q => IsomDiamond.getRectangleCoords ⟨1, 3⟩ q) =
      [⟨0, 2⟩, ⟨1, 2⟩, ⟨1, 3⟩, ⟨0, 3⟩] ∧
    (∀ q ∈ quadrants,
      resizeWorld.map.isInBounds (IsomDiamond.getRectangleCoords ⟨1, 3⟩ q) = true ∧
      outsideInnerArea (resizeInnerArea 0 0 4 1 resizeWorld.cache)
        (IsomDiamond.getRectangleCoords ⟨1, 3⟩ q) = true) ∧
    ((resizeIsom fuel 0 0 4 1 false resizeWorld).map fun w => w.map.isomRects) =
      some [{ left := 17, top := 17, right := 17, bottom := 17 },
            { left := 17, top := 17, right := 17, bottom := 17 },
            { left := 25, top := 27, right := 16, bottom := 16 },
            { left := 16, top := 29, right := 31, bottom := 16 },
            { left := 25, top := 27, right := 17, bottom := 17 },
            { left := 17, top := 16, right := 16, bottom := 17 },
            { left := 16, top := 16, right := 16, bottom := 16 },
            { left := 16, top := 17, right := 17, bottom := 16 },
            { left := 17, top := 17, right := 16, bottom := 16 },
            { left := 16, top := 16, right := 16, bottom := 16 },
            { left := 16, top := 16, right := 17, bottom := 17 },
            { left := 17, top := 16, right := 16, bottom := 17 },
            { left := 16, top := 16, right := 16, bottom := 16 },
            { left := 16, top := 17, right := 17, bottom := 16 },
            { left := 17, top := 17, right := 16, bottom := 16 }] ∧
    ((resizeIsom fuel 0 0 4 1 false resizeWorld).map fun w =>
      quadrants.map fun q => quadrantModified w.map ⟨1, 3⟩ q) =
      some [false, false, false, false] := by
  rw [resizeWorld_fuel fuel]
  decide!

end World

end IsomTerrain

namespace IsomTerrain
namespace Tiles

/-! ## The tables of the built-in tilesets

The link table, the descriptor table and the terrain type map of a cache are the ones
`Tiles::loadIsom` builds for one of the eight tilesets.  The facts below hold for all of them,
whatever the tile groups are. -/

set_option maxRecDepth 1000000 in
/-- The terrain type column of the link table of every built-in tileset: at least one and fewer
than 2048 rows, every row carries a type of the descriptor table, and no row carries the type
`size/2 + 1`. -/
theorem builtin_column_in_range :
    ∀ tilesetIndex < 8,
      0 < (terrainTypeColumn (tilesetTerrainTypes.getD tilesetIndex [])).length ∧
      (terrainTypeColumn (tilesetTerrainTypes.getD tilesetIndex [])).length < 2048 ∧
      ∀ r < (terrainTypeColumn (tilesetTerrainTypes.getD tilesetIndex [])).length,
        (terrainTypeColumn (tilesetTerrainTypes.getD tilesetIndex [])).getD r 0 <
            (tilesetTerrainTypes.getD tilesetIndex []).length ∧
          (terrainTypeColumn (tilesetTerrainTypes.getD tilesetIndex [])).getD r 0 ≠
            (tilesetTerrainTypes.getD tilesetIndex []).length / 2 + 1 := by
  decide!

/-- The row indices of the descriptors of every built-in tileset are below 2048. -/
theorem builtin_isomValue_lt :
    ∀ tilesetIndex < 8, ∀ t < (tilesetTerrainTypes.getD tilesetIndex []).length,
      ((tilesetTerrainTypes.getD tilesetIndex []).getD t default).isomValue < 2048 := by
  decide

/-- In the compressed terrain type map of every built-in tileset the type 0 has no adjacency
list and the type `size/2 + 1` is in no adjacency list. -/
theorem builtin_adjacency :
    ∀ tilesetIndex < 8,
      adjacencyList (compressedTerrainTypeMaps.getD tilesetIndex []) 0 = [] ∧
      ∀ i < (tilesetTerrainTypes.getD tilesetIndex []).length,
        (tilesetTerrainTypes.getD tilesetIndex []).length / 2 + 1 ∉
          adjacencyList (compressedTerrainTypeMaps.getD tilesetIndex []) i := by
  decide!

/-- A type that is in no adjacency list occurs in the terrain type map only as the diagonal
entry of its own row. -/
theorem populateTerrainTypeMap_isolated (compressed : List Nat) (total h : Nat)
    (h16 : total ≤ U16) (hfit : AdjacencyFits (adjacencyList compressed) total)
    (hdec : decompress compressed total (compressed.length + 1) 0
      (List.replicate (total * total) 0) = some (adjacencySquare (adjacencyList compressed) total))
    (hh : h ≠ 0) (hzero : adjacencyList compressed 0 = [])
    (hadj : ∀ i < total, h ∉ adjacencyList compressed i) :
    ∃ m, populateTerrainTypeMap compressed total = some m ∧
      ∀ i, i < total → ∀ j, j < total → m.getD (i * total + j) 0 = h → i = h ∧ j = h := by
  obtain ⟨m, e, _, s⟩ := populateTerrainTypeMap_spec compressed total h16 hfit hdec
  obtain ⟨m2, e2, s2⟩ := populateTerrainTypeMap_hop compressed total h16 hfit hdec
  have em : m2 = m := Option.some.inj (e2.symm.trans e)
  rw [em] at s2
  refine ⟨m, e, ?_⟩
  intro i hi j hj heq
  by_cases hij : j = i
  · subst hij
    rw [(s j hj).1] at heq
    exact ⟨heq, heq⟩
  · exfalso
    have hne : m.getD (i * total + j) 0 ≠ 0 := by rw [heq]; exact hh
    by_cases hi0 : i = 0
    · have hr : Reachable compressed i j :=
        ((s i hi).2 j hj (fun hc => hij (by rw [hc.1, hc.2]))).mp hne
      rw [hi0] at hr
      rcases Relation.ReflTransGen.cases_head hr with h1 | ⟨b, hb, _⟩
      · exact hij (by rw [hi0, ← h1])
      · have hb2 : b ∈ adjacencyList compressed 0 := hb
        rw [hzero] at hb2
        exact absurd hb2 (List.not_mem_nil _)
    · have hop := s2 i (Nat.pos_of_ne_zero hi0) hi j hj hij hne
      have hmem : m.getD (i * total + j) 0 ∈ adjacencyList compressed i := hop.1
      rw [heq] at hmem
      exact hadj i hi hmem

/-- The cache of a built-in tileset: for every tileset index and every table of tile groups,
a cache whose link table is the one `generateIsomLinks` builds, whose descriptor table is the
one of the tileset and whose terrain type map is the one `populateTerrainTypeMap` builds has a
link table of at least one and fewer than 2048 rows, row indices below 2048 for all terrain
types, rows that carry types of the descriptor table other than `size/2 + 1`, and a terrain
type map that holds the type `size/2 + 1` only in the row of that type. -/
theorem builtin_tables_in_range (tilesetIndex : Nat) (ht : tilesetIndex < 8)
    (tileGroups : List TileGroup) (c : IsomCache)
    (hlinks : c.isomLinks = generateIsomLinks tileGroups (tilesetTerrainTypes.getD tilesetIndex []))
    (htypes : c.terrainTypes = tilesetTerrainTypes.getD tilesetIndex [])
    (hmap : loadedTerrainTypeMap tilesetIndex = some c.terrainTypeMap) :
    0 < c.isomLinks.length ∧ c.isomLinks.length < 2048 ∧
    (∀ t, c.getTerrainTypeIsomValue t < 2048) ∧
    (∀ r, r < c.isomLinks.length →
      (c.isomLinks.getD r default).terrainType < c.terrainTypes.length ∧
      (c.isomLinks.getD r default).terrainType ≠ c.terrainTypes.length / 2 + 1) ∧
    (∀ i, i < c.terrainTypes.length → ∀ j, j < c.terrainTypes.length →
      c.terrainTypeMap.getD (i * c.terrainTypes.length + j) 0 = c.terrainTypes.length / 2 + 1 →
      i = c.terrainTypes.length / 2 + 1) := by
  obtain ⟨c1, c2, c3⟩ := builtin_column_in_range tilesetIndex ht
  have hl : c.isomLinks.length =
      (terrainTypeColumn (tilesetTerrainTypes.getD tilesetIndex [])).length := by
    rw [hlinks, generateIsomLinks_length]
  refine ⟨by rw [hl]; exact c1, by rw [hl]; exact c2, ?_, ?_, ?_⟩
  · intro t
    unfold IsomCache.getTerrainTypeIsomValue
    split_ifs with h
    · rw [htypes] at h ⊢
      exact builtin_isomValue_lt tilesetIndex ht t h
    · decide
  · intro r hr
    rw [hl] at hr
    rw [hlinks, generateIsomLinks_terrainType, htypes]
    exact c3 r hr
  · have h16 : ∀ n, n ≤ 36 → n ≤ U16 := fun n h => by unfold U16; omega
    have key : ∀ (cm : List Nat) (n : Nat), n ≤ 36 →
        AdjacencyFits (adjacencyList cm) n →
        decompress cm n (cm.length + 1) 0 (List.replicate (n * n) 0)
          = some (adjacencySquare (adjacencyList cm) n) →
        adjacencyList cm 0 = [] → (∀ i < n, n / 2 + 1 ∉ adjacencyList cm i) →
        populateTerrainTypeMap cm n = some c.terrainTypeMap →
        ∀ i, i < n → ∀ j, j < n →
          c.terrainTypeMap.getD (i * n + j) 0 = n / 2 + 1 → i = n / 2 + 1 := by
      intro cm n hn hf hd hz ha hp i hi j hj heq
      obtain ⟨m, e, s⟩ := populateTerrainTypeMap_isolated cm n (n / 2 + 1) (h16 n hn) hf hd
        (Nat.succ_ne_zero _) hz ha
      have em : m = c.terrainTypeMap := Option.some.inj (e.symm.trans hp)
      rw [em] at s
      exact (s i hi j hj heq).1
    have hadj := builtin_adjacency tilesetIndex ht
    rw [htypes]
    unfold loadedTerrainTypeMap at hmap
    interval_cases tilesetIndex
    · exact key _ 36 (by omega) badlands_fits badlands_decompress hadj.1 hadj.2 hmap
    · exact key _ 22 (by omega) space_fits space_decompress hadj.1 hadj.2 hmap
    · exact key _ 16 (by omega) installation_fits installation_decompress hadj.1 hadj.2 hmap
    · exact key _ 18 (by omega) ashworld_fits ashworld_decompress hadj.1 hadj.2 hmap
    · exact key _ 36 (by omega) jungle_fits jungle_decompress hadj.1 hadj.2 hmap
    · exact key _ 36 (by omega) jungle_fits jungle_decompress hadj.1 hadj.2 hmap
    · exact key _ 36 (by omega) jungle_fits jungle_decompress hadj.1 hadj.2 hmap
    · exact key _ 36 (by omega) jungle_fits jungle_decompress hadj.1 hadj.2 hmap

theorem mem_of_lookup (h : List (Nat × List Nat)) (key : Nat) (l : List Nat)
    (hl : h.lookup key = some l) : (key, l) ∈ h := by
  induction h with
  | nil => exact absurd hl (by simp)
  | cons b rest ih =>
    rw [List.lookup_cons] at hl
    by_cases hk : key == b.1
    · rw [hk] at hl
      have e1 : b.2 = l := Option.some.inj hl
      have e2 : key = b.1 := by simpa using hk
      rw [e2, ← e1]
      exact List.mem_cons_self _ _
    · have hk2 : (key == b.1) = false := by simpa using hk
      rw [hk2] at hl
      exact List.mem_cons_of_mem _ (ih hl)

/-- The candidates of every bucket of the hash index that `Tiles::loadIsom` builds are even
group indices. -/
theorem loadIsomHashes_candidates_even (tileGroups : List TileGroup)
    (hn : tileGroups.length ≤ 65536) (key : Nat) (l : List Nat)
    (hl : (loadIsomHashes tileGroups []).lookup key = some l) : ∀ e ∈ l, e % 2 = 0 := by
  have hk : 2 * ((tileGroups.length + 1) / 2) ≤ U16 := by unfold U16; omega
  obtain ⟨_, h2, _, _⟩ := foldl_evens tileGroups ((tileGroups.length + 1) / 2) hk
  have e : (((List.range ((tileGroups.length + 1) / 2)).map fun n => 2 * n).foldl
      (fun h i => hashInsert h (tileGroupHash (tileGroups.getD i default)) i) [])
      = loadIsomHashes tileGroups [] := rfl
  rw [e] at h2
  intro x hx
  exact ((mem_evens _ x).mp (h2 _ (mem_of_lookup _ _ _ hl) x hx).1).1

end Tiles
end IsomTerrain
